import Mathlib

/-!
# Snoop-based cache-coherence simulator: shallow embedding

The development embeds the coherence engine of the simulator
(`cacheset.cpp`, `cache.cpp`, `bus.cpp`, `coherence.cpp`, and the request loop
of `main.cpp`) as pure Lean functions over an explicit system state, and
proves or refutes the testable properties of the specification against it.

Conventions of the embedding.
* `unsigned long long` values are natural numbers; the one place where the
  source can leave the 64-bit range (`tag << SET_BITS`, `+ set_Address`) is
  reduced modulo `2 ^ 64` explicitly.
* The `int` parameter of the block constructor is modelled by the usual
  two's-complement conversion (`toInt32`) followed by the sign extension that
  the assignment to the `unsigned long long` field performs.
* The `int` statistics counters are natural numbers (they only ever grow by
  one; signed overflow is outside the model).
* `Cache` objects reach the bus through a pointer and the bus reaches the
  caches through a vector of pointers; the embedding keeps both in one
  `System` value and passes it explicitly.
-/

namespace FESI

/-! ## Constants (`cache.h`) -/

def NUMBER_OF_CORES : Nat := 16
def SET_BITS : Nat := 2
def NUMBER_OF_SETS : Nat := 1 <<< SET_BITS
def ASSOCIATIVITY_BITS : Nat := 2
def ASSOCIATIVITY : Nat := 1 <<< ASSOCIATIVITY_BITS
def CACHE_OFFSET_BITS : Nat := 6

/-! ## Enumerations (`request.h`, `cacheset.h`) -/

inductive BusRequest where
  | BusRd | BusRdX | BusUpgr | setF | Flush | Flush_prime
  deriving DecidableEq, Repr

inductive ProcRequest where
  | ProcRd | ProcWr
  deriving DecidableEq, Repr

inductive Protocol where
  | MSI | MESI | MESIF | MOESI | FESI
  deriving DecidableEq, Repr

inductive CacheBlockState where
  | Modified | Exclusive | Shared | Invalid | Owned | Forward
  deriving DecidableEq, Repr

/-! ## Blocks and sets (`cacheset.h`, `cacheset.cpp`) -/

/-- A cache block: the fields `tag` (an `unsigned long long`) and `state`. -/
structure CacheBlock where
  tag : Nat
  state : CacheBlockState
  deriving DecidableEq, Repr

/-- Conversion of an `unsigned long long` argument to the 32-bit `int`
parameter of the block constructor (two's complement, keeping the low 32
bits). -/
def toInt32 (x : Nat) : Int :=
  if x % 2 ^ 32 < 2 ^ 31 then ((x % 2 ^ 32 : Nat) : Int)
  else ((x % 2 ^ 32 : Nat) : Int) - 2 ^ 32

/-- Conversion of an `int` to `unsigned long long` (sign extension, that is
reduction modulo `2 ^ 64`). -/
def toUInt64 (x : Int) : Nat := (x % 2 ^ 64).toNat

/-- The constructor `CacheBlock::CacheBlock(int _tag, CacheBlockState _state)`:
the body assigns the `int` parameter to the 64-bit unsigned field. -/
def CacheBlock.new (_tag : Int) (_state : CacheBlockState) : CacheBlock :=
  { tag := toUInt64 _tag, state := _state }

/-- A cache set: the `std::list<CacheBlock>`, front = LRU, back = MRU. -/
structure CacheSet where
  blocks : List CacheBlock
  deriving DecidableEq, Repr

/-- The loop condition shared by `getState`, `moveToMRU` and `setState`:
`iter->state != Invalid && iter->tag == tag`. -/
def CacheBlock.hit (tag : Nat) (cb : CacheBlock) : Bool :=
  decide (cb.state ≠ CacheBlockState.Invalid) && decide (cb.tag = tag)

/-- The constructor `CacheSet::CacheSet()`: `ASSOCIATIVITY` blocks
`CacheBlock(0, Invalid)`. -/
def CacheSet.new : CacheSet :=
  { blocks := List.replicate ASSOCIATIVITY (CacheBlock.new 0 CacheBlockState.Invalid) }

/-- The linear scan of `CacheSet::getState`. -/
def getStateLoop (tag : Nat) : List CacheBlock → CacheBlockState
  | [] => CacheBlockState.Invalid
  | cb :: rest => if cb.hit tag then cb.state else getStateLoop tag rest

/-- The method `CacheSet::getState`: state of the first valid block with the
tag, `Invalid` when there is none. -/
def CacheSet.getState (s : CacheSet) (tag : Nat) : CacheBlockState :=
  getStateLoop tag s.blocks

/-- The loop of `CacheSet::moveToMRU`: the matching block is erased and pushed
at the back.  After the erase the loop variable denotes the re-linked block,
which is now the last one, so the scan ends there: the blocks in front of the
match and behind it keep their order. -/
def moveToMRULoop (tag : Nat) : List CacheBlock → Option (List CacheBlock × CacheBlock)
  | [] => none
  | cb :: rest =>
    if cb.hit tag then some (rest, cb)
    else match moveToMRULoop tag rest with
      | none => none
      | some (rest', found) => some (cb :: rest', found)

/-- The method `CacheSet::moveToMRU`. -/
def CacheSet.moveToMRU (s : CacheSet) (tag : Nat) : CacheSet :=
  match moveToMRULoop tag s.blocks with
  | none => s
  | some (others, cb) => { blocks := others ++ [cb] }

/-- The method `CacheSet::insertCacheBlock`: `front()`, `pop_front()`,
`push_back(new_block)`.  On an empty list `front()` has no defined value in
the source; the embedding then returns the placeholder block and only pushes
(sets are never empty, see `CacheSet.new`). -/
def CacheSet.insertCacheBlock (s : CacheSet) (new_block : CacheBlock) : CacheBlock × CacheSet :=
  match s.blocks with
  | [] => (CacheBlock.new 0 CacheBlockState.Invalid, { blocks := [new_block] })
  | evicted_block :: rest => (evicted_block, { blocks := rest ++ [new_block] })

/-- The method `CacheSet::setState`.  With `state = Invalid` every matching
block is erased and a copy with `tag = 0`, `state = Invalid` is pushed at the
front, the scan going on behind it; otherwise the state of every matching
block is overwritten in place. -/
def CacheSet.setState (s : CacheSet) (tag : Nat) (state : CacheBlockState) : CacheSet :=
  if state = CacheBlockState.Invalid then
    { blocks :=
        ((s.blocks.filter (CacheBlock.hit tag)).map
            (fun cb => { cb with state := state, tag := 0 })).reverse
          ++ s.blocks.filter (fun cb => !cb.hit tag) }
  else
    { blocks := s.blocks.map (fun cb => if cb.hit tag then { cb with state := state } else cb) }

/-! ## Caches (`cache.h`, `cache.cpp`) -/

/-- A cache: its id, protocol, the vector of sets and the nine counters. -/
structure Cache where
  id : Nat
  protocol : Protocol
  sets : List CacheSet
  num_reads : Nat
  num_read_misses : Nat
  num_writes : Nat
  num_write_misses : Nat
  num_writebacks : Nat
  num_invalidations : Nat
  num_provided : Nat
  num_fromLLC : Nat
  num_random : Nat
  deriving DecidableEq, Repr

/-- The constructor `Cache::Cache(int _id, Protocol _protocol)`. -/
def Cache.new (_id : Nat) (_protocol : Protocol) : Cache :=
  { id := _id, protocol := _protocol,
    sets := List.replicate NUMBER_OF_SETS CacheSet.new,
    num_reads := 0, num_read_misses := 0, num_writes := 0, num_write_misses := 0,
    num_writebacks := 0, num_invalidations := 0, num_provided := 0, num_fromLLC := 0,
    num_random := 0 }

/-- The set index of a block address: `block_address & ((1 << SET_BITS) - 1)`. -/
def setIndex (block_address : Nat) : Nat := block_address &&& ((1 <<< SET_BITS) - 1)

/-- The tag of a block address: `block_address >> SET_BITS`. -/
def tagOf (block_address : Nat) : Nat := block_address >>> SET_BITS

/-- The method `Cache::getState`. -/
def Cache.getState (c : Cache) (block_address : Nat) : CacheBlockState :=
  let set := setIndex block_address
  let tag := tagOf block_address
  match c.sets[set]? with
  | some s => s.getState tag
  | none => CacheBlockState.Invalid

/-- The method `Cache::moveToMRU`. -/
def Cache.moveToMRU (c : Cache) (block_address : Nat) : Cache :=
  let set := setIndex block_address
  let tag := tagOf block_address
  match c.sets[set]? with
  | some s => { c with sets := c.sets.set set (s.moveToMRU tag) }
  | none => c

/-- The method `Cache::insertCacheBlock`: the 64-bit tag is passed to the
block constructor, whose parameter is an `int`. -/
def Cache.insertCacheBlock (c : Cache) (block_address : Nat) (state : CacheBlockState) :
    CacheBlock × Cache :=
  let set := setIndex block_address
  let tag := tagOf block_address
  match c.sets[set]? with
  | some s =>
    let r := s.insertCacheBlock (CacheBlock.new (toInt32 tag) state)
    (r.1, { c with sets := c.sets.set set r.2 })
  | none => (CacheBlock.new 0 CacheBlockState.Invalid, c)

/-- The method `Cache::setState`. -/
def Cache.setState (c : Cache) (block_address : Nat) (state : CacheBlockState) : Cache :=
  let set := setIndex block_address
  let tag := tagOf block_address
  match c.sets[set]? with
  | some s => { c with sets := c.sets.set set (s.setState tag state) }
  | none => c

/-! ## The bus (`bus.h`, `bus.cpp`) -/

/-- The bus without its vector of cache pointers (kept in `System`): the two
response lines and the six transaction counters. -/
structure Bus where
  shared_line : Bool
  supplied : Bool
  num_busrd : Nat
  num_busrdx : Nat
  num_flushes : Nat
  num_flush_primes : Nat
  num_busupgr : Nat
  num_setF : Nat
  deriving DecidableEq, Repr

/-- The constructor `Bus::Bus`. -/
def Bus.new : Bus :=
  { shared_line := false, supplied := false, num_busrd := 0, num_busrdx := 0,
    num_flushes := 0, num_flush_primes := 0, num_busupgr := 0, num_setF := 0 }

def Bus.getSharedLine (bus : Bus) : Bool := bus.shared_line
def Bus.setSharedLine (bus : Bus) : Bus := { bus with shared_line := true }
def Bus.getSupplied (bus : Bus) : Bool := bus.supplied
def Bus.setSupplied (bus : Bus) : Bus := { bus with supplied := true }

/-- The `switch` at the head of `Bus::sendMessage`: one counter per request. -/
def Bus.countRequest (bus : Bus) : BusRequest → Bus
  | BusRequest.BusRd => { bus with num_busrd := bus.num_busrd + 1 }
  | BusRequest.BusRdX => { bus with num_busrdx := bus.num_busrdx + 1 }
  | BusRequest.Flush => { bus with num_flushes := bus.num_flushes + 1 }
  | BusRequest.Flush_prime => { bus with num_flush_primes := bus.num_flush_primes + 1 }
  | BusRequest.BusUpgr => { bus with num_busupgr := bus.num_busupgr + 1 }
  | BusRequest.setF => { bus with num_setF := bus.num_setF + 1 }

/-- The call `bus->sendMessage(Flush, ..)` or `bus->sendMessage(Flush_prime, ..)`
as issued from inside `Cache::handleBusRequest`: for these two requests
`Bus::sendMessage` runs its counter switch and returns before the snoop loop,
so it touches the bus only (see `sendMessage_flush` for the agreement with
the full `sendMessage`). -/
def Bus.sendFlush (bus : Bus) (request : BusRequest) : Bus := bus.countRequest request

/-! ## Snoop reaction (`coherence.cpp`, `Cache::handleBusRequest`) -/

/-- The method `Cache::handleBusRequest`: the reaction of one cache to a
snooped bus request.  It changes this cache and the bus only. -/
def Cache.handleBusRequest (c : Cache) (bus : Bus) (request : BusRequest)
    (block_address : Nat) : Cache × Bus :=
  let BlockState := c.getState block_address
  match request with
  | BusRequest.BusRd =>
    match c.protocol with
    | Protocol.MESI =>
      match BlockState with
      | CacheBlockState.Modified =>
        let c := c.setState block_address CacheBlockState.Shared
        let bus := bus.sendFlush BusRequest.Flush
        let bus := bus.setSharedLine
        let bus := bus.setSupplied
        let c := { c with num_writebacks := c.num_writebacks + 1 }
        let c := { c with num_provided := c.num_provided + 1 }
        (c, bus)
      | CacheBlockState.Exclusive =>
        let c := c.setState block_address CacheBlockState.Shared
        let bus := bus.sendFlush BusRequest.Flush_prime
        let bus := bus.setSharedLine
        let bus := bus.setSupplied
        let c := { c with num_provided := c.num_provided + 1 }
        (c, bus)
      | CacheBlockState.Shared =>
        let bus := bus.setSharedLine
        if bus.getSupplied = false then
          let bus := bus.setSupplied
          let bus := bus.sendFlush BusRequest.Flush_prime
          let c := { c with num_provided := c.num_provided + 1 }
          let c := { c with num_random := c.num_random + 1 }
          (c, bus)
        else (c, bus)
      | CacheBlockState.Invalid =>
        (c, bus)
      | _ => (c, bus)
    | Protocol.MSI =>
      match BlockState with
      | CacheBlockState.Modified =>
        let c := c.setState block_address CacheBlockState.Shared
        let bus := bus.sendFlush BusRequest.Flush
        let bus := bus.setSupplied
        let c := { c with num_writebacks := c.num_writebacks + 1 }
        let c := { c with num_provided := c.num_provided + 1 }
        (c, bus)
      | CacheBlockState.Shared =>
        if bus.getSupplied = false then
          let bus := bus.setSupplied
          let bus := bus.sendFlush BusRequest.Flush_prime
          let c := { c with num_provided := c.num_provided + 1 }
          let c := { c with num_random := c.num_random + 1 }
          (c, bus)
        else (c, bus)
      | CacheBlockState.Invalid =>
        (c, bus)
      | _ => (c, bus)
    | Protocol.MESIF =>
      match BlockState with
      | CacheBlockState.Modified =>
        let c := c.setState block_address CacheBlockState.Shared
        let bus := bus.sendFlush BusRequest.Flush
        let bus := bus.setSharedLine
        let bus := bus.setSupplied
        let c := { c with num_writebacks := c.num_writebacks + 1 }
        let c := { c with num_provided := c.num_provided + 1 }
        (c, bus)
      | CacheBlockState.Exclusive =>
        let c := c.setState block_address CacheBlockState.Shared
        let bus := bus.sendFlush BusRequest.Flush_prime
        let bus := bus.setSharedLine
        let bus := bus.setSupplied
        let c := { c with num_provided := c.num_provided + 1 }
        (c, bus)
      | CacheBlockState.Shared =>
        let bus := bus.setSharedLine
        (c, bus)
      | CacheBlockState.Invalid =>
        (c, bus)
      | CacheBlockState.Forward =>
        let c := c.setState block_address CacheBlockState.Shared
        let bus := bus.sendFlush BusRequest.Flush_prime
        let bus := bus.setSharedLine
        let bus := bus.setSupplied
        let c := { c with num_provided := c.num_provided + 1 }
        (c, bus)
      | _ => (c, bus)
    | Protocol.MOESI =>
      match BlockState with
      | CacheBlockState.Modified =>
        let c := c.setState block_address CacheBlockState.Owned
        let bus := bus.sendFlush BusRequest.Flush_prime
        let bus := bus.setSharedLine
        let bus := bus.setSupplied
        let c := { c with num_provided := c.num_provided + 1 }
        (c, bus)
      | CacheBlockState.Exclusive =>
        let c := c.setState block_address CacheBlockState.Shared
        let bus := bus.sendFlush BusRequest.Flush_prime
        let bus := bus.setSharedLine
        let bus := bus.setSupplied
        let c := { c with num_provided := c.num_provided + 1 }
        (c, bus)
      | CacheBlockState.Shared =>
        let bus := bus.setSharedLine
        (c, bus)
      | CacheBlockState.Invalid =>
        (c, bus)
      | CacheBlockState.Owned =>
        let bus := bus.sendFlush BusRequest.Flush_prime
        let bus := bus.setSharedLine
        let bus := bus.setSupplied
        let c := { c with num_provided := c.num_provided + 1 }
        (c, bus)
      | _ => (c, bus)
    | Protocol.FESI =>
      match BlockState with
      | CacheBlockState.Forward =>
        let c := c.setState block_address CacheBlockState.Shared
        let bus := bus.sendFlush BusRequest.Flush_prime
        let bus := bus.setSharedLine
        let bus := bus.setSupplied
        let c := { c with num_provided := c.num_provided + 1 }
        (c, bus)
      | CacheBlockState.Exclusive =>
        let c := c.setState block_address CacheBlockState.Shared
        let bus := bus.sendFlush BusRequest.Flush_prime
        let bus := bus.setSharedLine
        let bus := bus.setSupplied
        let c := { c with num_provided := c.num_provided + 1 }
        (c, bus)
      | CacheBlockState.Shared =>
        (c, bus)
      | CacheBlockState.Invalid =>
        (c, bus)
      | _ => (c, bus)
  | BusRequest.BusRdX =>
    match c.protocol with
    | Protocol.MESI =>
      match BlockState with
      | CacheBlockState.Modified =>
        let c := c.setState block_address CacheBlockState.Invalid
        let bus := bus.sendFlush BusRequest.Flush
        let bus := bus.setSupplied
        let c := { c with num_writebacks := c.num_writebacks + 1 }
        let c := { c with num_invalidations := c.num_invalidations + 1 }
        let c := { c with num_provided := c.num_provided + 1 }
        (c, bus)
      | CacheBlockState.Exclusive =>
        let c := c.setState block_address CacheBlockState.Invalid
        let bus := bus.sendFlush BusRequest.Flush_prime
        let bus := bus.setSupplied
        let c := { c with num_provided := c.num_provided + 1 }
        let c := { c with num_invalidations := c.num_invalidations + 1 }
        (c, bus)
      | CacheBlockState.Shared =>
        let c := c.setState block_address CacheBlockState.Invalid
        let bus := bus.sendFlush BusRequest.Flush
        let c := { c with num_invalidations := c.num_invalidations + 1 }
        if bus.getSupplied = false then
          let bus := bus.setSupplied
          let bus := bus.sendFlush BusRequest.Flush_prime
          let c := { c with num_provided := c.num_provided + 1 }
          let c := { c with num_random := c.num_random + 1 }
          (c, bus)
        else (c, bus)
      | CacheBlockState.Invalid =>
        (c, bus)
      | _ => (c, bus)
    | Protocol.MSI =>
      match BlockState with
      | CacheBlockState.Modified =>
        let c := c.setState block_address CacheBlockState.Invalid
        let bus := bus.setSupplied
        let bus := bus.sendFlush BusRequest.Flush
        let c := { c with num_writebacks := c.num_writebacks + 1 }
        let c := { c with num_invalidations := c.num_invalidations + 1 }
        let c := { c with num_provided := c.num_provided + 1 }
        (c, bus)
      | CacheBlockState.Shared =>
        let c := c.setState block_address CacheBlockState.Invalid
        let c := { c with num_invalidations := c.num_invalidations + 1 }
        if bus.getSupplied = false then
          let bus := bus.setSupplied
          let bus := bus.sendFlush BusRequest.Flush_prime
          let c := { c with num_provided := c.num_provided + 1 }
          let c := { c with num_random := c.num_random + 1 }
          (c, bus)
        else (c, bus)
      | CacheBlockState.Invalid =>
        (c, bus)
      | _ => (c, bus)
    | Protocol.MESIF =>
      match BlockState with
      | CacheBlockState.Modified =>
        let c := c.setState block_address CacheBlockState.Invalid
        let bus := bus.sendFlush BusRequest.Flush
        let bus := bus.setSupplied
        let c := { c with num_invalidations := c.num_invalidations + 1 }
        let c := { c with num_writebacks := c.num_writebacks + 1 }
        let c := { c with num_provided := c.num_provided + 1 }
        (c, bus)
      | CacheBlockState.Exclusive =>
        let c := c.setState block_address CacheBlockState.Invalid
        let bus := bus.sendFlush BusRequest.Flush_prime
        let bus := bus.setSupplied
        let c := { c with num_invalidations := c.num_invalidations + 1 }
        let c := { c with num_provided := c.num_provided + 1 }
        (c, bus)
      | CacheBlockState.Shared =>
        let c := c.setState block_address CacheBlockState.Invalid
        let c := { c with num_invalidations := c.num_invalidations + 1 }
        (c, bus)
      | CacheBlockState.Invalid =>
        (c, bus)
      | CacheBlockState.Forward =>
        let c := c.setState block_address CacheBlockState.Invalid
        let bus := bus.sendFlush BusRequest.Flush_prime
        let bus := bus.setSupplied
        let c := { c with num_provided := c.num_provided + 1 }
        let c := { c with num_invalidations := c.num_invalidations + 1 }
        (c, bus)
      | _ => (c, bus)
    | Protocol.MOESI =>
      match BlockState with
      | CacheBlockState.Modified =>
        let c := c.setState block_address CacheBlockState.Invalid
        let bus := bus.sendFlush BusRequest.Flush
        let bus := bus.setSupplied
        let c := { c with num_writebacks := c.num_writebacks + 1 }
        let c := { c with num_provided := c.num_provided + 1 }
        let c := { c with num_invalidations := c.num_invalidations + 1 }
        (c, bus)
      | CacheBlockState.Exclusive =>
        let c := c.setState block_address CacheBlockState.Invalid
        let bus := bus.sendFlush BusRequest.Flush_prime
        let bus := bus.setSupplied
        let c := { c with num_invalidations := c.num_invalidations + 1 }
        let c := { c with num_provided := c.num_provided + 1 }
        (c, bus)
      | CacheBlockState.Shared =>
        let c := c.setState block_address CacheBlockState.Invalid
        let c := { c with num_invalidations := c.num_invalidations + 1 }
        (c, bus)
      | CacheBlockState.Invalid =>
        (c, bus)
      | CacheBlockState.Owned =>
        let c := c.setState block_address CacheBlockState.Invalid
        let bus := bus.sendFlush BusRequest.Flush
        let bus := bus.setSupplied
        let c := { c with num_writebacks := c.num_writebacks + 1 }
        let c := { c with num_provided := c.num_provided + 1 }
        let c := { c with num_invalidations := c.num_invalidations + 1 }
        (c, bus)
      | _ => (c, bus)
    | Protocol.FESI =>
      match BlockState with
      | CacheBlockState.Forward =>
        let c := c.setState block_address CacheBlockState.Invalid
        let bus := bus.sendFlush BusRequest.Flush_prime
        let bus := bus.setSupplied
        let c := { c with num_invalidations := c.num_invalidations + 1 }
        let c := { c with num_provided := c.num_provided + 1 }
        (c, bus)
      | CacheBlockState.Exclusive =>
        let c := c.setState block_address CacheBlockState.Invalid
        let bus := bus.sendFlush BusRequest.Flush_prime
        let bus := bus.setSupplied
        let c := { c with num_invalidations := c.num_invalidations + 1 }
        let c := { c with num_provided := c.num_provided + 1 }
        (c, bus)
      | CacheBlockState.Shared =>
        let c := c.setState block_address CacheBlockState.Invalid
        let c := { c with num_invalidations := c.num_invalidations + 1 }
        (c, bus)
      | CacheBlockState.Invalid =>
        (c, bus)
      | _ => (c, bus)
  | BusRequest.BusUpgr =>
    match c.protocol with
    | Protocol.MESI =>
      match BlockState with
      | CacheBlockState.Modified =>
        let c := c.setState block_address CacheBlockState.Invalid
        let c := { c with num_invalidations := c.num_invalidations + 1 }
        let bus := bus.sendFlush BusRequest.Flush
        let c := { c with num_writebacks := c.num_writebacks + 1 }
        (c, bus)
      | CacheBlockState.Exclusive =>
        let c := c.setState block_address CacheBlockState.Invalid
        let c := { c with num_invalidations := c.num_invalidations + 1 }
        (c, bus)
      | CacheBlockState.Shared =>
        let c := c.setState block_address CacheBlockState.Invalid
        let c := { c with num_invalidations := c.num_invalidations + 1 }
        (c, bus)
      | CacheBlockState.Invalid =>
        (c, bus)
      | _ => (c, bus)
    | Protocol.MSI =>
      match BlockState with
      | CacheBlockState.Modified =>
        let c := c.setState block_address CacheBlockState.Invalid
        let c := { c with num_invalidations := c.num_invalidations + 1 }
        let bus := bus.sendFlush BusRequest.Flush
        let c := { c with num_writebacks := c.num_writebacks + 1 }
        (c, bus)
      | CacheBlockState.Shared =>
        let c := c.setState block_address CacheBlockState.Invalid
        let c := { c with num_invalidations := c.num_invalidations + 1 }
        (c, bus)
      | CacheBlockState.Invalid =>
        (c, bus)
      | _ => (c, bus)
    | Protocol.MESIF =>
      match BlockState with
      | CacheBlockState.Modified =>
        let c := c.setState block_address CacheBlockState.Invalid
        let bus := bus.sendFlush BusRequest.Flush
        let c := { c with num_invalidations := c.num_invalidations + 1 }
        let c := { c with num_writebacks := c.num_writebacks + 1 }
        (c, bus)
      | CacheBlockState.Exclusive =>
        let c := c.setState block_address CacheBlockState.Invalid
        let c := { c with num_invalidations := c.num_invalidations + 1 }
        (c, bus)
      | CacheBlockState.Shared =>
        let c := c.setState block_address CacheBlockState.Invalid
        let c := { c with num_invalidations := c.num_invalidations + 1 }
        (c, bus)
      | CacheBlockState.Invalid =>
        (c, bus)
      | CacheBlockState.Forward =>
        let c := c.setState block_address CacheBlockState.Invalid
        let c := { c with num_invalidations := c.num_invalidations + 1 }
        (c, bus)
      | _ => (c, bus)
    | Protocol.MOESI =>
      match BlockState with
      | CacheBlockState.Modified =>
        let c := c.setState block_address CacheBlockState.Invalid
        let bus := bus.sendFlush BusRequest.Flush
        let c := { c with num_invalidations := c.num_invalidations + 1 }
        let c := { c with num_writebacks := c.num_writebacks + 1 }
        (c, bus)
      | CacheBlockState.Exclusive =>
        let c := c.setState block_address CacheBlockState.Invalid
        let c := { c with num_invalidations := c.num_invalidations + 1 }
        (c, bus)
      | CacheBlockState.Shared =>
        let c := c.setState block_address CacheBlockState.Invalid
        let c := { c with num_invalidations := c.num_invalidations + 1 }
        (c, bus)
      | CacheBlockState.Invalid =>
        (c, bus)
      | CacheBlockState.Owned =>
        let c := c.setState block_address CacheBlockState.Invalid
        let bus := bus.sendFlush BusRequest.Flush
        let c := { c with num_invalidations := c.num_invalidations + 1 }
        let c := { c with num_writebacks := c.num_writebacks + 1 }
        (c, bus)
      | _ => (c, bus)
    | Protocol.FESI =>
      match BlockState with
      | CacheBlockState.Forward =>
        let c := c.setState block_address CacheBlockState.Invalid
        let c := { c with num_invalidations := c.num_invalidations + 1 }
        (c, bus)
      | CacheBlockState.Exclusive =>
        let c := c.setState block_address CacheBlockState.Invalid
        let c := { c with num_invalidations := c.num_invalidations + 1 }
        (c, bus)
      | CacheBlockState.Shared =>
        let c := c.setState block_address CacheBlockState.Invalid
        let c := { c with num_invalidations := c.num_invalidations + 1 }
        (c, bus)
      | CacheBlockState.Invalid =>
        (c, bus)
      | _ => (c, bus)
  | _ =>
    if BlockState = CacheBlockState.Shared then
      if bus.getSupplied = false then
        let bus := bus.setSupplied
        let c := c.setState block_address CacheBlockState.Forward
        let c := { c with num_random := c.num_random + 1 }
        (c, bus)
      else (c, bus)
    else (c, bus)

/-! ## The system: caches plus bus (`bus.cpp`, `Bus::sendMessage`) -/

/-- The vector of caches (`Bus::caches`, in id order) and the bus. -/
structure System where
  caches : List Cache
  bus : Bus
  deriving DecidableEq, Repr

/-- The snoop loop of `Bus::sendMessage`: `handleBusRequest` on every cache
whose id differs from the sender, front to back, threading the bus. -/
def snoopLoop (request : BusRequest) (block_address : Nat) (sender_cache_id : Nat) :
    List Cache → Bus → List Cache × Bus
  | [], bus => ([], bus)
  | c :: rest, bus =>
    if c.id ≠ sender_cache_id then
      let r := c.handleBusRequest bus request block_address
      let r' := snoopLoop request block_address sender_cache_id rest r.2
      (r.1 :: r'.1, r'.2)
    else
      let r' := snoopLoop request block_address sender_cache_id rest bus
      (c :: r'.1, r'.2)

/-- The method `Bus::sendMessage`. -/
def System.sendMessage (sys : System) (request : BusRequest) (block_address : Nat)
    (sender_cache_id : Nat) : System :=
  let bus := sys.bus.countRequest request
  if request = BusRequest.Flush ∨ request = BusRequest.Flush_prime then
    { sys with bus := bus }
  else
    let bus := { bus with shared_line := false, supplied := false }
    let r := snoopLoop request block_address sender_cache_id sys.caches bus
    { caches := r.1, bus := r.2 }

/-- An update of the cache object `caches[core]` (a member access or method
call on `this` inside `handleProcRequest`). -/
def System.onCache (sys : System) (core : Nat) (f : Cache → Cache) : System :=
  match sys.caches[core]? with
  | some c => { sys with caches := sys.caches.set core (f c) }
  | none => sys

/-- The call `insertCacheBlock(..)` on the cache object `caches[core]`: the
evicted block and the updated system. -/
def System.insertCacheBlock (sys : System) (core : Nat) (block_address : Nat)
    (state : CacheBlockState) : CacheBlock × System :=
  match sys.caches[core]? with
  | some c =>
    let r := c.insertCacheBlock block_address state
    (r.1, { sys with caches := sys.caches.set core r.2 })
  | none => (CacheBlock.new 0 CacheBlockState.Invalid, sys)

/-! ## Processor requests (`coherence.cpp`, `Cache::handleProcRequest`) -/

/-- The method `Cache::handleProcRequest`, called on the cache `caches[core]`. -/
def System.handleProcRequest (sys : System) (core : Nat) (request : ProcRequest)
    (address : Nat) : System :=
  match sys.caches[core]? with
  | none => sys
  | some self =>
    let id := self.id
    let protocol := self.protocol
    let blockAddress := address >>> CACHE_OFFSET_BITS
    let set_Address := blockAddress &&& ((1 <<< SET_BITS) - 1)
    let BlockState := self.getState blockAddress
    match request with
    | ProcRequest.ProcRd =>
      let sys := sys.onCache core (fun c => { c with num_reads := c.num_reads + 1 })
      match protocol with
      | Protocol.MESI =>
        match BlockState with
        | CacheBlockState.Modified =>
          let sys := sys.onCache core (fun c => c.moveToMRU blockAddress)
          sys
        | CacheBlockState.Exclusive =>
          let sys := sys.onCache core (fun c => c.moveToMRU blockAddress)
          sys
        | CacheBlockState.Shared =>
          let sys := sys.onCache core (fun c => c.moveToMRU blockAddress)
          sys
        | CacheBlockState.Invalid =>
          let sys := sys.sendMessage BusRequest.BusRd blockAddress id
          let shared_state := sys.bus.getSharedLine
          let supplied := sys.bus.getSupplied
          let inserted := sys.insertCacheBlock core blockAddress CacheBlockState.Shared
          let evictedBlock := inserted.1
          let sys := inserted.2
          let sys :=
            if shared_state = false then
              let sys := sys.onCache core (fun c => c.setState blockAddress CacheBlockState.Exclusive)
              sys
            else sys
          let sys :=
            if supplied = false then
              let sys := sys.onCache core (fun c => { c with num_fromLLC := c.num_fromLLC + 1 })
              sys
            else sys
          let sys :=
            if evictedBlock.state = CacheBlockState.Modified then
              let evicted_blockAddress := ((evictedBlock.tag <<< SET_BITS) % 2 ^ 64 + set_Address) % 2 ^ 64
              let sys := sys.sendMessage BusRequest.Flush evicted_blockAddress id
              let sys := sys.onCache core (fun c => { c with num_writebacks := c.num_writebacks + 1 })
              sys
            else sys
          let sys := sys.onCache core (fun c => { c with num_read_misses := c.num_read_misses + 1 })
          sys
        | _ => sys
      | Protocol.MSI =>
        match BlockState with
        | CacheBlockState.Modified =>
          let sys := sys.onCache core (fun c => c.moveToMRU blockAddress)
          sys
        | CacheBlockState.Shared =>
          let sys := sys.onCache core (fun c => c.moveToMRU blockAddress)
          sys
        | CacheBlockState.Invalid =>
          let sys := sys.sendMessage BusRequest.BusRd blockAddress id
          let supplied := sys.bus.getSupplied
          let sys :=
            if supplied = false then
              let sys := sys.onCache core (fun c => { c with num_fromLLC := c.num_fromLLC + 1 })
              sys
            else sys
          let inserted := sys.insertCacheBlock core blockAddress CacheBlockState.Shared
          let evictedBlock := inserted.1
          let sys := inserted.2
          let sys :=
            if evictedBlock.state = CacheBlockState.Modified then
              let evicted_blockAddress := ((evictedBlock.tag <<< SET_BITS) % 2 ^ 64 + set_Address) % 2 ^ 64
              let sys := sys.sendMessage BusRequest.Flush evicted_blockAddress id
              let sys := sys.onCache core (fun c => { c with num_writebacks := c.num_writebacks + 1 })
              sys
            else sys
          let sys := sys.onCache core (fun c => { c with num_read_misses := c.num_read_misses + 1 })
          sys
        | _ => sys
      | Protocol.MESIF =>
        match BlockState with
        | CacheBlockState.Modified =>
          let sys := sys.onCache core (fun c => c.moveToMRU blockAddress)
          sys
        | CacheBlockState.Exclusive =>
          let sys := sys.onCache core (fun c => c.moveToMRU blockAddress)
          sys
        | CacheBlockState.Shared =>
          let sys := sys.onCache core (fun c => c.moveToMRU blockAddress)
          sys
        | CacheBlockState.Forward =>
          let sys := sys.onCache core (fun c => c.moveToMRU blockAddress)
          sys
        | CacheBlockState.Invalid =>
          let sys := sys.sendMessage BusRequest.BusRd blockAddress id
          let shared_state := sys.bus.getSharedLine
          let supplied := sys.bus.getSupplied
          let inserted := sys.insertCacheBlock core blockAddress CacheBlockState.Forward
          let evictedBlock := inserted.1
          let sys := inserted.2
          let sys :=
            if shared_state = false then
              let sys := sys.onCache core (fun c => c.setState blockAddress CacheBlockState.Exclusive)
              sys
            else sys
          let sys :=
            if supplied = false then
              let sys := sys.onCache core (fun c => { c with num_fromLLC := c.num_fromLLC + 1 })
              sys
            else sys
          let sys :=
            if evictedBlock.state = CacheBlockState.Modified then
              let evicted_blockAddress := ((evictedBlock.tag <<< SET_BITS) % 2 ^ 64 + set_Address) % 2 ^ 64
              let sys := sys.sendMessage BusRequest.Flush evicted_blockAddress id
              let sys := sys.onCache core (fun c => { c with num_writebacks := c.num_writebacks + 1 })
              sys
            else sys
          let sys := sys.onCache core (fun c => { c with num_read_misses := c.num_read_misses + 1 })
          sys
        | _ => sys
      | Protocol.MOESI =>
        match BlockState with
        | CacheBlockState.Modified =>
          let sys := sys.onCache core (fun c => c.moveToMRU blockAddress)
          sys
        | CacheBlockState.Owned =>
          let sys := sys.onCache core (fun c => c.moveToMRU blockAddress)
          sys
        | CacheBlockState.Exclusive =>
          let sys := sys.onCache core (fun c => c.moveToMRU blockAddress)
          sys
        | CacheBlockState.Shared =>
          let sys := sys.onCache core (fun c => c.moveToMRU blockAddress)
          sys
        | CacheBlockState.Invalid =>
          let sys := sys.sendMessage BusRequest.BusRd blockAddress id
          let shared_state := sys.bus.getSharedLine
          let supplied := sys.bus.getSupplied
          let inserted := sys.insertCacheBlock core blockAddress CacheBlockState.Shared
          let evictedBlock := inserted.1
          let sys := inserted.2
          let sys :=
            if shared_state = false then
              let sys := sys.onCache core (fun c => c.setState blockAddress CacheBlockState.Exclusive)
              sys
            else sys
          let sys :=
            if supplied = false then
              let sys := sys.onCache core (fun c => { c with num_fromLLC := c.num_fromLLC + 1 })
              sys
            else sys
          let sys :=
            if evictedBlock.state = CacheBlockState.Modified ∨ evictedBlock.state = CacheBlockState.Owned then
              let evicted_blockAddress := ((evictedBlock.tag <<< SET_BITS) % 2 ^ 64 + set_Address) % 2 ^ 64
              let sys := sys.sendMessage BusRequest.Flush evicted_blockAddress id
              let sys := sys.onCache core (fun c => { c with num_writebacks := c.num_writebacks + 1 })
              sys
            else sys
          let sys := sys.onCache core (fun c => { c with num_read_misses := c.num_read_misses + 1 })
          sys
        | _ => sys
      | Protocol.FESI =>
        match BlockState with
        | CacheBlockState.Forward =>
          let sys := sys.onCache core (fun c => c.moveToMRU blockAddress)
          sys
        | CacheBlockState.Exclusive =>
          let sys := sys.onCache core (fun c => c.moveToMRU blockAddress)
          sys
        | CacheBlockState.Shared =>
          let sys := sys.onCache core (fun c => c.moveToMRU blockAddress)
          sys
        | CacheBlockState.Invalid =>
          let sys := sys.sendMessage BusRequest.BusRd blockAddress id
          let shared_state := sys.bus.getSharedLine
          let supplied := sys.bus.getSupplied
          let inserted := sys.insertCacheBlock core blockAddress CacheBlockState.Forward
          let evictedBlock := inserted.1
          let sys := inserted.2
          let sys :=
            if shared_state = false then
              let sys := sys.onCache core (fun c => c.setState blockAddress CacheBlockState.Exclusive)
              sys
            else sys
          let sys :=
            if supplied = false then
              let sys := sys.onCache core (fun c => { c with num_fromLLC := c.num_fromLLC + 1 })
              sys
            else sys
          let sys :=
            if evictedBlock.state = CacheBlockState.Forward then
              let evicted_blockAddress := ((evictedBlock.tag <<< SET_BITS) % 2 ^ 64 + set_Address) % 2 ^ 64
              let sys := sys.sendMessage BusRequest.setF evicted_blockAddress id
              let allocated := sys.bus.getSupplied
              let sys :=
                if allocated = false then
                  let sys := sys.sendMessage BusRequest.Flush evicted_blockAddress id
                  let sys := sys.onCache core (fun c => { c with num_writebacks := c.num_writebacks + 1 })
                  sys
                else sys
              sys
            else sys
          let sys := sys.onCache core (fun c => { c with num_read_misses := c.num_read_misses + 1 })
          sys
        | _ => sys
    | ProcRequest.ProcWr =>
      let sys := sys.onCache core (fun c => { c with num_writes := c.num_writes + 1 })
      match protocol with
      | Protocol.MESI =>
        match BlockState with
        | CacheBlockState.Modified =>
          let sys := sys.onCache core (fun c => c.moveToMRU blockAddress)
          sys
        | CacheBlockState.Exclusive =>
          let sys := sys.onCache core (fun c => c.moveToMRU blockAddress)
          let sys := sys.onCache core (fun c => c.setState blockAddress CacheBlockState.Modified)
          sys
        | CacheBlockState.Shared =>
          let sys := sys.onCache core (fun c => c.moveToMRU blockAddress)
          let sys := sys.onCache core (fun c => c.setState blockAddress CacheBlockState.Modified)
          let sys := sys.sendMessage BusRequest.BusUpgr blockAddress id
          sys
        | CacheBlockState.Invalid =>
          let sys := sys.sendMessage BusRequest.BusRdX blockAddress id
          let supplied := sys.bus.getSupplied
          let sys :=
            if supplied = false then
              let sys := sys.onCache core (fun c => { c with num_fromLLC := c.num_fromLLC + 1 })
              sys
            else sys
          let inserted := sys.insertCacheBlock core blockAddress CacheBlockState.Modified
          let evictedBlock := inserted.1
          let sys := inserted.2
          let sys :=
            if evictedBlock.state = CacheBlockState.Modified then
              let evicted_blockAddress := ((evictedBlock.tag <<< SET_BITS) % 2 ^ 64 + set_Address) % 2 ^ 64
              let sys := sys.sendMessage BusRequest.Flush evicted_blockAddress id
              let sys := sys.onCache core (fun c => { c with num_writebacks := c.num_writebacks + 1 })
              sys
            else sys
          let sys := sys.onCache core (fun c => { c with num_write_misses := c.num_write_misses + 1 })
          sys
        | _ => sys
      | Protocol.MSI =>
        match BlockState with
        | CacheBlockState.Modified =>
          let sys := sys.onCache core (fun c => c.moveToMRU blockAddress)
          sys
        | CacheBlockState.Shared =>
          let sys := sys.onCache core (fun c => c.moveToMRU blockAddress)
          let sys := sys.onCache core (fun c => c.setState blockAddress CacheBlockState.Modified)
          let sys := sys.sendMessage BusRequest.BusUpgr blockAddress id
          sys
        | CacheBlockState.Invalid =>
          let sys := sys.sendMessage BusRequest.BusRdX blockAddress id
          let supplied := sys.bus.getSupplied
          let sys :=
            if supplied = false then
              let sys := sys.onCache core (fun c => { c with num_fromLLC := c.num_fromLLC + 1 })
              sys
            else sys
          let inserted := sys.insertCacheBlock core blockAddress CacheBlockState.Modified
          let evictedBlock := inserted.1
          let sys := inserted.2
          let sys :=
            if evictedBlock.state = CacheBlockState.Modified then
              let evicted_blockAddress := ((evictedBlock.tag <<< SET_BITS) % 2 ^ 64 + set_Address) % 2 ^ 64
              let sys := sys.sendMessage BusRequest.Flush evicted_blockAddress id
              let sys := sys.onCache core (fun c => { c with num_writebacks := c.num_writebacks + 1 })
              sys
            else sys
          let sys := sys.onCache core (fun c => { c with num_write_misses := c.num_write_misses + 1 })
          sys
        | _ => sys
      | Protocol.MESIF =>
        match BlockState with
        | CacheBlockState.Modified =>
          let sys := sys.onCache core (fun c => c.moveToMRU blockAddress)
          sys
        | CacheBlockState.Exclusive =>
          let sys := sys.onCache core (fun c => c.moveToMRU blockAddress)
          let sys := sys.onCache core (fun c => c.setState blockAddress CacheBlockState.Modified)
          sys
        | CacheBlockState.Shared =>
          let sys := sys.onCache core (fun c => c.moveToMRU blockAddress)
          let sys := sys.onCache core (fun c => c.setState blockAddress CacheBlockState.Modified)
          let sys := sys.sendMessage BusRequest.BusUpgr blockAddress id
          sys
        | CacheBlockState.Forward =>
          let sys := sys.onCache core (fun c => c.moveToMRU blockAddress)
          let sys := sys.onCache core (fun c => c.setState blockAddress CacheBlockState.Modified)
          let sys := sys.sendMessage BusRequest.BusUpgr blockAddress id
          sys
        | CacheBlockState.Invalid =>
          let sys := sys.sendMessage BusRequest.BusRdX blockAddress id
          let supplied := sys.bus.getSupplied
          let sys :=
            if supplied = false then
              let sys := sys.onCache core (fun c => { c with num_fromLLC := c.num_fromLLC + 1 })
              sys
            else sys
          let inserted := sys.insertCacheBlock core blockAddress CacheBlockState.Modified
          let evictedBlock := inserted.1
          let sys := inserted.2
          let sys :=
            if evictedBlock.state = CacheBlockState.Modified then
              let evicted_blockAddress := ((evictedBlock.tag <<< SET_BITS) % 2 ^ 64 + set_Address) % 2 ^ 64
              let sys := sys.sendMessage BusRequest.Flush evicted_blockAddress id
              let sys := sys.onCache core (fun c => { c with num_writebacks := c.num_writebacks + 1 })
              sys
            else sys
          let sys := sys.onCache core (fun c => { c with num_write_misses := c.num_write_misses + 1 })
          sys
        | _ => sys
      | Protocol.MOESI =>
        match BlockState with
        | CacheBlockState.Modified =>
          let sys := sys.onCache core (fun c => c.moveToMRU blockAddress)
          sys
        | CacheBlockState.Owned =>
          let sys := sys.onCache core (fun c => c.moveToMRU blockAddress)
          let sys := sys.onCache core (fun c => c.setState blockAddress CacheBlockState.Modified)
          let sys := sys.sendMessage BusRequest.BusUpgr blockAddress id
          sys
        | CacheBlockState.Exclusive =>
          let sys := sys.onCache core (fun c => c.moveToMRU blockAddress)
          let sys := sys.onCache core (fun c => c.setState blockAddress CacheBlockState.Modified)
          sys
        | CacheBlockState.Shared =>
          let sys := sys.onCache core (fun c => c.moveToMRU blockAddress)
          let sys := sys.onCache core (fun c => c.setState blockAddress CacheBlockState.Modified)
          let sys := sys.sendMessage BusRequest.BusUpgr blockAddress id
          sys
        | CacheBlockState.Invalid =>
          let sys := sys.sendMessage BusRequest.BusRdX blockAddress id
          let supplied := sys.bus.getSupplied
          let sys :=
            if supplied = false then
              let sys := sys.onCache core (fun c => { c with num_fromLLC := c.num_fromLLC + 1 })
              sys
            else sys
          let inserted := sys.insertCacheBlock core blockAddress CacheBlockState.Modified
          let evictedBlock := inserted.1
          let sys := inserted.2
          let sys :=
            if evictedBlock.state = CacheBlockState.Modified ∨ evictedBlock.state = CacheBlockState.Owned then
              let evicted_blockAddress := ((evictedBlock.tag <<< SET_BITS) % 2 ^ 64 + set_Address) % 2 ^ 64
              let sys := sys.sendMessage BusRequest.Flush evicted_blockAddress id
              let sys := sys.onCache core (fun c => { c with num_writebacks := c.num_writebacks + 1 })
              sys
            else sys
          let sys := sys.onCache core (fun c => { c with num_write_misses := c.num_write_misses + 1 })
          sys
        | _ => sys
      | Protocol.FESI =>
        match BlockState with
        | CacheBlockState.Forward =>
          let sys := sys.onCache core (fun c => c.moveToMRU blockAddress)
          let sys := sys.sendMessage BusRequest.BusUpgr blockAddress id
          sys
        | CacheBlockState.Exclusive =>
          let sys := sys.onCache core (fun c => c.moveToMRU blockAddress)
          let sys := sys.onCache core (fun c => c.setState blockAddress CacheBlockState.Forward)
          sys
        | CacheBlockState.Shared =>
          let sys := sys.onCache core (fun c => c.moveToMRU blockAddress)
          let sys := sys.onCache core (fun c => c.setState blockAddress CacheBlockState.Forward)
          let sys := sys.sendMessage BusRequest.BusUpgr blockAddress id
          sys
        | CacheBlockState.Invalid =>
          let sys := sys.sendMessage BusRequest.BusRdX blockAddress id
          let supplied := sys.bus.getSupplied
          let sys :=
            if supplied = false then
              let sys := sys.onCache core (fun c => { c with num_fromLLC := c.num_fromLLC + 1 })
              sys
            else sys
          let inserted := sys.insertCacheBlock core blockAddress CacheBlockState.Forward
          let evictedBlock := inserted.1
          let sys := inserted.2
          let sys :=
            if evictedBlock.state = CacheBlockState.Forward then
              let evicted_blockAddress := ((evictedBlock.tag <<< SET_BITS) % 2 ^ 64 + set_Address) % 2 ^ 64
              let sys := sys.sendMessage BusRequest.setF evicted_blockAddress id
              let allocated := sys.bus.getSupplied
              let sys :=
                if allocated = false then
                  let sys := sys.sendMessage BusRequest.Flush evicted_blockAddress id
                  let sys := sys.onCache core (fun c => { c with num_writebacks := c.num_writebacks + 1 })
                  sys
                else sys
              sys
            else sys
          let sys := sys.onCache core (fun c => { c with num_write_misses := c.num_write_misses + 1 })
          sys
        | _ => sys

/-! ## The request loop (`main.cpp`) -/

/-- One record of the trace: `core_id op_char address_hex`. -/
structure Reference where
  core : Int
  r_or_w : Char
  address : Nat
  deriving DecidableEq, Repr

/-- The sixteen caches and the bus as `main` builds them. -/
def initialSystem (protocol : Protocol) : System :=
  { caches := (List.range NUMBER_OF_CORES).map (fun i => Cache.new i protocol),
    bus := Bus.new }

/-- The `while (true)` loop of `main`: a record with core `-1` ends the run,
a core outside `[0, NUMBER_OF_CORES)` exits, an operation other than `r` and
`w` is skipped. -/
def simulate (sys : System) : List Reference → System
  | [] => sys
  | r :: rest =>
    if r.core = -1 then sys
    else if r.core ≥ (NUMBER_OF_CORES : Int) ∨ r.core < 0 then sys
    else if r.r_or_w = 'r' then
      simulate (sys.handleProcRequest r.core.toNat ProcRequest.ProcRd r.address) rest
    else if r.r_or_w = 'w' then
      simulate (sys.handleProcRequest r.core.toNat ProcRequest.ProcWr r.address) rest
    else simulate sys rest

/-- The state of the simulator after the records of `trace`. -/
def run (protocol : Protocol) (trace : List Reference) : System :=
  simulate (initialSystem protocol) trace

/-! ## Properties of the specification -/

/-- The state set of each protocol (specification, protocol dispatch):
`{M,S,I}`, `{M,E,S,I}`, `{M,E,S,F,I}`, `{M,O,E,S,I}` and `{F,E,S,I}`. -/
def Protocol.admits : Protocol → CacheBlockState → Bool
  | Protocol.MSI, st =>
    st = CacheBlockState.Modified || st = CacheBlockState.Shared || st = CacheBlockState.Invalid
  | Protocol.MESI, st =>
    st = CacheBlockState.Modified || st = CacheBlockState.Exclusive
      || st = CacheBlockState.Shared || st = CacheBlockState.Invalid
  | Protocol.MESIF, st =>
    st = CacheBlockState.Modified || st = CacheBlockState.Exclusive
      || st = CacheBlockState.Shared || st = CacheBlockState.Forward
      || st = CacheBlockState.Invalid
  | Protocol.MOESI, st =>
    st = CacheBlockState.Modified || st = CacheBlockState.Owned
      || st = CacheBlockState.Exclusive || st = CacheBlockState.Shared
      || st = CacheBlockState.Invalid
  | Protocol.FESI, st =>
    st = CacheBlockState.Forward || st = CacheBlockState.Exclusive
      || st = CacheBlockState.Shared || st = CacheBlockState.Invalid

/-- The state of block address `b` in the cache with index `i`. -/
def System.stateOf (sys : System) (i : Nat) (b : Nat) : CacheBlockState :=
  match sys.caches[i]? with
  | some c => c.getState b
  | none => CacheBlockState.Invalid

/-- A property of sets that holds initially and is kept by `setState` (with a
state of the protocol), `moveToMRU`, and the insertion of a valid block of the
protocol. -/
structure SetClosed (p : Protocol) (P : CacheSet → Prop) : Prop where
  new : P CacheSet.new
  setState : ∀ (s : CacheSet) (tag : Nat) (st : CacheBlockState),
    p.admits st = true → P s → P (s.setState tag st)
  moveToMRU : ∀ (s : CacheSet) (tag : Nat), P s → P (s.moveToMRU tag)
  insert : ∀ (s : CacheSet) (tag : Int) (st : CacheBlockState),
    p.admits st = true → st ≠ CacheBlockState.Invalid → P s →
      P (s.insertCacheBlock (CacheBlock.new tag st)).2

/-- The cache runs protocol `p` and all its sets satisfy `P`. -/
def CacheOK (p : Protocol) (P : CacheSet → Prop) (c : Cache) : Prop :=
  c.protocol = p ∧ ∀ s ∈ c.sets, P s

/-- All caches of the system are `CacheOK`. -/
def SystemOK (p : Protocol) (P : CacheSet → Prop) (sys : System) : Prop :=
  ∀ c ∈ sys.caches, CacheOK p P c

/-- The requests that reach `handleBusRequest` under protocol `p`: `setF` is
broadcast by the `FESI` arm of `handleProcRequest` only, and `Flush`,
`Flush_prime` never reach a peer. -/
def Snooped (p : Protocol) (req : BusRequest) : Prop :=
  req = BusRequest.BusRd ∨ req = BusRequest.BusRdX ∨ req = BusRequest.BusUpgr
    ∨ (req = BusRequest.setF ∧ p = Protocol.FESI)

/-- What a snoop reaction may do to a cache: keep protocol and id, and either
leave the sets or apply one `setState` on the snooped block with a state of
the protocol. -/
def SnoopShape (c : Cache) (b : Nat) (r : Cache) : Prop :=
  r.protocol = c.protocol ∧ r.id = c.id
    ∧ (r.sets = c.sets
        ∨ ∃ st, c.protocol.admits st = true ∧ r.sets = (c.setState b st).sets)

instance (p : Protocol) (req : BusRequest) : Decidable (Snooped p req) := by
  unfold Snooped; infer_instance

/-! ## The testable properties, as predicates -/

/-- Invalid-at-LRU for one set: no Invalid block stands behind (nearer the
MRU end than) a non-Invalid block. -/
def InvalidAtLRU (s : CacheSet) : Prop :=
  s.blocks.Pairwise
    (fun x y => ¬ (x.state ≠ CacheBlockState.Invalid ∧ y.state = CacheBlockState.Invalid))

/-- Constant associativity for one set: the list holds `ASSOCIATIVITY` blocks. -/
def FullSet (s : CacheSet) : Prop := s.blocks.length = ASSOCIATIVITY

/-- Admitted states for one set: every block state belongs to the state set
of the protocol. -/
def StatesAdmitted (p : Protocol) (s : CacheSet) : Prop :=
  ∀ blk ∈ s.blocks, p.admits blk.state = true

/-- Single-writer: a block address held in Modified by one cache is Invalid
in every other cache (so at most one cache holds it in Modified). -/
def SingleWriter (sys : System) : Prop :=
  ∀ b i j : Nat, i ≠ j → sys.stateOf i b = CacheBlockState.Modified →
    sys.stateOf j b = CacheBlockState.Invalid

/-- At most one cache holds block address `b` in state `st`. -/
def AtMostOneHolder (sys : System) (st : CacheBlockState) : Prop :=
  ∀ b i j : Nat, sys.stateOf i b = st → sys.stateOf j b = st → i = j

/-- The ids of the caches whose `num_provided` is larger in `after` than in
`before` (the caches are compared position by position). -/
def providers (before after : System) : List Nat :=
  ((before.caches.zip after.caches).filter
    (fun q => decide (q.1.num_provided < q.2.num_provided))).map (fun q => q.1.id)

/-- Tag distinctness for one set: no two non-Invalid blocks share a tag. -/
def TagsDistinct (s : CacheSet) : Prop :=
  s.blocks.Pairwise
    (fun x y => ¬ (x.state ≠ CacheBlockState.Invalid ∧ y.state ≠ CacheBlockState.Invalid
      ∧ x.tag = y.tag))

/-- Address round-trip for one block of the set with index `set`:
`(tag << SET_BITS) | set` is the block address `b`. -/
def RoundTrips (blk : CacheBlock) (set : Nat) (b : Nat) : Prop :=
  (blk.tag <<< SET_BITS) ||| set = b

/-- Writeback accounting: the writebacks summed over the caches equal the
Flush counter of the bus. -/
def WritebacksMatchFlushes (sys : System) : Prop :=
  (sys.caches.map (fun c => c.num_writebacks)).sum = sys.bus.num_flushes

/-- An address whose tag does not fit the `int` parameter of the block
constructor: block address `0x400000014`, tag `2 ^ 32 + 5`, set `0`. -/
def wideAddress : Nat := 0x10000000500

/-- The address with block address `0x14`: tag `5`, set `0`. -/
def narrowAddress : Nat := 0x500

/-- The trace of the specification's third scenario: core 0 and core 1 read
address `0x40`, then core 1 writes it. -/
def sharedThenWritten : List Reference := [⟨0, 'r', 0x40⟩, ⟨1, 'r', 0x40⟩, ⟨1, 'w', 0x40⟩]

/-- Set 1 of cache 1 after `sharedThenWritten` under MESI. -/
def writtenSet : CacheSet :=
  ⟨[⟨0, CacheBlockState.Invalid⟩, ⟨0, CacheBlockState.Invalid⟩,
    ⟨0, CacheBlockState.Invalid⟩, ⟨0, CacheBlockState.Modified⟩]⟩

/-- Cache 1 after `sharedThenWritten` under MESI. -/
def writerCache : Cache :=
  { Cache.new 1 Protocol.MESI with
    sets := [CacheSet.new, writtenSet, CacheSet.new, CacheSet.new],
    num_reads := 1, num_read_misses := 1, num_writes := 1 }

/-! ## Vocabulary of the bus and snoop claims -/

/-- The counter that `Bus::sendMessage` keeps for a request. -/
def Bus.counter (bus : Bus) : BusRequest → Nat
  | BusRequest.BusRd => bus.num_busrd
  | BusRequest.BusRdX => bus.num_busrdx
  | BusRequest.BusUpgr => bus.num_busupgr
  | BusRequest.setF => bus.num_setF
  | BusRequest.Flush => bus.num_flushes
  | BusRequest.Flush_prime => bus.num_flush_primes

/-- The response of a cache on the shared line: whether its reaction to the
request raises the line when it starts from fresh lines. -/
def Cache.sharedResponse (c : Cache) (req : BusRequest) (b : Nat) : Bool :=
  (c.handleBusRequest Bus.new req b).2.shared_line

/-- The response of a cache on the supplied line. -/
def Cache.suppliedResponse (c : Cache) (req : BusRequest) (b : Nat) : Bool :=
  (c.handleBusRequest Bus.new req b).2.supplied

/-- A counter of the cache with index `i` (`0` when there is no such cache). -/
def System.stat (sys : System) (i : Nat) (f : Cache → Nat) : Nat :=
  match sys.caches[i]? with
  | some c => f c
  | none => 0

/-- The caches sit in id order: the cache at position `i` has id `i`, as
`main` builds them. -/
def IdsAreIndices (sys : System) : Prop :=
  ∀ (i : Nat) (c : Cache), sys.caches[i]? = some c → c.id = i

/-- The reaction of the cache with index `i` to a request, written back into
the system. -/
def System.snoopAt (st : System) (i : Nat) (req : BusRequest) (b : Nat) : System :=
  match st.caches[i]? with
  | some c =>
    { caches := st.caches.set i (c.handleBusRequest st.bus req b).1,
      bus := (c.handleBusRequest st.bus req b).2 }
  | none => st

/-- The broadcast as the specification words it: count the request, clear
both response lines, then let every cache except the sender react, in
ascending order of cache id. -/
def broadcastInIdOrder (sys : System) (req : BusRequest) (b : Nat) (s : Nat) : System :=
  (List.range sys.caches.length).foldl
    (fun st i => if i ≠ s then st.snoopAt i req b else st)
    { caches := sys.caches,
      bus := { sys.bus.countRequest req with shared_line := false, supplied := false } }

/-- The states in which a cache raises the shared line on a snooped BusRd,
read off `handleBusRequest`: under MSI none, under FESI only Forward and
Exclusive, under the other protocols every valid state of the protocol. -/
def raisesSharedLine : Protocol → CacheBlockState → Bool
  | Protocol.MSI, _ => false
  | Protocol.MESI, st =>
    st = CacheBlockState.Modified || st = CacheBlockState.Exclusive
      || st = CacheBlockState.Shared
  | Protocol.MESIF, st =>
    st = CacheBlockState.Modified || st = CacheBlockState.Exclusive
      || st = CacheBlockState.Shared || st = CacheBlockState.Forward
  | Protocol.MOESI, st =>
    st = CacheBlockState.Modified || st = CacheBlockState.Exclusive
      || st = CacheBlockState.Shared || st = CacheBlockState.Owned
  | Protocol.FESI, st => st = CacheBlockState.Forward || st = CacheBlockState.Exclusive

/-- A FESI system of two caches in which cache 0 holds block address `1`
(set 1, tag 0) in Shared and cache 1 holds nothing. -/
def silentSharer : System :=
  { caches :=
      [{ Cache.new 0 Protocol.FESI with
          sets := [CacheSet.new,
            ⟨[⟨0, CacheBlockState.Invalid⟩, ⟨0, CacheBlockState.Invalid⟩,
              ⟨0, CacheBlockState.Invalid⟩, ⟨0, CacheBlockState.Shared⟩]⟩,
            CacheSet.new, CacheSet.new] },
       Cache.new 1 Protocol.FESI],
    bus := Bus.new }

/-- The sets of a cache that holds nothing (`Cache::Cache`). -/
def freshSets : List CacheSet := List.replicate NUMBER_OF_SETS CacheSet.new

/-- The sets of a cache that holds block address `b` in state `st` and
nothing else: the block sits at the MRU end of its set. -/
def oneBlock (b : Nat) (st : CacheBlockState) : List CacheSet :=
  freshSets.set (setIndex b)
    ⟨[⟨0, CacheBlockState.Invalid⟩, ⟨0, CacheBlockState.Invalid⟩,
      ⟨0, CacheBlockState.Invalid⟩, ⟨tagOf b, st⟩]⟩

/-- The third scenario of the specification for cores `c0`, `c1` and address
`a`: `c0` reads, `c1` reads, `c1` writes. -/
def writeAfterShare (c0 c1 a : Nat) : List Reference :=
  [⟨(c0 : Int), 'r', a⟩, ⟨(c1 : Int), 'r', a⟩, ⟨(c1 : Int), 'w', a⟩]

/-- The fourth scenario of the specification for cores `c0`, `c1` and
address `a`: `c0` writes, `c1` writes. -/
def writeOverModified (c0 c1 a : Nat) : List Reference :=
  [⟨(c0 : Int), 'w', a⟩, ⟨(c1 : Int), 'w', a⟩]

/-- The fifth scenario of the specification for cores `c0`, `c1`, `c2` and
address `a`: `c0` writes, `c1` reads, `c2` reads. -/
def dirtySharing (c0 c1 c2 a : Nat) : List Reference :=
  [⟨(c0 : Int), 'w', a⟩, ⟨(c1 : Int), 'r', a⟩, ⟨(c2 : Int), 'r', a⟩]

/-- The block address that `handleProcRequest` rebuilds for an evicted block:
`(evictedBlock.tag << SET_BITS) + set_Address`, in 64 bits. -/
def evicted_blockAddress (evictedBlock : CacheBlock) (set_Address : Nat) : Nat :=
  ((evictedBlock.tag <<< SET_BITS) % 2 ^ 64 + set_Address) % 2 ^ 64

/-- The victim of a miss of cache `self` on block address `b`: the block that
`insertCacheBlock` evicts. -/
def Cache.victim (self : Cache) (b : Nat) : CacheBlock :=
  (self.insertCacheBlock b CacheBlockState.Forward).1

/-- What the steps of a FESI miss of cache `c` before the `setF` broadcast
keep, seen from block address `v`: ids and protocols of all caches, the state
of `v` and the random counter in every other cache, the writebacks of `c`, and
the setF and Flush counters of the bus. -/
def HandoffFrame (c v : Nat) (sys T : System) : Prop :=
  (∀ i : Nat, (T.caches[i]?).map Cache.id = (sys.caches[i]?).map Cache.id)
  ∧ (∀ i : Nat, (T.caches[i]?).map Cache.protocol = (sys.caches[i]?).map Cache.protocol)
  ∧ (∀ i : Nat, i ≠ c → T.stateOf i v = sys.stateOf i v)
  ∧ (∀ i : Nat, i ≠ c → T.stat i Cache.num_random = sys.stat i Cache.num_random)
  ∧ T.stat c Cache.num_writebacks = sys.stat c Cache.num_writebacks
  ∧ T.bus.num_setF = sys.bus.num_setF
  ∧ T.bus.num_flushes = sys.bus.num_flushes

/-- The sixth scenario of the specification: core 1 reads `0x0`, core 0 reads
`0x0`, then core 0 reads `0x100`, `0x200`, `0x300` and `0x400`, all of set 0. -/
def forwardEviction : List Reference :=
  [⟨1, 'r', 0x0⟩, ⟨0, 'r', 0x0⟩, ⟨0, 'r', 0x100⟩, ⟨0, 'r', 0x200⟩, ⟨0, 'r', 0x300⟩,
   ⟨0, 'r', 0x400⟩]

/-- Cache 0 before the last read of `forwardEviction` under FESI: set 0 is
full, with block address `0` in Forward at the LRU end. -/
def forwardHolder : Cache :=
  { Cache.new 0 Protocol.FESI with
    sets := [⟨[⟨0, CacheBlockState.Forward⟩, ⟨1, CacheBlockState.Exclusive⟩,
               ⟨2, CacheBlockState.Exclusive⟩, ⟨3, CacheBlockState.Exclusive⟩]⟩,
             CacheSet.new, CacheSet.new, CacheSet.new],
    num_reads := 4, num_read_misses := 4, num_fromLLC := 3 }

/-- The trace of two readers: core 0 and core 1 read address `0x40`. -/
def twoReaders : List Reference := [⟨0, 'r', 0x40⟩, ⟨1, 'r', 0x40⟩]

/-- Cache 0 after `twoReaders` under MESI: it holds block address `1` in
Shared and has supplied it once. -/
def firstReader : Cache :=
  Cache.mk 0 Protocol.MESI (oneBlock 1 CacheBlockState.Shared) 1 1 0 0 0 0 1 1 0

/-! ## The arms of `handleProcRequest`, by shape

Every arm of `Cache::handleProcRequest` counts the request and then follows
one of three shapes: a hit (`moveToMRU`, at most one `setState`, at most one
BusUpgr), a read miss that inserts a tentative state and upgrades it to
Exclusive when the shared line stayed low, and a miss that counts `fromLLC`
before it inserts. The definitions below name these shapes; the theorems
`handleProcRequest_hit` and `handleProcRequest_miss` show that the arms are
these shapes. -/

/-- The first statement of each request arm: `num_reads++` or `num_writes++`. -/
def Cache.countRequest (c : Cache) : ProcRequest → Cache
  | ProcRequest.ProcRd => { c with num_reads := c.num_reads + 1 }
  | ProcRequest.ProcWr => { c with num_writes := c.num_writes + 1 }

/-- The last statement of each miss arm: `num_read_misses++` or
`num_write_misses++`. -/
def Cache.countMiss (c : Cache) : ProcRequest → Cache
  | ProcRequest.ProcRd => { c with num_read_misses := c.num_read_misses + 1 }
  | ProcRequest.ProcWr => { c with num_write_misses := c.num_write_misses + 1 }

/-- What a hit arm does after `moveToMRU`: the state it sets (if any) and
whether it broadcasts BusUpgr. `none` for Invalid and for the states that the
protocol arm does not list. -/
def hitAction (p : Protocol) (req : ProcRequest) (st : CacheBlockState) :
    Option (Option CacheBlockState × Bool) :=
  if p.admits st = true ∧ st ≠ CacheBlockState.Invalid then
    match req with
    | ProcRequest.ProcRd => some (none, false)
    | ProcRequest.ProcWr =>
      match p, st with
      | Protocol.FESI, CacheBlockState.Forward => some (none, true)
      | Protocol.FESI, CacheBlockState.Exclusive => some (some CacheBlockState.Forward, false)
      | Protocol.FESI, _ => some (some CacheBlockState.Forward, true)
      | _, CacheBlockState.Modified => some (none, false)
      | _, CacheBlockState.Exclusive => some (some CacheBlockState.Modified, false)
      | _, _ => some (some CacheBlockState.Modified, true)
  else none

/-- The shape of a hit arm. -/
def System.hitPath (sys : System) (core id b : Nat) (up : Option CacheBlockState)
    (upgr : Bool) : System :=
  let sys := sys.onCache core (fun c => c.moveToMRU b)
  let sys :=
    match up with
    | some st => sys.onCache core (fun c => c.setState b st)
    | none => sys
  if upgr = true then sys.sendMessage BusRequest.BusUpgr b id else sys

/-- The accounting of the evicted block at the end of a miss arm: a Flush
with `num_writebacks++` for a Modified victim (Modified or Owned under MOESI);
under FESI the `setF` handoff of a Forward victim, with the Flush and
`num_writebacks++` only when no peer took the Forward state. -/
def System.victimStep (sys : System) (core id : Nat) (p : Protocol)
    (evictedBlock : CacheBlock) (set_Address : Nat) : System :=
  match p with
  | Protocol.FESI =>
    if evictedBlock.state = CacheBlockState.Forward then
      if (sys.sendMessage BusRequest.setF (evicted_blockAddress evictedBlock set_Address)
            id).bus.getSupplied = false then
        ((sys.sendMessage BusRequest.setF (evicted_blockAddress evictedBlock set_Address)
            id).sendMessage BusRequest.Flush (evicted_blockAddress evictedBlock set_Address)
            id).onCache core (fun c => { c with num_writebacks := c.num_writebacks + 1 })
      else sys.sendMessage BusRequest.setF (evicted_blockAddress evictedBlock set_Address) id
    else sys
  | Protocol.MOESI =>
    if evictedBlock.state = CacheBlockState.Modified
        ∨ evictedBlock.state = CacheBlockState.Owned then
      (sys.sendMessage BusRequest.Flush (evicted_blockAddress evictedBlock set_Address)
        id).onCache core (fun c => { c with num_writebacks := c.num_writebacks + 1 })
    else sys
  | _ =>
    if evictedBlock.state = CacheBlockState.Modified then
      (sys.sendMessage BusRequest.Flush (evicted_blockAddress evictedBlock set_Address)
        id).onCache core (fun c => { c with num_writebacks := c.num_writebacks + 1 })
    else sys

/-- The shape of the read-miss arms of MESI, MESIF, MOESI and FESI: BusRd,
insertion in the tentative state, Exclusive when the shared line stayed low,
`fromLLC` when nobody supplied, the victim, `num_read_misses++`. -/
def System.missInsertFirst (sys : System) (core id b : Nat) (p : Protocol)
    (tentative : CacheBlockState) : System :=
  let sys := sys.sendMessage BusRequest.BusRd b id
  let shared_state := sys.bus.getSharedLine
  let supplied := sys.bus.getSupplied
  let inserted := sys.insertCacheBlock core b tentative
  let sys := inserted.2
  let sys :=
    if shared_state = false then
      sys.onCache core (fun c => c.setState b CacheBlockState.Exclusive)
    else sys
  let sys :=
    if supplied = false then
      sys.onCache core (fun c => { c with num_fromLLC := c.num_fromLLC + 1 })
    else sys
  let sys := sys.victimStep core id p inserted.1 (setIndex b)
  sys.onCache core (fun c => c.countMiss ProcRequest.ProcRd)

/-- The shape of the MSI read-miss arm and of every write-miss arm: the
broadcast, `fromLLC` when nobody supplied, insertion in the final state, the
victim, the miss counter. -/
def System.missCountFirst (sys : System) (core id b : Nat) (p : Protocol)
    (request : BusRequest) (state : CacheBlockState) (req : ProcRequest) : System :=
  let sys := sys.sendMessage request b id
  let supplied := sys.bus.getSupplied
  let sys :=
    if supplied = false then
      sys.onCache core (fun c => { c with num_fromLLC := c.num_fromLLC + 1 })
    else sys
  let inserted := sys.insertCacheBlock core b state
  let sys := inserted.2.victimStep core id p inserted.1 (setIndex b)
  sys.onCache core (fun c => c.countMiss req)

/-- The shape of the miss arm of each protocol and request. -/
def System.missPath (sys : System) (core id b : Nat) (p : Protocol) (req : ProcRequest) :
    System :=
  match req, p with
  | ProcRequest.ProcRd, Protocol.MSI =>
    sys.missCountFirst core id b p BusRequest.BusRd CacheBlockState.Shared req
  | ProcRequest.ProcRd, Protocol.MESI =>
    sys.missInsertFirst core id b p CacheBlockState.Shared
  | ProcRequest.ProcRd, Protocol.MOESI =>
    sys.missInsertFirst core id b p CacheBlockState.Shared
  | ProcRequest.ProcRd, Protocol.MESIF =>
    sys.missInsertFirst core id b p CacheBlockState.Forward
  | ProcRequest.ProcRd, Protocol.FESI =>
    sys.missInsertFirst core id b p CacheBlockState.Forward
  | ProcRequest.ProcWr, Protocol.FESI =>
    sys.missCountFirst core id b p BusRequest.BusRdX CacheBlockState.Forward req
  | ProcRequest.ProcWr, _ =>
    sys.missCountFirst core id b p BusRequest.BusRdX CacheBlockState.Modified req

/-- The bus request of a miss: BusRd for a read, BusRdX for a write. -/
def missRequest : ProcRequest → BusRequest
  | ProcRequest.ProcRd => BusRequest.BusRd
  | ProcRequest.ProcWr => BusRequest.BusRdX

/-- What a hit arm does to the requesting cache: `moveToMRU`, then the
`setState` of the arm (if any). -/
def Cache.hitLocal (c : Cache) (b : Nat) (up : Option CacheBlockState) : Cache :=
  match up with
  | some st => (c.moveToMRU b).setState b st
  | none => c.moveToMRU b

/-- What a miss arm does to the requesting cache before it accounts for the
victim, given the two response lines after the broadcast: the insertion, the
upgrade to Exclusive and the `fromLLC` counter, in the order of the arm. -/
def Cache.install (c : Cache) (b : Nat) (p : Protocol) (req : ProcRequest)
    (shared_state supplied : Bool) : Cache :=
  match req, p with
  | ProcRequest.ProcRd, Protocol.MSI =>
    ((if supplied = false then { c with num_fromLLC := c.num_fromLLC + 1 }
      else c).insertCacheBlock b CacheBlockState.Shared).2
  | ProcRequest.ProcRd, Protocol.MESI =>
    let c := (c.insertCacheBlock b CacheBlockState.Shared).2
    let c := if shared_state = false then c.setState b CacheBlockState.Exclusive else c
    if supplied = false then { c with num_fromLLC := c.num_fromLLC + 1 } else c
  | ProcRequest.ProcRd, Protocol.MOESI =>
    let c := (c.insertCacheBlock b CacheBlockState.Shared).2
    let c := if shared_state = false then c.setState b CacheBlockState.Exclusive else c
    if supplied = false then { c with num_fromLLC := c.num_fromLLC + 1 } else c
  | ProcRequest.ProcRd, Protocol.MESIF =>
    let c := (c.insertCacheBlock b CacheBlockState.Forward).2
    let c := if shared_state = false then c.setState b CacheBlockState.Exclusive else c
    if supplied = false then { c with num_fromLLC := c.num_fromLLC + 1 } else c
  | ProcRequest.ProcRd, Protocol.FESI =>
    let c := (c.insertCacheBlock b CacheBlockState.Forward).2
    let c := if shared_state = false then c.setState b CacheBlockState.Exclusive else c
    if supplied = false then { c with num_fromLLC := c.num_fromLLC + 1 } else c
  | ProcRequest.ProcWr, Protocol.FESI =>
    ((if supplied = false then { c with num_fromLLC := c.num_fromLLC + 1 }
      else c).insertCacheBlock b CacheBlockState.Forward).2
  | ProcRequest.ProcWr, _ =>
    ((if supplied = false then { c with num_fromLLC := c.num_fromLLC + 1 }
      else c).insertCacheBlock b CacheBlockState.Modified).2

/-- Cache 0 after core 0 has read address `0x40` on the initial MESI system:
it holds block address `1` in Exclusive. -/
def coldReader : Cache :=
  Cache.mk 0 Protocol.MESI (oneBlock 1 CacheBlockState.Exclusive) 1 1 0 0 0 0 0 1 0

/-- The victims whose eviction is written back: Modified, and under MOESI
also Owned (the conditions on `evictedBlock.state` in the miss arms). -/
def dirtyVictim (p : Protocol) (st : CacheBlockState) : Bool :=
  st = CacheBlockState.Modified || (p = Protocol.MOESI && st = CacheBlockState.Owned)

/-- Cache 0 after core 0 has written `0x0`, `0x100`, `0x200` and `0x300`
under MSI: set 0 holds four Modified blocks. -/
def fourWrites : List Reference :=
  [⟨0, 'w', 0x0⟩, ⟨0, 'w', 0x100⟩, ⟨0, 'w', 0x200⟩, ⟨0, 'w', 0x300⟩]

/-- Cache 0 after `fourWrites` under MSI. -/
def fullWriter : Cache :=
  { Cache.new 0 Protocol.MSI with
    sets := [⟨[⟨0, CacheBlockState.Modified⟩, ⟨1, CacheBlockState.Modified⟩,
               ⟨2, CacheBlockState.Modified⟩, ⟨3, CacheBlockState.Modified⟩]⟩,
             CacheSet.new, CacheSet.new, CacheSet.new],
    num_writes := 4, num_write_misses := 4, num_fromLLC := 4 }

/-- The system of a miss of core `c` (cache `self`) on block address `b` after
the broadcast and the installation of the block, before the victim is
accounted for. -/
def System.afterInstall (sys : System) (c : Nat) (req : ProcRequest) (b : Nat)
    (self : Cache) : System :=
  (sys.sendMessage (missRequest req) b self.id).onCache c
    (fun x => (x.countRequest req).install b self.protocol req
      (sys.sendMessage (missRequest req) b self.id).bus.shared_line
      (sys.sendMessage (missRequest req) b self.id).bus.supplied)

/-! ## Well-formed caches and the coherence invariant -/

/-- Tags in range for one set: every tag fits the non-negative range of the
`int` parameter of the block constructor. -/
def TagsInRange (s : CacheSet) : Prop := ∀ blk ∈ s.blocks, blk.tag < 2 ^ 31

/-- A well-formed set of protocol `p`: `ASSOCIATIVITY` blocks, states of the
protocol, distinct valid tags, tags in range. -/
def SetWF (p : Protocol) (s : CacheSet) : Prop :=
  FullSet s ∧ StatesAdmitted p s ∧ TagsDistinct s ∧ TagsInRange s

/-- A well-formed cache of protocol `p`: it runs `p`, has `NUMBER_OF_SETS`
sets, and every set is well formed. -/
def CacheWF (p : Protocol) (x : Cache) : Prop :=
  x.protocol = p ∧ x.sets.length = NUMBER_OF_SETS ∧ ∀ s ∈ x.sets, SetWF p s

/-- The state of the snooped block after the reaction to a BusRd, a BusRdX or
a BusUpgr, by protocol and state before (read off `handleBusRequest`): a
state that the protocol arm does not list is left; on a BusRd Modified goes
to Shared (to Owned under MOESI), Exclusive and Forward go to Shared, Shared,
Owned and Invalid stay; a BusRdX or BusUpgr invalidates. For the other
requests the function is the identity and is not used. -/
def snoopNext (p : Protocol) (r : BusRequest) (st : CacheBlockState) : CacheBlockState :=
  if p.admits st = true then
    match r with
    | BusRequest.BusRd =>
      match st with
      | CacheBlockState.Modified =>
        if p = Protocol.MOESI then CacheBlockState.Owned else CacheBlockState.Shared
      | CacheBlockState.Exclusive => CacheBlockState.Shared
      | CacheBlockState.Forward => CacheBlockState.Shared
      | other => other
    | BusRequest.BusRdX => CacheBlockState.Invalid
    | BusRequest.BusUpgr => CacheBlockState.Invalid
    | _ => st
  else st

/-- For one block address, given the state of the block in every cache: a
cache that holds it in Modified or Exclusive is the only holder. -/
def ExclusiveAlone (f : Nat → CacheBlockState) : Prop :=
  ∀ i j, i ≠ j → (f i = CacheBlockState.Modified ∨ f i = CacheBlockState.Exclusive) →
    f j = CacheBlockState.Invalid

/-- For one block address: at most one cache holds it in Owned or Forward. -/
def OneForwarder (f : Nat → CacheBlockState) : Prop :=
  ∀ i j, (f i = CacheBlockState.Owned ∨ f i = CacheBlockState.Forward) →
    (f j = CacheBlockState.Owned ∨ f j = CacheBlockState.Forward) → i = j

/-- For one block address: if a cache holds it in Shared, some cache holds it
in Forward. -/
def SharedHasForward (f : Nat → CacheBlockState) : Prop :=
  ∀ i, f i = CacheBlockState.Shared → ∃ j, f j = CacheBlockState.Forward

/-- Coherence of one block address under protocol `p`. -/
def BlockCoherent (p : Protocol) (f : Nat → CacheBlockState) : Prop :=
  ExclusiveAlone f ∧ OneForwarder f ∧ (p = Protocol.FESI → SharedHasForward f)

/-- All caches of the system are well formed. -/
def AllWF (p : Protocol) (sys : System) : Prop := ∀ x ∈ sys.caches, CacheWF p x

/-- The coherence invariant of a system under protocol `p`: caches in id
order, all well formed, and every block address coherent. -/
def Coherent (p : Protocol) (sys : System) : Prop :=
  IdsAreIndices sys ∧ AllWF p sys ∧ ∀ v, BlockCoherent p (fun i => sys.stateOf i v)

/-- The state in which a read miss inserts the block before it looks at the
shared line: Forward under MESIF and FESI, Shared otherwise. -/
def tentativeState : Protocol → CacheBlockState
  | Protocol.MESIF => CacheBlockState.Forward
  | Protocol.FESI => CacheBlockState.Forward
  | _ => CacheBlockState.Shared

/-- The state of the requested block in the requesting cache after a miss,
given the shared line after the broadcast. -/
def installedState (p : Protocol) (req : ProcRequest) (shared : Bool) : CacheBlockState :=
  match req, p with
  | ProcRequest.ProcRd, Protocol.MSI => CacheBlockState.Shared
  | ProcRequest.ProcRd, _ =>
    if shared = false then CacheBlockState.Exclusive else tentativeState p
  | ProcRequest.ProcWr, Protocol.FESI => CacheBlockState.Forward
  | ProcRequest.ProcWr, _ => CacheBlockState.Modified

/-- The state that a miss arm passes to `insertCacheBlock`: the tentative
state for a read, Forward (FESI) or Modified for a write. -/
def insertedState (p : Protocol) (req : ProcRequest) : CacheBlockState :=
  match req, p with
  | ProcRequest.ProcRd, _ => tentativeState p
  | ProcRequest.ProcWr, Protocol.FESI => CacheBlockState.Forward
  | ProcRequest.ProcWr, _ => CacheBlockState.Modified

/-- The block at the MRU end (the back of the list) of the set that block
address `b` maps to. -/
def Cache.mruBlock (x : Cache) (b : Nat) : Option CacheBlock :=
  match x.sets[setIndex b]? with
  | some s => s.blocks.getLast?
  | none => none

/-- The sum of a counter over all caches. -/
def System.total (sys : System) (f : Cache → Nat) : Nat := (sys.caches.map f).sum

/-- Supply conservation: the blocks provided by peers plus the blocks fetched
from the last-level memory are as many as the read and write misses. -/
def SupplyBalanced (sys : System) : Prop :=
  sys.total Cache.num_provided + sys.total Cache.num_fromLLC
    = sys.total Cache.num_read_misses + sys.total Cache.num_write_misses

/-- The states in which a cache supplies the block on a snooped BusRd or
BusRdX whatever the supplied line (read off `handleBusRequest`): Modified and
Exclusive where the protocol has them, Forward under MESIF and FESI, Owned
under MOESI. -/
def suppliesAlways : Protocol → CacheBlockState → Bool
  | Protocol.MSI, st => st = CacheBlockState.Modified
  | Protocol.MESI, st => st = CacheBlockState.Modified || st = CacheBlockState.Exclusive
  | Protocol.MESIF, st =>
    st = CacheBlockState.Modified || st = CacheBlockState.Exclusive
      || st = CacheBlockState.Forward
  | Protocol.MOESI, st =>
    st = CacheBlockState.Modified || st = CacheBlockState.Exclusive
      || st = CacheBlockState.Owned
  | Protocol.FESI, st => st = CacheBlockState.Forward || st = CacheBlockState.Exclusive

/-- The states in which a cache supplies the block on a snooped BusRd or
BusRdX only if no cache has supplied it yet: Shared under MSI and MESI. -/
def suppliesFirst : Protocol → CacheBlockState → Bool
  | Protocol.MSI, st => st = CacheBlockState.Shared
  | Protocol.MESI, st => st = CacheBlockState.Shared
  | _, _ => false

set_option maxHeartbeats 4000000
set_option maxRecDepth 1000000

/-! ## The bus -/

/-- For `Flush` and `Flush_prime` the full `Bus::sendMessage` is the counter
switch alone: the form used for the calls made inside `handleBusRequest`. -/
theorem sendMessage_flush (sys : System) (req : BusRequest) (b sender : Nat)
    (h : req = BusRequest.Flush ∨ req = BusRequest.Flush_prime) :
    sys.sendMessage req b sender = { sys with bus := sys.bus.sendFlush req } := by
  unfold System.sendMessage Bus.sendFlush
  simp [h]

/-! ## Set-local invariants along a run

A property `P` of a single set that is kept by the three mutators of
`CacheSet` holds for every set of every cache after every request. -/
theorem cacheOK_setState {p : Protocol} {P : CacheSet → Prop} (h : SetClosed p P)
    {st : CacheBlockState} (hst : p.admits st = true) (b : Nat) {c : Cache}
    (hc : CacheOK p P c) : CacheOK p P (c.setState b st) := by
  unfold Cache.setState
  dsimp only
  split
  · next s hs =>
    refine ⟨hc.1, fun s' hs' => ?_⟩
    rcases List.mem_or_eq_of_mem_set hs' with h' | h'
    · exact hc.2 _ h'
    · subst h'
      exact h.setState _ _ _ hst (hc.2 _ (List.getElem?_mem hs))
  · exact hc

theorem cacheOK_moveToMRU {p : Protocol} {P : CacheSet → Prop} (h : SetClosed p P)
    (b : Nat) {c : Cache} (hc : CacheOK p P c) : CacheOK p P (c.moveToMRU b) := by
  unfold Cache.moveToMRU
  dsimp only
  split
  · next s hs =>
    refine ⟨hc.1, fun s' hs' => ?_⟩
    rcases List.mem_or_eq_of_mem_set hs' with h' | h'
    · exact hc.2 _ h'
    · subst h'
      exact h.moveToMRU _ _ (hc.2 _ (List.getElem?_mem hs))
  · exact hc

theorem cacheOK_insertCacheBlock {p : Protocol} {P : CacheSet → Prop} (h : SetClosed p P)
    {st : CacheBlockState} (hst : p.admits st = true) (hv : st ≠ CacheBlockState.Invalid)
    (b : Nat) {c : Cache} (hc : CacheOK p P c) : CacheOK p P (c.insertCacheBlock b st).2 := by
  unfold Cache.insertCacheBlock
  dsimp only
  split
  · next s hs =>
    refine ⟨hc.1, fun s' hs' => ?_⟩
    rcases List.mem_or_eq_of_mem_set hs' with h' | h'
    · exact hc.2 _ h'
    · subst h'
      exact h.insert _ _ _ hst hv (hc.2 _ (List.getElem?_mem hs))
  · exact hc

theorem cacheOK_counters {p : Protocol} {P : CacheSet → Prop} {c c' : Cache}
    (hp : c'.protocol = c.protocol) (hs : c'.sets = c.sets) (hc : CacheOK p P c) :
    CacheOK p P c' := by
  unfold CacheOK at *
  rw [hp, hs]
  exact hc

@[simp] theorem Cache.setState_protocol (c : Cache) (b : Nat) (st : CacheBlockState) :
    (c.setState b st).protocol = c.protocol := by
  unfold Cache.setState; dsimp only; split <;> rfl

@[simp] theorem Cache.setState_id (c : Cache) (b : Nat) (st : CacheBlockState) :
    (c.setState b st).id = c.id := by
  unfold Cache.setState; dsimp only; split <;> rfl

/-- Every snoop reaction has the shape `SnoopShape`. -/
theorem Cache.handleBusRequest_shape (c : Cache) (bus : Bus) (req : BusRequest) (b : Nat)
    (hreq : Snooped c.protocol req) :
    SnoopShape c b (c.handleBusRequest bus req b).1 := by
  unfold Snooped at hreq
  unfold SnoopShape
  cases req <;> cases hp : c.protocol <;>
    simp only [hp, reduceCtorEq, false_or, or_false, and_false, and_true, or_self] at hreq <;>
    cases hs : c.getState b <;>
    simp only [Cache.handleBusRequest, hp, hs, reduceCtorEq, if_true, if_false] <;>
    (try split) <;>
    (first
      | exact ⟨trivial, trivial, Or.inl trivial⟩
      | exact ⟨hp, rfl, Or.inl rfl⟩
      | exact ⟨rfl, rfl, Or.inl rfl⟩
      | exact ⟨by simp [hp], by simp, Or.inr ⟨CacheBlockState.Shared, by decide, rfl⟩⟩
      | exact ⟨by simp [hp], by simp, Or.inr ⟨CacheBlockState.Invalid, by decide, rfl⟩⟩
      | exact ⟨by simp [hp], by simp, Or.inr ⟨CacheBlockState.Owned, by decide, rfl⟩⟩
      | exact ⟨by simp [hp], by simp, Or.inr ⟨CacheBlockState.Forward, by decide, rfl⟩⟩)

theorem cacheOK_handleBusRequest {p : Protocol} {P : CacheSet → Prop} (h : SetClosed p P)
    (bus : Bus) {req : BusRequest} (hreq : Snooped p req) (b : Nat) {c : Cache}
    (hc : CacheOK p P c) : CacheOK p P (c.handleBusRequest bus req b).1 := by
  have hp : c.protocol = p := hc.1
  obtain ⟨h1, -, h3⟩ := Cache.handleBusRequest_shape c bus req b (hp ▸ hreq)
  rcases h3 with h3 | ⟨st, hst, h3⟩
  · exact cacheOK_counters h1 h3 hc
  · exact cacheOK_counters (c := c.setState b st) (by simp [h1]) h3
      (cacheOK_setState h (hp ▸ hst) b hc)

theorem snoopLoop_ok {p : Protocol} {P : CacheSet → Prop} (h : SetClosed p P)
    {req : BusRequest} (hreq : Snooped p req) (b sender : Nat) :
    ∀ (caches : List Cache) (bus : Bus), (∀ c ∈ caches, CacheOK p P c) →
      ∀ c ∈ (snoopLoop req b sender caches bus).1, CacheOK p P c := by
  intro caches
  induction caches with
  | nil => intro bus _ c hc; simp [snoopLoop] at hc
  | cons c0 rest ih =>
    intro bus hall c hc
    have h0 : CacheOK p P c0 := hall c0 (List.mem_cons_self _ _)
    have hrest : ∀ c ∈ rest, CacheOK p P c := fun c hc => hall c (List.mem_cons_of_mem _ hc)
    unfold snoopLoop at hc
    split at hc
    · rcases List.mem_cons.mp hc with hc | hc
      · subst hc
        exact cacheOK_handleBusRequest h bus hreq b h0
      · exact ih _ hrest c hc
    · rcases List.mem_cons.mp hc with hc | hc
      · subst hc
        exact h0
      · exact ih _ hrest c hc

theorem systemOK_sendMessage {p : Protocol} {P : CacheSet → Prop} (h : SetClosed p P)
    {req : BusRequest}
    (hreq : Snooped p req ∨ req = BusRequest.Flush ∨ req = BusRequest.Flush_prime)
    (b sender : Nat) {sys : System} (hs : SystemOK p P sys) :
    SystemOK p P (sys.sendMessage req b sender) := by
  unfold System.sendMessage
  dsimp only
  split
  · exact hs
  · next hne =>
    have hreq' : Snooped p req := by
      rcases hreq with hreq | hreq
      · exact hreq
      · exact absurd hreq hne
    exact snoopLoop_ok h hreq' b sender sys.caches _ hs

theorem systemOK_onCache {p : Protocol} {P : CacheSet → Prop} (core : Nat) (f : Cache → Cache)
    (hf : ∀ c, CacheOK p P c → CacheOK p P (f c)) {sys : System} (hs : SystemOK p P sys) :
    SystemOK p P (sys.onCache core f) := by
  unfold System.onCache
  split
  · next c hc =>
    intro c' hc'
    rcases List.mem_or_eq_of_mem_set hc' with h' | h'
    · exact hs _ h'
    · subst h'
      exact hf _ (hs _ (List.getElem?_mem hc))
  · exact hs

theorem systemOK_insertCacheBlock {p : Protocol} {P : CacheSet → Prop} (h : SetClosed p P)
    (core : Nat) {st : CacheBlockState} (hst : p.admits st = true)
    (hv : st ≠ CacheBlockState.Invalid) (b : Nat) {sys : System} (hs : SystemOK p P sys) :
    SystemOK p P (sys.insertCacheBlock core b st).2 := by
  unfold System.insertCacheBlock
  split
  · next c hc =>
    intro c' hc'
    rcases List.mem_or_eq_of_mem_set hc' with h' | h'
    · exact hs _ h'
    · subst h'
      exact cacheOK_insertCacheBlock h hst hv b (hs _ (List.getElem?_mem hc))
  · exact hs

theorem systemOK_handleProcRequest {p : Protocol} {P : CacheSet → Prop} (h : SetClosed p P)
    (core : Nat) (req : ProcRequest) (addr : Nat) {sys : System} (hs : SystemOK p P sys) :
    SystemOK p P (sys.handleProcRequest core req addr) := by
  unfold System.handleProcRequest
  split
  · exact hs
  · next self hself =>
    have hp : self.protocol = p := (hs self (List.getElem?_mem hself)).1
    cases req <;> cases p <;> cases hst : self.getState (addr >>> CACHE_OFFSET_BITS) <;>
      simp only [hp, hst] <;>
      repeat' (first
        | with_reducible exact hs
        | with_reducible refine systemOK_sendMessage h ?_ _ _ ?_
        | with_reducible refine systemOK_insertCacheBlock h _ ?_ ?_ _ ?_
        | with_reducible refine systemOK_onCache _ _ ?_ ?_
        | decide
        | (intro c (hc : CacheOK _ _ c);
           first
            | with_reducible exact cacheOK_moveToMRU h _ hc
            | with_reducible exact cacheOK_setState h (by decide) _ hc
            | exact hc)
        | split)

theorem initialSystem_ok {p : Protocol} {P : CacheSet → Prop} (h : SetClosed p P) :
    SystemOK p P (initialSystem p) := by
  intro c hc
  simp only [initialSystem, List.mem_map] at hc
  obtain ⟨i, -, rfl⟩ := hc
  refine ⟨rfl, fun s hs => ?_⟩
  simp only [Cache.new] at hs
  rw [List.eq_of_mem_replicate hs]
  exact h.new

theorem simulate_ok {p : Protocol} {P : CacheSet → Prop} (h : SetClosed p P)
    (trace : List Reference) : ∀ sys : System, SystemOK p P sys →
      SystemOK p P (simulate sys trace) := by
  induction trace with
  | nil => intro sys hs; exact hs
  | cons r rest ih =>
    intro sys hs
    unfold simulate
    split
    · exact hs
    · split
      · exact hs
      · split
        · exact ih _ (systemOK_handleProcRequest h _ _ _ hs)
        · split
          · exact ih _ (systemOK_handleProcRequest h _ _ _ hs)
          · exact ih _ hs

/-- A set-local property that is kept by the mutators of `CacheSet` holds for
every set of every cache after any trace. -/
theorem run_ok {p : Protocol} {P : CacheSet → Prop} (h : SetClosed p P)
    (trace : List Reference) : SystemOK p P (run p trace) :=
  simulate_ok h trace _ (initialSystem_ok h)

/-! ### The three mutators of `CacheSet`, as list equations -/
theorem moveToMRULoop_some {tag : Nat} :
    ∀ {l others : List CacheBlock} {cb : CacheBlock},
      moveToMRULoop tag l = some (others, cb) →
      ∃ pre post, l = pre ++ cb :: post ∧ others = pre ++ post ∧ cb.hit tag = true
        ∧ ∀ x ∈ pre, x.hit tag = false := by
  intro l
  induction l with
  | nil => intro others cb h; simp [moveToMRULoop] at h
  | cons x rest ih =>
    intro others cb h
    unfold moveToMRULoop at h
    split at h
    · next hx =>
      simp only [Option.some.injEq, Prod.mk.injEq] at h
      obtain ⟨rfl, rfl⟩ := h
      exact ⟨[], _, rfl, rfl, hx, by simp⟩
    · next hx =>
      split at h
      · exact absurd h (by simp)
      · next rest' found hrec =>
        simp only [Option.some.injEq, Prod.mk.injEq] at h
        obtain ⟨rfl, rfl⟩ := h
        obtain ⟨pre, post, h1, h2, h3, h4⟩ := ih hrec
        refine ⟨x :: pre, post, by simp [h1], by simp [h2], h3, ?_⟩
        intro y hy
        rcases List.mem_cons.mp hy with hy | hy
        · subst hy; simpa using hx
        · exact h4 y hy

theorem CacheBlock.state_ne_of_hit {tag : Nat} {cb : CacheBlock} (h : cb.hit tag = true) :
    cb.state ≠ CacheBlockState.Invalid := by
  simp only [CacheBlock.hit, Bool.and_eq_true, decide_eq_true_eq] at h
  exact h.1

/-- The resulting list of `CacheSet::moveToMRU`: unchanged, or one valid block
taken out and put at the back. -/
theorem CacheSet.moveToMRU_blocks (s : CacheSet) (tag : Nat) :
    (s.moveToMRU tag).blocks = s.blocks
    ∨ ∃ pre cb post, s.blocks = pre ++ cb :: post
        ∧ (s.moveToMRU tag).blocks = pre ++ post ++ [cb] ∧ cb.hit tag = true := by
  unfold CacheSet.moveToMRU
  split
  · exact Or.inl rfl
  · next others cb h =>
    obtain ⟨pre, post, h1, h2, h3, -⟩ := moveToMRULoop_some h
    exact Or.inr ⟨pre, cb, post, h1, by simp [h2], h3⟩

theorem CacheSet.insertCacheBlock_blocks (s : CacheSet) (nb : CacheBlock) :
    (s.insertCacheBlock nb).2.blocks = s.blocks.tail ++ [nb] := by
  unfold CacheSet.insertCacheBlock
  split <;> next h => simp [h]

/-! ## Invalid-at-LRU, constant associativity, admitted states -/

theorem CacheSet.setState_invalid_blocks (s : CacheSet) (tag : Nat) :
    (s.setState tag CacheBlockState.Invalid).blocks
      = ((s.blocks.filter (CacheBlock.hit tag)).map
            (fun cb => { cb with state := CacheBlockState.Invalid, tag := 0 })).reverse
          ++ s.blocks.filter (fun cb => !cb.hit tag) := by
  simp [CacheSet.setState]

theorem CacheSet.setState_valid_blocks (s : CacheSet) (tag : Nat) {st : CacheBlockState}
    (hst : st ≠ CacheBlockState.Invalid) :
    (s.setState tag st).blocks
      = s.blocks.map (fun cb => if cb.hit tag then { cb with state := st } else cb) := by
  simp [CacheSet.setState, hst]

theorem CacheSet.length_setState (s : CacheSet) (tag : Nat) (st : CacheBlockState) :
    (s.setState tag st).blocks.length = s.blocks.length := by
  by_cases hst : st = CacheBlockState.Invalid
  · subst hst
    rw [CacheSet.setState_invalid_blocks, List.length_append, List.length_reverse,
      List.length_map]
    exact (List.length_eq_length_filter_add (CacheBlock.hit tag)).symm
  · rw [CacheSet.setState_valid_blocks s tag hst, List.length_map]

theorem CacheSet.length_moveToMRU (s : CacheSet) (tag : Nat) :
    (s.moveToMRU tag).blocks.length = s.blocks.length := by
  rcases s.moveToMRU_blocks tag with h | ⟨pre, cb, post, h1, h2, -⟩
  · rw [h]
  · rw [h1, h2]; simp only [List.length_append, List.length_cons, List.length_nil]; omega

theorem CacheSet.length_insertCacheBlock (s : CacheSet) (nb : CacheBlock)
    (hne : s.blocks ≠ []) :
    (s.insertCacheBlock nb).2.blocks.length = s.blocks.length := by
  rw [CacheSet.insertCacheBlock_blocks, List.length_append, List.length_tail]
  have : 0 < s.blocks.length := List.length_pos.mpr hne
  simp only [List.length_cons, List.length_nil]; omega

theorem fullSet_closed (p : Protocol) : SetClosed p FullSet where
  new := by simp [FullSet, CacheSet.new]
  setState := fun s tag st _ hs => by
    unfold FullSet at *; rw [CacheSet.length_setState]; exact hs
  moveToMRU := fun s tag hs => by
    unfold FullSet at *; rw [CacheSet.length_moveToMRU]; exact hs
  insert := fun s tag st _ _ hs => by
    unfold FullSet at *
    rw [CacheSet.length_insertCacheBlock _ _ (by intro h0; rw [h0] at hs; exact absurd hs (by decide))]
    exact hs

theorem invalidAtLRU_closed (p : Protocol) : SetClosed p InvalidAtLRU where
  new := by
    simp [InvalidAtLRU, CacheSet.new, List.pairwise_replicate, CacheBlock.new]
  setState := fun s tag st _ hs => by
    unfold InvalidAtLRU at *
    by_cases hst : st = CacheBlockState.Invalid
    · subst hst
      rw [CacheSet.setState_invalid_blocks, List.pairwise_append]
      refine ⟨?_, hs.filter _, ?_⟩
      · rw [List.pairwise_reverse, List.pairwise_map]
        exact List.Pairwise.imp (fun _ => by simp) (hs.filter _)
      · intro x hx y _
        simp only [List.mem_reverse, List.mem_map] at hx
        obtain ⟨x0, -, rfl⟩ := hx
        simp
    · rw [CacheSet.setState_valid_blocks s tag hst, List.pairwise_map]
      refine List.Pairwise.imp ?_ hs
      intro x y hxy
      by_cases hx : x.hit tag = true <;> by_cases hy : y.hit tag = true
      · simp [hx, hy, hst]
      · simp only [hx, hy, if_true]
        intro h'; exact hxy ⟨CacheBlock.state_ne_of_hit hx, by simpa using h'.2⟩
      · simp [hx, hy, hst]
      · simpa [hx, hy] using hxy
  moveToMRU := fun s tag hs => by
    unfold InvalidAtLRU at *
    rcases s.moveToMRU_blocks tag with h | ⟨pre, cb, post, h1, h2, h3⟩
    · rw [h]; exact hs
    · rw [h2, List.pairwise_append]
      refine ⟨hs.sublist (by rw [h1]; simp), List.pairwise_singleton _ _, ?_⟩
      intro x _ y hy
      rw [List.mem_singleton.mp hy]
      exact fun h' => CacheBlock.state_ne_of_hit h3 h'.2
  insert := fun s tag st _ hv hs => by
    unfold InvalidAtLRU at *
    rw [CacheSet.insertCacheBlock_blocks, List.pairwise_append]
    refine ⟨hs.sublist (List.tail_sublist _), List.pairwise_singleton _ _, ?_⟩
    intro x _ y hy
    rw [List.mem_singleton.mp hy]
    exact fun h' => hv h'.2

theorem statesAdmitted_closed (p : Protocol) : SetClosed p (StatesAdmitted p) where
  new := by
    intro blk hblk
    simp only [CacheSet.new] at hblk
    rw [List.eq_of_mem_replicate hblk]
    cases p <;> rfl
  setState := fun s tag st hadm hs => by
    unfold StatesAdmitted at *
    by_cases hst : st = CacheBlockState.Invalid
    · subst hst
      rw [CacheSet.setState_invalid_blocks]
      intro blk hblk
      rcases List.mem_append.mp hblk with hblk | hblk
      · simp only [List.mem_reverse, List.mem_map] at hblk
        obtain ⟨x0, -, rfl⟩ := hblk
        exact hadm
      · exact hs _ (List.mem_filter.mp hblk).1
    · rw [CacheSet.setState_valid_blocks s tag hst]
      intro blk hblk
      obtain ⟨x0, hx0, rfl⟩ := List.mem_map.mp hblk
      split
      · exact hadm
      · exact hs _ hx0
  moveToMRU := fun s tag hs => by
    unfold StatesAdmitted at *
    rcases s.moveToMRU_blocks tag with h | ⟨pre, cb, post, h1, h2, -⟩
    · rw [h]; exact hs
    · rw [h2]
      intro blk hblk
      apply hs
      rw [h1]
      simp only [List.mem_append, List.mem_singleton, List.mem_cons] at hblk ⊢
      tauto
  insert := fun s tag st hadm _ hs => by
    unfold StatesAdmitted at *
    rw [CacheSet.insertCacheBlock_blocks]
    intro blk hblk
    rcases List.mem_append.mp hblk with hblk | hblk
    · exact hs _ (List.mem_of_mem_tail hblk)
    · rw [List.mem_singleton.mp hblk]; exact hadm

/-! ## Frame facts: what the cache mutators leave alone -/

@[simp] theorem Cache.setState_num_reads (c : Cache) (b : Nat) (st : CacheBlockState) :
    (c.setState b st).num_reads = c.num_reads := by
  unfold Cache.setState; dsimp only; split <;> rfl

@[simp] theorem Cache.setState_num_read_misses (c : Cache) (b : Nat) (st : CacheBlockState) :
    (c.setState b st).num_read_misses = c.num_read_misses := by
  unfold Cache.setState; dsimp only; split <;> rfl

@[simp] theorem Cache.setState_num_writes (c : Cache) (b : Nat) (st : CacheBlockState) :
    (c.setState b st).num_writes = c.num_writes := by
  unfold Cache.setState; dsimp only; split <;> rfl

@[simp] theorem Cache.setState_num_write_misses (c : Cache) (b : Nat) (st : CacheBlockState) :
    (c.setState b st).num_write_misses = c.num_write_misses := by
  unfold Cache.setState; dsimp only; split <;> rfl

@[simp] theorem Cache.setState_num_writebacks (c : Cache) (b : Nat) (st : CacheBlockState) :
    (c.setState b st).num_writebacks = c.num_writebacks := by
  unfold Cache.setState; dsimp only; split <;> rfl

@[simp] theorem Cache.setState_num_invalidations (c : Cache) (b : Nat) (st : CacheBlockState) :
    (c.setState b st).num_invalidations = c.num_invalidations := by
  unfold Cache.setState; dsimp only; split <;> rfl

@[simp] theorem Cache.setState_num_provided (c : Cache) (b : Nat) (st : CacheBlockState) :
    (c.setState b st).num_provided = c.num_provided := by
  unfold Cache.setState; dsimp only; split <;> rfl

@[simp] theorem Cache.setState_num_fromLLC (c : Cache) (b : Nat) (st : CacheBlockState) :
    (c.setState b st).num_fromLLC = c.num_fromLLC := by
  unfold Cache.setState; dsimp only; split <;> rfl

@[simp] theorem Cache.setState_num_random (c : Cache) (b : Nat) (st : CacheBlockState) :
    (c.setState b st).num_random = c.num_random := by
  unfold Cache.setState; dsimp only; split <;> rfl

@[simp] theorem Cache.moveToMRU_id (c : Cache) (b : Nat) :
    (c.moveToMRU b).id = c.id := by
  unfold Cache.moveToMRU; dsimp only; split <;> rfl

@[simp] theorem Cache.moveToMRU_protocol (c : Cache) (b : Nat) :
    (c.moveToMRU b).protocol = c.protocol := by
  unfold Cache.moveToMRU; dsimp only; split <;> rfl

@[simp] theorem Cache.moveToMRU_num_reads (c : Cache) (b : Nat) :
    (c.moveToMRU b).num_reads = c.num_reads := by
  unfold Cache.moveToMRU; dsimp only; split <;> rfl

@[simp] theorem Cache.moveToMRU_num_read_misses (c : Cache) (b : Nat) :
    (c.moveToMRU b).num_read_misses = c.num_read_misses := by
  unfold Cache.moveToMRU; dsimp only; split <;> rfl

@[simp] theorem Cache.moveToMRU_num_writes (c : Cache) (b : Nat) :
    (c.moveToMRU b).num_writes = c.num_writes := by
  unfold Cache.moveToMRU; dsimp only; split <;> rfl

@[simp] theorem Cache.moveToMRU_num_write_misses (c : Cache) (b : Nat) :
    (c.moveToMRU b).num_write_misses = c.num_write_misses := by
  unfold Cache.moveToMRU; dsimp only; split <;> rfl

@[simp] theorem Cache.moveToMRU_num_writebacks (c : Cache) (b : Nat) :
    (c.moveToMRU b).num_writebacks = c.num_writebacks := by
  unfold Cache.moveToMRU; dsimp only; split <;> rfl

@[simp] theorem Cache.moveToMRU_num_invalidations (c : Cache) (b : Nat) :
    (c.moveToMRU b).num_invalidations = c.num_invalidations := by
  unfold Cache.moveToMRU; dsimp only; split <;> rfl

@[simp] theorem Cache.moveToMRU_num_provided (c : Cache) (b : Nat) :
    (c.moveToMRU b).num_provided = c.num_provided := by
  unfold Cache.moveToMRU; dsimp only; split <;> rfl

@[simp] theorem Cache.moveToMRU_num_fromLLC (c : Cache) (b : Nat) :
    (c.moveToMRU b).num_fromLLC = c.num_fromLLC := by
  unfold Cache.moveToMRU; dsimp only; split <;> rfl

@[simp] theorem Cache.moveToMRU_num_random (c : Cache) (b : Nat) :
    (c.moveToMRU b).num_random = c.num_random := by
  unfold Cache.moveToMRU; dsimp only; split <;> rfl

@[simp] theorem Cache.insertCacheBlock_id (c : Cache) (b : Nat) (st : CacheBlockState) :
    (c.insertCacheBlock b st).2.id = c.id := by
  unfold Cache.insertCacheBlock; dsimp only; split <;> rfl

@[simp] theorem Cache.insertCacheBlock_protocol (c : Cache) (b : Nat) (st : CacheBlockState) :
    (c.insertCacheBlock b st).2.protocol = c.protocol := by
  unfold Cache.insertCacheBlock; dsimp only; split <;> rfl

@[simp] theorem Cache.insertCacheBlock_num_reads (c : Cache) (b : Nat) (st : CacheBlockState) :
    (c.insertCacheBlock b st).2.num_reads = c.num_reads := by
  unfold Cache.insertCacheBlock; dsimp only; split <;> rfl

@[simp] theorem Cache.insertCacheBlock_num_read_misses (c : Cache) (b : Nat) (st : CacheBlockState) :
    (c.insertCacheBlock b st).2.num_read_misses = c.num_read_misses := by
  unfold Cache.insertCacheBlock; dsimp only; split <;> rfl

@[simp] theorem Cache.insertCacheBlock_num_writes (c : Cache) (b : Nat) (st : CacheBlockState) :
    (c.insertCacheBlock b st).2.num_writes = c.num_writes := by
  unfold Cache.insertCacheBlock; dsimp only; split <;> rfl

@[simp] theorem Cache.insertCacheBlock_num_write_misses (c : Cache) (b : Nat) (st : CacheBlockState) :
    (c.insertCacheBlock b st).2.num_write_misses = c.num_write_misses := by
  unfold Cache.insertCacheBlock; dsimp only; split <;> rfl

@[simp] theorem Cache.insertCacheBlock_num_writebacks (c : Cache) (b : Nat) (st : CacheBlockState) :
    (c.insertCacheBlock b st).2.num_writebacks = c.num_writebacks := by
  unfold Cache.insertCacheBlock; dsimp only; split <;> rfl

@[simp] theorem Cache.insertCacheBlock_num_invalidations (c : Cache) (b : Nat) (st : CacheBlockState) :
    (c.insertCacheBlock b st).2.num_invalidations = c.num_invalidations := by
  unfold Cache.insertCacheBlock; dsimp only; split <;> rfl

@[simp] theorem Cache.insertCacheBlock_num_provided (c : Cache) (b : Nat) (st : CacheBlockState) :
    (c.insertCacheBlock b st).2.num_provided = c.num_provided := by
  unfold Cache.insertCacheBlock; dsimp only; split <;> rfl

@[simp] theorem Cache.insertCacheBlock_num_fromLLC (c : Cache) (b : Nat) (st : CacheBlockState) :
    (c.insertCacheBlock b st).2.num_fromLLC = c.num_fromLLC := by
  unfold Cache.insertCacheBlock; dsimp only; split <;> rfl

@[simp] theorem Cache.insertCacheBlock_num_random (c : Cache) (b : Nat) (st : CacheBlockState) :
    (c.insertCacheBlock b st).2.num_random = c.num_random := by
  unfold Cache.insertCacheBlock; dsimp only; split <;> rfl
/-! ## Lookup after a mutation -/

theorem getStateLoop_eq_invalid_iff (t : Nat) (l : List CacheBlock) :
    getStateLoop t l = CacheBlockState.Invalid ↔ ∀ x ∈ l, x.hit t = false := by
  induction l with
  | nil => simp [getStateLoop]
  | cons x rest ih =>
    unfold getStateLoop
    by_cases hx : x.hit t = true
    · simp only [hx, if_true, List.mem_cons, forall_eq_or_imp]
      constructor
      · intro h; exact absurd h (CacheBlock.state_ne_of_hit hx)
      · intro h; simp [hx] at h
    · simp only [hx, List.mem_cons, forall_eq_or_imp]
      simp only [Bool.not_eq_true] at hx
      simp [hx, ih]

theorem getStateLoop_append_of_no_hit (t : Nat) (l₁ l₂ : List CacheBlock)
    (h : ∀ x ∈ l₁, x.hit t = false) :
    getStateLoop t (l₁ ++ l₂) = getStateLoop t l₂ := by
  induction l₁ with
  | nil => rfl
  | cons x rest ih =>
    have hx : x.hit t = false := h x (List.mem_cons_self _ _)
    simp only [List.cons_append, getStateLoop, hx]
    exact ih (fun y hy => h y (List.mem_cons_of_mem _ hy))

theorem getStateLoop_append_of_hit (t : Nat) (l₁ l₂ : List CacheBlock)
    (h : getStateLoop t l₁ ≠ CacheBlockState.Invalid) :
    getStateLoop t (l₁ ++ l₂) = getStateLoop t l₁ := by
  induction l₁ with
  | nil => exact absurd rfl h
  | cons x rest ih =>
    simp only [List.cons_append, getStateLoop] at h ⊢
    split
    · rfl
    · next hx => simp only [hx] at h; exact ih h

theorem getStateLoop_filter_other (t t' : Nat) (l : List CacheBlock) (hne : t' ≠ t) :
    getStateLoop t' (l.filter (fun cb => !cb.hit t)) = getStateLoop t' l := by
  induction l with
  | nil => rfl
  | cons x rest ih =>
    by_cases hx : x.hit t = true
    · have hx' : x.hit t' = false := by
        simp only [CacheBlock.hit, Bool.and_eq_true, decide_eq_true_eq] at hx
        simp [CacheBlock.hit, hx.2, Ne.symm hne]
      simp [List.filter, hx, getStateLoop, hx', ih]
    · simp only [Bool.not_eq_true] at hx
      simp [List.filter, hx, getStateLoop, ih]

theorem getStateLoop_map_other (t t' : Nat) (st : CacheBlockState) (l : List CacheBlock)
    (hne : t' ≠ t) :
    getStateLoop t' (l.map (fun cb => if cb.hit t then { cb with state := st } else cb))
      = getStateLoop t' l := by
  induction l with
  | nil => rfl
  | cons x rest ih =>
    by_cases hx : x.hit t = true
    · have hx' : x.hit t' = false := by
        simp only [CacheBlock.hit, Bool.and_eq_true, decide_eq_true_eq] at hx
        simp [CacheBlock.hit, hx.2, Ne.symm hne]
      have hx'' : CacheBlock.hit t' { x with state := st } = false := by
        simp only [CacheBlock.hit, Bool.and_eq_true, decide_eq_true_eq] at hx
        simp [CacheBlock.hit, hx.2, Ne.symm hne]
      simp [getStateLoop, hx, hx', hx'', ih]
    · simp only [Bool.not_eq_true] at hx
      simp [getStateLoop, hx, ih]

theorem getStateLoop_map_self (t : Nat) (st : CacheBlockState) (l : List CacheBlock)
    (hst : st ≠ CacheBlockState.Invalid) :
    getStateLoop t (l.map (fun cb => if cb.hit t then { cb with state := st } else cb))
      = if getStateLoop t l = CacheBlockState.Invalid then CacheBlockState.Invalid else st := by
  induction l with
  | nil => simp [getStateLoop]
  | cons x rest ih =>
    by_cases hx : x.hit t = true
    · have hx' : CacheBlock.hit t { x with state := st } = true := by
        simp only [CacheBlock.hit, Bool.and_eq_true, decide_eq_true_eq] at hx
        simp [CacheBlock.hit, hx.2, hst]
      simp [getStateLoop, hx, hx', CacheBlock.state_ne_of_hit hx]
    · simp only [Bool.not_eq_true] at hx
      simp [getStateLoop, hx, ih]

/-- After `setState(tag, st)` the set reports `st` for the tag if it held the
tag before, and `Invalid` otherwise. -/
theorem CacheSet.getState_of_setState_same (s : CacheSet) (t : Nat) (st : CacheBlockState) :
    (s.setState t st).getState t
      = if s.getState t = CacheBlockState.Invalid then CacheBlockState.Invalid else st := by
  unfold CacheSet.getState
  by_cases hst : st = CacheBlockState.Invalid
  · subst hst
    rw [CacheSet.setState_invalid_blocks, ite_self, getStateLoop_eq_invalid_iff]
    intro x hx
    rcases List.mem_append.mp hx with hx | hx
    · simp only [List.mem_reverse, List.mem_map] at hx
      obtain ⟨y, -, rfl⟩ := hx
      simp [CacheBlock.hit]
    · simpa using (List.mem_filter.mp hx).2
  · rw [CacheSet.setState_valid_blocks s t hst, getStateLoop_map_self t st _ hst]

/-- The method `setState(tag, st)` does not change what the set reports for
another tag. -/
theorem CacheSet.getState_of_setState_other_tag (s : CacheSet) (t t' : Nat) (st : CacheBlockState)
    (hne : t' ≠ t) : (s.setState t st).getState t' = s.getState t' := by
  unfold CacheSet.getState
  by_cases hst : st = CacheBlockState.Invalid
  · subst hst
    rw [CacheSet.setState_invalid_blocks, getStateLoop_append_of_no_hit,
      getStateLoop_filter_other t t' _ hne]
    intro x hx
    simp only [List.mem_reverse, List.mem_map] at hx
    obtain ⟨y, -, rfl⟩ := hx
    simp [CacheBlock.hit]
  · rw [CacheSet.setState_valid_blocks s t hst, getStateLoop_map_other t t' st _ hne]
theorem Cache.getState_setState_self (c : Cache) (b : Nat) (st : CacheBlockState) :
    (c.setState b st).getState b
      = if c.getState b = CacheBlockState.Invalid then CacheBlockState.Invalid else st := by
  unfold Cache.setState Cache.getState
  dsimp only
  cases h : c.sets[setIndex b]? with
  | none => simp [h]
  | some s =>
    simp only [List.getElem?_set_self', h, Option.map_some', Function.const]
    exact CacheSet.getState_of_setState_same s _ st

theorem Cache.getState_setState_other (c : Cache) (b v : Nat) (st : CacheBlockState)
    (hne : setIndex v ≠ setIndex b ∨ tagOf v ≠ tagOf b) :
    (c.setState b st).getState v = c.getState v := by
  unfold Cache.setState Cache.getState
  dsimp only
  cases h : c.sets[setIndex b]? with
  | none => rfl
  | some s =>
    by_cases hset : setIndex v = setIndex b
    · have htag : tagOf v ≠ tagOf b := by
        rcases hne with hne | hne
        · exact absurd hset hne
        · exact hne
      simp only [hset, List.getElem?_set_self', h, Option.map_some', Function.const]
      exact CacheSet.getState_of_setState_other_tag s _ _ st htag
    · simp only [List.getElem?_set_ne (Ne.symm hset)]

/-- A snoop on a block the cache does not hold changes neither the cache nor
the bus. -/
theorem Cache.handleBusRequest_invalid (c : Cache) (bus : Bus) (req : BusRequest) (b : Nat)
    (h : c.getState b = CacheBlockState.Invalid) :
    c.handleBusRequest bus req b = (c, bus) := by
  cases req <;> cases hp : c.protocol <;>
    simp only [Cache.handleBusRequest, hp, h, reduceCtorEq, if_false]

/-- The bus after a snoop reaction: the four request counters that no
reaction touches, and each response line as the OR of its old value and the
response of the cache (its reaction to the same request on fresh lines). -/
theorem Cache.handleBusRequest_bus (c : Cache) (bus : Bus) (req : BusRequest) (b : Nat) :
    (c.handleBusRequest bus req b).2.num_busrd = bus.num_busrd
    ∧ (c.handleBusRequest bus req b).2.num_busrdx = bus.num_busrdx
    ∧ (c.handleBusRequest bus req b).2.num_busupgr = bus.num_busupgr
    ∧ (c.handleBusRequest bus req b).2.num_setF = bus.num_setF
    ∧ (c.handleBusRequest bus req b).2.shared_line
        = (bus.shared_line || (c.handleBusRequest Bus.new req b).2.shared_line)
    ∧ (c.handleBusRequest bus req b).2.supplied
        = (bus.supplied || (c.handleBusRequest Bus.new req b).2.supplied) := by
  cases req <;> cases hp : c.protocol <;> cases hs : c.getState b <;>
    simp only [Cache.handleBusRequest, hp, hs, reduceCtorEq, if_true, if_false] <;>
    cases hsup : bus.supplied <;>
    simp [Bus.getSupplied, Bus.setSupplied, Bus.setSharedLine, Bus.sendFlush,
      Bus.countRequest, Bus.new, hsup]

@[simp] theorem Cache.getState_mk_sets (c : Cache) (i : Nat) (p : Protocol)
    (n1 n2 n3 n4 n5 n6 n7 n8 n9 : Nat) (b : Nat) :
    (Cache.mk i p c.sets n1 n2 n3 n4 n5 n6 n7 n8 n9).getState b = c.getState b := rfl

/-- The bus after the snoop loop: the four request counters are untouched and
each line is the OR of its value before the loop and the responses of the
caches other than the sender. -/
theorem snoopLoop_bus (req : BusRequest) (b s : Nat) :
    ∀ (l : List Cache) (bus : Bus),
      (snoopLoop req b s l bus).2.num_busrd = bus.num_busrd
      ∧ (snoopLoop req b s l bus).2.num_busrdx = bus.num_busrdx
      ∧ (snoopLoop req b s l bus).2.num_busupgr = bus.num_busupgr
      ∧ (snoopLoop req b s l bus).2.num_setF = bus.num_setF
      ∧ (snoopLoop req b s l bus).2.shared_line
          = (bus.shared_line || l.any (fun c => decide (c.id ≠ s) && c.sharedResponse req b))
      ∧ (snoopLoop req b s l bus).2.supplied
          = (bus.supplied || l.any (fun c => decide (c.id ≠ s) && c.suppliedResponse req b)) := by
  intro l
  induction l with
  | nil => intro bus; simp [snoopLoop]
  | cons c rest ih =>
    intro bus
    unfold snoopLoop
    by_cases hc : c.id = s
    · simp only [hc, ne_eq, not_true_eq_false, if_false, List.any_cons, decide_False,
        Bool.false_and, Bool.false_or]
      exact ih bus
    · obtain ⟨h1, h2, h3, h4, h5, h6⟩ := Cache.handleBusRequest_bus c bus req b
      obtain ⟨g1, g2, g3, g4, g5, g6⟩ := ih (c.handleBusRequest bus req b).2
      simp only [ne_eq, hc, not_false_eq_true, if_true, List.any_cons, decide_True,
        Bool.true_and]
      refine ⟨g1.trans h1, g2.trans h2, g3.trans h3, g4.trans h4, ?_, ?_⟩
      · rw [g5, h5, Cache.sharedResponse, Bool.or_assoc]
      · rw [g6, h6, Cache.suppliedResponse, Bool.or_assoc]

/-- After a broadcast (any request but `Flush` and `Flush_prime`) each line
is the OR of the responses of the caches other than the sender. -/
theorem sendMessage_lines (sys : System) (req : BusRequest) (b s : Nat)
    (h1 : req ≠ BusRequest.Flush) (h2 : req ≠ BusRequest.Flush_prime) :
    (sys.sendMessage req b s).bus.shared_line
        = sys.caches.any (fun c => decide (c.id ≠ s) && c.sharedResponse req b)
    ∧ (sys.sendMessage req b s).bus.supplied
        = sys.caches.any (fun c => decide (c.id ≠ s) && c.suppliedResponse req b) := by
  unfold System.sendMessage
  simp only [h1, h2, or_self, if_false]
  obtain ⟨-, -, -, -, h5, h6⟩ := snoopLoop_bus req b s sys.caches
    { sys.bus.countRequest req with shared_line := false, supplied := false }
  exact ⟨by rw [h5, Bool.false_or], by rw [h6, Bool.false_or]⟩
theorem snoopLoop_length (req : BusRequest) (b s : Nat) :
    ∀ (l : List Cache) (bus : Bus), (snoopLoop req b s l bus).1.length = l.length := by
  intro l
  induction l with
  | nil => intro bus; rfl
  | cons c rest ih =>
    intro bus
    unfold snoopLoop
    split <;> simp [ih]

/-- The snoop loop, cache by cache: a cache with the sender's id is left as it
is, any other cache is replaced by its reaction to some bus state. -/
theorem snoopLoop_getElem? (req : BusRequest) (b s : Nat) :
    ∀ (l : List Cache) (bus : Bus) (i : Nat) (x : Cache), l[i]? = some x →
      (x.id = s → (snoopLoop req b s l bus).1[i]? = some x)
      ∧ (x.id ≠ s → ∃ bus', (snoopLoop req b s l bus).1[i]?
            = some (x.handleBusRequest bus' req b).1) := by
  intro l
  induction l with
  | nil => intro bus i x h; simp at h
  | cons c rest ih =>
    intro bus i x h
    unfold snoopLoop
    cases i with
    | zero =>
      simp only [List.getElem?_cons_zero, Option.some.injEq] at h
      subst h
      constructor
      · intro hid; simp [hid]
      · intro hid; exact ⟨bus, by simp [hid]⟩
    | succ j =>
      simp only [List.getElem?_cons_succ] at h
      split
      · exact ⟨fun hid => by simpa using (ih _ j x h).1 hid,
          fun hid => by simpa using (ih _ j x h).2 hid⟩
      · exact ⟨fun hid => by simpa using (ih _ j x h).1 hid,
          fun hid => by simpa using (ih _ j x h).2 hid⟩

theorem foldl_snoopAt (req : BusRequest) (b s : Nat) :
    ∀ (l pre : List Cache) (bus : Bus),
      (∀ (i : Nat) (c : Cache), l[i]? = some c → c.id = pre.length + i) →
      (List.range' pre.length l.length).foldl
          (fun (st : System) (i : Nat) => if i ≠ s then st.snoopAt i req b else st)
          ({ caches := pre ++ l, bus := bus } : System)
        = ({ caches := pre ++ (snoopLoop req b s l bus).1,
             bus := (snoopLoop req b s l bus).2 } : System) := by
  intro l
  induction l with
  | nil => intro pre bus _; simp [snoopLoop]
  | cons x xs ih =>
    intro pre bus hid
    have hx : x.id = pre.length := by simpa using hid 0 x (by simp)
    have hxs : ∀ (y : Cache) (i : Nat) (c : Cache), xs[i]? = some c →
        c.id = (pre ++ [y]).length + i := by
      intro y i c hc
      have := hid (i + 1) c (by simpa using hc)
      simp only [List.length_append, List.length_cons, List.length_nil]
      omega
    simp only [List.length_cons, List.range'_succ, List.foldl_cons]
    unfold snoopLoop
    by_cases hs : pre.length = s
    · have hxs' : x.id = s := hx.trans hs
      simp only [hs, ne_eq, not_true_eq_false, if_false, hxs']
      have := ih (pre ++ [x]) bus (hxs x)
      simp only [List.length_append, List.length_cons, List.length_nil, zero_add,
        List.append_assoc, List.singleton_append, hs] at this
      exact this
    · have hxs' : x.id ≠ s := fun h => hs (hx.symm.trans h)
      simp only [ne_eq, hs, not_false_eq_true, if_true, hxs']
      have hget : (pre ++ x :: xs)[pre.length]? = some x := by
        rw [List.getElem?_append_right (Nat.le_refl _)]; simp
      have hset : ∀ y : Cache, (pre ++ x :: xs).set pre.length y = pre ++ y :: xs := by
        intro y; simp [List.set_append]
      simp only [System.snoopAt, hget, hset]
      have := ih (pre ++ [(x.handleBusRequest bus req b).1]) (x.handleBusRequest bus req b).2
        (hxs _)
      simp only [List.length_append, List.length_cons, List.length_nil, zero_add,
        List.append_assoc, List.singleton_append] at this
      exact this
theorem Bus.counter_countRequest (bus : Bus) (req r : BusRequest) :
    (bus.countRequest req).counter r = bus.counter r + (if r = req then 1 else 0) := by
  cases req <;> cases r <;> simp [Bus.countRequest, Bus.counter]

theorem Cache.sharedResponse_BusRd (c : Cache) (b : Nat) :
    c.sharedResponse BusRequest.BusRd b = raisesSharedLine c.protocol (c.getState b) := by
  unfold Cache.sharedResponse
  cases hp : c.protocol <;> cases hs : c.getState b <;>
    simp [Cache.handleBusRequest, hp, hs, raisesSharedLine, Bus.getSupplied, Bus.setSupplied,
      Bus.setSharedLine, Bus.sendFlush, Bus.countRequest, Bus.new]

/-- The shared line after a BusRd broadcast, for any system state: it is
raised exactly when a cache other than the requester holds the block in a
state in which its protocol raises the line. -/
theorem shared_line_after_BusRd (sys : System) (b r : Nat) :
    (sys.sendMessage BusRequest.BusRd b r).bus.shared_line = true
      ↔ ∃ c ∈ sys.caches, c.id ≠ r ∧ raisesSharedLine c.protocol (c.getState b) = true := by
  rw [(sendMessage_lines sys BusRequest.BusRd b r (by simp) (by simp)).1,
    List.any_eq_true]
  simp only [Bool.and_eq_true, decide_eq_true_eq, Cache.sharedResponse_BusRd]

/-! ## Broadcasts with few holders -/

theorem snoopLoop_quiet (req : BusRequest) (b s : Nat) :
    ∀ (l : List Cache) (bus : Bus),
      (∀ x ∈ l, x.id ≠ s → x.getState b = CacheBlockState.Invalid) →
      snoopLoop req b s l bus = (l, bus) := by
  intro l
  induction l with
  | nil => intro bus _; rfl
  | cons c rest ih =>
    intro bus h
    have hrest := ih bus (fun x hx => h x (List.mem_cons_of_mem _ hx))
    unfold snoopLoop
    split
    · next hne =>
      rw [Cache.handleBusRequest_invalid c bus req b (h c (List.mem_cons_self _ _) hne)]
      simp [hrest]
    · simp [hrest]

/-- A broadcast that finds exactly one holder: only the cache at position
`k` may hold the block among the caches other than the sender. -/
theorem snoopLoop_one (req : BusRequest) (b s : Nat) :
    ∀ (l : List Cache) (bus : Bus) (k : Nat) (x : Cache), l[k]? = some x → x.id ≠ s →
      (∀ (i : Nat) (y : Cache), l[i]? = some y → i ≠ k → y.id ≠ s →
        y.getState b = CacheBlockState.Invalid) →
      snoopLoop req b s l bus
        = (l.set k (x.handleBusRequest bus req b).1, (x.handleBusRequest bus req b).2) := by
  intro l
  induction l with
  | nil => intro bus k x h; simp at h
  | cons c rest ih =>
    intro bus k x hk hx hq
    unfold snoopLoop
    cases k with
    | zero =>
      simp only [List.getElem?_cons_zero, Option.some.injEq] at hk
      subst hk
      have hrest : ∀ bus', snoopLoop req b s rest bus' = (rest, bus') := fun bus' =>
        snoopLoop_quiet req b s rest bus' (fun y hy hne => by
          obtain ⟨i, hi⟩ := List.mem_iff_getElem?.mp hy
          exact hq (i + 1) y (by simpa using hi) (by omega) hne)
      simp [hx, hrest]
    | succ j =>
      simp only [List.getElem?_cons_succ] at hk
      have hq' : ∀ (i : Nat) (y : Cache), rest[i]? = some y → i ≠ j → y.id ≠ s →
          y.getState b = CacheBlockState.Invalid := fun i y hi hij hne =>
        hq (i + 1) y (by simpa using hi) (by omega) hne
      split
      · next hne =>
        rw [Cache.handleBusRequest_invalid c bus req b (hq 0 c (by simp) (by omega) hne)]
        simp [ih bus j x hk hx hq']
      · simp [ih bus j x hk hx hq']

/-- A broadcast that finds two holders, at positions `k₁ < k₂`. -/
theorem snoopLoop_two (req : BusRequest) (b s : Nat) :
    ∀ (l : List Cache) (bus : Bus) (k₁ k₂ : Nat) (x₁ x₂ : Cache), k₁ < k₂ →
      l[k₁]? = some x₁ → l[k₂]? = some x₂ → x₁.id ≠ s → x₂.id ≠ s →
      (∀ (i : Nat) (y : Cache), l[i]? = some y → i ≠ k₁ → i ≠ k₂ → y.id ≠ s →
        y.getState b = CacheBlockState.Invalid) →
      snoopLoop req b s l bus
        = ((l.set k₁ (x₁.handleBusRequest bus req b).1).set k₂
              (x₂.handleBusRequest (x₁.handleBusRequest bus req b).2 req b).1,
            (x₂.handleBusRequest (x₁.handleBusRequest bus req b).2 req b).2) := by
  intro l
  induction l with
  | nil => intro bus k₁ k₂ x₁ x₂ _ h; simp at h
  | cons c rest ih =>
    intro bus k₁ k₂ x₁ x₂ hlt h1 h2 hx1 hx2 hq
    cases k₂ with
    | zero => omega
    | succ j₂ =>
      simp only [List.getElem?_cons_succ] at h2
      cases k₁ with
      | zero =>
        simp only [List.getElem?_cons_zero, Option.some.injEq] at h1
        subst h1
        have hrest := snoopLoop_one req b s rest (c.handleBusRequest bus req b).2 j₂ x₂ h2 hx2
          (fun i y hi hij hne => hq (i + 1) y (by simpa using hi) (by omega) (by omega) hne)
        unfold snoopLoop
        simp [hx1, hrest]
      | succ j₁ =>
        simp only [List.getElem?_cons_succ] at h1
        have hrest := ih bus j₁ j₂ x₁ x₂ (by omega) h1 h2 hx1 hx2
          (fun i y hi hi1 hi2 hne => hq (i + 1) y (by simpa using hi) (by omega) (by omega) hne)
        unfold snoopLoop
        split
        · next hne =>
          rw [Cache.handleBusRequest_invalid c bus req b
            (hq 0 c (by simp) (by omega) (by omega) hne)]
          simp [hrest]
        · simp [hrest]
/-! ## Broadcasts on a system with few holders -/

theorem sendMessage_eq (sys : System) (req : BusRequest) (b s : Nat)
    (h1 : req ≠ BusRequest.Flush) (h2 : req ≠ BusRequest.Flush_prime) :
    sys.sendMessage req b s
      = { caches := (snoopLoop req b s sys.caches
            { sys.bus.countRequest req with shared_line := false, supplied := false }).1,
          bus := (snoopLoop req b s sys.caches
            { sys.bus.countRequest req with shared_line := false, supplied := false }).2 } := by
  unfold System.sendMessage
  simp only [h1, h2, or_self, if_false]

theorem sendMessage_quiet (sys : System) (req : BusRequest) (b s : Nat)
    (h1 : req ≠ BusRequest.Flush) (h2 : req ≠ BusRequest.Flush_prime)
    (hq : ∀ (i : Nat) (y : Cache), sys.caches[i]? = some y → y.id ≠ s →
      y.getState b = CacheBlockState.Invalid) :
    sys.sendMessage req b s
      = { caches := sys.caches,
          bus := { sys.bus.countRequest req with shared_line := false, supplied := false } } := by
  rw [sendMessage_eq sys req b s h1 h2, snoopLoop_quiet req b s sys.caches _ (fun y hy hne => by
    obtain ⟨i, hi⟩ := List.mem_iff_getElem?.mp hy
    exact hq i y hi hne)]

theorem sendMessage_one (sys : System) (req : BusRequest) (b s k : Nat) (x : Cache)
    (h1 : req ≠ BusRequest.Flush) (h2 : req ≠ BusRequest.Flush_prime)
    (hk : sys.caches[k]? = some x) (hx : x.id ≠ s)
    (hq : ∀ (i : Nat) (y : Cache), sys.caches[i]? = some y → i ≠ k → y.id ≠ s →
      y.getState b = CacheBlockState.Invalid) :
    sys.sendMessage req b s
      = { caches := sys.caches.set k (x.handleBusRequest
            { sys.bus.countRequest req with shared_line := false, supplied := false } req b).1,
          bus := (x.handleBusRequest
            { sys.bus.countRequest req with shared_line := false, supplied := false } req b).2 } := by
  rw [sendMessage_eq sys req b s h1 h2, snoopLoop_one req b s sys.caches _ k x hk hx hq]

theorem sendMessage_two (sys : System) (req : BusRequest) (b s k₁ k₂ : Nat) (x₁ x₂ : Cache)
    (h1 : req ≠ BusRequest.Flush) (h2 : req ≠ BusRequest.Flush_prime) (hlt : k₁ < k₂)
    (hk1 : sys.caches[k₁]? = some x₁) (hk2 : sys.caches[k₂]? = some x₂)
    (hx1 : x₁.id ≠ s) (hx2 : x₂.id ≠ s)
    (hq : ∀ (i : Nat) (y : Cache), sys.caches[i]? = some y → i ≠ k₁ → i ≠ k₂ → y.id ≠ s →
      y.getState b = CacheBlockState.Invalid) :
    sys.sendMessage req b s
      = { caches := (sys.caches.set k₁ (x₁.handleBusRequest
            { sys.bus.countRequest req with shared_line := false, supplied := false } req b).1).set
              k₂ (x₂.handleBusRequest (x₁.handleBusRequest
                { sys.bus.countRequest req with shared_line := false, supplied := false }
                  req b).2 req b).1,
          bus := (x₂.handleBusRequest (x₁.handleBusRequest
            { sys.bus.countRequest req with shared_line := false, supplied := false }
              req b).2 req b).2 } := by
  rw [sendMessage_eq sys req b s h1 h2,
    snoopLoop_two req b s sys.caches _ k₁ k₂ x₁ x₂ hlt hk1 hk2 hx1 hx2 hq]

theorem getElem?_set_cases {l : List Cache} {c i : Nat} {X y : Cache}
    (h : (l.set c X)[i]? = some y) : (i = c ∧ y = X) ∨ (i ≠ c ∧ l[i]? = some y) := by
  rw [List.getElem?_set] at h
  by_cases hci : c = i
  · subst hci
    simp only [if_true] at h
    split at h
    · exact Or.inl ⟨rfl, (Option.some.inj h).symm⟩
    · exact absurd h (by simp)
  · simp only [hci, if_false] at h
    exact Or.inr ⟨fun h' => hci h'.symm, h⟩

theorem setIndex_lt (b : Nat) : setIndex b < 4 := by
  unfold setIndex SET_BITS
  have : b &&& (1 <<< 2 - 1) = b % 4 := by
    have := Nat.and_pow_two_sub_one_eq_mod b 2
    simpa using this
  rw [this]; omega

theorem tagOf_lt (a : Nat) (ha : a < 2 ^ 39) : tagOf (a >>> CACHE_OFFSET_BITS) < 2 ^ 31 := by
  unfold tagOf SET_BITS CACHE_OFFSET_BITS
  rw [Nat.shiftRight_eq_div_pow, Nat.shiftRight_eq_div_pow]
  omega

theorem toUInt64_toInt32 (t : Nat) (ht : t < 2 ^ 31) : toUInt64 (toInt32 t) = t := by
  unfold toUInt64 toInt32
  have h1 : t % 2 ^ 32 = t := Nat.mod_eq_of_lt (by omega)
  rw [h1, if_pos ht]
  have h2 : ((t : Nat) : Int) % 2 ^ 64 = (t : Int) := by
    apply Int.emod_eq_of_lt <;> omega
  rw [h2]; simp

@[simp] theorem Cache.new_sets (i : Nat) (p : Protocol) : (Cache.new i p).sets = freshSets := rfl

@[simp] theorem freshSets_getElem? (b : Nat) : freshSets[setIndex b]? = some CacheSet.new := by
  have h := setIndex_lt b
  show (List.replicate 4 CacheSet.new)[setIndex b]? = some CacheSet.new
  rw [List.getElem?_eq_getElem (by simpa using h), List.getElem_replicate]

@[simp] theorem freshSets_length : freshSets.length = 4 := rfl

theorem Cache.getState_eq (c : Cache) (b : Nat) :
    c.getState b = (c.sets[setIndex b]?).elim CacheBlockState.Invalid
      (fun s => s.getState (tagOf b)) := by
  unfold Cache.getState; dsimp only; split <;> simp [*]

theorem Cache.setState_sets (c : Cache) (b : Nat) (st : CacheBlockState) :
    (c.setState b st).sets = (c.sets[setIndex b]?).elim c.sets
      (fun s => c.sets.set (setIndex b) (s.setState (tagOf b) st)) := by
  unfold Cache.setState; dsimp only; split <;> simp [*]

theorem Cache.moveToMRU_sets (c : Cache) (b : Nat) :
    (c.moveToMRU b).sets = (c.sets[setIndex b]?).elim c.sets
      (fun s => c.sets.set (setIndex b) (s.moveToMRU (tagOf b))) := by
  unfold Cache.moveToMRU; dsimp only; split <;> simp [*]

theorem Cache.insertCacheBlock_sets (c : Cache) (b : Nat) (st : CacheBlockState) :
    (c.insertCacheBlock b st).2.sets = (c.sets[setIndex b]?).elim c.sets
      (fun s => c.sets.set (setIndex b)
        (s.insertCacheBlock (CacheBlock.new (toInt32 (tagOf b)) st)).2) := by
  unfold Cache.insertCacheBlock; dsimp only; split <;> simp [*]

theorem Cache.insertCacheBlock_evicted (c : Cache) (b : Nat) (st : CacheBlockState) :
    (c.insertCacheBlock b st).1 = (c.sets[setIndex b]?).elim
      (CacheBlock.new 0 CacheBlockState.Invalid)
      (fun s => (s.insertCacheBlock (CacheBlock.new (toInt32 (tagOf b)) st)).1) := by
  unfold Cache.insertCacheBlock; dsimp only; split <;> simp [*]

theorem initialSystem_getElem? (p : Protocol) (i : Nat) (h : i < 16) :
    (initialSystem p).caches[i]? = some (Cache.new i p) := by
  simp [initialSystem, NUMBER_OF_CORES, List.getElem?_map, List.getElem?_range h]

theorem initialSystem_getElem?_some (p : Protocol) (i : Nat) (x : Cache)
    (h : (initialSystem p).caches[i]? = some x) : x = Cache.new i p := by
  have hi : i < 16 := by
    have := (List.getElem?_eq_some.mp h).1
    simpa [initialSystem, NUMBER_OF_CORES] using this
  rw [initialSystem_getElem? p i hi] at h
  exact (Option.some.inj h).symm

@[simp] theorem initialSystem_length (p : Protocol) : (initialSystem p).caches.length = 16 := by
  simp [initialSystem, NUMBER_OF_CORES]

theorem simulate_cons_read (sys : System) (c : Nat) (a : Nat) (rest : List Reference)
    (hc : c < 16) :
    simulate sys (⟨(c : Int), 'r', a⟩ :: rest)
      = simulate (sys.handleProcRequest c ProcRequest.ProcRd a) rest := by
  have h1 : ¬ ((c : Int) = -1) := by omega
  have h2 : ¬ ((c : Int) ≥ (NUMBER_OF_CORES : Int) ∨ (c : Int) < 0) := by
    simp only [NUMBER_OF_CORES]; omega
  rw [simulate]
  simp only [h1, h2, if_false, if_true, Int.toNat_ofNat]

theorem simulate_cons_write (sys : System) (c : Nat) (a : Nat) (rest : List Reference)
    (hc : c < 16) :
    simulate sys (⟨(c : Int), 'w', a⟩ :: rest)
      = simulate (sys.handleProcRequest c ProcRequest.ProcWr a) rest := by
  have h1 : ¬ ((c : Int) = -1) := by omega
  have h2 : ¬ ((c : Int) ≥ (NUMBER_OF_CORES : Int) ∨ (c : Int) < 0) := by
    simp only [NUMBER_OF_CORES]; omega
  have h3 : ¬ ('w' = 'r') := by decide
  rw [simulate]
  simp only [h1, h2, h3, if_false, if_true, Int.toNat_ofNat]
/-! ## Caches that hold one block -/

theorem Cache.new_eq (i : Nat) (p : Protocol) :
    Cache.new i p = Cache.mk i p freshSets 0 0 0 0 0 0 0 0 0 := rfl

@[simp] theorem oneBlock_getElem? (b : Nat) (st : CacheBlockState) :
    (oneBlock b st)[setIndex b]?
      = some ⟨[⟨0, CacheBlockState.Invalid⟩, ⟨0, CacheBlockState.Invalid⟩,
                ⟨0, CacheBlockState.Invalid⟩, ⟨tagOf b, st⟩]⟩ := by
  unfold oneBlock
  rw [List.getElem?_set_self (by simpa using setIndex_lt b)]

theorem freshSets_set_new (b : Nat) : freshSets.set (setIndex b) CacheSet.new = freshSets := by
  have h := setIndex_lt b
  generalize setIndex b = s at h
  interval_cases s <;> rfl

theorem Cache.getState_fresh (i : Nat) (p : Protocol) (n1 n2 n3 n4 n5 n6 n7 n8 n9 : Nat)
    (b : Nat) :
    (Cache.mk i p freshSets n1 n2 n3 n4 n5 n6 n7 n8 n9).getState b
      = CacheBlockState.Invalid := by
  rw [Cache.getState_eq]
  simp [CacheSet.getState, CacheSet.new, getStateLoop, CacheBlock.hit,
      CacheBlock.new, ASSOCIATIVITY, ASSOCIATIVITY_BITS]

theorem Cache.getState_oneBlock (i : Nat) (p : Protocol) (n1 n2 n3 n4 n5 n6 n7 n8 n9 : Nat)
    (b : Nat) (st : CacheBlockState) :
    (Cache.mk i p (oneBlock b st) n1 n2 n3 n4 n5 n6 n7 n8 n9).getState b = st := by
  rw [Cache.getState_eq]
  cases st <;> simp [CacheSet.getState, getStateLoop, CacheBlock.hit]

theorem Cache.insertCacheBlock_fresh (i : Nat) (p : Protocol)
    (n1 n2 n3 n4 n5 n6 n7 n8 n9 : Nat) (b : Nat) (st : CacheBlockState)
    (ht : toUInt64 (toInt32 (tagOf b)) = tagOf b) :
    (Cache.mk i p freshSets n1 n2 n3 n4 n5 n6 n7 n8 n9).insertCacheBlock b st
      = (⟨0, CacheBlockState.Invalid⟩,
         Cache.mk i p (oneBlock b st) n1 n2 n3 n4 n5 n6 n7 n8 n9) := by
  unfold Cache.insertCacheBlock
  simp only [freshSets_getElem?]
  have h0 : toUInt64 0 = 0 := by decide
  simp [CacheSet.insertCacheBlock, CacheSet.new, CacheBlock.new, ht, h0, oneBlock, ASSOCIATIVITY,
    ASSOCIATIVITY_BITS]

theorem Cache.setState_oneBlock (i : Nat) (p : Protocol) (n1 n2 n3 n4 n5 n6 n7 n8 n9 : Nat)
    (b : Nat) (st st' : CacheBlockState) (hst : st ≠ CacheBlockState.Invalid)
    (hst' : st' ≠ CacheBlockState.Invalid) :
    (Cache.mk i p (oneBlock b st) n1 n2 n3 n4 n5 n6 n7 n8 n9).setState b st'
      = Cache.mk i p (oneBlock b st') n1 n2 n3 n4 n5 n6 n7 n8 n9 := by
  unfold Cache.setState
  simp only [oneBlock_getElem?]
  simp [CacheSet.setState, CacheBlock.hit, hst, hst', oneBlock, List.set_set]

theorem Cache.setState_oneBlock_invalid (i : Nat) (p : Protocol)
    (n1 n2 n3 n4 n5 n6 n7 n8 n9 : Nat) (b : Nat) (st : CacheBlockState)
    (hst : st ≠ CacheBlockState.Invalid) :
    (Cache.mk i p (oneBlock b st) n1 n2 n3 n4 n5 n6 n7 n8 n9).setState b
        CacheBlockState.Invalid
      = Cache.mk i p freshSets n1 n2 n3 n4 n5 n6 n7 n8 n9 := by
  unfold Cache.setState
  simp only [oneBlock_getElem?]
  have := freshSets_set_new b
  simp [CacheSet.setState, CacheBlock.hit, hst, oneBlock, List.set_set, List.filter]
  exact this

theorem Cache.moveToMRU_oneBlock (i : Nat) (p : Protocol) (n1 n2 n3 n4 n5 n6 n7 n8 n9 : Nat)
    (b : Nat) (st : CacheBlockState) (hst : st ≠ CacheBlockState.Invalid) :
    (Cache.mk i p (oneBlock b st) n1 n2 n3 n4 n5 n6 n7 n8 n9).moveToMRU b
      = Cache.mk i p (oneBlock b st) n1 n2 n3 n4 n5 n6 n7 n8 n9 := by
  unfold Cache.moveToMRU
  simp only [oneBlock_getElem?]
  simp [CacheSet.moveToMRU, moveToMRULoop, CacheBlock.hit, hst, oneBlock, List.set_set]

theorem Cache.new_getState (i : Nat) (p : Protocol) (b : Nat) :
    (Cache.new i p).getState b = CacheBlockState.Invalid :=
  Cache.getState_fresh i p 0 0 0 0 0 0 0 0 0 b
theorem System.onCache_eq (sys : System) (c : Nat) (f : Cache → Cache) (x : Cache)
    (h : sys.caches[c]? = some x) :
    sys.onCache c f = { caches := sys.caches.set c (f x), bus := sys.bus } := by
  unfold System.onCache; rw [h]

theorem System.onCache_set (l : List Cache) (bus : Bus) (c : Nat) (f : Cache → Cache)
    (x : Cache) (h : c < l.length) :
    (System.mk (l.set c x) bus).onCache c f = System.mk (l.set c (f x)) bus := by
  rw [System.onCache_eq _ c f x (by simpa using List.getElem?_set_self h)]
  simp [List.set_set]

theorem System.insertCacheBlock_eq (sys : System) (c b : Nat) (st : CacheBlockState)
    (x : Cache) (h : sys.caches[c]? = some x) :
    sys.insertCacheBlock c b st
      = ((x.insertCacheBlock b st).1,
         { caches := sys.caches.set c (x.insertCacheBlock b st).2, bus := sys.bus }) := by
  unfold System.insertCacheBlock; rw [h]

theorem System.insertCacheBlock_set (l : List Cache) (bus : Bus) (c b : Nat)
    (st : CacheBlockState) (x : Cache) (h : c < l.length) :
    (System.mk (l.set c x) bus).insertCacheBlock c b st
      = ((x.insertCacheBlock b st).1, System.mk (l.set c (x.insertCacheBlock b st).2) bus) := by
  rw [System.insertCacheBlock_eq _ c b st x (by simpa using List.getElem?_set_self h)]
  simp [List.set_set]

theorem System.sendMessage_Flush_mk (l : List Cache) (bus : Bus) (b s : Nat) :
    (System.mk l bus).sendMessage BusRequest.Flush b s
      = System.mk l (bus.countRequest BusRequest.Flush) := by
  simp [System.sendMessage]

theorem proc_read_miss_MESI (sys : System) (c a : Nat) (self x : Cache) (S : System)
    (hself : sys.caches[c]? = some self) (hp : self.protocol = Protocol.MESI)
    (hst : self.getState (a >>> CACHE_OFFSET_BITS) = CacheBlockState.Invalid)
    (hS : (System.mk (sys.caches.set c { self with num_reads := self.num_reads + 1 })
            sys.bus).sendMessage BusRequest.BusRd (a >>> CACHE_OFFSET_BITS) self.id = S)
    (hx : S.caches[c]? = some x) :
    sys.handleProcRequest c ProcRequest.ProcRd a =
      (let b := a >>> CACHE_OFFSET_BITS
       let ins := x.insertCacheBlock b CacheBlockState.Shared
       let x1 := if S.bus.shared_line = false then ins.2.setState b CacheBlockState.Exclusive
                 else ins.2
       let x2 := if S.bus.supplied = false then { x1 with num_fromLLC := x1.num_fromLLC + 1 }
                 else x1
       let x3 := if ins.1.state = CacheBlockState.Modified
                 then { x2 with num_writebacks := x2.num_writebacks + 1 } else x2
       { caches := S.caches.set c { x3 with num_read_misses := x3.num_read_misses + 1 },
         bus := if ins.1.state = CacheBlockState.Modified
                then S.bus.countRequest BusRequest.Flush else S.bus }) := by
  have hlen : c < S.caches.length := (List.getElem?_eq_some.mp hx).1
  unfold System.handleProcRequest
  simp only [hself, hp, hst]
  rw [System.onCache_eq sys c _ self hself, hS, System.insertCacheBlock_eq S c _ _ x hx]
  by_cases h1 : S.bus.shared_line = false <;> by_cases h2 : S.bus.supplied = false <;>
    by_cases h3 : (x.insertCacheBlock (a >>> CACHE_OFFSET_BITS) CacheBlockState.Shared).1.state
      = CacheBlockState.Modified <;>
    simp [h1, h2, h3, Bus.getSharedLine, Bus.getSupplied,
      System.onCache_set _ _ _ _ _ hlen, System.sendMessage_Flush_mk]
theorem proc_write_miss_MSI (sys : System) (c a : Nat) (self x : Cache) (S : System)
    (hself : sys.caches[c]? = some self) (hp : self.protocol = Protocol.MSI)
    (hst : self.getState (a >>> CACHE_OFFSET_BITS) = CacheBlockState.Invalid)
    (hS : (System.mk (sys.caches.set c { self with num_writes := self.num_writes + 1 })
            sys.bus).sendMessage BusRequest.BusRdX (a >>> CACHE_OFFSET_BITS) self.id = S)
    (hx : S.caches[c]? = some x) :
    sys.handleProcRequest c ProcRequest.ProcWr a =
      (let b := a >>> CACHE_OFFSET_BITS
       let x1 := if S.bus.supplied = false then { x with num_fromLLC := x.num_fromLLC + 1 }
                 else x
       let ins := x1.insertCacheBlock b CacheBlockState.Modified
       let x2 := if ins.1.state = CacheBlockState.Modified
                 then { ins.2 with num_writebacks := ins.2.num_writebacks + 1 } else ins.2
       { caches := S.caches.set c { x2 with num_write_misses := x2.num_write_misses + 1 },
         bus := if ins.1.state = CacheBlockState.Modified
                then S.bus.countRequest BusRequest.Flush else S.bus }) := by
  have hlen : c < S.caches.length := (List.getElem?_eq_some.mp hx).1
  unfold System.handleProcRequest
  simp only [hself, hp, hst]
  rw [System.onCache_eq sys c _ self hself, hS]
  rcases Bool.eq_false_or_eq_true S.bus.supplied with h2 | h2
  · simp only [h2, Bus.getSupplied, Bool.true_eq_false, if_false]
    rw [System.insertCacheBlock_eq S c _ _ x hx]
    split <;> simp [*, System.onCache_set _ _ _ _ _ hlen, System.sendMessage_Flush_mk]
  · simp only [h2, Bus.getSupplied, if_true]
    rw [System.onCache_eq S c _ x hx, System.insertCacheBlock_set _ _ _ _ _ _ hlen]
    split <;> simp [*, System.onCache_set _ _ _ _ _ hlen, System.sendMessage_Flush_mk]

theorem proc_write_miss_MOESI (sys : System) (c a : Nat) (self x : Cache) (S : System)
    (hself : sys.caches[c]? = some self) (hp : self.protocol = Protocol.MOESI)
    (hst : self.getState (a >>> CACHE_OFFSET_BITS) = CacheBlockState.Invalid)
    (hS : (System.mk (sys.caches.set c { self with num_writes := self.num_writes + 1 })
            sys.bus).sendMessage BusRequest.BusRdX (a >>> CACHE_OFFSET_BITS) self.id = S)
    (hx : S.caches[c]? = some x) :
    sys.handleProcRequest c ProcRequest.ProcWr a =
      (let b := a >>> CACHE_OFFSET_BITS
       let x1 := if S.bus.supplied = false then { x with num_fromLLC := x.num_fromLLC + 1 }
                 else x
       let ins := x1.insertCacheBlock b CacheBlockState.Modified
       let x2 := if ins.1.state = CacheBlockState.Modified ∨ ins.1.state = CacheBlockState.Owned
                 then { ins.2 with num_writebacks := ins.2.num_writebacks + 1 } else ins.2
       { caches := S.caches.set c { x2 with num_write_misses := x2.num_write_misses + 1 },
         bus := if ins.1.state = CacheBlockState.Modified ∨ ins.1.state = CacheBlockState.Owned
                then S.bus.countRequest BusRequest.Flush else S.bus }) := by
  have hlen : c < S.caches.length := (List.getElem?_eq_some.mp hx).1
  unfold System.handleProcRequest
  simp only [hself, hp, hst]
  rw [System.onCache_eq sys c _ self hself, hS]
  rcases Bool.eq_false_or_eq_true S.bus.supplied with h2 | h2
  · simp only [h2, Bus.getSupplied, Bool.true_eq_false, if_false]
    rw [System.insertCacheBlock_eq S c _ _ x hx]
    split <;> simp [*, System.onCache_set _ _ _ _ _ hlen, System.sendMessage_Flush_mk]
  · simp only [h2, Bus.getSupplied, if_true]
    rw [System.onCache_eq S c _ x hx, System.insertCacheBlock_set _ _ _ _ _ _ hlen]
    split <;> simp [*, System.onCache_set _ _ _ _ _ hlen, System.sendMessage_Flush_mk]

theorem proc_read_miss_MOESI (sys : System) (c a : Nat) (self x : Cache) (S : System)
    (hself : sys.caches[c]? = some self) (hp : self.protocol = Protocol.MOESI)
    (hst : self.getState (a >>> CACHE_OFFSET_BITS) = CacheBlockState.Invalid)
    (hS : (System.mk (sys.caches.set c { self with num_reads := self.num_reads + 1 })
            sys.bus).sendMessage BusRequest.BusRd (a >>> CACHE_OFFSET_BITS) self.id = S)
    (hx : S.caches[c]? = some x) :
    sys.handleProcRequest c ProcRequest.ProcRd a =
      (let b := a >>> CACHE_OFFSET_BITS
       let ins := x.insertCacheBlock b CacheBlockState.Shared
       let x1 := if S.bus.shared_line = false then ins.2.setState b CacheBlockState.Exclusive
                 else ins.2
       let x2 := if S.bus.supplied = false then { x1 with num_fromLLC := x1.num_fromLLC + 1 }
                 else x1
       let x3 := if ins.1.state = CacheBlockState.Modified ∨ ins.1.state = CacheBlockState.Owned
                 then { x2 with num_writebacks := x2.num_writebacks + 1 } else x2
       { caches := S.caches.set c { x3 with num_read_misses := x3.num_read_misses + 1 },
         bus := if ins.1.state = CacheBlockState.Modified ∨ ins.1.state = CacheBlockState.Owned
                then S.bus.countRequest BusRequest.Flush else S.bus }) := by
  have hlen : c < S.caches.length := (List.getElem?_eq_some.mp hx).1
  unfold System.handleProcRequest
  simp only [hself, hp, hst]
  rw [System.onCache_eq sys c _ self hself, hS, System.insertCacheBlock_eq S c _ _ x hx]
  by_cases h1 : S.bus.shared_line = false <;> by_cases h2 : S.bus.supplied = false <;>
    by_cases h3 : ((x.insertCacheBlock (a >>> CACHE_OFFSET_BITS) CacheBlockState.Shared).1.state
      = CacheBlockState.Modified
      ∨ (x.insertCacheBlock (a >>> CACHE_OFFSET_BITS) CacheBlockState.Shared).1.state
      = CacheBlockState.Owned) <;>
    simp [h1, h2, h3, Bus.getSharedLine, Bus.getSupplied,
      System.onCache_set _ _ _ _ _ hlen, System.sendMessage_Flush_mk]

theorem proc_write_hit_shared_MESI (sys : System) (c a : Nat) (self : Cache)
    (hself : sys.caches[c]? = some self) (hp : self.protocol = Protocol.MESI)
    (hst : self.getState (a >>> CACHE_OFFSET_BITS) = CacheBlockState.Shared) :
    sys.handleProcRequest c ProcRequest.ProcWr a =
      (System.mk
        (sys.caches.set c
          ((({ self with num_writes := self.num_writes + 1 } : Cache).moveToMRU
              (a >>> CACHE_OFFSET_BITS)).setState (a >>> CACHE_OFFSET_BITS)
            CacheBlockState.Modified))
        sys.bus).sendMessage BusRequest.BusUpgr (a >>> CACHE_OFFSET_BITS) self.id := by
  have hlen : c < sys.caches.length := (List.getElem?_eq_some.mp hself).1
  unfold System.handleProcRequest
  simp only [hself, hp, hst]
  rw [System.onCache_eq sys c _ self hself]
  simp [System.onCache_set _ _ _ _ _ hlen, hp]

/-! ## The scenarios of the specification, for all cores and addresses -/

theorem set_set_other (l : List Cache) (i j : Nat) (a a' b : Cache) (h : i ≠ j) :
    ((l.set i a).set j b).set i a' = (l.set i a').set j b := by
  rw [List.set_comm b a' _ h.symm, List.set_set]

/-- A property of the caches at positions satisfying `P` survives a `set`
when the new cache has it (or its position is excluded). -/
theorem forall_getElem?_set {P : Nat → Prop} {Q : Cache → Prop} {L : List Cache} {c : Nat}
    {X : Cache} (hL : ∀ (i : Nat) (y : Cache), L[i]? = some y → P i → Q y) (hX : P c → Q X) :
    ∀ (i : Nat) (y : Cache), (L.set c X)[i]? = some y → P i → Q y := by
  intro i y hi hP
  rcases getElem?_set_cases hi with ⟨rfl, rfl⟩ | ⟨-, hi'⟩
  · exact hX hP
  · exact hL i y hi' hP

theorem initial_quiet (p : Protocol) (P : Nat → Prop) (b s : Nat) :
    ∀ (i : Nat) (y : Cache), (initialSystem p).caches[i]? = some y → P i →
      y.id ≠ s → y.getState b = CacheBlockState.Invalid := by
  intro i y hi _ _
  rw [initialSystem_getElem?_some _ _ _ hi]; exact Cache.new_getState _ _ _
/-- A read miss of core `c` on the initial MESI system. -/
theorem cold_read_MESI (c a : Nat) (hc : c < 16) (ha : a < 2 ^ 39) :
    (initialSystem Protocol.MESI).handleProcRequest c ProcRequest.ProcRd a
      = { caches := (initialSystem Protocol.MESI).caches.set c
            (Cache.mk c Protocol.MESI
              (oneBlock (a >>> CACHE_OFFSET_BITS) CacheBlockState.Exclusive) 1 1 0 0 0 0 0 1 0),
          bus := { Bus.new with num_busrd := 1 } } := by
  have ht := toUInt64_toInt32 _ (tagOf_lt a ha)
  have hself := initialSystem_getElem? Protocol.MESI c hc
  have hlen : c < (initialSystem Protocol.MESI).caches.length := by simpa using hc
  rw [proc_read_miss_MESI (initialSystem Protocol.MESI) c a (Cache.new c Protocol.MESI)
    (Cache.mk c Protocol.MESI freshSets 1 0 0 0 0 0 0 0 0)
    { caches := (initialSystem Protocol.MESI).caches.set c
        (Cache.mk c Protocol.MESI freshSets 1 0 0 0 0 0 0 0 0),
      bus := { Bus.new with num_busrd := 1 } }
    hself rfl (Cache.new_getState _ _ _)
    (by
      show (System.mk _ _).sendMessage BusRequest.BusRd _ c = _
      rw [sendMessage_quiet _ _ _ _ (by simp) (by simp) (fun i y hi =>
        forall_getElem?_set (initial_quiet _ (fun _ => True) _ c)
          (fun _ hne => absurd rfl hne) i y hi trivial)]
      rfl)
    (List.getElem?_set_self hlen)]
  simp [Cache.insertCacheBlock_fresh _ _ _ _ _ _ _ _ _ _ _ _ _ ht, Cache.setState_oneBlock, Bus.new]

/-- The second read of the third scenario: core `c1` reads what core `c0`
holds in Exclusive. -/
theorem second_read_MESI (c0 c1 a : Nat) (hc0 : c0 < 16) (hc1 : c1 < 16) (h01 : c0 ≠ c1)
    (ha : a < 2 ^ 39) :
    (System.mk ((initialSystem Protocol.MESI).caches.set c0
            (Cache.mk c0 Protocol.MESI
              (oneBlock (a >>> CACHE_OFFSET_BITS) CacheBlockState.Exclusive) 1 1 0 0 0 0 0 1 0))
          { Bus.new with num_busrd := 1 }).handleProcRequest c1 ProcRequest.ProcRd a
      = { caches := ((initialSystem Protocol.MESI).caches.set c0
            (Cache.mk c0 Protocol.MESI
              (oneBlock (a >>> CACHE_OFFSET_BITS) CacheBlockState.Shared) 1 1 0 0 0 0 1 1 0)).set c1
            (Cache.mk c1 Protocol.MESI
              (oneBlock (a >>> CACHE_OFFSET_BITS) CacheBlockState.Shared) 1 1 0 0 0 0 0 0 0),
          bus := { Bus.new with num_busrd := 2, num_flush_primes := 1,
                                shared_line := true, supplied := true } } := by
  have ht := toUInt64_toInt32 _ (tagOf_lt a ha)
  have hl0 : c0 < (initialSystem Protocol.MESI).caches.length := by simpa using hc0
  have hl1 : c1 < (initialSystem Protocol.MESI).caches.length := by simpa using hc1
  have hself : ((initialSystem Protocol.MESI).caches.set c0
      (Cache.mk c0 Protocol.MESI
        (oneBlock (a >>> CACHE_OFFSET_BITS) CacheBlockState.Exclusive) 1 1 0 0 0 0 0 1 0))[c1]?
      = some (Cache.new c1 Protocol.MESI) := by
    rw [List.getElem?_set_ne h01]; exact initialSystem_getElem? _ _ hc1
  rw [proc_read_miss_MESI _ c1 a (Cache.new c1 Protocol.MESI)
    (Cache.mk c1 Protocol.MESI freshSets 1 0 0 0 0 0 0 0 0)
    { caches := ((initialSystem Protocol.MESI).caches.set c0
        (Cache.mk c0 Protocol.MESI
          (oneBlock (a >>> CACHE_OFFSET_BITS) CacheBlockState.Shared) 1 1 0 0 0 0 1 1 0)).set c1
        (Cache.mk c1 Protocol.MESI freshSets 1 0 0 0 0 0 0 0 0),
      bus := { Bus.new with num_busrd := 2, num_flush_primes := 1,
                            shared_line := true, supplied := true } }
    hself rfl (Cache.new_getState _ _ _)
    (by
      show (System.mk _ _).sendMessage BusRequest.BusRd _ c1 = _
      rw [sendMessage_one _ _ _ _ c0
        (Cache.mk c0 Protocol.MESI
          (oneBlock (a >>> CACHE_OFFSET_BITS) CacheBlockState.Exclusive) 1 1 0 0 0 0 0 1 0)
        (by simp) (by simp)
        (by simp [List.getElem?_set_ne h01.symm, List.getElem?_set_self hl0])
        (by simpa [Cache.new] using h01)
        (forall_getElem?_set
          (forall_getElem?_set (initial_quiet _ _ _ c1) (fun h _ => absurd rfl h))
          (fun _ hne => absurd rfl hne))]
      simp [Cache.handleBusRequest, Cache.getState_oneBlock, Cache.setState_oneBlock,
        Bus.sendFlush, Bus.countRequest, Bus.setSharedLine, Bus.setSupplied, Bus.new, Cache.new_eq,
        set_set_other _ _ _ _ _ _ h01])
    (List.getElem?_set_self (by simpa using hl1))]
  simp [Cache.insertCacheBlock_fresh _ _ _ _ _ _ _ _ _ _ _ _ _ ht, Cache.setState_oneBlock, Bus.new,
    List.set_set]
/-- The write of the third scenario: core `c1` writes the block that it and
core `c0` hold in Shared. -/
theorem write_after_share_MESI (c0 c1 a : Nat) (hc0 : c0 < 16) (hc1 : c1 < 16) (h01 : c0 ≠ c1) :
    (System.mk (((initialSystem Protocol.MESI).caches.set c0
            (Cache.mk c0 Protocol.MESI
              (oneBlock (a >>> CACHE_OFFSET_BITS) CacheBlockState.Shared) 1 1 0 0 0 0 1 1 0)).set c1
            (Cache.mk c1 Protocol.MESI
              (oneBlock (a >>> CACHE_OFFSET_BITS) CacheBlockState.Shared) 1 1 0 0 0 0 0 0 0))
          { Bus.new with num_busrd := 2, num_flush_primes := 1,
                         shared_line := true, supplied := true }).handleProcRequest
        c1 ProcRequest.ProcWr a
      = { caches := ((initialSystem Protocol.MESI).caches.set c0
            (Cache.mk c0 Protocol.MESI freshSets 1 1 0 0 0 1 1 1 0)).set c1
            (Cache.mk c1 Protocol.MESI
              (oneBlock (a >>> CACHE_OFFSET_BITS) CacheBlockState.Modified) 1 1 1 0 0 0 0 0 0),
          bus := { Bus.new with num_busrd := 2, num_flush_primes := 1, num_busupgr := 1 } } := by
  have hl0 : c0 < (initialSystem Protocol.MESI).caches.length := by simpa using hc0
  have hl1 : c1 < (initialSystem Protocol.MESI).caches.length := by simpa using hc1
  rw [proc_write_hit_shared_MESI _ c1 a
    (Cache.mk c1 Protocol.MESI
      (oneBlock (a >>> CACHE_OFFSET_BITS) CacheBlockState.Shared) 1 1 0 0 0 0 0 0 0)
    (List.getElem?_set_self (by simpa using hl1)) rfl (Cache.getState_oneBlock _ _ _ _ _ _ _ _ _ _ _ _ _)]
  show (System.mk _ _).sendMessage BusRequest.BusUpgr _ c1 = _
  rw [sendMessage_one _ _ _ _ c0
    (Cache.mk c0 Protocol.MESI
      (oneBlock (a >>> CACHE_OFFSET_BITS) CacheBlockState.Shared) 1 1 0 0 0 0 1 1 0)
    (by simp) (by simp)
    (by simp [List.getElem?_set_ne h01.symm, List.getElem?_set_self hl0])
    (by simpa using h01)
    (forall_getElem?_set
      (forall_getElem?_set
        (forall_getElem?_set (initial_quiet _ _ _ c1) (fun h _ => absurd rfl h))
        (fun _ hne => absurd rfl hne))
      (fun _ hne => absurd (by simp) hne))]
  simp [Cache.handleBusRequest, Cache.getState_oneBlock, Cache.setState_oneBlock,
    Cache.setState_oneBlock_invalid, Cache.moveToMRU_oneBlock,
    Bus.sendFlush, Bus.countRequest, Bus.setSharedLine, Bus.setSupplied, Bus.new,
    set_set_other _ _ _ _ _ _ h01, List.set_set]

/-- A write miss of core `c` on the initial MSI system. -/
theorem cold_write_MSI (c a : Nat) (hc : c < 16) (ha : a < 2 ^ 39) :
    (initialSystem Protocol.MSI).handleProcRequest c ProcRequest.ProcWr a
      = { caches := (initialSystem Protocol.MSI).caches.set c
            (Cache.mk c Protocol.MSI
              (oneBlock (a >>> CACHE_OFFSET_BITS) CacheBlockState.Modified) 0 0 1 1 0 0 0 1 0),
          bus := { Bus.new with num_busrdx := 1 } } := by
  have ht := toUInt64_toInt32 _ (tagOf_lt a ha)
  have hself := initialSystem_getElem? Protocol.MSI c hc
  have hlen : c < (initialSystem Protocol.MSI).caches.length := by simpa using hc
  rw [proc_write_miss_MSI (initialSystem Protocol.MSI) c a (Cache.new c Protocol.MSI)
    (Cache.mk c Protocol.MSI freshSets 0 0 1 0 0 0 0 0 0)
    { caches := (initialSystem Protocol.MSI).caches.set c
        (Cache.mk c Protocol.MSI freshSets 0 0 1 0 0 0 0 0 0),
      bus := { Bus.new with num_busrdx := 1 } }
    hself rfl (Cache.new_getState _ _ _)
    (by
      show (System.mk _ _).sendMessage BusRequest.BusRdX _ c = _
      rw [sendMessage_quiet _ _ _ _ (by simp) (by simp) (fun i y hi =>
        forall_getElem?_set (initial_quiet _ (fun _ => True) _ c)
          (fun _ hne => absurd rfl hne) i y hi trivial)]
      rfl)
    (List.getElem?_set_self hlen)]
  simp [Cache.insertCacheBlock_fresh _ _ _ _ _ _ _ _ _ _ _ _ _ ht, Cache.setState_oneBlock, Bus.new]

/-- The second write of the fourth scenario: core `c1` writes what core `c0`
holds in Modified. -/
theorem write_over_modified_MSI (c0 c1 a : Nat) (hc0 : c0 < 16) (hc1 : c1 < 16)
    (h01 : c0 ≠ c1) (ha : a < 2 ^ 39) :
    (System.mk ((initialSystem Protocol.MSI).caches.set c0
            (Cache.mk c0 Protocol.MSI
              (oneBlock (a >>> CACHE_OFFSET_BITS) CacheBlockState.Modified) 0 0 1 1 0 0 0 1 0))
          { Bus.new with num_busrdx := 1 }).handleProcRequest c1 ProcRequest.ProcWr a
      = { caches := ((initialSystem Protocol.MSI).caches.set c0
            (Cache.mk c0 Protocol.MSI freshSets 0 0 1 1 1 1 1 1 0)).set c1
            (Cache.mk c1 Protocol.MSI
              (oneBlock (a >>> CACHE_OFFSET_BITS) CacheBlockState.Modified) 0 0 1 1 0 0 0 0 0),
          bus := { Bus.new with num_busrdx := 2, num_flushes := 1, supplied := true } } := by
  have ht := toUInt64_toInt32 _ (tagOf_lt a ha)
  have hl0 : c0 < (initialSystem Protocol.MSI).caches.length := by simpa using hc0
  have hl1 : c1 < (initialSystem Protocol.MSI).caches.length := by simpa using hc1
  have hself : ((initialSystem Protocol.MSI).caches.set c0
      (Cache.mk c0 Protocol.MSI
        (oneBlock (a >>> CACHE_OFFSET_BITS) CacheBlockState.Modified) 0 0 1 1 0 0 0 1 0))[c1]?
      = some (Cache.new c1 Protocol.MSI) := by
    rw [List.getElem?_set_ne h01]; exact initialSystem_getElem? _ _ hc1
  rw [proc_write_miss_MSI _ c1 a (Cache.new c1 Protocol.MSI)
    (Cache.mk c1 Protocol.MSI freshSets 0 0 1 0 0 0 0 0 0)
    { caches := ((initialSystem Protocol.MSI).caches.set c0
        (Cache.mk c0 Protocol.MSI freshSets 0 0 1 1 1 1 1 1 0)).set c1
        (Cache.mk c1 Protocol.MSI freshSets 0 0 1 0 0 0 0 0 0),
      bus := { Bus.new with num_busrdx := 2, num_flushes := 1, supplied := true } }
    hself rfl (Cache.new_getState _ _ _)
    (by
      show (System.mk _ _).sendMessage BusRequest.BusRdX _ c1 = _
      rw [sendMessage_one _ _ _ _ c0
        (Cache.mk c0 Protocol.MSI
          (oneBlock (a >>> CACHE_OFFSET_BITS) CacheBlockState.Modified) 0 0 1 1 0 0 0 1 0)
        (by simp) (by simp)
        (by simp [List.getElem?_set_ne h01.symm, List.getElem?_set_self hl0])
        (by simpa [Cache.new] using h01)
        (forall_getElem?_set
          (forall_getElem?_set (initial_quiet _ _ _ c1) (fun h _ => absurd rfl h))
          (fun _ hne => absurd rfl hne))]
      simp [Cache.handleBusRequest, Cache.getState_oneBlock, Cache.setState_oneBlock,
        Cache.setState_oneBlock_invalid,
        Bus.sendFlush, Bus.countRequest, Bus.setSharedLine, Bus.setSupplied, Bus.new, Cache.new_eq,
        set_set_other _ _ _ _ _ _ h01])
    (List.getElem?_set_self (by simpa using hl1))]
  simp [Cache.insertCacheBlock_fresh _ _ _ _ _ _ _ _ _ _ _ _ _ ht, Cache.setState_oneBlock, Bus.new,
    List.set_set]

theorem set_three_normal (I : List Cache) (c0 c1 c2 : Nat) (A B X A' B' : Cache)
    (h02 : c0 ≠ c2) (h12 : c1 ≠ c2) :
    ((((I.set c0 A).set c1 B).set c2 X).set c0 A').set c1 B'
      = ((I.set c0 A').set c1 B').set c2 X := by
  apply List.ext_getElem?
  intro i
  simp only [List.getElem?_set, List.length_set]
  split_ifs <;> simp_all

theorem set_three_normal_swap (I : List Cache) (c0 c1 c2 : Nat) (A B X A' B' : Cache)
    (h01 : c0 ≠ c1) (h02 : c0 ≠ c2) (h12 : c1 ≠ c2) :
    ((((I.set c0 A).set c1 B).set c2 X).set c1 B').set c0 A'
      = ((I.set c0 A').set c1 B').set c2 X := by
  apply List.ext_getElem?
  intro i
  simp only [List.getElem?_set, List.length_set]
  split_ifs <;> simp_all

/-- A write miss of core `c` on the initial MOESI system. -/
theorem cold_write_MOESI (c a : Nat) (hc : c < 16) (ha : a < 2 ^ 39) :
    (initialSystem Protocol.MOESI).handleProcRequest c ProcRequest.ProcWr a
      = { caches := (initialSystem Protocol.MOESI).caches.set c
            (Cache.mk c Protocol.MOESI
              (oneBlock (a >>> CACHE_OFFSET_BITS) CacheBlockState.Modified) 0 0 1 1 0 0 0 1 0),
          bus := { Bus.new with num_busrdx := 1 } } := by
  have ht := toUInt64_toInt32 _ (tagOf_lt a ha)
  have hself := initialSystem_getElem? Protocol.MOESI c hc
  have hlen : c < (initialSystem Protocol.MOESI).caches.length := by simpa using hc
  rw [proc_write_miss_MOESI (initialSystem Protocol.MOESI) c a (Cache.new c Protocol.MOESI)
    (Cache.mk c Protocol.MOESI freshSets 0 0 1 0 0 0 0 0 0)
    { caches := (initialSystem Protocol.MOESI).caches.set c
        (Cache.mk c Protocol.MOESI freshSets 0 0 1 0 0 0 0 0 0),
      bus := { Bus.new with num_busrdx := 1 } }
    hself rfl (Cache.new_getState _ _ _)
    (by
      show (System.mk _ _).sendMessage BusRequest.BusRdX _ c = _
      rw [sendMessage_quiet _ _ _ _ (by simp) (by simp) (fun i y hi =>
        forall_getElem?_set (initial_quiet _ (fun _ => True) _ c)
          (fun _ hne => absurd rfl hne) i y hi trivial)]
      rfl)
    (List.getElem?_set_self hlen)]
  simp [Cache.insertCacheBlock_fresh _ _ _ _ _ _ _ _ _ _ _ _ _ ht, Cache.setState_oneBlock, Bus.new]

/-- The first read of the fifth scenario: core `c1` reads what core `c0`
holds in Modified. -/
theorem read_over_modified_MOESI (c0 c1 a : Nat) (hc0 : c0 < 16) (hc1 : c1 < 16)
    (h01 : c0 ≠ c1) (ha : a < 2 ^ 39) :
    (System.mk ((initialSystem Protocol.MOESI).caches.set c0
            (Cache.mk c0 Protocol.MOESI
              (oneBlock (a >>> CACHE_OFFSET_BITS) CacheBlockState.Modified) 0 0 1 1 0 0 0 1 0))
          { Bus.new with num_busrdx := 1 }).handleProcRequest c1 ProcRequest.ProcRd a
      = { caches := ((initialSystem Protocol.MOESI).caches.set c0
            (Cache.mk c0 Protocol.MOESI
              (oneBlock (a >>> CACHE_OFFSET_BITS) CacheBlockState.Owned) 0 0 1 1 0 0 1 1 0)).set c1
            (Cache.mk c1 Protocol.MOESI
              (oneBlock (a >>> CACHE_OFFSET_BITS) CacheBlockState.Shared) 1 1 0 0 0 0 0 0 0),
          bus := { Bus.new with num_busrdx := 1, num_busrd := 1, num_flush_primes := 1,
                                shared_line := true, supplied := true } } := by
  have ht := toUInt64_toInt32 _ (tagOf_lt a ha)
  have hl0 : c0 < (initialSystem Protocol.MOESI).caches.length := by simpa using hc0
  have hl1 : c1 < (initialSystem Protocol.MOESI).caches.length := by simpa using hc1
  have hself : ((initialSystem Protocol.MOESI).caches.set c0
      (Cache.mk c0 Protocol.MOESI
        (oneBlock (a >>> CACHE_OFFSET_BITS) CacheBlockState.Modified) 0 0 1 1 0 0 0 1 0))[c1]?
      = some (Cache.new c1 Protocol.MOESI) := by
    rw [List.getElem?_set_ne h01]; exact initialSystem_getElem? _ _ hc1
  rw [proc_read_miss_MOESI _ c1 a (Cache.new c1 Protocol.MOESI)
    (Cache.mk c1 Protocol.MOESI freshSets 1 0 0 0 0 0 0 0 0)
    { caches := ((initialSystem Protocol.MOESI).caches.set c0
        (Cache.mk c0 Protocol.MOESI
          (oneBlock (a >>> CACHE_OFFSET_BITS) CacheBlockState.Owned) 0 0 1 1 0 0 1 1 0)).set c1
        (Cache.mk c1 Protocol.MOESI freshSets 1 0 0 0 0 0 0 0 0),
      bus := { Bus.new with num_busrdx := 1, num_busrd := 1, num_flush_primes := 1,
                            shared_line := true, supplied := true } }
    hself rfl (Cache.new_getState _ _ _)
    (by
      show (System.mk _ _).sendMessage BusRequest.BusRd _ c1 = _
      rw [sendMessage_one _ _ _ _ c0
        (Cache.mk c0 Protocol.MOESI
          (oneBlock (a >>> CACHE_OFFSET_BITS) CacheBlockState.Modified) 0 0 1 1 0 0 0 1 0)
        (by simp) (by simp)
        (by simp [List.getElem?_set_ne h01.symm, List.getElem?_set_self hl0])
        (by simpa [Cache.new] using h01)
        (forall_getElem?_set
          (forall_getElem?_set (initial_quiet _ _ _ c1) (fun h _ => absurd rfl h))
          (fun _ hne => absurd rfl hne))]
      simp [Cache.handleBusRequest, Cache.getState_oneBlock, Cache.setState_oneBlock,
        Bus.sendFlush, Bus.countRequest, Bus.setSharedLine, Bus.setSupplied, Bus.new, Cache.new_eq,
        set_set_other _ _ _ _ _ _ h01])
    (List.getElem?_set_self (by simpa using hl1))]
  simp [Cache.insertCacheBlock_fresh _ _ _ _ _ _ _ _ _ _ _ _ _ ht, Cache.setState_oneBlock, Bus.new,
    List.set_set]

/-- The broadcast of the second read of the fifth scenario: core `c2` sends
BusRd while `c0` holds the block in Owned and `c1` in Shared. The result does
not depend on which of the two peers is snooped first. -/
theorem busRd_over_owned_and_shared_MOESI (c0 c1 c2 a : Nat) (hc0 : c0 < 16) (hc1 : c1 < 16)
    (hc2 : c2 < 16) (h01 : c0 ≠ c1) (h02 : c0 ≠ c2) (h12 : c1 ≠ c2) :
    (System.mk ((((initialSystem Protocol.MOESI).caches.set c0
            (Cache.mk c0 Protocol.MOESI
              (oneBlock (a >>> CACHE_OFFSET_BITS) CacheBlockState.Owned) 0 0 1 1 0 0 1 1 0)).set c1
            (Cache.mk c1 Protocol.MOESI
              (oneBlock (a >>> CACHE_OFFSET_BITS) CacheBlockState.Shared) 1 1 0 0 0 0 0 0 0)).set c2
            (Cache.mk c2 Protocol.MOESI freshSets 1 0 0 0 0 0 0 0 0))
          { Bus.new with num_busrdx := 1, num_busrd := 1, num_flush_primes := 1,
                         shared_line := true, supplied := true }).sendMessage
        BusRequest.BusRd (a >>> CACHE_OFFSET_BITS) c2
      = { caches := (((initialSystem Protocol.MOESI).caches.set c0
            (Cache.mk c0 Protocol.MOESI
              (oneBlock (a >>> CACHE_OFFSET_BITS) CacheBlockState.Owned) 0 0 1 1 0 0 2 1 0)).set c1
            (Cache.mk c1 Protocol.MOESI
              (oneBlock (a >>> CACHE_OFFSET_BITS) CacheBlockState.Shared) 1 1 0 0 0 0 0 0 0)).set c2
            (Cache.mk c2 Protocol.MOESI freshSets 1 0 0 0 0 0 0 0 0),
          bus := { Bus.new with num_busrdx := 1, num_busrd := 2, num_flush_primes := 2,
                                shared_line := true, supplied := true } } := by
  have hl0 : c0 < (initialSystem Protocol.MOESI).caches.length := by simpa using hc0
  have hl1 : c1 < (initialSystem Protocol.MOESI).caches.length := by simpa using hc1
  have hl2 : c2 < (initialSystem Protocol.MOESI).caches.length := by simpa using hc2
  have hq : ∀ (i : Nat) (y : Cache),
      ((((initialSystem Protocol.MOESI).caches.set c0
            (Cache.mk c0 Protocol.MOESI
              (oneBlock (a >>> CACHE_OFFSET_BITS) CacheBlockState.Owned) 0 0 1 1 0 0 1 1 0)).set c1
            (Cache.mk c1 Protocol.MOESI
              (oneBlock (a >>> CACHE_OFFSET_BITS) CacheBlockState.Shared) 1 1 0 0 0 0 0 0 0)).set c2
            (Cache.mk c2 Protocol.MOESI freshSets 1 0 0 0 0 0 0 0 0))[i]? = some y →
      (i ≠ c0 ∧ i ≠ c1) → y.id ≠ c2 → y.getState (a >>> CACHE_OFFSET_BITS)
        = CacheBlockState.Invalid :=
    forall_getElem?_set
      (forall_getElem?_set
        (forall_getElem?_set (initial_quiet _ _ _ c2) (fun h _ => absurd rfl h.1))
        (fun h _ => absurd rfl h.2))
      (fun _ hne => absurd rfl hne)
  have hk0 : ((((initialSystem Protocol.MOESI).caches.set c0
            (Cache.mk c0 Protocol.MOESI
              (oneBlock (a >>> CACHE_OFFSET_BITS) CacheBlockState.Owned) 0 0 1 1 0 0 1 1 0)).set c1
            (Cache.mk c1 Protocol.MOESI
              (oneBlock (a >>> CACHE_OFFSET_BITS) CacheBlockState.Shared) 1 1 0 0 0 0 0 0 0)).set c2
            (Cache.mk c2 Protocol.MOESI freshSets 1 0 0 0 0 0 0 0 0))[c0]?
      = some (Cache.mk c0 Protocol.MOESI
              (oneBlock (a >>> CACHE_OFFSET_BITS) CacheBlockState.Owned) 0 0 1 1 0 0 1 1 0) := by
    rw [List.getElem?_set_ne h02.symm, List.getElem?_set_ne h01.symm]
    exact List.getElem?_set_self hl0
  have hk1 : ((((initialSystem Protocol.MOESI).caches.set c0
            (Cache.mk c0 Protocol.MOESI
              (oneBlock (a >>> CACHE_OFFSET_BITS) CacheBlockState.Owned) 0 0 1 1 0 0 1 1 0)).set c1
            (Cache.mk c1 Protocol.MOESI
              (oneBlock (a >>> CACHE_OFFSET_BITS) CacheBlockState.Shared) 1 1 0 0 0 0 0 0 0)).set c2
            (Cache.mk c2 Protocol.MOESI freshSets 1 0 0 0 0 0 0 0 0))[c1]?
      = some (Cache.mk c1 Protocol.MOESI
              (oneBlock (a >>> CACHE_OFFSET_BITS) CacheBlockState.Shared) 1 1 0 0 0 0 0 0 0) := by
    rw [List.getElem?_set_ne h12.symm]
    exact List.getElem?_set_self (by simpa using hl1)
  rcases Nat.lt_or_gt_of_ne h01 with hlt | hlt
  · rw [sendMessage_two _ _ _ _ c0 c1 _ _ (by simp) (by simp) hlt hk0 hk1 h02 h12
      (fun i y hi h1 h2 hne => hq i y hi ⟨h1, h2⟩ hne)]
    simp [Cache.handleBusRequest, Cache.getState_oneBlock, Cache.setState_oneBlock,
      Bus.sendFlush, Bus.countRequest, Bus.setSharedLine, Bus.setSupplied, Bus.new,
      set_three_normal _ _ _ _ _ _ _ _ _ h02 h12]
  · rw [sendMessage_two _ _ _ _ c1 c0 _ _ (by simp) (by simp) hlt hk1 hk0 h12 h02
      (fun i y hi h1 h2 hne => hq i y hi ⟨h2, h1⟩ hne)]
    simp [Cache.handleBusRequest, Cache.getState_oneBlock, Cache.setState_oneBlock,
      Bus.sendFlush, Bus.countRequest, Bus.setSharedLine, Bus.setSupplied, Bus.new,
      set_three_normal_swap _ _ _ _ _ _ _ _ _ h01 h02 h12]

/-- The second read of the fifth scenario: core `c2` reads what `c0` holds in
Owned and `c1` in Shared. -/
theorem read_over_owned_MOESI (c0 c1 c2 a : Nat) (hc0 : c0 < 16) (hc1 : c1 < 16)
    (hc2 : c2 < 16) (h01 : c0 ≠ c1) (h02 : c0 ≠ c2) (h12 : c1 ≠ c2) (ha : a < 2 ^ 39) :
    (System.mk (((initialSystem Protocol.MOESI).caches.set c0
            (Cache.mk c0 Protocol.MOESI
              (oneBlock (a >>> CACHE_OFFSET_BITS) CacheBlockState.Owned) 0 0 1 1 0 0 1 1 0)).set c1
            (Cache.mk c1 Protocol.MOESI
              (oneBlock (a >>> CACHE_OFFSET_BITS) CacheBlockState.Shared) 1 1 0 0 0 0 0 0 0))
          { Bus.new with num_busrdx := 1, num_busrd := 1, num_flush_primes := 1,
                         shared_line := true, supplied := true }).handleProcRequest
        c2 ProcRequest.ProcRd a
      = { caches := (((initialSystem Protocol.MOESI).caches.set c0
            (Cache.mk c0 Protocol.MOESI
              (oneBlock (a >>> CACHE_OFFSET_BITS) CacheBlockState.Owned) 0 0 1 1 0 0 2 1 0)).set c1
            (Cache.mk c1 Protocol.MOESI
              (oneBlock (a >>> CACHE_OFFSET_BITS) CacheBlockState.Shared) 1 1 0 0 0 0 0 0 0)).set c2
            (Cache.mk c2 Protocol.MOESI
              (oneBlock (a >>> CACHE_OFFSET_BITS) CacheBlockState.Shared) 1 1 0 0 0 0 0 0 0),
          bus := { Bus.new with num_busrdx := 1, num_busrd := 2, num_flush_primes := 2,
                                shared_line := true, supplied := true } } := by
  have ht := toUInt64_toInt32 _ (tagOf_lt a ha)
  have hl2 : c2 < (initialSystem Protocol.MOESI).caches.length := by simpa using hc2
  have hself : (((initialSystem Protocol.MOESI).caches.set c0
            (Cache.mk c0 Protocol.MOESI
              (oneBlock (a >>> CACHE_OFFSET_BITS) CacheBlockState.Owned) 0 0 1 1 0 0 1 1 0)).set c1
            (Cache.mk c1 Protocol.MOESI
              (oneBlock (a >>> CACHE_OFFSET_BITS) CacheBlockState.Shared) 1 1 0 0 0 0 0 0 0))[c2]?
      = some (Cache.new c2 Protocol.MOESI) := by
    rw [List.getElem?_set_ne h12, List.getElem?_set_ne h02]
    exact initialSystem_getElem? _ _ hc2
  rw [proc_read_miss_MOESI _ c2 a (Cache.new c2 Protocol.MOESI)
    (Cache.mk c2 Protocol.MOESI freshSets 1 0 0 0 0 0 0 0 0) _
    hself rfl (Cache.new_getState _ _ _)
    (busRd_over_owned_and_shared_MOESI c0 c1 c2 a hc0 hc1 hc2 h01 h02 h12)
    (List.getElem?_set_self (by simpa using hl2))]
  simp [Cache.insertCacheBlock_fresh _ _ _ _ _ _ _ _ _ _ _ _ _ ht, Cache.setState_oneBlock, Bus.new,
    List.set_set]

theorem sum_eq_zero_of_getElem? (f : Cache → Nat) (L : List Cache)
    (h : ∀ (i : Nat) (y : Cache), L[i]? = some y → True → f y = 0) : (L.map f).sum = 0 := by
  apply List.sum_eq_zero
  intro n hn
  obtain ⟨y, hy, rfl⟩ := List.mem_map.mp hn
  obtain ⟨i, hi⟩ := List.getElem?_of_mem hy
  exact h i y hi trivial

/-! ## The forward handoff of FESI -/

/-- The reaction to `setF`: a Shared copy takes the Forward state when no
peer has taken it yet. -/
theorem Cache.handleBusRequest_setF (c : Cache) (bus : Bus) (v : Nat) :
    c.handleBusRequest bus BusRequest.setF v
      = if c.getState v = CacheBlockState.Shared ∧ bus.supplied = false
        then ({ c.setState v CacheBlockState.Forward with
                  num_random := (c.setState v CacheBlockState.Forward).num_random + 1 },
              bus.setSupplied)
        else (c, bus) := by
  simp only [Cache.handleBusRequest, Bus.getSupplied]
  by_cases h1 : c.getState v = CacheBlockState.Shared <;>
    by_cases h2 : bus.supplied = false <;> simp [h1, h2]

/-- A snooped BusRd or BusRdX for block `b` leaves the state of every other
block, the id and the protocol of the cache. -/
theorem Cache.handleBusRequest_other_block (c : Cache) (bus : Bus) (req : BusRequest)
    (b v : Nat) (hreq : req = BusRequest.BusRd ∨ req = BusRequest.BusRdX)
    (hne : setIndex v ≠ setIndex b ∨ tagOf v ≠ tagOf b) :
    (c.handleBusRequest bus req b).1.getState v = c.getState v
    ∧ (c.handleBusRequest bus req b).1.id = c.id
    ∧ (c.handleBusRequest bus req b).1.protocol = c.protocol := by
  rcases hreq with h | h <;> subst h <;>
    cases hp : c.protocol <;> cases hs : c.getState b <;>
    simp only [Cache.handleBusRequest, hp, hs, reduceCtorEq, if_true, if_false] <;>
    cases hsup : bus.supplied <;>
    simp [Cache.getState_setState_other _ _ _ _ hne, hp, Bus.getSupplied, Bus.setSharedLine,
      Bus.sendFlush, Bus.countRequest,
      Bus.setSupplied, hsup, Cache.getState_mk_sets]

/-- Under FESI a snooped BusRd or BusRdX leaves the random counter. -/
theorem Cache.handleBusRequest_FESI_random (c : Cache) (bus : Bus) (req : BusRequest)
    (b : Nat) (hreq : req = BusRequest.BusRd ∨ req = BusRequest.BusRdX)
    (hp : c.protocol = Protocol.FESI) :
    (c.handleBusRequest bus req b).1.num_random = c.num_random := by
  rcases hreq with h | h <;> subst h <;> cases hs : c.getState b <;>
    simp [Cache.handleBusRequest, hp, hs]

/-- Under FESI a snooped BusRd or BusRdX counts no Flush. -/
theorem Cache.handleBusRequest_FESI_flushes (c : Cache) (bus : Bus) (req : BusRequest)
    (b : Nat) (hreq : req = BusRequest.BusRd ∨ req = BusRequest.BusRdX)
    (hp : c.protocol = Protocol.FESI) :
    (c.handleBusRequest bus req b).2.num_flushes = bus.num_flushes := by
  rcases hreq with h | h <;> subst h <;> cases hs : c.getState b <;>
    simp [Cache.handleBusRequest, hp, hs, Bus.sendFlush, Bus.countRequest, Bus.setSharedLine,
      Bus.setSupplied]

theorem HandoffFrame.refl (c v : Nat) (sys : System) : HandoffFrame c v sys sys :=
  ⟨fun _ => rfl, fun _ => rfl, fun _ _ => rfl, fun _ _ => rfl, rfl, rfl, rfl⟩

theorem HandoffFrame.trans {c v : Nat} {s1 s2 s3 : System} (h12 : HandoffFrame c v s1 s2)
    (h23 : HandoffFrame c v s2 s3) : HandoffFrame c v s1 s3 := by
  obtain ⟨a1, a2, a3, a4, a5, a6, a7⟩ := h12
  obtain ⟨b1, b2, b3, b4, b5, b6, b7⟩ := h23
  exact ⟨fun i => (b1 i).trans (a1 i), fun i => (b2 i).trans (a2 i),
    fun i hi => (b3 i hi).trans (a3 i hi), fun i hi => (b4 i hi).trans (a4 i hi),
    b5.trans a5, b6.trans a6, b7.trans a7⟩

theorem System.onCache_getElem?_ne (sys : System) (c i : Nat) (f : Cache → Cache) (h : i ≠ c) :
    (sys.onCache c f).caches[i]? = sys.caches[i]? := by
  unfold System.onCache
  split
  · exact List.getElem?_set_ne (Ne.symm h)
  · rfl

theorem System.onCache_getElem?_self (sys : System) (c : Nat) (f : Cache → Cache) :
    (sys.onCache c f).caches[c]? = (sys.caches[c]?).map f := by
  unfold System.onCache
  split
  · next x hx =>
    rw [hx]
    exact List.getElem?_set_self (List.getElem?_eq_some.mp hx).1
  · next hx => rw [hx]; rfl

@[simp] theorem System.onCache_bus (sys : System) (c : Nat) (f : Cache → Cache) :
    (sys.onCache c f).bus = sys.bus := by
  unfold System.onCache; split <;> rfl

theorem System.insertCacheBlock_getElem?_ne (sys : System) (c i b : Nat)
    (st : CacheBlockState) (h : i ≠ c) :
    (sys.insertCacheBlock c b st).2.caches[i]? = sys.caches[i]? := by
  unfold System.insertCacheBlock
  split
  · exact List.getElem?_set_ne (Ne.symm h)
  · rfl

theorem System.insertCacheBlock_getElem?_self (sys : System) (c b : Nat)
    (st : CacheBlockState) :
    (sys.insertCacheBlock c b st).2.caches[c]?
      = (sys.caches[c]?).map (fun x => (x.insertCacheBlock b st).2) := by
  unfold System.insertCacheBlock
  split
  · next x hx =>
    rw [hx]
    exact List.getElem?_set_self (List.getElem?_eq_some.mp hx).1
  · next hx => rw [hx]; rfl

@[simp] theorem System.insertCacheBlock_bus (sys : System) (c b : Nat) (st : CacheBlockState) :
    (sys.insertCacheBlock c b st).2.bus = sys.bus := by
  unfold System.insertCacheBlock; split <;> rfl

/-- An update of cache `c` that keeps its id, protocol and writebacks keeps
the handoff frame. -/
theorem handoffFrame_onCache (c v : Nat) (sys : System) (f : Cache → Cache)
    (hf : ∀ x : Cache, (f x).id = x.id ∧ (f x).protocol = x.protocol
      ∧ (f x).num_writebacks = x.num_writebacks) :
    HandoffFrame c v sys (sys.onCache c f) := by
  have hmap : ∀ (g : Cache → Nat) (i : Nat), (i = c → ∀ x, g (f x) = g x) →
      ((sys.onCache c f).caches[i]?).map g = (sys.caches[i]?).map g := by
    intro g i hg
    by_cases hi : i = c
    · subst hi
      rw [System.onCache_getElem?_self]
      cases sys.caches[i]? with
      | none => rfl
      | some x => simp [hg rfl x]
    · rw [System.onCache_getElem?_ne _ _ _ _ hi]
  refine ⟨fun i => hmap _ i (fun _ x => (hf x).1), ?_, ?_, ?_, ?_, by simp, by simp⟩
  · intro i
    by_cases hi : i = c
    · subst hi
      rw [System.onCache_getElem?_self]
      cases sys.caches[i]? with
      | none => rfl
      | some x => simp [(hf x).2.1]
    · rw [System.onCache_getElem?_ne _ _ _ _ hi]
  · intro i hi
    simp only [System.stateOf, System.onCache_getElem?_ne _ _ _ _ hi]
  · intro i hi
    simp only [System.stat, System.onCache_getElem?_ne _ _ _ _ hi]
  · simp only [System.stat, System.onCache_getElem?_self]
    cases sys.caches[c]? with
    | none => rfl
    | some x => simp [(hf x).2.2]

/-- The insertion into cache `c` keeps the handoff frame. -/
theorem handoffFrame_insertCacheBlock (c v b : Nat) (st : CacheBlockState) (sys : System) :
    HandoffFrame c v sys (sys.insertCacheBlock c b st).2 := by
  have h : (sys.insertCacheBlock c b st).2
      = sys.onCache c (fun x => (x.insertCacheBlock b st).2) := by
    unfold System.insertCacheBlock System.onCache
    split <;> rfl
  rw [h]
  exact handoffFrame_onCache c v sys _ (fun x => ⟨by simp, by simp, by simp⟩)

/-- Under FESI a snooped BusRd or BusRdX leaves the writebacks counter. -/
theorem Cache.handleBusRequest_FESI_writebacks (c : Cache) (bus : Bus) (req : BusRequest)
    (b : Nat) (hreq : req = BusRequest.BusRd ∨ req = BusRequest.BusRdX)
    (hp : c.protocol = Protocol.FESI) :
    (c.handleBusRequest bus req b).1.num_writebacks = c.num_writebacks := by
  rcases hreq with h | h <;> subst h <;> cases hs : c.getState b <;>
    simp [Cache.handleBusRequest, hp, hs]

theorem snoopLoop_FESI_flushes (req : BusRequest) (b s : Nat)
    (hreq : req = BusRequest.BusRd ∨ req = BusRequest.BusRdX) :
    ∀ (l : List Cache) (bus : Bus), (∀ x ∈ l, x.protocol = Protocol.FESI) →
      (snoopLoop req b s l bus).2.num_flushes = bus.num_flushes := by
  intro l
  induction l with
  | nil => intro bus _; rfl
  | cons c rest ih =>
    intro bus hp
    have hrest : ∀ x ∈ rest, x.protocol = Protocol.FESI :=
      fun x hx => hp x (List.mem_cons_of_mem _ hx)
    unfold snoopLoop
    split
    · dsimp only
      rw [ih _ hrest,
        Cache.handleBusRequest_FESI_flushes c bus req b hreq (hp c (List.mem_cons_self _ _))]
    · dsimp only
      exact ih _ hrest

/-- A cache after the snoop loop of a BusRd or BusRdX for `b` in a FESI
system: id, protocol, random, writebacks and the state of another block `v`
are those of the cache before. -/
theorem snoopLoop_FESI_frame (req : BusRequest) (b v s : Nat)
    (hreq : req = BusRequest.BusRd ∨ req = BusRequest.BusRdX)
    (hne : setIndex v ≠ setIndex b ∨ tagOf v ≠ tagOf b)
    (l : List Cache) (bus : Bus) (hp : ∀ x ∈ l, x.protocol = Protocol.FESI) (i : Nat) :
    (∀ x : Cache, l[i]? = some x → ∃ y : Cache, (snoopLoop req b s l bus).1[i]? = some y
      ∧ y.id = x.id ∧ y.protocol = x.protocol ∧ y.getState v = x.getState v
      ∧ y.num_random = x.num_random ∧ y.num_writebacks = x.num_writebacks)
    ∧ (l[i]? = none → (snoopLoop req b s l bus).1[i]? = none) := by
  constructor
  · intro x hx
    by_cases hs : x.id = s
    · exact ⟨x, (snoopLoop_getElem? req b s l bus i x hx).1 hs, rfl, rfl, rfl, rfl, rfl⟩
    · obtain ⟨bus', hb⟩ := (snoopLoop_getElem? req b s l bus i x hx).2 hs
      have hx' : x.protocol = Protocol.FESI := hp x (List.getElem?_mem hx)
      obtain ⟨h1, h2, h3⟩ := Cache.handleBusRequest_other_block x bus' req b v hreq hne
      exact ⟨_, hb, h2, h3, h1, Cache.handleBusRequest_FESI_random x bus' req b hreq hx',
        Cache.handleBusRequest_FESI_writebacks x bus' req b hreq hx'⟩
  · intro hx
    rw [List.getElem?_eq_none_iff] at hx ⊢
    rw [snoopLoop_length]; exact hx

theorem System.stateOf_eq (sys : System) (i v : Nat) :
    sys.stateOf i v
      = ((sys.caches[i]?).map (fun c => c.getState v)).getD CacheBlockState.Invalid := by
  unfold System.stateOf; cases sys.caches[i]? <;> rfl

theorem System.stat_eq (sys : System) (i : Nat) (f : Cache → Nat) :
    sys.stat i f = ((sys.caches[i]?).map f).getD 0 := by
  unfold System.stat; cases sys.caches[i]? <;> rfl

/-- The broadcast of a BusRd or BusRdX for `b` in a FESI system keeps the
handoff frame of every other block `v`. -/
theorem handoffFrame_sendMessage (c v b s : Nat) (req : BusRequest) (sys : System)
    (hreq : req = BusRequest.BusRd ∨ req = BusRequest.BusRdX)
    (hne : setIndex v ≠ setIndex b ∨ tagOf v ≠ tagOf b)
    (hp : ∀ x ∈ sys.caches, x.protocol = Protocol.FESI) :
    HandoffFrame c v sys (sys.sendMessage req b s) := by
  have h1 : req ≠ BusRequest.Flush := by rcases hreq with h | h <;> subst h <;> simp
  have h2 : req ≠ BusRequest.Flush_prime := by rcases hreq with h | h <;> subst h <;> simp
  rw [sendMessage_eq sys req b s h1 h2]
  have key := fun i => snoopLoop_FESI_frame req b v s hreq hne sys.caches
    { sys.bus.countRequest req with shared_line := false, supplied := false } hp i
  have hproj : ∀ {α : Type} (g : Cache → α) (i : Nat),
      (∀ x y : Cache, sys.caches[i]? = some x →
        (snoopLoop req b s sys.caches
          { sys.bus.countRequest req with shared_line := false, supplied := false }).1[i]?
          = some y →
        y.id = x.id ∧ y.protocol = x.protocol ∧ y.getState v = x.getState v
          ∧ y.num_random = x.num_random ∧ y.num_writebacks = x.num_writebacks → g y = g x) →
      ((snoopLoop req b s sys.caches
          { sys.bus.countRequest req with shared_line := false, supplied := false }).1[i]?).map g
        = (sys.caches[i]?).map g := by
    intro α g i hg
    cases hx : sys.caches[i]? with
    | none => rw [(key i).2 hx]
    | some x =>
      obtain ⟨y, hy, hrest⟩ := (key i).1 x hx
      rw [hy]
      simp [hg x y hx hy hrest]
  refine ⟨fun i => hproj _ i (fun _ _ _ _ h => h.1), fun i => hproj _ i (fun _ _ _ _ h => h.2.1),
    fun i _ => ?_, fun i _ => ?_, ?_, ?_, ?_⟩
  · rw [System.stateOf_eq, System.stateOf_eq]
    exact congrArg (fun o => Option.getD o CacheBlockState.Invalid)
      (hproj (fun c => c.getState v) i (fun _ _ _ _ h => h.2.2.1))
  · rw [System.stat_eq, System.stat_eq]
    exact congrArg (fun o => Option.getD o 0) (hproj Cache.num_random i (fun _ _ _ _ h => h.2.2.2.1))
  · rw [System.stat_eq, System.stat_eq]
    exact congrArg (fun o => Option.getD o 0) (hproj Cache.num_writebacks c (fun _ _ _ _ h => h.2.2.2.2))
  · rw [(snoopLoop_bus req b s sys.caches _).2.2.2.1]
    rcases hreq with h | h <;> subst h <;> rfl
  · show (snoopLoop req b s sys.caches _).2.num_flushes = _
    rw [snoopLoop_FESI_flushes req b s hreq sys.caches _ hp]
    rcases hreq with h | h <;> subst h <;> rfl

/-- Once the Forward state is taken, the rest of the `setF` snoop loop leaves
every cache and the bus. -/
theorem snoopLoop_setF_supplied (v s : Nat) :
    ∀ (l : List Cache) (bus : Bus), bus.supplied = true →
      snoopLoop BusRequest.setF v s l bus = (l, bus) := by
  intro l
  induction l with
  | nil => intro bus _; rfl
  | cons c rest ih =>
    intro bus hb
    unfold snoopLoop
    split
    · simp [Cache.handleBusRequest_setF, hb, ih bus hb]
    · simp [ih bus hb]

/-- A `setF` snoop loop over caches of which none (but the sender) holds the
block in Shared leaves every cache and the bus. -/
theorem snoopLoop_setF_none (v s : Nat) :
    ∀ (l : List Cache) (bus : Bus),
      (∀ (i : Nat) (y : Cache), l[i]? = some y → y.id ≠ s →
        y.getState v ≠ CacheBlockState.Shared) →
      snoopLoop BusRequest.setF v s l bus = (l, bus) := by
  intro l
  induction l with
  | nil => intro bus _; rfl
  | cons c rest ih =>
    intro bus h
    have hrest := ih bus (fun i y hy => h (i + 1) y (by simpa using hy))
    unfold snoopLoop
    split
    · next hc =>
      have := h 0 c (by simp) hc
      simp [Cache.handleBusRequest_setF, this, hrest]
    · simp [hrest]

/-- The `setF` snoop loop hands the Forward state to the first cache, other
than the sender, that holds the block in Shared. -/
theorem snoopLoop_setF_first (v s : Nat) :
    ∀ (l : List Cache) (bus : Bus) (j : Nat) (y : Cache), bus.supplied = false →
      l[j]? = some y → y.id ≠ s → y.getState v = CacheBlockState.Shared →
      (∀ (i : Nat) (z : Cache), i < j → l[i]? = some z → z.id ≠ s →
        z.getState v ≠ CacheBlockState.Shared) →
      snoopLoop BusRequest.setF v s l bus
        = (l.set j { y.setState v CacheBlockState.Forward with
                      num_random := (y.setState v CacheBlockState.Forward).num_random + 1 },
           bus.setSupplied) := by
  intro l
  induction l with
  | nil => intro bus j y _ h; simp at h
  | cons c rest ih =>
    intro bus j y hb hj hy hst hlt
    cases j with
    | zero =>
      simp only [List.getElem?_cons_zero, Option.some.injEq] at hj
      subst hj
      unfold snoopLoop
      simp [hy, Cache.handleBusRequest_setF, hst, hb,
        snoopLoop_setF_supplied v s rest bus.setSupplied (by simp [Bus.setSupplied])]
    | succ j =>
      have hrest := ih bus j y hb (by simpa using hj) hy hst
        (fun i z hi hz => hlt (i + 1) z (by omega) (by simpa using hz))
      unfold snoopLoop
      split
      · next hc =>
        have := hlt 0 c (by omega) (by simp) hc
        simp [Cache.handleBusRequest_setF, this, hrest]
      · simp [hrest]

theorem System.sendMessage_Flush_eq (S : System) (v s : Nat) :
    S.sendMessage BusRequest.Flush v s
      = { caches := S.caches, bus := { S.bus with num_flushes := S.bus.num_flushes + 1 } } := by
  simp [System.sendMessage, Bus.countRequest]

theorem sendMessage_setF_first (T : System) (v s j : Nat) (y : Cache)
    (hj : T.caches[j]? = some y) (hy : y.id ≠ s) (hst : y.getState v = CacheBlockState.Shared)
    (hlt : ∀ (i : Nat) (z : Cache), i < j → T.caches[i]? = some z → z.id ≠ s →
      z.getState v ≠ CacheBlockState.Shared) :
    T.sendMessage BusRequest.setF v s
      = { caches := T.caches.set j { y.setState v CacheBlockState.Forward with
                      num_random := (y.setState v CacheBlockState.Forward).num_random + 1 },
          bus := { T.bus with num_setF := T.bus.num_setF + 1, shared_line := false,
                              supplied := true } } := by
  rw [sendMessage_eq T _ v s (by simp) (by simp),
    snoopLoop_setF_first v s T.caches _ j y rfl hj hy hst hlt]
  rfl

theorem sendMessage_setF_none (T : System) (v s : Nat)
    (h : ∀ (i : Nat) (y : Cache), T.caches[i]? = some y → y.id ≠ s →
      y.getState v ≠ CacheBlockState.Shared) :
    T.sendMessage BusRequest.setF v s
      = { caches := T.caches,
          bus := { T.bus with num_setF := T.bus.num_setF + 1, shared_line := false,
                              supplied := false } } := by
  rw [sendMessage_eq T _ v s (by simp) (by simp), snoopLoop_setF_none v s T.caches _ h]
  rfl

/-- The sender's cache is not touched by its broadcast. -/
theorem sendMessage_sender (sys : System) (req : BusRequest) (b c : Nat) (x : Cache)
    (hx : sys.caches[c]? = some x) :
    (sys.sendMessage req b x.id).caches[c]? = some x := by
  unfold System.sendMessage
  dsimp only
  split
  · exact hx
  · exact (snoopLoop_getElem? req b x.id sys.caches _ c x hx).1 rfl

theorem proc_read_miss_FESI (sys : System) (c a : Nat) (self : Cache)
    (hself : sys.caches[c]? = some self) (hp : self.protocol = Protocol.FESI)
    (hst : self.getState (a >>> CACHE_OFFSET_BITS) = CacheBlockState.Invalid) :
    sys.handleProcRequest c ProcRequest.ProcRd a =
      (let b := a >>> CACHE_OFFSET_BITS
       let S1 := (sys.onCache c (fun c => { c with num_reads := c.num_reads + 1 })).sendMessage
         BusRequest.BusRd b self.id
       let ins := S1.insertCacheBlock c b CacheBlockState.Forward
       let S2 := if S1.bus.shared_line = false
                 then ins.2.onCache c (fun c => c.setState b CacheBlockState.Exclusive) else ins.2
       let S3 := if S1.bus.supplied = false
                 then S2.onCache c (fun c => { c with num_fromLLC := c.num_fromLLC + 1 }) else S2
       let S4 := if ins.1.state = CacheBlockState.Forward then
                   (if (S3.sendMessage BusRequest.setF
                          (evicted_blockAddress ins.1 (setIndex b)) self.id).bus.supplied = false
                    then ((S3.sendMessage BusRequest.setF
                            (evicted_blockAddress ins.1 (setIndex b)) self.id).sendMessage
                              BusRequest.Flush (evicted_blockAddress ins.1 (setIndex b))
                              self.id).onCache c
                            (fun c => { c with num_writebacks := c.num_writebacks + 1 })
                    else S3.sendMessage BusRequest.setF
                          (evicted_blockAddress ins.1 (setIndex b)) self.id)
                 else S3
       S4.onCache c (fun c => { c with num_read_misses := c.num_read_misses + 1 })) := by
  unfold System.handleProcRequest
  simp only [hself, hp, hst]
  rfl

theorem proc_write_miss_FESI (sys : System) (c a : Nat) (self : Cache)
    (hself : sys.caches[c]? = some self) (hp : self.protocol = Protocol.FESI)
    (hst : self.getState (a >>> CACHE_OFFSET_BITS) = CacheBlockState.Invalid) :
    sys.handleProcRequest c ProcRequest.ProcWr a =
      (let b := a >>> CACHE_OFFSET_BITS
       let S1 := (sys.onCache c (fun c => { c with num_writes := c.num_writes + 1 })).sendMessage
         BusRequest.BusRdX b self.id
       let S2 := if S1.bus.supplied = false
                 then S1.onCache c (fun c => { c with num_fromLLC := c.num_fromLLC + 1 }) else S1
       let ins := S2.insertCacheBlock c b CacheBlockState.Forward
       let S3 := ins.2
       let S4 := if ins.1.state = CacheBlockState.Forward then
                   (if (S3.sendMessage BusRequest.setF
                          (evicted_blockAddress ins.1 (setIndex b)) self.id).bus.supplied = false
                    then ((S3.sendMessage BusRequest.setF
                            (evicted_blockAddress ins.1 (setIndex b)) self.id).sendMessage
                              BusRequest.Flush (evicted_blockAddress ins.1 (setIndex b))
                              self.id).onCache c
                            (fun c => { c with num_writebacks := c.num_writebacks + 1 })
                    else S3.sendMessage BusRequest.setF
                          (evicted_blockAddress ins.1 (setIndex b)) self.id)
                 else S3
       S4.onCache c (fun c => { c with num_write_misses := c.num_write_misses + 1 })) := by
  unfold System.handleProcRequest
  simp only [hself, hp, hst]
  rfl

theorem handoffFrame_protocols {c v : Nat} {sys T : System} (h : HandoffFrame c v sys T)
    (hp : ∀ x ∈ sys.caches, x.protocol = Protocol.FESI) :
    ∀ x ∈ T.caches, x.protocol = Protocol.FESI := by
  intro x hx
  obtain ⟨i, hi⟩ := List.getElem?_of_mem hx
  have := h.2.1 i
  rw [hi] at this
  cases hs : sys.caches[i]? with
  | none => rw [hs] at this; simp at this
  | some y =>
    rw [hs] at this
    simp only [Option.map_some', Option.some.injEq] at this
    rw [this]; exact hp y (List.getElem?_mem hs)

theorem handoffFrame_ids {c v : Nat} {sys T : System} (h : HandoffFrame c v sys T)
    (hid : IdsAreIndices sys) : IdsAreIndices T := by
  intro i x hx
  have := h.1 i
  rw [hx] at this
  cases hs : sys.caches[i]? with
  | none => rw [hs] at this; simp at this
  | some y =>
    rw [hs] at this
    simp only [Option.map_some', Option.some.injEq] at this
    rw [this]; exact hid i y hs

theorem Cache.victim_congr (self x : Cache) (b : Nat) (h : x.sets = self.sets) :
    (x.insertCacheBlock b CacheBlockState.Forward).1 = self.victim b := by
  unfold Cache.victim
  rw [Cache.insertCacheBlock_evicted, Cache.insertCacheBlock_evicted, h]

/-- A FESI miss of cache `c` that evicts a Forward block, up to its `setF`
broadcast: the system `T` that sends the broadcast is within the handoff frame
of the system before the request, and the request ends with the broadcast, the
Flush with its writeback when no peer took the Forward state, and a last
update of the miss counter. -/
theorem FESI_miss_before_setF (sys : System) (c a : Nat) (req : ProcRequest) (self : Cache)
    (hall : ∀ x ∈ sys.caches, x.protocol = Protocol.FESI)
    (hself : sys.caches[c]? = some self)
    (hmiss : self.getState (a >>> CACHE_OFFSET_BITS) = CacheBlockState.Invalid)
    (hvic : (self.victim (a >>> CACHE_OFFSET_BITS)).state = CacheBlockState.Forward)
    (v : Nat)
    (hv : v = evicted_blockAddress (self.victim (a >>> CACHE_OFFSET_BITS))
            (setIndex (a >>> CACHE_OFFSET_BITS)))
    (hne : setIndex v ≠ setIndex (a >>> CACHE_OFFSET_BITS)
      ∨ tagOf v ≠ tagOf (a >>> CACHE_OFFSET_BITS)) :
    ∃ (T : System) (g : Cache → Cache), HandoffFrame c v sys T
      ∧ (∀ x : Cache, (g x).id = x.id ∧ (g x).protocol = x.protocol
          ∧ (g x).num_writebacks = x.num_writebacks)
      ∧ sys.handleProcRequest c req a
          = (if (T.sendMessage BusRequest.setF v self.id).bus.supplied = false
             then ((T.sendMessage BusRequest.setF v self.id).sendMessage
                      BusRequest.Flush v self.id).onCache c
                    (fun c => { c with num_writebacks := c.num_writebacks + 1 })
             else T.sendMessage BusRequest.setF v self.id).onCache c g := by
  have hp : self.protocol = Protocol.FESI := hall self (List.getElem?_mem hself)
  cases req with
  | ProcRd =>
    rw [proc_read_miss_FESI sys c a self hself hp hmiss]
    dsimp only
    have F0 := handoffFrame_onCache c v sys
      (fun c => { c with num_reads := c.num_reads + 1 }) (fun x => ⟨rfl, rfl, rfl⟩)
    have hc0 : (sys.onCache c (fun c => { c with num_reads := c.num_reads + 1 })).caches[c]?
        = some { self with num_reads := self.num_reads + 1 } := by
      rw [System.onCache_getElem?_self, hself]; rfl
    obtain ⟨S1, hS1⟩ : ∃ S1, S1 = (sys.onCache c
        (fun c => { c with num_reads := c.num_reads + 1 })).sendMessage BusRequest.BusRd
          (a >>> CACHE_OFFSET_BITS) self.id := ⟨_, rfl⟩
    have F1 : HandoffFrame c v sys S1 := by
      rw [hS1]
      exact F0.trans (handoffFrame_sendMessage c _ _ _ _ _ (Or.inl rfl) hne
        (handoffFrame_protocols F0 hall))
    have hc1 : S1.caches[c]? = some { self with num_reads := self.num_reads + 1 } := by
      rw [hS1]
      exact sendMessage_sender _ BusRequest.BusRd _ c
        { self with num_reads := self.num_reads + 1 } hc0
    rw [← hS1]
    have hins : (S1.insertCacheBlock c (a >>> CACHE_OFFSET_BITS) CacheBlockState.Forward).1
        = self.victim (a >>> CACHE_OFFSET_BITS) := by
      rw [System.insertCacheBlock_eq S1 c _ _ _ hc1]
      exact Cache.victim_congr self _ _ rfl
    rw [hins, if_pos hvic, ← hv]
    refine ⟨_, _, ?_, ?_, rfl⟩
    · have F2 := F1.trans (handoffFrame_insertCacheBlock c _ (a >>> CACHE_OFFSET_BITS)
        CacheBlockState.Forward S1)
      by_cases h1 : S1.bus.shared_line = false <;> by_cases h2 : S1.bus.supplied = false <;>
        simp only [h1, h2, if_true, if_false]
      · exact (F2.trans (handoffFrame_onCache c _ _ _ (fun x => ⟨by simp, by simp, by simp⟩))).trans
          (handoffFrame_onCache c _ _ _ (fun x => ⟨rfl, rfl, rfl⟩))
      · exact F2.trans (handoffFrame_onCache c _ _ _ (fun x => ⟨by simp, by simp, by simp⟩))
      · exact F2.trans (handoffFrame_onCache c _ _ _ (fun x => ⟨rfl, rfl, rfl⟩))
      · exact F2
    · exact fun x => ⟨rfl, rfl, rfl⟩
  | ProcWr =>
    rw [proc_write_miss_FESI sys c a self hself hp hmiss]
    dsimp only
    have F0 := handoffFrame_onCache c v sys
      (fun c => { c with num_writes := c.num_writes + 1 }) (fun x => ⟨rfl, rfl, rfl⟩)
    have hc0 : (sys.onCache c (fun c => { c with num_writes := c.num_writes + 1 })).caches[c]?
        = some { self with num_writes := self.num_writes + 1 } := by
      rw [System.onCache_getElem?_self, hself]; rfl
    obtain ⟨S1, hS1⟩ : ∃ S1, S1 = (sys.onCache c
        (fun c => { c with num_writes := c.num_writes + 1 })).sendMessage BusRequest.BusRdX
          (a >>> CACHE_OFFSET_BITS) self.id := ⟨_, rfl⟩
    have F1 : HandoffFrame c v sys S1 := by
      rw [hS1]
      exact F0.trans (handoffFrame_sendMessage c _ _ _ _ _ (Or.inr rfl) hne
        (handoffFrame_protocols F0 hall))
    have hc1 : S1.caches[c]? = some { self with num_writes := self.num_writes + 1 } := by
      rw [hS1]
      exact sendMessage_sender _ BusRequest.BusRdX _ c
        { self with num_writes := self.num_writes + 1 } hc0
    rw [← hS1]
    obtain ⟨S2, hS2⟩ : ∃ S2, S2 = (if S1.bus.supplied = false
        then S1.onCache c (fun c => { c with num_fromLLC := c.num_fromLLC + 1 }) else S1) :=
      ⟨_, rfl⟩
    have F2 : HandoffFrame c v sys S2 := by
      rw [hS2]
      by_cases h2 : S1.bus.supplied = false <;> simp only [h2, if_true, if_false]
      · exact F1.trans (handoffFrame_onCache c _ _ _ (fun x => ⟨rfl, rfl, rfl⟩))
      · exact F1
    have hc2 : ∃ x2 : Cache, S2.caches[c]? = some x2 ∧ x2.sets = self.sets := by
      rw [hS2]
      by_cases h2 : S1.bus.supplied = false <;> simp only [h2, if_true, if_false]
      · exact ⟨{ self with num_writes := self.num_writes + 1,
                           num_fromLLC := self.num_fromLLC + 1 },
          by rw [System.onCache_getElem?_self, hc1]; rfl, rfl⟩
      · exact ⟨{ self with num_writes := self.num_writes + 1 }, hc1, rfl⟩
    obtain ⟨x2, hx2, hsets⟩ := hc2
    rw [← hS2]
    have hins : (S2.insertCacheBlock c (a >>> CACHE_OFFSET_BITS) CacheBlockState.Forward).1
        = self.victim (a >>> CACHE_OFFSET_BITS) := by
      rw [System.insertCacheBlock_eq S2 c _ _ _ hx2]
      exact Cache.victim_congr self _ _ hsets
    rw [hins, if_pos hvic, ← hv]
    refine ⟨_, _, ?_, ?_, rfl⟩
    · exact F2.trans (handoffFrame_insertCacheBlock c _ (a >>> CACHE_OFFSET_BITS)
        CacheBlockState.Forward S2)
    · exact fun x => ⟨rfl, rfl, rfl⟩

/-! ## The caches stay in id order -/

theorem Cache.handleBusRequest_id (c : Cache) (bus : Bus) (req : BusRequest) (b : Nat) :
    (c.handleBusRequest bus req b).1.id = c.id := by
  cases req <;> cases hp : c.protocol <;> cases hs : c.getState b <;>
    simp only [Cache.handleBusRequest, hp, hs, reduceCtorEq, if_true, if_false] <;>
    cases hsup : bus.supplied <;>
    simp [Bus.getSupplied, Bus.setSupplied, Bus.setSharedLine, Bus.sendFlush,
      Bus.countRequest, hsup]

theorem snoopLoop_ids (req : BusRequest) (b s : Nat) (l : List Cache) (bus : Bus) (i : Nat)
    (x' : Cache) (hx' : (snoopLoop req b s l bus).1[i]? = some x') :
    ∃ x : Cache, l[i]? = some x ∧ x'.id = x.id := by
  have hlt : i < l.length := by
    have := (List.getElem?_eq_some.mp hx').1
    rwa [snoopLoop_length] at this
  have hx : l[i]? = some l[i] := List.getElem?_eq_getElem hlt
  refine ⟨l[i], hx, ?_⟩
  by_cases hs : l[i].id = s
  · have := (snoopLoop_getElem? req b s l bus i _ hx).1 hs
    rw [this] at hx'
    cases hx'
    rfl
  · obtain ⟨bus', hb⟩ := (snoopLoop_getElem? req b s l bus i _ hx).2 hs
    rw [hb] at hx'
    cases hx'
    exact Cache.handleBusRequest_id _ _ _ _

theorem idsAreIndices_sendMessage (req : BusRequest) (b s : Nat) {sys : System}
    (h : IdsAreIndices sys) : IdsAreIndices (sys.sendMessage req b s) := by
  unfold System.sendMessage
  dsimp only
  split
  · exact h
  · intro i x' hx'
    obtain ⟨x, hx, hid⟩ := snoopLoop_ids req b s sys.caches _ i x' hx'
    rw [hid]
    exact h i x hx

theorem idsAreIndices_onCache (c : Nat) (f : Cache → Cache) (hf : ∀ x : Cache, (f x).id = x.id)
    {sys : System} (h : IdsAreIndices sys) : IdsAreIndices (sys.onCache c f) := by
  intro i x' hx'
  by_cases hi : i = c
  · subst hi
    rw [System.onCache_getElem?_self] at hx'
    cases hx : sys.caches[i]? with
    | none => rw [hx] at hx'; simp at hx'
    | some x =>
      rw [hx] at hx'
      simp only [Option.map_some', Option.some.injEq] at hx'
      rw [← hx', hf]
      exact h i x hx
  · rw [System.onCache_getElem?_ne _ _ _ _ hi] at hx'
    exact h i x' hx'

theorem idsAreIndices_insertCacheBlock (c b : Nat) (st : CacheBlockState) {sys : System}
    (h : IdsAreIndices sys) : IdsAreIndices (sys.insertCacheBlock c b st).2 := by
  have he : (sys.insertCacheBlock c b st).2
      = sys.onCache c (fun x => (x.insertCacheBlock b st).2) := by
    unfold System.insertCacheBlock System.onCache
    split <;> rfl
  rw [he]
  exact idsAreIndices_onCache c _ (fun x => by simp) h

theorem idsAreIndices_handleProcRequest (core : Nat) (req : ProcRequest) (addr : Nat)
    {sys : System} (hs : IdsAreIndices sys) :
    IdsAreIndices (sys.handleProcRequest core req addr) := by
  unfold System.handleProcRequest
  split
  · exact hs
  · next self hself =>
    cases req <;> cases hp : self.protocol <;>
      cases hst : self.getState (addr >>> CACHE_OFFSET_BITS) <;>
      simp only [hp, hst] <;>
      repeat' (first
        | with_reducible exact hs
        | with_reducible refine idsAreIndices_sendMessage _ _ _ ?_
        | with_reducible refine idsAreIndices_insertCacheBlock _ _ _ ?_
        | with_reducible refine idsAreIndices_onCache _ _ ?_ ?_
        | (intro x;
           first
            | with_reducible exact Cache.moveToMRU_id _ _
            | with_reducible exact Cache.setState_id _ _ _
            | rfl)
        | split)

theorem initialSystem_ids (p : Protocol) : IdsAreIndices (initialSystem p) := by
  intro i x hx
  simp only [initialSystem, List.getElem?_map] at hx
  cases hr : (List.range NUMBER_OF_CORES)[i]? with
  | none => rw [hr] at hx; simp at hx
  | some k =>
    rw [hr] at hx
    simp only [Option.map_some', Option.some.injEq] at hx
    have hk : k = i := by
      have := List.getElem?_eq_some.mp hr
      obtain ⟨hlt, he⟩ := this
      simpa using he.symm
    rw [← hx, ← hk]; rfl

theorem simulate_ids (trace : List Reference) : ∀ sys : System, IdsAreIndices sys →
    IdsAreIndices (simulate sys trace) := by
  induction trace with
  | nil => intro sys hs; exact hs
  | cons r rest ih =>
    intro sys hs
    unfold simulate
    split
    · exact hs
    · split
      · exact hs
      · split
        · exact ih _ (idsAreIndices_handleProcRequest _ _ _ hs)
        · split
          · exact ih _ (idsAreIndices_handleProcRequest _ _ _ hs)
          · exact ih _ hs

/-- After every trace the cache at position `i` has id `i`. -/
theorem run_ids (p : Protocol) (trace : List Reference) : IdsAreIndices (run p trace) :=
  simulate_ids trace _ (initialSystem_ids p)

/-! ## Set operations on sets with distinct tags -/

/-- In a set with distinct valid tags, the blocks around a block that holds
tag `t` do not hold it. -/
theorem no_other_hit_of_tagsDistinct {pre post : List CacheBlock} {blk : CacheBlock} {t : Nat}
    (hd : TagsDistinct ⟨pre ++ blk :: post⟩) (hb : blk.hit t = true) :
    (∀ x ∈ pre, x.hit t = false) ∧ (∀ x ∈ post, x.hit t = false) := by
  unfold TagsDistinct at hd
  simp only [CacheBlock.hit, Bool.and_eq_true, decide_eq_true_eq] at hb
  rw [List.pairwise_append] at hd
  obtain ⟨-, hcons, hcross⟩ := hd
  rw [List.pairwise_cons] at hcons
  constructor
  · intro x hx
    have := hcross x hx blk (List.mem_cons_self _ _)
    simp only [CacheBlock.hit, Bool.and_eq_false_iff, decide_eq_false_iff_not]
    by_contra hcon
    simp only [not_or, not_not] at hcon
    exact this ⟨hcon.1, hb.1, by rw [hcon.2, hb.2]⟩
  · intro x hx
    have := hcons.1 x hx
    simp only [CacheBlock.hit, Bool.and_eq_false_iff, decide_eq_false_iff_not]
    by_contra hcon
    simp only [not_or, not_not] at hcon
    exact this ⟨hb.1, hcon.1, by rw [hcon.2, hb.2]⟩

theorem map_setState_of_no_hit (t : Nat) (st : CacheBlockState) (l : List CacheBlock)
    (h : ∀ x ∈ l, x.hit t = false) :
    l.map (fun cb => if cb.hit t then { cb with state := st } else cb) = l := by
  induction l with
  | nil => rfl
  | cons x rest ih =>
    simp only [List.map_cons, h x (List.mem_cons_self _ _), Bool.false_eq_true, if_false,
      ih (fun y hy => h y (List.mem_cons_of_mem _ hy))]

theorem filter_hit_of_no_hit (t : Nat) (l : List CacheBlock)
    (h : ∀ x ∈ l, x.hit t = false) :
    l.filter (CacheBlock.hit t) = [] ∧ l.filter (fun cb => !cb.hit t) = l := by
  constructor
  · rw [List.filter_eq_nil_iff]
    intro x hx; simp [h x hx]
  · rw [List.filter_eq_self]
    intro x hx; simp [h x hx]

/-- A set without a valid block of tag `t` is left as it is by `setState`. -/
theorem CacheSet.setState_of_no_hit (s : CacheSet) (t : Nat) (st : CacheBlockState)
    (h : ∀ x ∈ s.blocks, x.hit t = false) : s.setState t st = s := by
  cases s with
  | mk blocks =>
    by_cases hst : st = CacheBlockState.Invalid
    · subst hst
      simp only [CacheSet.setState, if_true]
      rw [(filter_hit_of_no_hit t blocks h).1, (filter_hit_of_no_hit t blocks h).2]
      rfl
    · simp only [CacheSet.setState, hst, if_false]
      rw [map_setState_of_no_hit t st blocks h]

/-! ## The tie-break among Shared suppliers (MSI, MESI) -/

/-- Under MSI and MESI, a cache that holds the block neither in Modified nor
in Exclusive reacts to a BusRd as follows: a Shared copy supplies when no
peer has supplied yet (provided and random counted, one Flush_prime), and
raises the shared line under MESI; every other copy does nothing. -/
theorem Cache.handleBusRequest_BusRd_shared (c : Cache) (bus : Bus) (b : Nat)
    (hp : c.protocol = Protocol.MSI ∨ c.protocol = Protocol.MESI)
    (hM : c.getState b ≠ CacheBlockState.Modified)
    (hE : c.getState b ≠ CacheBlockState.Exclusive) :
    c.handleBusRequest bus BusRequest.BusRd b
      = if c.getState b = CacheBlockState.Shared then
          (if bus.supplied = false then
            ({ c with num_provided := c.num_provided + 1, num_random := c.num_random + 1 },
             { bus with shared_line := bus.shared_line || decide (c.protocol = Protocol.MESI),
                        supplied := true,
                        num_flush_primes := bus.num_flush_primes + 1 })
           else
            (c, { bus with
                    shared_line := bus.shared_line || decide (c.protocol = Protocol.MESI) }))
        else (c, bus) := by
  obtain ⟨sh, sup, n1, n2, n3, n4, n5, n6⟩ := bus
  rcases hp with hp | hp <;> cases hs : c.getState b <;>
    simp only [hs, ne_eq, not_true_eq_false] at hM hE <;>
    simp only [Cache.handleBusRequest, hp, hs, reduceCtorEq, if_true, if_false] <;>
    cases sup <;> cases sh <;>
    simp [Bus.getSupplied, Bus.setSupplied, Bus.setSharedLine, Bus.sendFlush,
      Bus.countRequest]

/-- Once a peer has supplied, the rest of a BusRd snoop loop over MSI/MESI
caches without Modified or Exclusive copies leaves every cache and counts no
Flush or Flush_prime. -/
theorem snoopLoop_BusRd_supplied (b s : Nat) :
    ∀ (l : List Cache) (bus : Bus), bus.supplied = true →
      (∀ (i : Nat) (y : Cache), l[i]? = some y → y.id ≠ s →
        (y.protocol = Protocol.MSI ∨ y.protocol = Protocol.MESI)
        ∧ y.getState b ≠ CacheBlockState.Modified ∧ y.getState b ≠ CacheBlockState.Exclusive) →
      (snoopLoop BusRequest.BusRd b s l bus).1 = l
      ∧ (snoopLoop BusRequest.BusRd b s l bus).2.num_flush_primes = bus.num_flush_primes
      ∧ (snoopLoop BusRequest.BusRd b s l bus).2.num_flushes = bus.num_flushes := by
  intro l
  induction l with
  | nil => intro bus _ _; exact ⟨rfl, rfl, rfl⟩
  | cons c rest ih =>
    intro bus hb h
    have hrest : ∀ (i : Nat) (y : Cache), rest[i]? = some y → y.id ≠ s →
        (y.protocol = Protocol.MSI ∨ y.protocol = Protocol.MESI)
        ∧ y.getState b ≠ CacheBlockState.Modified ∧ y.getState b ≠ CacheBlockState.Exclusive :=
      fun i y hy => h (i + 1) y (by simpa using hy)
    unfold snoopLoop
    split
    · next hc =>
      obtain ⟨hp, hM, hE⟩ := h 0 c (by simp) hc
      rw [Cache.handleBusRequest_BusRd_shared c bus b hp hM hE]
      obtain ⟨sh, sup, n1, n2, n3, n4, n5, n6⟩ := bus
      simp only at hb
      subst hb
      by_cases hs : c.getState b = CacheBlockState.Shared
      · simp only [hs, if_true, Bool.true_eq_false, if_false]
        obtain ⟨h1, h2, h3⟩ := ih
          ⟨(sh || decide (c.protocol = Protocol.MESI)), true, n1, n2, n3, n4, n5, n6⟩ rfl hrest
        exact ⟨by rw [h1], h2, h3⟩
      · simp only [hs, if_false]
        obtain ⟨h1, h2, h3⟩ := ih ⟨sh, true, n1, n2, n3, n4, n5, n6⟩ rfl hrest
        exact ⟨by rw [h1], h2, h3⟩
    · obtain ⟨h1, h2, h3⟩ := ih bus hb hrest
      exact ⟨by simp only [h1], h2, h3⟩

/-- The BusRd snoop loop over MSI/MESI caches without Modified or Exclusive
copies: the first Shared peer supplies. -/
theorem snoopLoop_BusRd_first (b s : Nat) :
    ∀ (l : List Cache) (bus : Bus) (j : Nat) (y : Cache), bus.supplied = false →
      l[j]? = some y → y.id ≠ s → y.getState b = CacheBlockState.Shared →
      (∀ (i : Nat) (z : Cache), i < j → l[i]? = some z → z.id ≠ s →
        z.getState b ≠ CacheBlockState.Shared) →
      (∀ (i : Nat) (z : Cache), l[i]? = some z → z.id ≠ s →
        (z.protocol = Protocol.MSI ∨ z.protocol = Protocol.MESI)
        ∧ z.getState b ≠ CacheBlockState.Modified ∧ z.getState b ≠ CacheBlockState.Exclusive) →
      (snoopLoop BusRequest.BusRd b s l bus).1
          = l.set j { y with num_provided := y.num_provided + 1,
                             num_random := y.num_random + 1 }
      ∧ (snoopLoop BusRequest.BusRd b s l bus).2.num_flush_primes = bus.num_flush_primes + 1
      ∧ (snoopLoop BusRequest.BusRd b s l bus).2.num_flushes = bus.num_flushes := by
  intro l
  induction l with
  | nil => intro bus j y _ h; simp at h
  | cons c rest ih =>
    intro bus j y hb hj hy hst hlt h
    have hrest : ∀ (i : Nat) (z : Cache), rest[i]? = some z → z.id ≠ s →
        (z.protocol = Protocol.MSI ∨ z.protocol = Protocol.MESI)
        ∧ z.getState b ≠ CacheBlockState.Modified ∧ z.getState b ≠ CacheBlockState.Exclusive :=
      fun i z hz => h (i + 1) z (by simpa using hz)
    cases j with
    | zero =>
      simp only [List.getElem?_cons_zero, Option.some.injEq] at hj
      subst hj
      obtain ⟨hp, hM, hE⟩ := h 0 c (by simp) hy
      obtain ⟨sh, sup, n1, n2, n3, n4, n5, n6⟩ := bus
      simp only at hb
      subst hb
      unfold snoopLoop
      simp only [hy, ne_eq, not_false_eq_true, if_true]
      rw [Cache.handleBusRequest_BusRd_shared c _ b hp hM hE]
      simp only [hst, if_true]
      obtain ⟨h1, h2, h3⟩ := snoopLoop_BusRd_supplied b s rest
        ⟨(sh || decide (c.protocol = Protocol.MESI)), true, n1, n2, n3, n4 + 1, n5, n6⟩ rfl hrest
      exact ⟨by rw [h1]; rfl, h2, h3⟩
    | succ j =>
      have hrec := ih bus j y hb (by simpa using hj) hy hst
        (fun i z hi hz => hlt (i + 1) z (by omega) (by simpa using hz)) hrest
      unfold snoopLoop
      split
      · next hc =>
        obtain ⟨hp, hM, hE⟩ := h 0 c (by simp) hc
        have hns := hlt 0 c (by omega) (by simp) hc
        rw [Cache.handleBusRequest_BusRd_shared c bus b hp hM hE]
        simp only [hns, if_false]
        exact ⟨by rw [hrec.1]; rfl, hrec.2.1, hrec.2.2⟩
      · exact ⟨by simp only [hrec.1]; rfl, hrec.2.1, hrec.2.2⟩

/-! ## `getState` on sets with distinct valid tags -/

/-- In a list with distinct valid tags `getState` returns the state of any
valid block with the tag. -/
theorem getStateLoop_of_hit (t : Nat) :
    ∀ (l : List CacheBlock) (x : CacheBlock), TagsDistinct ⟨l⟩ → x ∈ l → x.hit t = true →
      getStateLoop t l = x.state := by
  intro l
  induction l with
  | nil => intro x _ hx; simp at hx
  | cons y rest ih =>
    intro x hd hx hh
    unfold TagsDistinct at hd
    simp only [List.pairwise_cons] at hd
    unfold getStateLoop
    rcases List.mem_cons.mp hx with rfl | hx'
    · simp [hh]
    · by_cases hy : y.hit t = true
      · exfalso
        simp only [CacheBlock.hit, Bool.and_eq_true, decide_eq_true_eq] at hh hy
        exact hd.1 x hx' ⟨hy.1, hh.1, by rw [hy.2, hh.2]⟩
      · simp only [hy, Bool.false_eq_true, if_false]
        exact ih x hd.2 hx' hh

theorem tagsDistinct_perm {l l' : List CacheBlock} (h : l.Perm l') (hd : TagsDistinct ⟨l⟩) :
    TagsDistinct ⟨l'⟩ := by
  unfold TagsDistinct at *
  refine (List.Perm.pairwise_iff ?_ h).mp hd
  intro x y hxy hcon
  exact hxy ⟨hcon.2.1, hcon.1, hcon.2.2.symm⟩

/-- On lists with distinct valid tags `getState` does not depend on the order
of the blocks. -/
theorem getStateLoop_perm (t : Nat) {l l' : List CacheBlock} (h : l.Perm l')
    (hd : TagsDistinct ⟨l⟩) : getStateLoop t l' = getStateLoop t l := by
  by_cases hinv : getStateLoop t l = CacheBlockState.Invalid
  · rw [hinv, getStateLoop_eq_invalid_iff]
    intro x hx
    exact (getStateLoop_eq_invalid_iff t l).mp hinv x (h.mem_iff.mpr hx)
  · have : ∃ x ∈ l, x.hit t = true := by
      by_contra hcon
      simp only [not_exists, not_and, Bool.not_eq_true] at hcon
      exact hinv ((getStateLoop_eq_invalid_iff t l).mpr hcon)
    obtain ⟨x, hx, hh⟩ := this
    rw [getStateLoop_of_hit t l x hd hx hh,
      getStateLoop_of_hit t l' x (tagsDistinct_perm h hd) (h.mem_iff.mp hx) hh]

theorem CacheSet.moveToMRU_perm (s : CacheSet) (t : Nat) :
    s.blocks.Perm (s.moveToMRU t).blocks := by
  rcases s.moveToMRU_blocks t with h | ⟨pre, cb, post, h1, h2, -⟩
  · rw [h]
  · rw [h1, h2]
    simp only [List.append_assoc]
    exact List.Perm.append_left pre (List.perm_append_singleton cb post).symm

/-- A set holds a tag after `moveToMRU` exactly when it held it before. -/
theorem CacheSet.getState_moveToMRU_eq_invalid_iff (s : CacheSet) (t t' : Nat) :
    (s.moveToMRU t).getState t' = CacheBlockState.Invalid
      ↔ s.getState t' = CacheBlockState.Invalid := by
  unfold CacheSet.getState
  rw [getStateLoop_eq_invalid_iff, getStateLoop_eq_invalid_iff]
  constructor
  · intro h x hx; exact h x ((s.moveToMRU_perm t).mem_iff.mp hx)
  · intro h x hx; exact h x ((s.moveToMRU_perm t).mem_iff.mpr hx)

/-- On a set with distinct valid tags `moveToMRU` changes no state. -/
theorem CacheSet.getState_moveToMRU (s : CacheSet) (t t' : Nat) (hd : TagsDistinct s) :
    (s.moveToMRU t).getState t' = s.getState t' :=
  getStateLoop_perm t' (s.moveToMRU_perm t) hd

theorem Cache.getState_after_moveToMRU_eq_invalid_iff (c : Cache) (b v : Nat) :
    (c.moveToMRU b).getState v = CacheBlockState.Invalid
      ↔ c.getState v = CacheBlockState.Invalid := by
  rw [Cache.getState_eq, Cache.getState_eq, Cache.moveToMRU_sets]
  cases h : c.sets[setIndex b]? with
  | none => simp
  | some s =>
    have hlt : setIndex b < c.sets.length := (List.getElem?_eq_some.mp h).1
    by_cases hv : setIndex v = setIndex b
    · simp [hv, h, List.getElem?_set_self hlt, CacheSet.getState_moveToMRU_eq_invalid_iff]
    · simp [List.getElem?_set_ne (Ne.symm hv)]

/-! ## The arms of `handleProcRequest` are the three shapes -/

theorem handleProcRequest_hit (sys : System) (c a : Nat) (req : ProcRequest) (self : Cache)
    (up : Option CacheBlockState) (upgr : Bool)
    (hself : sys.caches[c]? = some self)
    (hact : hitAction self.protocol req (self.getState (a >>> CACHE_OFFSET_BITS))
      = some (up, upgr)) :
    sys.handleProcRequest c req a
      = (sys.onCache c (fun x => x.countRequest req)).hitPath c self.id
          (a >>> CACHE_OFFSET_BITS) up upgr := by
  unfold System.handleProcRequest
  simp only [hself]
  cases req <;> cases hp : self.protocol <;>
    cases hst : self.getState (a >>> CACHE_OFFSET_BITS) <;>
    simp [hp, hst, hitAction, Protocol.admits] at hact <;>
    obtain ⟨rfl, rfl⟩ := hact <;>
    simp only [hp, hst] <;> rfl

theorem handleProcRequest_miss (sys : System) (c a : Nat) (req : ProcRequest) (self : Cache)
    (hself : sys.caches[c]? = some self)
    (hmiss : self.getState (a >>> CACHE_OFFSET_BITS) = CacheBlockState.Invalid) :
    sys.handleProcRequest c req a
      = (sys.onCache c (fun x => x.countRequest req)).missPath c self.id
          (a >>> CACHE_OFFSET_BITS) self.protocol req := by
  unfold System.handleProcRequest
  simp only [hself]
  cases req <;> cases hp : self.protocol <;> simp only [hp, hmiss] <;> rfl

/-- A request on a block whose state the protocol arm does not list only
counts the request. -/
theorem handleProcRequest_unlisted (sys : System) (c a : Nat) (req : ProcRequest) (self : Cache)
    (hself : sys.caches[c]? = some self)
    (hadm : self.protocol.admits (self.getState (a >>> CACHE_OFFSET_BITS)) = false) :
    sys.handleProcRequest c req a = sys.onCache c (fun x => x.countRequest req) := by
  unfold System.handleProcRequest
  simp only [hself]
  cases req <;> cases hp : self.protocol <;>
    cases hst : self.getState (a >>> CACHE_OFFSET_BITS) <;>
    simp [hp, hst, Protocol.admits] at hadm <;>
    simp only [hp, hst] <;> rfl
theorem System.onCache_onCache (sys : System) (c : Nat) (f g : Cache → Cache) :
    (sys.onCache c f).onCache c g = sys.onCache c (fun x => g (f x)) := by
  cases h : sys.caches[c]? with
  | none => simp [System.onCache, h]
  | some x =>
    have hlt : c < sys.caches.length := (List.getElem?_eq_some.mp h).1
    simp [System.onCache, h, List.getElem?_set_self hlt, List.set_set]

theorem System.insertCacheBlock_eq_onCache (sys : System) (c b : Nat) (st : CacheBlockState) :
    (sys.insertCacheBlock c b st).2 = sys.onCache c (fun x => (x.insertCacheBlock b st).2) := by
  unfold System.insertCacheBlock System.onCache
  split <;> rfl

theorem System.onCache_ite (sys : System) (c : Nat) (P : Prop) [Decidable P]
    (f : Cache → Cache) :
    (if P then sys.onCache c f else sys) = sys.onCache c (fun x => if P then f x else x) := by
  by_cases h : P
  · simp only [h, if_true]
  · simp only [h, if_false]
    unfold System.onCache
    cases hx : sys.caches[c]? with
    | none => rfl
    | some x =>
      have hset : sys.caches.set c x = sys.caches := by
        apply List.ext_getElem?
        intro i
        by_cases hi : c = i
        · subst hi
          rw [List.getElem?_set_self (List.getElem?_eq_some.mp hx).1, hx]
        · rw [List.getElem?_set_ne hi]
      simp only [hset]

/-- The snoop loop passes over a cache with the sender's id: replacing that
cache before the loop or after it gives the same result. -/
theorem snoopLoop_set_sender (req : BusRequest) (b s : Nat) :
    ∀ (l : List Cache) (bus : Bus) (c : Nat) (x x' : Cache),
      l[c]? = some x → x.id = s → x'.id = s →
      snoopLoop req b s (l.set c x') bus
        = ((snoopLoop req b s l bus).1.set c x', (snoopLoop req b s l bus).2) := by
  intro l
  induction l with
  | nil => intro bus c x x' h; simp at h
  | cons y rest ih =>
    intro bus c x x' hx hid hid'
    cases c with
    | zero =>
      simp only [List.getElem?_cons_zero, Option.some.injEq] at hx
      subst hx
      simp only [List.set_cons_zero]
      unfold snoopLoop
      simp [hid, hid']
    | succ c =>
      have hrec := fun bus' => ih bus' c x x' (by simpa using hx) hid hid'
      simp only [List.set_cons_succ]
      unfold snoopLoop
      split
      · simp [hrec]
      · simp [hrec]

/-- A change of the sender's own cache that keeps its id commutes with the
broadcast. -/
theorem sendMessage_onCache_sender (sys : System) (req : BusRequest) (b c : Nat) (x : Cache)
    (f : Cache → Cache) (hx : sys.caches[c]? = some x) (hf : (f x).id = x.id) :
    (sys.onCache c f).sendMessage req b x.id = (sys.sendMessage req b x.id).onCache c f := by
  have hc : (sys.sendMessage req b x.id).caches[c]? = some x := sendMessage_sender sys req b c x hx
  rw [System.onCache_eq sys c f x hx, System.onCache_eq _ c f x hc]
  unfold System.sendMessage
  dsimp only
  split
  · rfl
  · rw [snoopLoop_set_sender req b x.id sys.caches _ c x (f x) hx rfl hf]
@[simp] theorem Cache.countRequest_id (c : Cache) (req : ProcRequest) :
    (c.countRequest req).id = c.id := by cases req <;> rfl

@[simp] theorem Cache.countRequest_protocol (c : Cache) (req : ProcRequest) :
    (c.countRequest req).protocol = c.protocol := by cases req <;> rfl

@[simp] theorem Cache.countRequest_sets (c : Cache) (req : ProcRequest) :
    (c.countRequest req).sets = c.sets := by cases req <;> rfl

@[simp] theorem Cache.countMiss_id (c : Cache) (req : ProcRequest) :
    (c.countMiss req).id = c.id := by cases req <;> rfl

@[simp] theorem Cache.countMiss_protocol (c : Cache) (req : ProcRequest) :
    (c.countMiss req).protocol = c.protocol := by cases req <;> rfl

@[simp] theorem Cache.countMiss_sets (c : Cache) (req : ProcRequest) :
    (c.countMiss req).sets = c.sets := by cases req <;> rfl

@[simp] theorem Cache.hitLocal_id (c : Cache) (b : Nat) (up : Option CacheBlockState) :
    (c.hitLocal b up).id = c.id := by cases up <;> simp [Cache.hitLocal]

@[simp] theorem Cache.hitLocal_protocol (c : Cache) (b : Nat) (up : Option CacheBlockState) :
    (c.hitLocal b up).protocol = c.protocol := by cases up <;> simp [Cache.hitLocal]

/-- The block that an insertion evicts depends on the sets only. -/
theorem Cache.evicted_eq_victim (self x : Cache) (b : Nat) (st : CacheBlockState)
    (h : x.sets = self.sets) : (x.insertCacheBlock b st).1 = self.victim b := by
  unfold Cache.victim
  rw [Cache.insertCacheBlock_evicted, Cache.insertCacheBlock_evicted, h]
  cases self.sets[setIndex b]? with
  | none => rfl
  | some s => simp [CacheSet.insertCacheBlock]; cases s.blocks <;> rfl

/-- A hit arm, seen from outside: the BusUpgr (if the arm sends one) on the
system before the request, then the change of the requesting cache. -/
theorem handleProcRequest_hit_view (sys : System) (c a : Nat) (req : ProcRequest)
    (self : Cache) (up : Option CacheBlockState) (upgr : Bool)
    (hself : sys.caches[c]? = some self)
    (hact : hitAction self.protocol req (self.getState (a >>> CACHE_OFFSET_BITS))
      = some (up, upgr)) :
    sys.handleProcRequest c req a
      = (if upgr = true then sys.sendMessage BusRequest.BusUpgr (a >>> CACHE_OFFSET_BITS) self.id
         else sys).onCache c
          (fun x => (x.countRequest req).hitLocal (a >>> CACHE_OFFSET_BITS) up) := by
  rw [handleProcRequest_hit sys c a req self up upgr hself hact]
  unfold System.hitPath
  dsimp only
  have hcomm : ∀ f : Cache → Cache, (f self).id = self.id →
      (sys.onCache c f).sendMessage BusRequest.BusUpgr (a >>> CACHE_OFFSET_BITS) self.id
        = (sys.sendMessage BusRequest.BusUpgr (a >>> CACHE_OFFSET_BITS) self.id).onCache c f :=
    fun f hf => sendMessage_onCache_sender sys _ _ c self f hself hf
  cases up <;> cases upgr <;>
    simp only [System.onCache_onCache, Bool.false_eq_true, if_false, if_true, Cache.hitLocal]
  · exact hcomm _ (by simp)
  · exact hcomm _ (by simp)
theorem System.insertCacheBlock_fst (sys : System) (c b : Nat) (st : CacheBlockState)
    (x : Cache) (hx : sys.caches[c]? = some x) :
    (sys.insertCacheBlock c b st).1 = (x.insertCacheBlock b st).1 := by
  rw [System.insertCacheBlock_eq sys c b st x hx]

theorem System.onCache_ite_both (sys : System) (c : Nat) (P : Prop) [Decidable P]
    (f g : Cache → Cache) :
    (if P then sys.onCache c f else sys.onCache c g)
      = sys.onCache c (fun x => if P then f x else g x) := by
  by_cases h : P <;> simp only [h, if_true, if_false]

/-- A miss arm, seen from outside: the broadcast on the system before the
request, then the installation in the requesting cache (which depends on the
two response lines), the accounting of the victim, and the miss counter. -/
theorem handleProcRequest_miss_view (sys : System) (c a : Nat) (req : ProcRequest)
    (self : Cache) (hself : sys.caches[c]? = some self)
    (hmiss : self.getState (a >>> CACHE_OFFSET_BITS) = CacheBlockState.Invalid) :
    sys.handleProcRequest c req a
      = (((sys.sendMessage (missRequest req) (a >>> CACHE_OFFSET_BITS) self.id).onCache c
            (fun x => (x.countRequest req).install (a >>> CACHE_OFFSET_BITS) self.protocol req
              (sys.sendMessage (missRequest req) (a >>> CACHE_OFFSET_BITS)
                self.id).bus.shared_line
              (sys.sendMessage (missRequest req) (a >>> CACHE_OFFSET_BITS)
                self.id).bus.supplied)).victimStep c self.id self.protocol
            (self.victim (a >>> CACHE_OFFSET_BITS))
            (setIndex (a >>> CACHE_OFFSET_BITS))).onCache c
          (fun x => x.countMiss req) := by
  rw [handleProcRequest_miss sys c a req self hself hmiss]
  have hcomm : ∀ (r : BusRequest) (f : Cache → Cache), (f self).id = self.id →
      (sys.onCache c f).sendMessage r (a >>> CACHE_OFFSET_BITS) self.id
        = (sys.sendMessage r (a >>> CACHE_OFFSET_BITS) self.id).onCache c f :=
    fun r f hf => sendMessage_onCache_sender sys r _ c self f hself hf
  have hB : ∀ r : BusRequest,
      (sys.sendMessage r (a >>> CACHE_OFFSET_BITS) self.id).caches[c]? = some self :=
    fun r => sendMessage_sender sys r _ c self hself
  have hvic : ∀ (r : BusRequest) (f : Cache → Cache) (st : CacheBlockState),
      (f self).sets = self.sets →
      (((sys.sendMessage r (a >>> CACHE_OFFSET_BITS) self.id).onCache c f).insertCacheBlock c
          (a >>> CACHE_OFFSET_BITS) st).1 = self.victim (a >>> CACHE_OFFSET_BITS) := by
    intro r f st hf
    rw [System.insertCacheBlock_fst _ c _ st (f self)
      (by rw [System.onCache_getElem?_self, hB r]; rfl)]
    exact Cache.evicted_eq_victim self _ _ st hf
  cases req <;> cases hp : self.protocol <;>
    simp only [System.missPath, System.missInsertFirst, System.missCountFirst, missRequest,
      Bus.getSharedLine, Bus.getSupplied] <;>
    rw [hcomm _ _ rfl] <;>
    simp only [System.onCache_bus, System.onCache_ite] <;>
    simp only [System.onCache_onCache] <;>
    first
    | (rw [hvic _ _ _ rfl]
       simp only [System.insertCacheBlock_eq_onCache, System.onCache_ite,
         System.onCache_onCache]
       rfl)
    | (rw [hvic _ _ _ (by split <;> rfl)]
       simp only [System.insertCacheBlock_eq_onCache, System.onCache_ite,
         System.onCache_onCache]
       rfl)

/-- The accounting of the victim under MSI, MESI, MESIF and MOESI: a Flush
and `num_writebacks++` for a dirty victim, nothing otherwise. -/
theorem System.victimStep_of_not_FESI (T : System) (c id : Nat) (p : Protocol)
    (ev : CacheBlock) (set : Nat) (hp : p ≠ Protocol.FESI) :
    T.victimStep c id p ev set
      = if dirtyVictim p ev.state = true then
          (T.sendMessage BusRequest.Flush (evicted_blockAddress ev set) id).onCache c
            (fun x => { x with num_writebacks := x.num_writebacks + 1 })
        else T := by
  cases p <;> simp only [ne_eq, not_true_eq_false, reduceCtorEq, not_false_eq_true] at hp <;>
    cases hs : ev.state <;> simp [System.victimStep, dirtyVictim, hs]

@[simp] theorem Cache.install_num_writebacks (x : Cache) (b : Nat) (p : Protocol)
    (req : ProcRequest) (sh sup : Bool) :
    (x.install b p req sh sup).num_writebacks = x.num_writebacks := by
  cases req <;> cases p <;> cases sh <;> cases sup <;> simp [Cache.install]

@[simp] theorem Cache.countRequest_num_writebacks (x : Cache) (req : ProcRequest) :
    (x.countRequest req).num_writebacks = x.num_writebacks := by cases req <;> rfl

@[simp] theorem Cache.countMiss_num_writebacks (x : Cache) (req : ProcRequest) :
    (x.countMiss req).num_writebacks = x.num_writebacks := by cases req <;> rfl

/-- In a set with its Invalid blocks at the LRU end, a valid front block
means that every block is valid. -/
theorem all_valid_of_valid_front {x : CacheBlock} {rest : List CacheBlock}
    (h : InvalidAtLRU ⟨x :: rest⟩) (hx : x.state ≠ CacheBlockState.Invalid) :
    ∀ blk ∈ x :: rest, blk.state ≠ CacheBlockState.Invalid := by
  unfold InvalidAtLRU at h
  simp only [List.pairwise_cons] at h
  intro blk hb
  rcases List.mem_cons.mp hb with rfl | hb'
  · exact hx
  · intro hcon
    exact h.1 blk hb' ⟨hx, hcon⟩

/-! ## Well-formed sets -/

theorem tagsDistinct_setState (s : CacheSet) (t : Nat) (st : CacheBlockState)
    (hd : TagsDistinct s) : TagsDistinct (s.setState t st) := by
  unfold TagsDistinct at *
  by_cases hst : st = CacheBlockState.Invalid
  · subst hst
    rw [CacheSet.setState_invalid_blocks, List.pairwise_append]
    refine ⟨?_, hd.filter _, ?_⟩
    · rw [List.pairwise_reverse, List.pairwise_map]
      exact List.Pairwise.imp (fun _ => by simp) (hd.filter _)
    · intro x hx y _
      simp only [List.mem_reverse, List.mem_map] at hx
      obtain ⟨x0, -, rfl⟩ := hx
      simp
  · rw [CacheSet.setState_valid_blocks s t hst, List.pairwise_map]
    refine List.Pairwise.imp ?_ hd
    intro x y hxy hcon
    apply hxy
    by_cases hx : x.hit t = true <;> by_cases hy : y.hit t = true <;>
      simp only [hx, hy, if_true, if_false, Bool.false_eq_true] at hcon
    · exact ⟨CacheBlock.state_ne_of_hit hx, CacheBlock.state_ne_of_hit hy, hcon.2.2⟩
    · exact ⟨CacheBlock.state_ne_of_hit hx, hcon.2.1, hcon.2.2⟩
    · exact ⟨hcon.1, CacheBlock.state_ne_of_hit hy, hcon.2.2⟩
    · exact hcon

theorem tagsDistinct_moveToMRU (s : CacheSet) (t : Nat) (hd : TagsDistinct s) :
    TagsDistinct (s.moveToMRU t) :=
  tagsDistinct_perm (s.moveToMRU_perm t) hd

/-- Insertion keeps the valid tags distinct when the set does not hold the
tag of the new block. -/
theorem tagsDistinct_insertCacheBlock (s : CacheSet) (nb : CacheBlock)
    (hmiss : s.getState nb.tag = CacheBlockState.Invalid) (hd : TagsDistinct s) :
    TagsDistinct (s.insertCacheBlock nb).2 := by
  unfold TagsDistinct at *
  rw [CacheSet.insertCacheBlock_blocks, List.pairwise_append]
  refine ⟨hd.sublist (List.tail_sublist _), List.pairwise_singleton _ _, ?_⟩
  intro x hx y hy
  rw [List.mem_singleton.mp hy]
  intro hcon
  have hno := (getStateLoop_eq_invalid_iff nb.tag s.blocks).mp hmiss x
    (List.mem_of_mem_tail hx)
  simp [CacheBlock.hit, hcon.1, hcon.2.2] at hno

theorem tagsInRange_setState (s : CacheSet) (t : Nat) (st : CacheBlockState)
    (hr : TagsInRange s) : TagsInRange (s.setState t st) := by
  unfold TagsInRange at *
  by_cases hst : st = CacheBlockState.Invalid
  · subst hst
    rw [CacheSet.setState_invalid_blocks]
    intro blk hblk
    rcases List.mem_append.mp hblk with hblk | hblk
    · simp only [List.mem_reverse, List.mem_map] at hblk
      obtain ⟨x0, -, rfl⟩ := hblk
      simp
    · exact hr _ (List.mem_filter.mp hblk).1
  · rw [CacheSet.setState_valid_blocks s t hst]
    intro blk hblk
    obtain ⟨x0, hx0, rfl⟩ := List.mem_map.mp hblk
    split
    · exact hr x0 hx0
    · exact hr x0 hx0

theorem tagsInRange_moveToMRU (s : CacheSet) (t : Nat) (hr : TagsInRange s) :
    TagsInRange (s.moveToMRU t) :=
  fun blk hblk => hr blk ((s.moveToMRU_perm t).mem_iff.mpr hblk)

theorem tagsInRange_insertCacheBlock (s : CacheSet) (nb : CacheBlock)
    (hnb : nb.tag < 2 ^ 31) (hr : TagsInRange s) : TagsInRange (s.insertCacheBlock nb).2 := by
  unfold TagsInRange at *
  rw [CacheSet.insertCacheBlock_blocks]
  intro blk hblk
  rcases List.mem_append.mp hblk with hblk | hblk
  · exact hr _ (List.mem_of_mem_tail hblk)
  · rw [List.mem_singleton.mp hblk]; exact hnb

theorem setWF_new (p : Protocol) : SetWF p CacheSet.new :=
  ⟨(fullSet_closed p).new, (statesAdmitted_closed p).new,
    by simp [TagsDistinct, CacheSet.new, List.pairwise_replicate, CacheBlock.new],
    by
      intro blk hblk
      simp only [CacheSet.new] at hblk
      rw [List.eq_of_mem_replicate hblk]
      decide⟩

theorem setWF_setState {p : Protocol} (s : CacheSet) (t : Nat) (st : CacheBlockState)
    (hst : p.admits st = true) (h : SetWF p s) : SetWF p (s.setState t st) :=
  ⟨(fullSet_closed p).setState s t st hst h.1,
    (statesAdmitted_closed p).setState s t st hst h.2.1,
    tagsDistinct_setState s t st h.2.2.1, tagsInRange_setState s t st h.2.2.2⟩

theorem setWF_moveToMRU {p : Protocol} (s : CacheSet) (t : Nat) (h : SetWF p s) :
    SetWF p (s.moveToMRU t) :=
  ⟨(fullSet_closed p).moveToMRU s t h.1, (statesAdmitted_closed p).moveToMRU s t h.2.1,
    tagsDistinct_moveToMRU s t h.2.2.1, tagsInRange_moveToMRU s t h.2.2.2⟩

/-- Insertion of a valid block of the protocol, with a tag in range that the
set does not hold, keeps the set well formed. -/
theorem setWF_insertCacheBlock {p : Protocol} (s : CacheSet) (t : Nat) (st : CacheBlockState)
    (hst : p.admits st = true) (hv : st ≠ CacheBlockState.Invalid) (ht : t < 2 ^ 31)
    (hmiss : s.getState t = CacheBlockState.Invalid) (h : SetWF p s) :
    SetWF p (s.insertCacheBlock (CacheBlock.new (toInt32 t) st)).2 := by
  have htag : (CacheBlock.new (toInt32 t) st).tag = t := toUInt64_toInt32 t ht
  exact ⟨(fullSet_closed p).insert s _ st hst hv h.1,
    (statesAdmitted_closed p).insert s _ st hst hv h.2.1,
    tagsDistinct_insertCacheBlock s _ (by rw [htag]; exact hmiss) h.2.2.1,
    tagsInRange_insertCacheBlock s _ (by rw [htag]; exact ht) h.2.2.2⟩

/-! ## Well-formed caches -/

theorem cacheWF_new (i : Nat) (p : Protocol) : CacheWF p (Cache.new i p) := by
  refine ⟨rfl, rfl, fun s hs => ?_⟩
  have : s = CacheSet.new := List.eq_of_mem_replicate hs
  rw [this]; exact setWF_new p

theorem cacheWF_of_sets {p : Protocol} {x y : Cache} (hp : y.protocol = x.protocol)
    (hs : y.sets = x.sets) (h : CacheWF p x) : CacheWF p y := by
  unfold CacheWF at *
  rw [hp, hs]; exact h

/-- A well-formed cache has the set of every block address. -/
theorem cacheWF_getSet {p : Protocol} {x : Cache} (h : CacheWF p x) (b : Nat) :
    ∃ s, x.sets[setIndex b]? = some s ∧ SetWF p s := by
  have hlt : setIndex b < x.sets.length := by
    rw [h.2.1]; exact setIndex_lt b
  exact ⟨x.sets[setIndex b], List.getElem?_eq_getElem hlt,
    h.2.2 _ (List.getElem_mem hlt)⟩

theorem cacheWF_set {p : Protocol} {x : Cache} (h : CacheWF p x) (i : Nat) (s : CacheSet)
    (hs : SetWF p s) (y : Cache) (hp : y.protocol = x.protocol)
    (hy : y.sets = x.sets.set i s) : CacheWF p y := by
  refine ⟨hp.trans h.1, by rw [hy, List.length_set]; exact h.2.1, fun s' hs' => ?_⟩
  rw [hy] at hs'
  rcases List.mem_or_eq_of_mem_set hs' with h' | h'
  · exact h.2.2 _ h'
  · rw [h']; exact hs

theorem cacheWF_setState {p : Protocol} {x : Cache} (b : Nat) {st : CacheBlockState}
    (hst : p.admits st = true) (h : CacheWF p x) : CacheWF p (x.setState b st) := by
  obtain ⟨s, hs, hwf⟩ := cacheWF_getSet h b
  exact cacheWF_set h (setIndex b) _ (setWF_setState s (tagOf b) st hst hwf) _ (by simp)
    (by rw [Cache.setState_sets, hs]; rfl)

theorem cacheWF_moveToMRU {p : Protocol} {x : Cache} (b : Nat) (h : CacheWF p x) :
    CacheWF p (x.moveToMRU b) := by
  obtain ⟨s, hs, hwf⟩ := cacheWF_getSet h b
  exact cacheWF_set h (setIndex b) _ (setWF_moveToMRU s (tagOf b) hwf) _ (by simp)
    (by rw [Cache.moveToMRU_sets, hs]; rfl)

/-- Insertion of a block that the cache does not hold, with a tag in range
and a valid state of the protocol, keeps the cache well formed. -/
theorem cacheWF_insertCacheBlock {p : Protocol} {x : Cache} (b : Nat) {st : CacheBlockState}
    (hst : p.admits st = true) (hv : st ≠ CacheBlockState.Invalid) (hb : tagOf b < 2 ^ 31)
    (hmiss : x.getState b = CacheBlockState.Invalid) (h : CacheWF p x) :
    CacheWF p (x.insertCacheBlock b st).2 := by
  obtain ⟨s, hs, hwf⟩ := cacheWF_getSet h b
  have hm : s.getState (tagOf b) = CacheBlockState.Invalid := by
    rw [Cache.getState_eq, hs] at hmiss; exact hmiss
  exact cacheWF_set h (setIndex b) _ (setWF_insertCacheBlock s (tagOf b) st hst hv hb hm hwf) _
    (by simp) (by rw [Cache.insertCacheBlock_sets, hs]; rfl)

theorem cacheWF_handleBusRequest {p : Protocol} {x : Cache} (bus : Bus) {req : BusRequest}
    (hreq : Snooped p req) (b : Nat) (h : CacheWF p x) :
    CacheWF p (x.handleBusRequest bus req b).1 := by
  have hp : x.protocol = p := h.1
  obtain ⟨h1, -, h3⟩ := Cache.handleBusRequest_shape x bus req b (hp ▸ hreq)
  rcases h3 with h3 | ⟨st, hst, h3⟩
  · exact cacheWF_of_sets h1 h3 h
  · exact cacheWF_of_sets (x := x.setState b st) (by simp [h1]) h3
      (cacheWF_setState b (hp ▸ hst) h)

/-! ## Lookup in a well-formed cache after a mutation -/

theorem Cache.getState_congr {x y : Cache} (h : y.sets = x.sets) (v : Nat) :
    y.getState v = x.getState v := by
  rw [Cache.getState_eq, Cache.getState_eq, h]

/-- In a cache with distinct valid tags `moveToMRU` changes no state. -/
theorem Cache.getState_after_moveToMRU {p : Protocol} {x : Cache} (h : CacheWF p x) (b v : Nat) :
    (x.moveToMRU b).getState v = x.getState v := by
  obtain ⟨s, hs, hwf⟩ := cacheWF_getSet h b
  have hlt : setIndex b < x.sets.length := (List.getElem?_eq_some.mp hs).1
  rw [Cache.getState_eq, Cache.getState_eq, Cache.moveToMRU_sets, hs]
  by_cases hv : setIndex v = setIndex b
  · simp [hv, hs, List.getElem?_set_self hlt, CacheSet.getState_moveToMRU _ _ _ hwf.2.2.1]
  · simp [List.getElem?_set_ne (Ne.symm hv)]

/-- The block address is its tag and its set index. -/
theorem blockAddress_eq (v : Nat) : v = tagOf v * 4 + setIndex v := by
  unfold tagOf setIndex SET_BITS
  have : v &&& (1 <<< 2 - 1) = v % 4 := by
    have := Nat.and_pow_two_sub_one_eq_mod v 2
    simpa using this
  rw [this, Nat.shiftRight_eq_div_pow]
  omega

theorem blockAddress_ne {v b : Nat} (h : v ≠ b) :
    setIndex v ≠ setIndex b ∨ tagOf v ≠ tagOf b := by
  by_contra hcon
  simp only [not_or, not_not] at hcon
  exact h (by rw [blockAddress_eq v, blockAddress_eq b, hcon.1, hcon.2])

/-- The address of an evicted block with a tag in range. -/
theorem evicted_blockAddress_eq (ev : CacheBlock) (set : Nat) (hev : ev.tag < 2 ^ 31)
    (hset : set < 4) :
    tagOf (evicted_blockAddress ev set) = ev.tag
      ∧ setIndex (evicted_blockAddress ev set) = set := by
  have h1 : evicted_blockAddress ev set = ev.tag * 4 + set := by
    unfold evicted_blockAddress SET_BITS
    rw [Nat.shiftLeft_eq]
    omega
  rw [h1]
  unfold tagOf setIndex SET_BITS
  have : (ev.tag * 4 + set) &&& (1 <<< 2 - 1) = (ev.tag * 4 + set) % 4 := by
    have := Nat.and_pow_two_sub_one_eq_mod (ev.tag * 4 + set) 2
    simpa using this
  rw [this, Nat.shiftRight_eq_div_pow]
  omega

/-! ## Lookup after an insertion -/

theorem getStateLoop_append_right_no_hit (t : Nat) (l₁ l₂ : List CacheBlock)
    (h : ∀ x ∈ l₂, x.hit t = false) :
    getStateLoop t (l₁ ++ l₂) = getStateLoop t l₁ := by
  induction l₁ with
  | nil => exact (getStateLoop_eq_invalid_iff t l₂).mpr h
  | cons x rest ih =>
    show (if x.hit t then x.state else getStateLoop t (rest ++ l₂))
      = (if x.hit t then x.state else getStateLoop t rest)
    rw [ih]

/-- After the insertion of a valid block whose tag the set did not hold, the
set reports the state of the new block for its tag. -/
theorem CacheSet.getState_insertCacheBlock_self (s : CacheSet) (nb : CacheBlock)
    (hv : nb.state ≠ CacheBlockState.Invalid)
    (hmiss : s.getState nb.tag = CacheBlockState.Invalid) :
    (s.insertCacheBlock nb).2.getState nb.tag = nb.state := by
  unfold CacheSet.getState at *
  rw [CacheSet.insertCacheBlock_blocks, getStateLoop_append_of_no_hit]
  · simp [getStateLoop, CacheBlock.hit, hv]
  · intro x hx
    exact (getStateLoop_eq_invalid_iff nb.tag s.blocks).mp hmiss x (List.mem_of_mem_tail hx)

/-- After an insertion the set reports, for a tag other than the new one,
Invalid if the evicted block held that tag and the old state otherwise. -/
theorem CacheSet.getState_insertCacheBlock_other (s : CacheSet) (nb : CacheBlock) (t : Nat)
    (hne : t ≠ nb.tag) (hd : TagsDistinct s) :
    (s.insertCacheBlock nb).2.getState t
      = if (s.insertCacheBlock nb).1.hit t = true then CacheBlockState.Invalid
        else s.getState t := by
  have hnb : ∀ x ∈ [nb], x.hit t = false := by
    intro x hx
    rw [List.mem_singleton.mp hx]
    simp [CacheBlock.hit, Ne.symm hne]
  cases s with
  | mk blocks =>
    cases blocks with
    | nil =>
      simp [CacheSet.insertCacheBlock, CacheSet.getState, getStateLoop, CacheBlock.hit,
        CacheBlock.new, Ne.symm hne]
    | cons ev rest =>
      simp only [CacheSet.insertCacheBlock, CacheSet.getState]
      rw [getStateLoop_append_right_no_hit t rest [nb] hnb]
      by_cases hev : ev.hit t = true
      · rw [if_pos hev, getStateLoop_eq_invalid_iff]
        exact (no_other_hit_of_tagsDistinct
          (show TagsDistinct ⟨[] ++ ev :: rest⟩ from by simpa using hd) hev).2
      · rw [if_neg hev]
        simp only [Bool.not_eq_true] at hev
        simp [getStateLoop, hev]

/-- The evicted block, if it is valid, is what the set reported for its tag. -/
theorem CacheSet.getState_of_evicted_hit (s : CacheSet) (nb : CacheBlock) (t : Nat)
    (h : (s.insertCacheBlock nb).1.hit t = true) :
    s.getState t = (s.insertCacheBlock nb).1.state := by
  cases s with
  | mk blocks =>
    cases blocks with
    | nil => simp [CacheSet.insertCacheBlock, CacheBlock.hit, CacheBlock.new] at h
    | cons ev rest =>
      simp only [CacheSet.insertCacheBlock] at h ⊢
      simp [CacheSet.getState, getStateLoop, h]

theorem CacheSet.evicted_mem (s : CacheSet) (nb : CacheBlock) (h : s.blocks ≠ []) :
    (s.insertCacheBlock nb).1 ∈ s.blocks := by
  cases s with
  | mk blocks =>
    cases blocks with
    | nil => exact absurd rfl h
    | cons ev rest => simp [CacheSet.insertCacheBlock]

theorem Cache.victim_eq {x : Cache} (b : Nat) (s : CacheSet)
    (hs : x.sets[setIndex b]? = some s) (nb : CacheBlock) :
    x.victim b = (s.insertCacheBlock nb).1 := by
  unfold Cache.victim
  rw [Cache.insertCacheBlock_evicted, hs]
  cases s with
  | mk blocks => cases blocks <;> rfl

/-- After a miss is installed, the cache reports the inserted state for the
block. -/
theorem Cache.getState_after_insert_self {p : Protocol} {x : Cache} (h : CacheWF p x)
    (b : Nat) (st : CacheBlockState) (hv : st ≠ CacheBlockState.Invalid)
    (hb : tagOf b < 2 ^ 31) (hmiss : x.getState b = CacheBlockState.Invalid) :
    (x.insertCacheBlock b st).2.getState b = st := by
  obtain ⟨s, hs, -⟩ := cacheWF_getSet h b
  have hlt : setIndex b < x.sets.length := (List.getElem?_eq_some.mp hs).1
  have htag : (CacheBlock.new (toInt32 (tagOf b)) st).tag = tagOf b := toUInt64_toInt32 _ hb
  have hm : s.getState (tagOf b) = CacheBlockState.Invalid := by
    rw [Cache.getState_eq, hs] at hmiss; exact hmiss
  rw [Cache.getState_eq, Cache.insertCacheBlock_sets, hs]
  simp only [Option.elim, List.getElem?_set_self hlt]
  have := CacheSet.getState_insertCacheBlock_self s (CacheBlock.new (toInt32 (tagOf b)) st)
    hv (by rw [htag]; exact hm)
  rw [htag] at this
  exact this

/-- After a miss is installed, the cache reports Invalid for the address of
a valid victim and the old state for every other address. -/
theorem Cache.getState_after_insert_other {p : Protocol} {x : Cache} (h : CacheWF p x)
    (b v : Nat) (st : CacheBlockState) (hb : tagOf b < 2 ^ 31) (hne : v ≠ b) :
    (x.insertCacheBlock b st).2.getState v
      = if setIndex v = setIndex b ∧ (x.victim b).hit (tagOf v) = true
        then CacheBlockState.Invalid else x.getState v := by
  obtain ⟨s, hs, hwf⟩ := cacheWF_getSet h b
  have hlt : setIndex b < x.sets.length := (List.getElem?_eq_some.mp hs).1
  have htag : (CacheBlock.new (toInt32 (tagOf b)) st).tag = tagOf b := toUInt64_toInt32 _ hb
  rw [Cache.getState_eq, Cache.getState_eq, Cache.insertCacheBlock_sets, hs,
    Cache.victim_eq b s hs (CacheBlock.new (toInt32 (tagOf b)) st)]
  by_cases hset : setIndex v = setIndex b
  · have ht : tagOf v ≠ tagOf b := by
      rcases blockAddress_ne hne with h' | h'
      · exact absurd hset h'
      · exact h'
    simp only [Option.elim, hset, List.getElem?_set_self hlt, hs, true_and]
    exact CacheSet.getState_insertCacheBlock_other s _ (tagOf v) (by rw [htag]; exact ht)
      hwf.2.2.1
  · simp [hset, List.getElem?_set_ne (Ne.symm hset)]

/-- A valid victim is what the cache reported for the victim's address. -/
theorem Cache.getState_of_victim_hit {x : Cache} (b v : Nat)
    (hset : setIndex v = setIndex b) (hhit : (x.victim b).hit (tagOf v) = true) :
    x.getState v = (x.victim b).state := by
  rw [Cache.getState_eq, hset]
  cases hs : x.sets[setIndex b]? with
  | none =>
    simp [Cache.victim, Cache.insertCacheBlock_evicted, hs, CacheBlock.hit, CacheBlock.new]
      at hhit
  | some s =>
    rw [Cache.victim_eq b s hs (CacheBlock.new 0 CacheBlockState.Invalid)] at hhit ⊢
    exact CacheSet.getState_of_evicted_hit s _ _ hhit

/-- In a well-formed cache the victim of a miss has a tag in range. -/
theorem Cache.victim_tag_lt {p : Protocol} {x : Cache} (h : CacheWF p x) (b : Nat) :
    (x.victim b).tag < 2 ^ 31 := by
  obtain ⟨s, hs, hwf⟩ := cacheWF_getSet h b
  rw [Cache.victim_eq b s hs (CacheBlock.new 0 CacheBlockState.Invalid)]
  refine hwf.2.2.2 _ (CacheSet.evicted_mem s _ ?_)
  intro h0
  have := hwf.1
  unfold FullSet at this
  rw [h0] at this
  exact absurd this (by decide)

/-- The addresses that a valid victim answers for: its own address only. -/
theorem Cache.victim_hit_iff {p : Protocol} {x : Cache} (h : CacheWF p x) (b v : Nat) :
    (setIndex v = setIndex b ∧ (x.victim b).hit (tagOf v) = true)
      ↔ ((x.victim b).state ≠ CacheBlockState.Invalid
          ∧ v = evicted_blockAddress (x.victim b) (setIndex b)) := by
  obtain ⟨h1, h2⟩ := evicted_blockAddress_eq (x.victim b) (setIndex b)
    (Cache.victim_tag_lt h b) (setIndex_lt b)
  simp only [CacheBlock.hit, Bool.and_eq_true, decide_eq_true_eq]
  constructor
  · rintro ⟨hs, hv, ht⟩
    refine ⟨hv, ?_⟩
    rw [blockAddress_eq v, blockAddress_eq (evicted_blockAddress (x.victim b) (setIndex b)),
      h1, h2, hs, ht]
  · rintro ⟨hv, rfl⟩
    exact ⟨h2, hv, h1.symm⟩

/-! ## States after a broadcast -/

/-- The state of the snooped block after a reaction is `snoopNext` of the
state before, whatever the lines of the bus. -/
theorem Cache.getState_handleBusRequest (c : Cache) (bus : Bus) (req : BusRequest) (b : Nat)
    (hreq : req = BusRequest.BusRd ∨ req = BusRequest.BusRdX ∨ req = BusRequest.BusUpgr) :
    (c.handleBusRequest bus req b).1.getState b = snoopNext c.protocol req (c.getState b) := by
  rcases hreq with h | h | h <;> subst h <;>
    cases hp : c.protocol <;> cases hs : c.getState b <;>
    simp only [Cache.handleBusRequest, hp, hs, reduceCtorEq, if_true, if_false] <;>
    cases hsup : bus.supplied <;>
    simp [Cache.getState_setState_self, hs, hp, Bus.getSupplied, Bus.setSharedLine,
      Bus.sendFlush, Bus.countRequest, Bus.setSupplied, hsup, Cache.getState_mk_sets,
      snoopNext, Protocol.admits]

/-- A snoop for block `b` leaves the state of every other block. -/
theorem Cache.getState_handleBusRequest_other (c : Cache) (bus : Bus) (req : BusRequest)
    (b v : Nat) (hreq : Snooped c.protocol req) (hne : v ≠ b) :
    (c.handleBusRequest bus req b).1.getState v = c.getState v := by
  obtain ⟨-, -, h3⟩ := Cache.handleBusRequest_shape c bus req b hreq
  rcases h3 with h3 | ⟨st, -, h3⟩
  · exact Cache.getState_congr h3 v
  · rw [Cache.getState_congr h3 v]
    exact Cache.getState_setState_other c b v st (blockAddress_ne hne)

theorem snoopNext_invalid (p : Protocol) (r : BusRequest) :
    snoopNext p r CacheBlockState.Invalid = CacheBlockState.Invalid := by
  cases p <;> cases r <;> rfl

/-- The caches after a broadcast, position by position. -/
theorem sendMessage_getElem? (sys : System) (req : BusRequest) (b s : Nat)
    (h1 : req ≠ BusRequest.Flush) (h2 : req ≠ BusRequest.Flush_prime) (i : Nat) :
    (∀ x, sys.caches[i]? = some x →
        (x.id = s → (sys.sendMessage req b s).caches[i]? = some x)
        ∧ (x.id ≠ s → ∃ bus', (sys.sendMessage req b s).caches[i]?
              = some (x.handleBusRequest bus' req b).1))
    ∧ (sys.caches[i]? = none → (sys.sendMessage req b s).caches[i]? = none) := by
  rw [sendMessage_eq sys req b s h1 h2]
  constructor
  · intro x hx
    exact snoopLoop_getElem? req b s sys.caches _ i x hx
  · intro hx
    rw [List.getElem?_eq_none_iff] at hx ⊢
    dsimp only
    rw [snoopLoop_length]; exact hx

/-- The states after the broadcast of a BusRd, BusRdX or BusUpgr for block
`b` by the cache with index `s`: every other cache holds `b` in `snoopNext` of
its state before, and nothing else changes. -/
theorem System.stateOf_sendMessage {p : Protocol} (sys : System) (req : BusRequest) (b s : Nat)
    (hreq : req = BusRequest.BusRd ∨ req = BusRequest.BusRdX ∨ req = BusRequest.BusUpgr)
    (hid : IdsAreIndices sys) (hp : ∀ x ∈ sys.caches, x.protocol = p) (i v : Nat) :
    (sys.sendMessage req b s).stateOf i v
      = if i ≠ s ∧ v = b then snoopNext p req (sys.stateOf i b) else sys.stateOf i v := by
  have h1 : req ≠ BusRequest.Flush := by rcases hreq with h | h | h <;> rw [h] <;> simp
  have h2 : req ≠ BusRequest.Flush_prime := by rcases hreq with h | h | h <;> rw [h] <;> simp
  obtain ⟨hsome, hnone⟩ := sendMessage_getElem? sys req b s h1 h2 i
  rw [System.stateOf_eq, System.stateOf_eq, System.stateOf_eq]
  cases hx : sys.caches[i]? with
  | none =>
    rw [hnone hx]
    simp [snoopNext_invalid]
  | some x =>
    have hxi : x.id = i := hid i x hx
    have hxp : x.protocol = p := hp x (List.getElem?_mem hx)
    by_cases his : i = s
    · rw [(hsome x hx).1 (hxi.trans his)]
      simp [his]
    · obtain ⟨bus', hb⟩ := (hsome x hx).2 (by rw [hxi]; exact his)
      rw [hb]
      by_cases hv : v = b
      · subst hv
        simp only [Option.map_some', Option.getD_some, ne_eq, his, not_false_eq_true, and_self,
          if_true]
        rw [Cache.getState_handleBusRequest x bus' req v hreq, hxp]
      · simp only [Option.map_some', Option.getD_some, hv, and_false, if_false]
        refine Cache.getState_handleBusRequest_other x bus' req b v ?_ hv
        unfold Snooped
        rcases hreq with h | h | h <;> simp [h]

/-- The states after a change of one cache. -/
theorem System.stateOf_onCache (sys : System) (c : Nat) (f : Cache → Cache) (self : Cache)
    (hself : sys.caches[c]? = some self) (i v : Nat) :
    (sys.onCache c f).stateOf i v
      = if i = c then (f self).getState v else sys.stateOf i v := by
  rw [System.stateOf_eq, System.stateOf_eq]
  by_cases hi : i = c
  · subst hi
    rw [System.onCache_getElem?_self, hself]
    simp
  · rw [System.onCache_getElem?_ne sys c i f hi]
    simp [hi]

/-! ## Coherence of one block address -/

/-- A block address with at most one holder is coherent, unless the holder
is a FESI cache in Shared. -/
theorem blockCoherent_sole (p : Protocol) (g : Nat → CacheBlockState) (c : Nat)
    (h : ∀ i, i ≠ c → g i = CacheBlockState.Invalid)
    (hc : p = Protocol.FESI → g c ≠ CacheBlockState.Shared) : BlockCoherent p g := by
  refine ⟨?_, ?_, ?_⟩
  · intro i j hij hi
    by_cases hic : i = c
    · exact h j (fun hjc => hij (hic.trans hjc.symm))
    · rw [h i hic] at hi; simp at hi
  · intro i j hi hj
    by_cases hic : i = c
    · by_cases hjc : j = c
      · exact hic.trans hjc.symm
      · rw [h j hjc] at hj; simp at hj
    · rw [h i hic] at hi; simp at hi
  · intro hp i hi
    by_cases hic : i = c
    · rw [hic] at hi; exact absurd hi (hc hp)
    · rw [h i hic] at hi; simp at hi

theorem snoopNext_busRd_not_exclusive (p : Protocol) (st : CacheBlockState)
    (h : p.admits st = true) :
    snoopNext p BusRequest.BusRd st ≠ CacheBlockState.Modified
      ∧ snoopNext p BusRequest.BusRd st ≠ CacheBlockState.Exclusive := by
  cases p <;> cases st <;> simp [snoopNext, Protocol.admits] at h ⊢

theorem snoopNext_busRd_forwarder (p : Protocol) (st : CacheBlockState)
    (h : p.admits st = true)
    (hn : snoopNext p BusRequest.BusRd st = CacheBlockState.Owned
      ∨ snoopNext p BusRequest.BusRd st = CacheBlockState.Forward) :
    p = Protocol.MOESI ∧ (st = CacheBlockState.Modified ∨ st = CacheBlockState.Owned) := by
  cases p <;> cases st <;> simp [snoopNext, Protocol.admits] at h hn ⊢

theorem snoopNext_invalidate (p : Protocol) (r : BusRequest) (st : CacheBlockState)
    (hr : r = BusRequest.BusRdX ∨ r = BusRequest.BusUpgr) (h : p.admits st = true) :
    snoopNext p r st = CacheBlockState.Invalid := by
  rcases hr with rfl | rfl <;> simp [snoopNext, h]

/-- A read miss that leaves the block in its tentative state: the requester
held nothing, every other cache reacted to the BusRd. -/
theorem blockCoherent_read_shared (p : Protocol) (f g : Nat → CacheBlockState) (c : Nat)
    (hf : BlockCoherent p f) (hadm : ∀ i, p.admits (f i) = true)
    (hg : ∀ i, i ≠ c → g i = snoopNext p BusRequest.BusRd (f i))
    (hgc : g c = tentativeState p) : BlockCoherent p g := by
  obtain ⟨h1, h2, -⟩ := hf
  have hcst : g c = CacheBlockState.Shared ∨ g c = CacheBlockState.Forward := by
    rw [hgc]; cases p <;> simp [tentativeState]
  have hnot : ∀ i, g i ≠ CacheBlockState.Modified ∧ g i ≠ CacheBlockState.Exclusive := by
    intro i
    by_cases hic : i = c
    · rw [hic]; rcases hcst with h | h <;> rw [h] <;> simp
    · rw [hg i hic]; exact snoopNext_busRd_not_exclusive p _ (hadm i)
  refine ⟨?_, ?_, ?_⟩
  · intro i j _ hi
    rcases hi with hi | hi
    · exact absurd hi (hnot i).1
    · exact absurd hi (hnot i).2
  · have hpeer : ∀ i, i ≠ c →
        (g i = CacheBlockState.Owned ∨ g i = CacheBlockState.Forward) →
        p = Protocol.MOESI
          ∧ (f i = CacheBlockState.Modified ∨ f i = CacheBlockState.Owned) := by
      intro i hic hi
      rw [hg i hic] at hi
      exact snoopNext_busRd_forwarder p _ (hadm i) hi
    have hself : (g c = CacheBlockState.Owned ∨ g c = CacheBlockState.Forward) →
        p ≠ Protocol.MOESI := by
      rw [hgc]; cases p <;> simp [tentativeState]
    intro i j hi hj
    by_cases hic : i = c <;> by_cases hjc : j = c
    · exact hic.trans hjc.symm
    · exact absurd (hpeer j hjc hj).1 (hself (hic ▸ hi))
    · exact absurd (hpeer i hic hi).1 (hself (hjc ▸ hj))
    · by_contra hij
      rcases (hpeer i hic hi).2 with hfi | hfi
      · have := h1 i j hij (Or.inl hfi)
        rcases (hpeer j hjc hj).2 with hfj | hfj <;> rw [this] at hfj <;> simp at hfj
      · rcases (hpeer j hjc hj).2 with hfj | hfj
        · have := h1 j i (Ne.symm hij) (Or.inl hfj)
          rw [this] at hfi; simp at hfi
        · exact hij (h2 i j (Or.inl hfi) (Or.inl hfj))
  · intro hp _ _
    exact ⟨c, by rw [hgc, hp]; rfl⟩

/-- The requester loses a block (or keeps it) and nothing else changes: the
block address stays coherent, provided a FESI requester does not lose a
Forward copy. -/
theorem blockCoherent_remove (p : Protocol) (f g : Nat → CacheBlockState) (c : Nat)
    (hf : BlockCoherent p f) (hg : ∀ i, i ≠ c → g i = f i)
    (hgc : g c = f c ∨ g c = CacheBlockState.Invalid)
    (hF : p = Protocol.FESI → g c = f c ∨ f c ≠ CacheBlockState.Forward) :
    BlockCoherent p g := by
  obtain ⟨h1, h2, h3⟩ := hf
  have hval : ∀ i, g i ≠ CacheBlockState.Invalid → g i = f i := by
    intro i hi
    by_cases hic : i = c
    · rcases hgc with h | h
      · rw [hic]; exact h
      · rw [hic] at hi; exact absurd h hi
    · exact hg i hic
  have hle : ∀ i, g i = f i ∨ g i = CacheBlockState.Invalid := by
    intro i
    by_cases hi : g i = CacheBlockState.Invalid
    · exact Or.inr hi
    · exact Or.inl (hval i hi)
  refine ⟨?_, ?_, ?_⟩
  · intro i j hij hi
    have hfi : f i = CacheBlockState.Modified ∨ f i = CacheBlockState.Exclusive := by
      rw [← hval i (by rcases hi with h | h <;> rw [h] <;> simp)]; exact hi
    rcases hle j with h | h
    · rw [h]; exact h1 i j hij hfi
    · exact h
  · intro i j hi hj
    refine h2 i j ?_ ?_
    · rw [← hval i (by rcases hi with h | h <;> rw [h] <;> simp)]; exact hi
    · rw [← hval j (by rcases hj with h | h <;> rw [h] <;> simp)]; exact hj
  · intro hp i hi
    have hfi : f i = CacheBlockState.Shared := by
      rw [← hval i (by rw [hi]; simp)]; exact hi
    obtain ⟨j, hj⟩ := h3 hp i hfi
    refine ⟨j, ?_⟩
    by_cases hjc : j = c
    · rcases hF hp with h | h
      · rw [hjc, h, ← hjc]; exact hj
      · rw [hjc] at hj; exact absurd hj h
    · rw [hg j hjc]; exact hj

/-- The forward handoff of FESI on the address of the evicted Forward block:
the requester drops the block, the first Shared peer (if any) takes Forward. -/
theorem blockCoherent_handoff (f g : Nat → CacheBlockState) (c : Nat)
    (hf : BlockCoherent Protocol.FESI f) (hadm : ∀ i, Protocol.FESI.admits (f i) = true)
    (hfc : f c = CacheBlockState.Forward) (hgc : g c = CacheBlockState.Invalid)
    (hg : (∀ i, i ≠ c → f i ≠ CacheBlockState.Shared ∧ g i = f i)
      ∨ ∃ j, j ≠ c ∧ g j = CacheBlockState.Forward ∧ ∀ i, i ≠ c → i ≠ j → g i = f i) :
    BlockCoherent Protocol.FESI g := by
  obtain ⟨h1, h2, -⟩ := hf
  have hpeer : ∀ i, i ≠ c →
      f i = CacheBlockState.Shared ∨ f i = CacheBlockState.Invalid := by
    intro i hic
    have ha := hadm i
    cases hfi : f i <;> simp [Protocol.admits, hfi] at ha ⊢
    · have := h1 i c hic (Or.inr hfi)
      rw [hfc] at this; simp at this
    · exact hic (h2 i c (Or.inr hfi) (Or.inr hfc))
  rcases hg with hg | ⟨j, hjc, hgj, hg⟩
  · refine blockCoherent_sole Protocol.FESI g c ?_ (fun _ => by rw [hgc]; simp)
    intro i hic
    rw [(hg i hic).2]
    rcases hpeer i hic with h | h
    · exact absurd h (hg i hic).1
    · exact h
  · have hrest : ∀ i, i ≠ j →
        g i = CacheBlockState.Shared ∨ g i = CacheBlockState.Invalid := by
      intro i hij
      by_cases hic : i = c
      · rw [hic]; exact Or.inr hgc
      · rw [hg i hic hij]; exact hpeer i hic
    refine ⟨?_, ?_, ?_⟩
    · intro i j' _ hi
      by_cases hij : i = j
      · rw [hij, hgj] at hi; simp at hi
      · rcases hrest i hij with h | h <;> rw [h] at hi <;> simp at hi
    · intro i i' hi hi'
      by_cases hij : i = j
      · by_cases hij' : i' = j
        · exact hij.trans hij'.symm
        · rcases hrest i' hij' with h | h <;> rw [h] at hi' <;> simp at hi'
      · rcases hrest i hij with h | h <;> rw [h] at hi <;> simp at hi
    · intro _ _ _
      exact ⟨j, hgj⟩

/-! ## Well-formed systems -/

theorem getStateLoop_mem (t : Nat) (l : List CacheBlock) :
    getStateLoop t l = CacheBlockState.Invalid ∨ ∃ x ∈ l, x.state = getStateLoop t l := by
  induction l with
  | nil => exact Or.inl rfl
  | cons x rest ih =>
    unfold getStateLoop
    by_cases hx : x.hit t = true
    · simp only [hx, if_true]
      exact Or.inr ⟨x, List.mem_cons_self _ _, rfl⟩
    · simp only [hx, Bool.false_eq_true, if_false]
      rcases ih with h | ⟨y, hy, h⟩
      · exact Or.inl h
      · exact Or.inr ⟨y, List.mem_cons_of_mem _ hy, h⟩

theorem Protocol.admits_invalid (p : Protocol) : p.admits CacheBlockState.Invalid = true := by
  cases p <;> rfl

/-- A well-formed cache reports states of its protocol only. -/
theorem cacheWF_admits {p : Protocol} {x : Cache} (h : CacheWF p x) (v : Nat) :
    p.admits (x.getState v) = true := by
  obtain ⟨s, hs, hwf⟩ := cacheWF_getSet h v
  rw [Cache.getState_eq, hs]
  show p.admits (getStateLoop (tagOf v) s.blocks) = true
  rcases getStateLoop_mem (tagOf v) s.blocks with h' | ⟨y, hy, h'⟩
  · rw [h']; exact p.admits_invalid
  · rw [← h']; exact hwf.2.1 y hy

theorem allWF_admits {p : Protocol} {sys : System} (h : AllWF p sys) (i v : Nat) :
    p.admits (sys.stateOf i v) = true := by
  rw [System.stateOf_eq]
  cases hx : sys.caches[i]? with
  | none => exact p.admits_invalid
  | some x => exact cacheWF_admits (h x (List.getElem?_mem hx)) v

theorem allWF_protocol {p : Protocol} {sys : System} (h : AllWF p sys) :
    ∀ x ∈ sys.caches, x.protocol = p := fun x hx => (h x hx).1

theorem allWF_sendMessage {p : Protocol} {sys : System} (req : BusRequest) (b s : Nat)
    (hreq : Snooped p req ∨ req = BusRequest.Flush ∨ req = BusRequest.Flush_prime)
    (h : AllWF p sys) : AllWF p (sys.sendMessage req b s) := by
  by_cases hfl : req = BusRequest.Flush ∨ req = BusRequest.Flush_prime
  · intro x hx
    have : (sys.sendMessage req b s).caches = sys.caches := by
      unfold System.sendMessage
      simp only [hfl, if_true]
    rw [this] at hx
    exact h x hx
  · have hsn : Snooped p req := by
      rcases hreq with h' | h' | h'
      · exact h'
      · exact absurd (Or.inl h') hfl
      · exact absurd (Or.inr h') hfl
    intro x' hx'
    obtain ⟨i, hi⟩ := List.getElem?_of_mem hx'
    obtain ⟨hsome, hnone⟩ := sendMessage_getElem? sys req b s
      (fun h' => hfl (Or.inl h')) (fun h' => hfl (Or.inr h')) i
    cases hx : sys.caches[i]? with
    | none => rw [hnone hx] at hi; simp at hi
    | some x =>
      have hwf := h x (List.getElem?_mem hx)
      by_cases hid : x.id = s
      · rw [(hsome x hx).1 hid] at hi
        simp only [Option.some.injEq] at hi
        rw [← hi]; exact hwf
      · obtain ⟨bus', hb⟩ := (hsome x hx).2 hid
        rw [hb] at hi
        simp only [Option.some.injEq] at hi
        rw [← hi]; exact cacheWF_handleBusRequest bus' hsn b hwf

theorem allWF_onCache {p : Protocol} {sys : System} (c : Nat) (f : Cache → Cache)
    (hf : ∀ x, sys.caches[c]? = some x → CacheWF p (f x)) (h : AllWF p sys) :
    AllWF p (sys.onCache c f) := by
  intro x' hx'
  obtain ⟨i, hi⟩ := List.getElem?_of_mem hx'
  by_cases hic : i = c
  · subst hic
    rw [System.onCache_getElem?_self] at hi
    cases hx : sys.caches[i]? with
    | none => rw [hx] at hi; simp at hi
    | some x =>
      rw [hx] at hi
      simp only [Option.map_some', Option.some.injEq] at hi
      rw [← hi]; exact hf x hx
  · rw [System.onCache_getElem?_ne sys c i f hic] at hi
    exact h x' (List.getElem?_mem hi)

/-! ## The requesting cache after a hit and after a miss -/

theorem hitAction_admits {p : Protocol} {req : ProcRequest} {st st' : CacheBlockState}
    {upgr : Bool} (h : hitAction p req st = some (some st', upgr)) :
    p.admits st' = true ∧ st' ≠ CacheBlockState.Invalid := by
  cases p <;> cases req <;> cases st <;> simp [hitAction, Protocol.admits] at h <;>
    (obtain ⟨rfl, -⟩ := h; exact ⟨rfl, by simp⟩)

theorem hitAction_valid {p : Protocol} {req : ProcRequest} {st : CacheBlockState}
    {act : Option CacheBlockState × Bool} (h : hitAction p req st = some act) :
    p.admits st = true ∧ st ≠ CacheBlockState.Invalid := by
  unfold hitAction at h
  by_cases hc : p.admits st = true ∧ st ≠ CacheBlockState.Invalid
  · exact hc
  · rw [if_neg hc] at h; simp at h

theorem cacheWF_hitLocal {p : Protocol} {x : Cache} (b : Nat) (req : ProcRequest)
    {st : CacheBlockState} {up : Option CacheBlockState} {upgr : Bool}
    (hact : hitAction p req st = some (up, upgr)) (h : CacheWF p x) :
    CacheWF p ((x.countRequest req).hitLocal b up) := by
  have h0 : CacheWF p (x.countRequest req) := cacheWF_of_sets (by simp) (by simp) h
  cases up with
  | none => exact cacheWF_moveToMRU b h0
  | some st' => exact cacheWF_setState b (hitAction_admits hact).1 (cacheWF_moveToMRU b h0)

/-- The states that the requesting cache reports after a hit: the state set
by the arm (if any) for the requested block, the old state otherwise. -/
theorem Cache.getState_hitLocal {p : Protocol} {x : Cache} (h : CacheWF p x) (b v : Nat)
    (req : ProcRequest) {up : Option CacheBlockState} {upgr : Bool}
    (hact : hitAction p req (x.getState b) = some (up, upgr)) :
    ((x.countRequest req).hitLocal b up).getState v
      = if v = b then up.getD (x.getState b) else x.getState v := by
  have h0 : CacheWF p (x.countRequest req) := cacheWF_of_sets (by simp) (by simp) h
  have hc : ∀ w, (x.countRequest req).getState w = x.getState w :=
    fun w => Cache.getState_congr (by simp) w
  have hval := (hitAction_valid hact).2
  cases up with
  | none =>
    simp only [Cache.hitLocal, Option.getD_none]
    rw [Cache.getState_after_moveToMRU h0, hc]
    by_cases hv : v = b
    · rw [if_pos hv, hv]
    · rw [if_neg hv]
  | some st' =>
    simp only [Cache.hitLocal, Option.getD_some]
    by_cases hv : v = b
    · subst hv
      rw [Cache.getState_setState_self, Cache.getState_after_moveToMRU h0, hc]
      simp [hval]
    · rw [Cache.getState_setState_other _ _ _ _ (blockAddress_ne hv),
        Cache.getState_after_moveToMRU h0, hc]
      simp [hv]

@[simp] theorem Cache.install_protocol (x : Cache) (b : Nat) (p : Protocol) (req : ProcRequest)
    (sh sup : Bool) : (x.install b p req sh sup).protocol = x.protocol := by
  cases req <;> cases p <;> cases sh <;> cases sup <;> simp [Cache.install]

@[simp] theorem Cache.install_id (x : Cache) (b : Nat) (p : Protocol) (req : ProcRequest)
    (sh sup : Bool) : (x.install b p req sh sup).id = x.id := by
  cases req <;> cases p <;> cases sh <;> cases sup <;> simp [Cache.install]

/-- The sets after a miss is installed: the insertion, and the upgrade to
Exclusive of a read miss (not under MSI) when the shared line stayed low. -/
theorem Cache.install_sets (x : Cache) (b : Nat) (p : Protocol) (req : ProcRequest)
    (sh sup : Bool) :
    (x.install b p req sh sup).sets
      = if req = ProcRequest.ProcRd ∧ p ≠ Protocol.MSI ∧ sh = false
        then ((x.insertCacheBlock b (insertedState p req)).2.setState b
                CacheBlockState.Exclusive).sets
        else (x.insertCacheBlock b (insertedState p req)).2.sets := by
  cases req <;> cases p <;> cases sh <;> cases sup <;>
    simp [Cache.install, insertedState, tentativeState, Cache.insertCacheBlock_sets,
      Cache.setState_sets]

theorem insertedState_admits (p : Protocol) (req : ProcRequest) :
    p.admits (insertedState p req) = true ∧ insertedState p req ≠ CacheBlockState.Invalid := by
  cases p <;> cases req <;> simp [insertedState, tentativeState, Protocol.admits]

theorem cacheWF_install {p : Protocol} {x : Cache} (b : Nat) (req : ProcRequest)
    (sh sup : Bool) (hb : tagOf b < 2 ^ 31)
    (hmiss : x.getState b = CacheBlockState.Invalid) (h : CacheWF p x) :
    CacheWF p ((x.countRequest req).install b p req sh sup) := by
  have hins : CacheWF p (x.insertCacheBlock b (insertedState p req)).2 :=
    cacheWF_insertCacheBlock b (insertedState_admits p req).1 (insertedState_admits p req).2
      hb hmiss h
  have hsets : ((x.countRequest req).install b p req sh sup).sets
      = if req = ProcRequest.ProcRd ∧ p ≠ Protocol.MSI ∧ sh = false
        then ((x.insertCacheBlock b (insertedState p req)).2.setState b
                CacheBlockState.Exclusive).sets
        else (x.insertCacheBlock b (insertedState p req)).2.sets := by
    rw [Cache.install_sets]
    simp [Cache.insertCacheBlock_sets, Cache.setState_sets]
  by_cases hc : req = ProcRequest.ProcRd ∧ p ≠ Protocol.MSI ∧ sh = false
  · rw [if_pos hc] at hsets
    refine cacheWF_of_sets (x := (x.insertCacheBlock b (insertedState p req)).2.setState b
      CacheBlockState.Exclusive) (by simp) hsets (cacheWF_setState b ?_ hins)
    obtain ⟨-, hp, -⟩ := hc
    cases p <;> simp [Protocol.admits] at hp ⊢
  · rw [if_neg hc] at hsets
    exact cacheWF_of_sets (by simp) hsets hins

/-- The state of the requested block in the requesting cache after a miss. -/
theorem Cache.getState_install_self {p : Protocol} {x : Cache} (h : CacheWF p x) (b : Nat)
    (req : ProcRequest) (sh sup : Bool) (hb : tagOf b < 2 ^ 31)
    (hmiss : x.getState b = CacheBlockState.Invalid) :
    ((x.countRequest req).install b p req sh sup).getState b = installedState p req sh := by
  have hins := Cache.getState_after_insert_self h b (insertedState p req)
    (insertedState_admits p req).2 hb hmiss
  have hsets : ((x.countRequest req).install b p req sh sup).sets
      = if req = ProcRequest.ProcRd ∧ p ≠ Protocol.MSI ∧ sh = false
        then ((x.insertCacheBlock b (insertedState p req)).2.setState b
                CacheBlockState.Exclusive).sets
        else (x.insertCacheBlock b (insertedState p req)).2.sets := by
    rw [Cache.install_sets]
    simp [Cache.insertCacheBlock_sets, Cache.setState_sets]
  by_cases hc : req = ProcRequest.ProcRd ∧ p ≠ Protocol.MSI ∧ sh = false
  · rw [if_pos hc] at hsets
    rw [Cache.getState_congr hsets, Cache.getState_setState_self, hins,
      if_neg (insertedState_admits p req).2]
    obtain ⟨rfl, hp, rfl⟩ := hc
    cases p <;> simp [installedState] at hp ⊢
  · rw [if_neg hc] at hsets
    rw [Cache.getState_congr hsets, hins]
    cases req <;> cases p <;> cases sh <;>
      simp [installedState, insertedState, tentativeState] at hc ⊢

/-- The state of any other block in the requesting cache after a miss:
Invalid for the address of a valid victim, the old state otherwise. -/
theorem Cache.getState_install_other {p : Protocol} {x : Cache} (h : CacheWF p x) (b v : Nat)
    (req : ProcRequest) (sh sup : Bool) (hb : tagOf b < 2 ^ 31) (hne : v ≠ b) :
    ((x.countRequest req).install b p req sh sup).getState v
      = if setIndex v = setIndex b ∧ (x.victim b).hit (tagOf v) = true
        then CacheBlockState.Invalid else x.getState v := by
  have hsets : ((x.countRequest req).install b p req sh sup).sets
      = if req = ProcRequest.ProcRd ∧ p ≠ Protocol.MSI ∧ sh = false
        then ((x.insertCacheBlock b (insertedState p req)).2.setState b
                CacheBlockState.Exclusive).sets
        else (x.insertCacheBlock b (insertedState p req)).2.sets := by
    rw [Cache.install_sets]
    simp [Cache.insertCacheBlock_sets, Cache.setState_sets]
  by_cases hc : req = ProcRequest.ProcRd ∧ p ≠ Protocol.MSI ∧ sh = false
  · rw [if_pos hc] at hsets
    rw [Cache.getState_congr hsets,
      Cache.getState_setState_other _ _ _ _ (blockAddress_ne hne)]
    exact Cache.getState_after_insert_other h b v _ hb hne
  · rw [if_neg hc] at hsets
    rw [Cache.getState_congr hsets]
    exact Cache.getState_after_insert_other h b v _ hb hne

/-! ## States after the accounting of the victim -/

theorem System.stateOf_congr {S T : System} (h : S.caches = T.caches) (i v : Nat) :
    S.stateOf i v = T.stateOf i v := by
  rw [System.stateOf_eq, System.stateOf_eq, h]

/-- A change of one cache that keeps its sets keeps every state. -/
theorem System.stateOf_onCache_sets (sys : System) (c : Nat) (f : Cache → Cache)
    (hf : ∀ x, (f x).sets = x.sets) (i v : Nat) :
    (sys.onCache c f).stateOf i v = sys.stateOf i v := by
  rw [System.stateOf_eq, System.stateOf_eq]
  by_cases hi : i = c
  · subst hi
    rw [System.onCache_getElem?_self]
    cases sys.caches[i]? with
    | none => rfl
    | some x => exact Cache.getState_congr (hf x) v
  · rw [System.onCache_getElem?_ne sys c i f hi]

theorem System.stateOf_sendMessage_Flush (sys : System) (b s i v : Nat) :
    (sys.sendMessage BusRequest.Flush b s).stateOf i v = sys.stateOf i v :=
  System.stateOf_congr (by rw [System.sendMessage_Flush_eq]) i v

/-- The accounting of a victim that is not a FESI Forward block changes no
state. -/
theorem System.stateOf_victimStep_plain (T : System) (c id : Nat) (p : Protocol)
    (ev : CacheBlock) (set : Nat)
    (h : ¬ (p = Protocol.FESI ∧ ev.state = CacheBlockState.Forward)) (i v : Nat) :
    (T.victimStep c id p ev set).stateOf i v = T.stateOf i v := by
  have hwb : ∀ S : System,
      (S.onCache c (fun x => { x with num_writebacks := x.num_writebacks + 1 })).stateOf i v
        = S.stateOf i v :=
    fun S => System.stateOf_onCache_sets S c
      (fun x => { x with num_writebacks := x.num_writebacks + 1 }) (fun _ => rfl) i v
  by_cases hp : p = Protocol.FESI
  · subst hp
    have : ev.state ≠ CacheBlockState.Forward := fun h' => h ⟨rfl, h'⟩
    simp [System.victimStep, this]
  · rw [System.victimStep_of_not_FESI T c id p ev set hp]
    split
    · rw [hwb, System.stateOf_sendMessage_Flush]
    · rfl

/-- The accounting of a FESI Forward victim changes the states as the setF
broadcast does. -/
theorem System.stateOf_victimStep_handoff (T : System) (c id : Nat) (ev : CacheBlock)
    (set : Nat) (h : ev.state = CacheBlockState.Forward) (i v : Nat) :
    (T.victimStep c id Protocol.FESI ev set).stateOf i v
      = (T.sendMessage BusRequest.setF (evicted_blockAddress ev set) id).stateOf i v := by
  have hwb : ∀ S : System,
      (S.onCache c (fun x => { x with num_writebacks := x.num_writebacks + 1 })).stateOf i v
        = S.stateOf i v :=
    fun S => System.stateOf_onCache_sets S c
      (fun x => { x with num_writebacks := x.num_writebacks + 1 }) (fun _ => rfl) i v
  simp only [System.victimStep, h, if_true]
  split
  · rw [hwb, System.stateOf_sendMessage_Flush]
  · rfl

theorem allWF_victimStep {p : Protocol} {T : System} (c id : Nat) (ev : CacheBlock) (set : Nat)
    (h : AllWF p T) : AllWF p (T.victimStep c id p ev set) := by
  have hwb : ∀ S : System, AllWF p S →
      AllWF p (S.onCache c (fun x => { x with num_writebacks := x.num_writebacks + 1 })) :=
    fun S hS => allWF_onCache c _
      (fun x hx => cacheWF_of_sets rfl rfl (hS x (List.getElem?_mem hx))) hS
  have hfl : ∀ (S : System) (v : Nat), AllWF p S →
      AllWF p (S.sendMessage BusRequest.Flush v id) :=
    fun S v hS => allWF_sendMessage _ v id (Or.inr (Or.inl rfl)) hS
  by_cases hp : p = Protocol.FESI
  · subst hp
    have hsf : AllWF Protocol.FESI
        (T.sendMessage BusRequest.setF (evicted_blockAddress ev set) id) :=
      allWF_sendMessage _ _ id (Or.inl (Or.inr (Or.inr (Or.inr ⟨rfl, rfl⟩)))) h
    simp only [System.victimStep]
    split
    · split
      · exact hwb _ (hfl _ _ hsf)
      · exact hsf
    · exact h
  · rw [System.victimStep_of_not_FESI T c id p ev set hp]
    split
    · exact hwb _ (hfl _ _ h)
    · exact h

/-- The states after a setF broadcast for `va` by the cache with index `s`:
either no other cache held `va` in Shared and nothing changed, or the first
such cache now holds it in Forward and nothing else changed. -/
theorem System.stateOf_sendMessage_setF (T : System) (va s : Nat) (hid : IdsAreIndices T) :
    ((∀ i, i ≠ s → T.stateOf i va ≠ CacheBlockState.Shared)
        ∧ ∀ i v, (T.sendMessage BusRequest.setF va s).stateOf i v = T.stateOf i v)
    ∨ ∃ j, j ≠ s ∧ T.stateOf j va = CacheBlockState.Shared
        ∧ (T.sendMessage BusRequest.setF va s).stateOf j va = CacheBlockState.Forward
        ∧ ∀ i v, (i ≠ j ∨ v ≠ va) →
            (T.sendMessage BusRequest.setF va s).stateOf i v = T.stateOf i v := by
  by_cases hex : ∃ j, j ≠ s ∧ T.stateOf j va = CacheBlockState.Shared
  · right
    classical
    let j := Nat.find hex
    have hj : j ≠ s ∧ T.stateOf j va = CacheBlockState.Shared := Nat.find_spec hex
    have hmin : ∀ i, i < j → ¬ (i ≠ s ∧ T.stateOf i va = CacheBlockState.Shared) :=
      fun i hi => Nat.find_min hex hi
    have hy : ∃ y, T.caches[j]? = some y := by
      cases hc : T.caches[j]? with
      | none =>
        have := hj.2
        rw [System.stateOf_eq, hc] at this
        simp at this
      | some y => exact ⟨y, rfl⟩
    obtain ⟨y, hy⟩ := hy
    have hyid : y.id = j := hid j y hy
    have hyst : y.getState va = CacheBlockState.Shared := by
      have := hj.2
      rw [System.stateOf_eq, hy] at this
      exact this
    have heq := sendMessage_setF_first T va s j y hy (by rw [hyid]; exact hj.1) hyst
      (by
        intro i z hi hz hzs
        have hzid : z.id = i := hid i z hz
        have := hmin i hi
        intro hcon
        apply this
        refine ⟨by rw [← hzid]; exact hzs, ?_⟩
        rw [System.stateOf_eq, hz]; exact hcon)
    have hjlt : j < T.caches.length := (List.getElem?_eq_some.mp hy).1
    refine ⟨j, hj.1, hj.2, ?_, ?_⟩
    · rw [heq, System.stateOf_eq]
      simp only [List.getElem?_set_self hjlt, Option.map_some', Option.getD_some,
        Cache.getState_mk_sets]
      rw [Cache.getState_setState_self, hyst]
      simp
    · intro i v hne
      rw [heq, System.stateOf_eq, System.stateOf_eq]
      by_cases hij : i = j
      · subst hij
        have hv : v ≠ va := by
          rcases hne with h | h
          · exact absurd rfl h
          · exact h
        simp only [List.getElem?_set_self hjlt, Option.map_some', Option.getD_some,
          Cache.getState_mk_sets, hy]
        exact Cache.getState_setState_other y va v _ (blockAddress_ne hv)
      · simp only [List.getElem?_set_ne (Ne.symm hij)]
  · left
    simp only [not_exists, not_and] at hex
    refine ⟨hex, ?_⟩
    have heq := sendMessage_setF_none T va s (by
      intro i y hy hys hcon
      have hyid : y.id = i := hid i y hy
      refine hex i (by rw [← hyid]; exact hys) ?_
      rw [System.stateOf_eq, hy]; exact hcon)
    intro i v
    rw [heq]
    exact System.stateOf_congr rfl i v

/-! ## The coherence invariant is kept by a hit -/

theorem handleProcRequest_none (sys : System) (c a : Nat) (req : ProcRequest)
    (h : sys.caches[c]? = none) : sys.handleProcRequest c req a = sys := by
  unfold System.handleProcRequest
  simp only [h]

theorem hitAction_of_valid (p : Protocol) (req : ProcRequest) (st : CacheBlockState)
    (h : p.admits st = true) (hv : st ≠ CacheBlockState.Invalid) :
    ∃ up upgr, hitAction p req st = some (up, upgr) := by
  cases p <;> cases req <;> cases st <;> simp [hitAction, Protocol.admits] at h hv ⊢

theorem hitAction_upgr {p : Protocol} {req : ProcRequest} {st : CacheBlockState}
    {up : Option CacheBlockState} (h : hitAction p req st = some (up, true))
    (hp : p = Protocol.FESI) : up.getD st ≠ CacheBlockState.Shared := by
  subst hp
  cases req <;> cases st <;> simp [hitAction, Protocol.admits] at h <;> subst h <;> simp

theorem hitAction_silent {p : Protocol} {req : ProcRequest} {st st' : CacheBlockState}
    (h : hitAction p req st = some (some st', false)) :
    st = CacheBlockState.Exclusive ∧ st' ≠ CacheBlockState.Shared := by
  cases p <;> cases req <;> cases st <;> simp [hitAction, Protocol.admits] at h <;>
    subst h <;> simp

theorem coherent_hit {p : Protocol} {sys : System} (h : Coherent p sys) (c a : Nat)
    (req : ProcRequest) (self : Cache) (up : Option CacheBlockState) (upgr : Bool)
    (hself : sys.caches[c]? = some self)
    (hact : hitAction self.protocol req (self.getState (a >>> CACHE_OFFSET_BITS))
      = some (up, upgr)) :
    Coherent p (sys.handleProcRequest c req a) := by
  obtain ⟨hid, hwf, hco⟩ := h
  have hswf : CacheWF p self := hwf self (List.getElem?_mem hself)
  have hsp : self.protocol = p := hswf.1
  have hsid : self.id = c := hid c self hself
  have hfc : ∀ v, sys.stateOf c v = self.getState v := by
    intro v; rw [System.stateOf_eq, hself]; rfl
  refine ⟨idsAreIndices_handleProcRequest c req a hid, ?_, ?_⟩
  · rw [handleProcRequest_hit_view sys c a req self up upgr hself hact]
    refine allWF_onCache c _ ?_ ?_
    · intro x hx
      have hxs : x = self := by
        cases upgr
        · simp only [Bool.false_eq_true, if_false] at hx
          rw [hself] at hx; exact (Option.some.inj hx).symm
        · simp only [if_true] at hx
          rw [sendMessage_sender sys _ _ c self hself] at hx
          exact (Option.some.inj hx).symm
      rw [hxs]
      exact cacheWF_hitLocal _ req (hsp ▸ hact) hswf
    · cases upgr
      · simpa using hwf
      · simp only [if_true]
        exact allWF_sendMessage _ _ _ (Or.inl (Or.inr (Or.inr (Or.inl rfl)))) hwf
  · intro v
    rw [handleProcRequest_hit_view sys c a req self up upgr hself hact]
    have hloc := fun w => Cache.getState_hitLocal hswf (a >>> CACHE_OFFSET_BITS) w req
      (hsp ▸ hact)
    cases upgr with
    | false =>
      simp only [Bool.false_eq_true, if_false]
      have hst : ∀ i w, (sys.onCache c (fun x => (x.countRequest req).hitLocal
          (a >>> CACHE_OFFSET_BITS) up)).stateOf i w
            = if i = c ∧ w = a >>> CACHE_OFFSET_BITS
              then up.getD (self.getState (a >>> CACHE_OFFSET_BITS)) else sys.stateOf i w := by
        intro i w
        rw [System.stateOf_onCache sys c _ self hself, hloc]
        by_cases hi : i = c <;> by_cases hw : w = a >>> CACHE_OFFSET_BITS <;>
          simp [hi, hw, hfc]
      cases up with
      | none =>
        have : (fun i => (sys.onCache c (fun x => (x.countRequest req).hitLocal
            (a >>> CACHE_OFFSET_BITS) none)).stateOf i v) = fun i => sys.stateOf i v := by
          funext i
          rw [hst]
          by_cases hc : i = c ∧ v = a >>> CACHE_OFFSET_BITS
          · rw [if_pos hc, hc.1, hc.2, hfc]; rfl
          · rw [if_neg hc]
        rw [this]; exact hco v
      | some st' =>
        obtain ⟨hE, hS⟩ := hitAction_silent hact
        by_cases hv : v = a >>> CACHE_OFFSET_BITS
        · refine blockCoherent_sole p _ c ?_ ?_
          · intro i hic
            show (sys.onCache c _).stateOf i v = _
            rw [hst, if_neg (fun hc => hic hc.1)]
            exact (hco v).1 c i (Ne.symm hic)
              (Or.inr (by show sys.stateOf c v = _; rw [hfc, hv]; exact hE))
          · intro _
            show (sys.onCache c _).stateOf c v ≠ _
            rw [hst, if_pos ⟨rfl, hv⟩]
            exact hS
        · have : (fun i => (sys.onCache c (fun x => (x.countRequest req).hitLocal
              (a >>> CACHE_OFFSET_BITS) (some st'))).stateOf i v)
              = fun i => sys.stateOf i v := by
            funext i
            rw [hst, if_neg (fun hc => hv hc.2)]
          rw [this]; exact hco v
    | true =>
      simp only [if_true]
      have hB : (sys.sendMessage BusRequest.BusUpgr (a >>> CACHE_OFFSET_BITS) self.id).caches[c]?
          = some self := sendMessage_sender sys _ _ c self hself
      have hst : ∀ i w, ((sys.sendMessage BusRequest.BusUpgr (a >>> CACHE_OFFSET_BITS)
          self.id).onCache c (fun x => (x.countRequest req).hitLocal
            (a >>> CACHE_OFFSET_BITS) up)).stateOf i w
            = if w = a >>> CACHE_OFFSET_BITS then
                (if i = c then up.getD (self.getState (a >>> CACHE_OFFSET_BITS))
                 else CacheBlockState.Invalid)
              else sys.stateOf i w := by
        intro i w
        rw [System.stateOf_onCache _ c _ self hB, hloc,
          System.stateOf_sendMessage sys _ _ _ (Or.inr (Or.inr rfl)) hid
            (allWF_protocol hwf), hsid]
        by_cases hi : i = c <;> by_cases hw : w = a >>> CACHE_OFFSET_BITS <;>
          simp [hi, hw, hfc]
        exact snoopNext_invalidate p _ _ (Or.inr rfl) (allWF_admits hwf i _)
      by_cases hv : v = a >>> CACHE_OFFSET_BITS
      · refine blockCoherent_sole p _ c ?_ ?_
        · intro i hic
          show (System.onCache _ c _).stateOf i v = _
          rw [hst, if_pos hv, if_neg hic]
        · intro hp
          show (System.onCache _ c _).stateOf c v ≠ _
          rw [hst, if_pos hv, if_pos rfl]
          exact hitAction_upgr hact (hsp.trans hp)
      · have : (fun i => ((sys.sendMessage BusRequest.BusUpgr (a >>> CACHE_OFFSET_BITS)
            self.id).onCache c (fun x => (x.countRequest req).hitLocal
              (a >>> CACHE_OFFSET_BITS) up)).stateOf i v) = fun i => sys.stateOf i v := by
          funext i
          rw [hst, if_neg hv]
        rw [this]; exact hco v

/-! ## The coherence invariant is kept by a miss -/

theorem raisesSharedLine_false (p : Protocol) (st : CacheBlockState)
    (hadm : p.admits st = true) (h : raisesSharedLine p st = false) (hp : p ≠ Protocol.MSI) :
    st = CacheBlockState.Invalid ∨ (p = Protocol.FESI ∧ st = CacheBlockState.Shared) := by
  cases p <;> cases st <;> simp [raisesSharedLine, Protocol.admits] at hadm h hp ⊢

theorem raisesSharedLine_forward (st : CacheBlockState) (h : st = CacheBlockState.Forward) :
    raisesSharedLine Protocol.FESI st = true := by
  subst h; rfl

/-- The shared line after the BusRd of the cache with index `c`, in terms of
the states before. -/
theorem shared_line_iff_stateOf {p : Protocol} {sys : System} (hid : IdsAreIndices sys)
    (hwf : AllWF p sys) (b c : Nat) :
    (sys.sendMessage BusRequest.BusRd b c).bus.shared_line = true
      ↔ ∃ i, i ≠ c ∧ raisesSharedLine p (sys.stateOf i b) = true := by
  rw [shared_line_after_BusRd]
  constructor
  · rintro ⟨x, hx, hxc, hr⟩
    obtain ⟨i, hi⟩ := List.getElem?_of_mem hx
    refine ⟨i, by rw [← hid i x hi]; exact hxc, ?_⟩
    rw [System.stateOf_eq, hi, ← (hwf x hx).1]
    exact hr
  · rintro ⟨i, hic, hr⟩
    cases hx : sys.caches[i]? with
    | none =>
      rw [System.stateOf_eq, hx] at hr
      cases p <;> simp [raisesSharedLine] at hr
    | some x =>
      rw [System.stateOf_eq, hx] at hr
      have hm := List.getElem?_mem hx
      exact ⟨x, hm, by rw [hid i x hx]; exact hic, by rw [(hwf x hm).1]; exact hr⟩

/-- The states after the broadcast and the installation of a miss. -/
theorem System.stateOf_afterInstall {p : Protocol} {sys : System} (h : Coherent p sys)
    (c b : Nat) (req : ProcRequest) (self : Cache) (hself : sys.caches[c]? = some self)
    (hb : tagOf b < 2 ^ 31) (hmiss : self.getState b = CacheBlockState.Invalid) (i w : Nat) :
    (sys.afterInstall c req b self).stateOf i w
      = if w = b then
          (if i = c then
             installedState p req (sys.sendMessage (missRequest req) b c).bus.shared_line
           else snoopNext p (missRequest req) (sys.stateOf i b))
        else if i = c ∧ setIndex w = setIndex b ∧ (self.victim b).hit (tagOf w) = true
          then CacheBlockState.Invalid else sys.stateOf i w := by
  obtain ⟨hid, hwf, -⟩ := h
  have hswf : CacheWF p self := hwf self (List.getElem?_mem hself)
  have hsp : self.protocol = p := hswf.1
  have hsid : self.id = c := hid c self hself
  have hB : (sys.sendMessage (missRequest req) b c).caches[c]? = some self := by
    have := sendMessage_sender sys (missRequest req) b c self hself
    rw [hsid] at this; exact this
  have hreq : missRequest req = BusRequest.BusRd ∨ missRequest req = BusRequest.BusRdX
      ∨ missRequest req = BusRequest.BusUpgr := by
    cases req
    · exact Or.inl rfl
    · exact Or.inr (Or.inl rfl)
  simp only [System.afterInstall, hsid, hsp]
  rw [System.stateOf_onCache _ c _ self hB]
  by_cases hi : i = c
  · subst hi
    by_cases hw : w = b
    · subst hw
      simp only [if_true]
      exact Cache.getState_install_self hswf w req _ _ hb hmiss
    · simp only [if_true, hw, if_false, true_and]
      rw [Cache.getState_install_other hswf b w req _ _ hb hw, System.stateOf_eq, hself]
      rfl
  · simp only [hi, if_false, false_and]
    rw [System.stateOf_sendMessage sys _ b c hreq hid (allWF_protocol hwf)]
    by_cases hw : w = b
    · simp [hw, hi]
    · simp [hw]

/-- After the installation of a miss the requested block is coherent. -/
theorem blockCoherent_afterInstall_self {p : Protocol} {sys : System} (h : Coherent p sys)
    (c b : Nat) (req : ProcRequest) (self : Cache) (hself : sys.caches[c]? = some self)
    (hb : tagOf b < 2 ^ 31) (hmiss : self.getState b = CacheBlockState.Invalid) :
    BlockCoherent p (fun i => (sys.afterInstall c req b self).stateOf i b) := by
  have hst := fun i => System.stateOf_afterInstall h c b req self hself hb hmiss i b
  simp only [if_true] at hst
  obtain ⟨hid, hwf, hco⟩ := h
  have hfc : sys.stateOf c b = CacheBlockState.Invalid := by
    rw [System.stateOf_eq, hself]; exact hmiss
  have hadm := fun i => allWF_admits hwf i b
  have hsole : (∀ i, i ≠ c → snoopNext p (missRequest req) (sys.stateOf i b)
        = CacheBlockState.Invalid) →
      installedState p req (sys.sendMessage (missRequest req) b c).bus.shared_line
        ≠ CacheBlockState.Shared →
      BlockCoherent p (fun i => (sys.afterInstall c req b self).stateOf i b) := by
    intro h1 h2
    refine blockCoherent_sole p _ c ?_ ?_
    · intro i hic
      show (sys.afterInstall c req b self).stateOf i b = _
      rw [hst, if_neg hic]; exact h1 i hic
    · intro _
      show (sys.afterInstall c req b self).stateOf c b ≠ _
      rw [hst, if_pos rfl]; exact h2
  have hshared : installedState p req (sys.sendMessage (missRequest req) b c).bus.shared_line
        = tentativeState p →
      req = ProcRequest.ProcRd →
      BlockCoherent p (fun i => (sys.afterInstall c req b self).stateOf i b) := by
    intro h1 h2
    subst h2
    refine blockCoherent_read_shared p (fun i => sys.stateOf i b) _ c (hco b) hadm ?_ ?_
    · intro i hic
      show (sys.afterInstall c _ b self).stateOf i b = _
      rw [hst, if_neg hic]; rfl
    · show (sys.afterInstall c _ b self).stateOf c b = _
      rw [hst, if_pos rfl]; exact h1
  cases req with
  | ProcWr =>
    refine hsole (fun i _ => snoopNext_invalidate p _ _ (Or.inl rfl) (hadm i)) ?_
    cases p <;> simp [installedState]
  | ProcRd =>
    by_cases hp : p = Protocol.MSI
    · exact hshared (by subst hp; rfl) rfl
    · cases hsh : (sys.sendMessage (missRequest ProcRequest.ProcRd) b c).bus.shared_line with
      | true =>
        refine hshared ?_ rfl
        rw [hsh]
        cases p <;> simp [installedState] at hp ⊢
      | false =>
        have hno : ∀ i, i ≠ c → raisesSharedLine p (sys.stateOf i b) = false := by
          intro i hic
          by_contra hcon
          simp only [Bool.not_eq_false] at hcon
          have := (shared_line_iff_stateOf hid hwf b c).mpr ⟨i, hic, hcon⟩
          simp only [missRequest] at hsh
          rw [hsh] at this
          exact absurd this (by simp)
        have hinv : ∀ i, i ≠ c → sys.stateOf i b = CacheBlockState.Invalid := by
          intro i hic
          rcases raisesSharedLine_false p _ (hadm i) (hno i hic) hp with h' | ⟨hF, hS⟩
          · exact h'
          · exfalso
            obtain ⟨j, hj⟩ := (hco b).2.2 hF i hS
            by_cases hjc : j = c
            · have hj' : sys.stateOf j b = CacheBlockState.Forward := hj
              rw [hjc, hfc] at hj'
              exact absurd hj' (by simp)
            · have := hno j hjc
              rw [hF, raisesSharedLine_forward _ hj] at this
              exact absurd this (by simp)
        refine hsole ?_ ?_
        · intro i hic
          rw [hinv i hic]; exact snoopNext_invalid p _
        · rw [hsh]
          cases p <;> simp [installedState] at hp ⊢

/-- After the installation of a miss every other block address is coherent,
except (under FESI) the address of an evicted Forward block. -/
theorem blockCoherent_afterInstall_other {p : Protocol} {sys : System} (h : Coherent p sys)
    (c b : Nat) (req : ProcRequest) (self : Cache) (hself : sys.caches[c]? = some self)
    (hb : tagOf b < 2 ^ 31) (hmiss : self.getState b = CacheBlockState.Invalid) (w : Nat)
    (hw : w ≠ b)
    (hF : ¬ (p = Protocol.FESI ∧ (self.victim b).state = CacheBlockState.Forward
      ∧ w = evicted_blockAddress (self.victim b) (setIndex b))) :
    BlockCoherent p (fun i => (sys.afterInstall c req b self).stateOf i w) := by
  have hst := fun i => System.stateOf_afterInstall h c b req self hself hb hmiss i w
  simp only [hw, if_false] at hst
  obtain ⟨hid, hwf, hco⟩ := h
  have hswf : CacheWF p self := hwf self (List.getElem?_mem hself)
  have hfc : sys.stateOf c w = self.getState w := by
    rw [System.stateOf_eq, hself]; rfl
  refine blockCoherent_remove p (fun i => sys.stateOf i w) _ c (hco w) ?_ ?_ ?_
  · intro i hic
    show (sys.afterInstall c req b self).stateOf i w = _
    rw [hst, if_neg (fun hc => hic hc.1)]
  · show (sys.afterInstall c req b self).stateOf c w = sys.stateOf c w
      ∨ (sys.afterInstall c req b self).stateOf c w = _
    rw [hst]
    split
    · exact Or.inr rfl
    · exact Or.inl rfl
  · intro hp
    show (sys.afterInstall c req b self).stateOf c w = sys.stateOf c w
      ∨ sys.stateOf c w ≠ _
    rw [hst]
    split
    · next hc =>
      right
      rw [hfc, Cache.getState_of_victim_hit b w hc.2.1 hc.2.2]
      intro hfw
      exact hF ⟨hp, hfw, ((Cache.victim_hit_iff hswf b w).mp hc.2).2⟩
    · exact Or.inl rfl

theorem System.afterInstall_ids {sys : System} (hid : IdsAreIndices sys) (c b : Nat)
    (req : ProcRequest) (self : Cache) : IdsAreIndices (sys.afterInstall c req b self) := by
  unfold System.afterInstall
  exact idsAreIndices_onCache c _ (fun x => by simp) (idsAreIndices_sendMessage _ _ _ hid)

theorem allWF_afterInstall {p : Protocol} {sys : System} (h : Coherent p sys)
    (c b : Nat) (req : ProcRequest) (self : Cache) (hself : sys.caches[c]? = some self)
    (hb : tagOf b < 2 ^ 31) (hmiss : self.getState b = CacheBlockState.Invalid) :
    AllWF p (sys.afterInstall c req b self) := by
  obtain ⟨-, hwf, -⟩ := h
  have hswf : CacheWF p self := hwf self (List.getElem?_mem hself)
  unfold System.afterInstall
  refine allWF_onCache c _ ?_ (allWF_sendMessage _ _ _ ?_ hwf)
  · intro x hx
    rw [sendMessage_sender sys _ _ c self hself] at hx
    rw [← Option.some.inj hx, hswf.1]
    exact cacheWF_install b req _ _ hb hmiss hswf
  · cases req
    · exact Or.inl (Or.inl rfl)
    · exact Or.inl (Or.inr (Or.inl rfl))

/-- A miss keeps the coherence invariant, for an address in range. -/
theorem coherent_miss {p : Protocol} {sys : System} (h : Coherent p sys) (c a : Nat)
    (req : ProcRequest) (self : Cache) (ha : a < 2 ^ 39)
    (hself : sys.caches[c]? = some self)
    (hmiss : self.getState (a >>> CACHE_OFFSET_BITS) = CacheBlockState.Invalid) :
    Coherent p (sys.handleProcRequest c req a) := by
  have hb : tagOf (a >>> CACHE_OFFSET_BITS) < 2 ^ 31 := tagOf_lt a ha
  have hview : sys.handleProcRequest c req a
      = ((sys.afterInstall c req (a >>> CACHE_OFFSET_BITS) self).victimStep c self.id
            self.protocol (self.victim (a >>> CACHE_OFFSET_BITS))
            (setIndex (a >>> CACHE_OFFSET_BITS))).onCache c (fun x => x.countMiss req) :=
    handleProcRequest_miss_view sys c a req self hself hmiss
  have hTwf := allWF_afterInstall h c _ req self hself hb hmiss
  have hTb := blockCoherent_afterInstall_self h c _ req self hself hb hmiss
  have hTw := blockCoherent_afterInstall_other h c _ req self hself hb hmiss
  have hTst := System.stateOf_afterInstall h c _ req self hself hb hmiss
  obtain ⟨hid, hwf, hco⟩ := h
  have hTid := System.afterInstall_ids hid c (a >>> CACHE_OFFSET_BITS) req self
  have hswf : CacheWF p self := hwf self (List.getElem?_mem hself)
  have hsp : self.protocol = p := hswf.1
  have hsid : self.id = c := hid c self hself
  rw [hsp, hsid] at hview
  refine ⟨idsAreIndices_handleProcRequest c req a hid, ?_, ?_⟩
  · rw [hview]
    exact allWF_onCache c _
      (fun x hx => cacheWF_of_sets (by simp) (by simp)
        (allWF_victimStep c c _ _ hTwf x (List.getElem?_mem hx)))
      (allWF_victimStep c c _ _ hTwf)
  · intro w
    have hpost : ∀ i, (sys.handleProcRequest c req a).stateOf i w
        = ((sys.afterInstall c req (a >>> CACHE_OFFSET_BITS) self).victimStep c c p
            (self.victim (a >>> CACHE_OFFSET_BITS))
            (setIndex (a >>> CACHE_OFFSET_BITS))).stateOf i w := by
      intro i
      rw [hview]
      exact System.stateOf_onCache_sets _ c _ (fun x => by simp) i w
    have hfromT : (∀ i, (sys.handleProcRequest c req a).stateOf i w
          = (sys.afterInstall c req (a >>> CACHE_OFFSET_BITS) self).stateOf i w) →
        ¬ (p = Protocol.FESI
            ∧ (self.victim (a >>> CACHE_OFFSET_BITS)).state = CacheBlockState.Forward
            ∧ w = evicted_blockAddress (self.victim (a >>> CACHE_OFFSET_BITS))
                    (setIndex (a >>> CACHE_OFFSET_BITS))) →
        BlockCoherent p (fun i => (sys.handleProcRequest c req a).stateOf i w) := by
      intro heq hF
      rw [funext heq]
      by_cases hw : w = a >>> CACHE_OFFSET_BITS
      · rw [hw]; exact hTb
      · exact hTw w hw hF
    by_cases hand : p = Protocol.FESI
        ∧ (self.victim (a >>> CACHE_OFFSET_BITS)).state = CacheBlockState.Forward
    · obtain ⟨hp, hvF⟩ := hand
      subst hp
      have hvhit := (Cache.victim_hit_iff hswf (a >>> CACHE_OFFSET_BITS)
        (evicted_blockAddress (self.victim (a >>> CACHE_OFFSET_BITS))
          (setIndex (a >>> CACHE_OFFSET_BITS)))).mpr ⟨by rw [hvF]; simp, rfl⟩
      have hvab : evicted_blockAddress (self.victim (a >>> CACHE_OFFSET_BITS))
          (setIndex (a >>> CACHE_OFFSET_BITS)) ≠ a >>> CACHE_OFFSET_BITS := by
        intro hcon
        rw [hcon] at hvhit
        have := Cache.getState_of_victim_hit (x := self) (a >>> CACHE_OFFSET_BITS)
          (a >>> CACHE_OFFSET_BITS) rfl hvhit.2
        rw [hmiss, hvF] at this
        exact absurd this (by simp)
      have hpost' : ∀ i, (sys.handleProcRequest c req a).stateOf i w
          = ((sys.afterInstall c req (a >>> CACHE_OFFSET_BITS) self).sendMessage
              BusRequest.setF (evicted_blockAddress (self.victim (a >>> CACHE_OFFSET_BITS))
                (setIndex (a >>> CACHE_OFFSET_BITS))) c).stateOf i w := by
        intro i
        rw [hpost, System.stateOf_victimStep_handoff _ c c _ _ hvF]
      by_cases hw : w = evicted_blockAddress (self.victim (a >>> CACHE_OFFSET_BITS))
          (setIndex (a >>> CACHE_OFFSET_BITS))
      · have hfc : sys.stateOf c w = CacheBlockState.Forward := by
          rw [System.stateOf_eq, hself, hw]
          exact (Cache.getState_of_victim_hit _ _ hvhit.1 hvhit.2).trans hvF
        have hTc : (sys.afterInstall c req (a >>> CACHE_OFFSET_BITS) self).stateOf c w
            = CacheBlockState.Invalid := by
          rw [hTst, if_neg (by rw [hw]; exact hvab), if_pos ⟨rfl, by rw [hw]; exact hvhit⟩]
        have hTi : ∀ i, i ≠ c →
            (sys.afterInstall c req (a >>> CACHE_OFFSET_BITS) self).stateOf i w
              = sys.stateOf i w := by
          intro i hic
          rw [hTst, if_neg (by rw [hw]; exact hvab), if_neg (fun hc => hic hc.1)]
        refine blockCoherent_handoff (fun i => sys.stateOf i w) _ c (hco w)
          (fun i => allWF_admits hwf i w) hfc ?_ ?_
        · show (sys.handleProcRequest c req a).stateOf c w = _
          rw [hpost']
          rcases System.stateOf_sendMessage_setF
              (sys.afterInstall c req (a >>> CACHE_OFFSET_BITS) self)
              (evicted_blockAddress (self.victim (a >>> CACHE_OFFSET_BITS))
                (setIndex (a >>> CACHE_OFFSET_BITS))) c hTid
            with ⟨-, hall⟩ | ⟨j, hjc, -, -, hrest⟩
          · rw [hall]; exact hTc
          · rw [hrest c w (Or.inl (Ne.symm hjc))]; exact hTc
        · rcases System.stateOf_sendMessage_setF
              (sys.afterInstall c req (a >>> CACHE_OFFSET_BITS) self)
              (evicted_blockAddress (self.victim (a >>> CACHE_OFFSET_BITS))
                (setIndex (a >>> CACHE_OFFSET_BITS))) c hTid
            with ⟨hno, hall⟩ | ⟨j, hjc, -, hjF, hrest⟩
          · left
            intro i hic
            refine ⟨?_, ?_⟩
            · have := hno i hic
              rw [← hw, hTi i hic] at this
              exact this
            · show (sys.handleProcRequest c req a).stateOf i w = _
              rw [hpost', hall, hTi i hic]
          · right
            refine ⟨j, hjc, ?_, ?_⟩
            · show (sys.handleProcRequest c req a).stateOf j w = _
              rw [hpost', hw]; exact hjF
            · intro i hic hij
              show (sys.handleProcRequest c req a).stateOf i w = _
              rw [hpost', hrest i w (Or.inl hij), hTi i hic]
      · refine hfromT ?_ (fun hc => hw hc.2.2)
        intro i
        rw [hpost']
        rcases System.stateOf_sendMessage_setF
            (sys.afterInstall c req (a >>> CACHE_OFFSET_BITS) self)
            (evicted_blockAddress (self.victim (a >>> CACHE_OFFSET_BITS))
              (setIndex (a >>> CACHE_OFFSET_BITS))) c hTid
          with ⟨-, hall⟩ | ⟨j, -, -, -, hrest⟩
        · exact hall i w
        · exact hrest i w (Or.inr hw)
    · refine hfromT ?_ (fun hc => hand ⟨hc.1, hc.2.1⟩)
      intro i
      rw [hpost, System.stateOf_victimStep_plain _ c c p _ _ hand]

/-- Every request on an address in range keeps the coherence invariant. -/
theorem coherent_handleProcRequest {p : Protocol} {sys : System} (h : Coherent p sys)
    (c a : Nat) (req : ProcRequest) (ha : a < 2 ^ 39) :
    Coherent p (sys.handleProcRequest c req a) := by
  cases hself : sys.caches[c]? with
  | none => rw [handleProcRequest_none sys c a req hself]; exact h
  | some self =>
    have hswf : CacheWF p self := h.2.1 self (List.getElem?_mem hself)
    by_cases hmiss : self.getState (a >>> CACHE_OFFSET_BITS) = CacheBlockState.Invalid
    · exact coherent_miss h c a req self ha hself hmiss
    · obtain ⟨up, upgr, hact⟩ := hitAction_of_valid self.protocol req _
        (by rw [hswf.1]; exact cacheWF_admits hswf _) hmiss
      exact coherent_hit h c a req self up upgr hself hact

theorem coherent_initialSystem (p : Protocol) : Coherent p (initialSystem p) := by
  have hwf : AllWF p (initialSystem p) := by
    intro x hx
    simp only [initialSystem, List.mem_map] at hx
    obtain ⟨i, -, rfl⟩ := hx
    exact cacheWF_new i p
  have hinv : ∀ i v, (initialSystem p).stateOf i v = CacheBlockState.Invalid := by
    intro i v
    rw [System.stateOf_eq]
    cases hx : (initialSystem p).caches[i]? with
    | none => rfl
    | some x =>
      have hm := List.getElem?_mem hx
      simp only [initialSystem, List.mem_map] at hm
      obtain ⟨k, -, rfl⟩ := hm
      exact Cache.new_getState k p v
  refine ⟨initialSystem_ids p, hwf, fun v => ?_⟩
  exact blockCoherent_sole p _ 0 (fun i _ => hinv i v) (fun _ => by
    show (initialSystem p).stateOf 0 v ≠ _
    rw [hinv]; simp)

theorem coherent_simulate {p : Protocol} (trace : List Reference)
    (hr : ∀ r ∈ trace, r.address < 2 ^ 39) :
    ∀ sys : System, Coherent p sys → Coherent p (simulate sys trace) := by
  induction trace with
  | nil => intro sys h; exact h
  | cons r rest ih =>
    intro sys h
    have hr0 : r.address < 2 ^ 39 := hr r (List.mem_cons_self _ _)
    have hrest : ∀ r' ∈ rest, r'.address < 2 ^ 39 :=
      fun r' hr' => hr r' (List.mem_cons_of_mem _ hr')
    unfold simulate
    split
    · exact h
    · split
      · exact h
      · split
        · exact ih hrest _ (coherent_handleProcRequest h _ _ _ hr0)
        · split
          · exact ih hrest _ (coherent_handleProcRequest h _ _ _ hr0)
          · exact ih hrest _ h

/-- The coherence invariant holds after every trace of addresses in range. -/
theorem coherent_run (p : Protocol) (trace : List Reference)
    (hr : ∀ r ∈ trace, r.address < 2 ^ 39) : Coherent p (run p trace) :=
  coherent_simulate trace hr _ (coherent_initialSystem p)

/-! ## The number of caches -/

theorem cachesLength_sendMessage (req : BusRequest) (b s n : Nat) {sys : System}
    (h : sys.caches.length = n) : (sys.sendMessage req b s).caches.length = n := by
  unfold System.sendMessage
  dsimp only
  split
  · exact h
  · rw [snoopLoop_length]; exact h

theorem cachesLength_onCache (c : Nat) (f : Cache → Cache) (n : Nat) {sys : System}
    (h : sys.caches.length = n) : (sys.onCache c f).caches.length = n := by
  unfold System.onCache
  split
  · simpa using h
  · exact h

theorem cachesLength_insertCacheBlock (c b : Nat) (st : CacheBlockState) (n : Nat) {sys : System}
    (h : sys.caches.length = n) : (sys.insertCacheBlock c b st).2.caches.length = n := by
  rw [System.insertCacheBlock_eq_onCache]
  exact cachesLength_onCache c _ n h

theorem cachesLength_handleProcRequest (core : Nat) (req : ProcRequest) (addr : Nat) (n : Nat)
    {sys : System} (hs : sys.caches.length = n) :
    (sys.handleProcRequest core req addr).caches.length = n := by
  unfold System.handleProcRequest
  split
  · exact hs
  · next self hself =>
    cases req <;> cases hp : self.protocol <;>
      cases hst : self.getState (addr >>> CACHE_OFFSET_BITS) <;>
      simp only [hp, hst] <;>
      repeat' (first
        | with_reducible exact hs
        | with_reducible refine cachesLength_sendMessage _ _ _ _ ?_
        | with_reducible refine cachesLength_insertCacheBlock _ _ _ _ ?_
        | with_reducible refine cachesLength_onCache _ _ _ ?_
        | split)

theorem cachesLength_simulate (trace : List Reference) (n : Nat) :
    ∀ sys : System, sys.caches.length = n → (simulate sys trace).caches.length = n := by
  induction trace with
  | nil => intro sys h; exact h
  | cons r rest ih =>
    intro sys h
    unfold simulate
    split
    · exact h
    · split
      · exact h
      · split
        · exact ih _ (cachesLength_handleProcRequest _ _ _ n h)
        · split
          · exact ih _ (cachesLength_handleProcRequest _ _ _ n h)
          · exact ih _ h

/-- Every run keeps the sixteen caches. -/
theorem cachesLength_run (p : Protocol) (trace : List Reference) :
    (run p trace).caches.length = 16 :=
  cachesLength_simulate trace 16 _ (initialSystem_length p)

/-! ## Consequences of the coherence invariant -/

/-- Under FESI, a cache that misses on a block and sees the shared line low
after its BusRd is the only holder: no peer holds the block in any state. -/
theorem FESI_low_line_no_holder {sys : System} (h : Coherent Protocol.FESI sys) (b c : Nat)
    (hc : sys.stateOf c b = CacheBlockState.Invalid)
    (hsh : (sys.sendMessage BusRequest.BusRd b c).bus.shared_line = false) :
    ∀ i, i ≠ c → sys.stateOf i b = CacheBlockState.Invalid := by
  obtain ⟨hid, hwf, hco⟩ := h
  have hno : ∀ i, i ≠ c → raisesSharedLine Protocol.FESI (sys.stateOf i b) = false := by
    intro i hic
    by_contra hcon
    simp only [Bool.not_eq_false] at hcon
    have := (shared_line_iff_stateOf hid hwf b c).mpr ⟨i, hic, hcon⟩
    rw [hsh] at this
    exact absurd this (by simp)
  intro i hic
  rcases raisesSharedLine_false Protocol.FESI _ (allWF_admits hwf i b) (hno i hic) (by simp)
    with h' | ⟨-, hS⟩
  · exact h'
  · exfalso
    obtain ⟨j, hj⟩ := (hco b).2.2 rfl i hS
    by_cases hjc : j = c
    · have hj' : sys.stateOf j b = CacheBlockState.Forward := hj
      rw [hjc, hc] at hj'
      exact absurd hj' (by simp)
    · have := hno j hjc
      rw [raisesSharedLine_forward _ hj] at this
      exact absurd this (by simp)

/-! ## The requested block after a request -/

theorem hitAction_write {p : Protocol} {st : CacheBlockState} {up : Option CacheBlockState}
    {upgr : Bool} (h : hitAction p ProcRequest.ProcWr st = some (up, upgr)) :
    up.getD st = (if p = Protocol.FESI then CacheBlockState.Forward
        else CacheBlockState.Modified)
    ∧ (upgr = false → st = CacheBlockState.Modified ∨ st = CacheBlockState.Exclusive) := by
  cases p <;> cases st <;> simp [hitAction, Protocol.admits] at h <;>
    obtain ⟨rfl, rfl⟩ := h <;> simp

/-- The states of the requested block after a hit: the requester holds it in
the state set by the arm (or the old one), the peers hold it in Invalid after
a BusUpgr and in their old state otherwise. -/
theorem System.stateOf_hit {p : Protocol} {sys : System} (h : Coherent p sys) (c a : Nat)
    (req : ProcRequest) (self : Cache) (up : Option CacheBlockState) (upgr : Bool)
    (hself : sys.caches[c]? = some self)
    (hact : hitAction self.protocol req (self.getState (a >>> CACHE_OFFSET_BITS))
      = some (up, upgr)) (i : Nat) :
    (sys.handleProcRequest c req a).stateOf i (a >>> CACHE_OFFSET_BITS)
      = if i = c then up.getD (self.getState (a >>> CACHE_OFFSET_BITS))
        else if upgr = true then CacheBlockState.Invalid
        else sys.stateOf i (a >>> CACHE_OFFSET_BITS) := by
  obtain ⟨hid, hwf, -⟩ := h
  have hswf : CacheWF p self := hwf self (List.getElem?_mem hself)
  have hsp : self.protocol = p := hswf.1
  have hsid : self.id = c := hid c self hself
  rw [handleProcRequest_hit_view sys c a req self up upgr hself hact]
  have hloc := Cache.getState_hitLocal hswf (a >>> CACHE_OFFSET_BITS)
    (a >>> CACHE_OFFSET_BITS) req (hsp ▸ hact)
  cases upgr with
  | false =>
    simp only [Bool.false_eq_true, if_false]
    rw [System.stateOf_onCache sys c _ self hself, hloc]
    simp
  | true =>
    simp only [if_true]
    rw [System.stateOf_onCache _ c _ self (sendMessage_sender sys _ _ c self hself), hloc,
      System.stateOf_sendMessage sys _ _ _ (Or.inr (Or.inr rfl)) hid (allWF_protocol hwf),
      hsid]
    by_cases hi : i = c
    · simp [hi]
    · simp only [hi, if_false, ne_eq, not_false_eq_true, and_self, if_true]
      exact snoopNext_invalidate p _ _ (Or.inr rfl) (allWF_admits hwf i _)

/-- The address of a valid victim of a miss is not the requested address. -/
theorem Cache.victim_address_ne {p : Protocol} {x : Cache} (h : CacheWF p x) (b : Nat)
    (hmiss : x.getState b = CacheBlockState.Invalid)
    (hv : (x.victim b).state ≠ CacheBlockState.Invalid) :
    evicted_blockAddress (x.victim b) (setIndex b) ≠ b := by
  have hvhit := (Cache.victim_hit_iff h b
    (evicted_blockAddress (x.victim b) (setIndex b))).mpr ⟨hv, rfl⟩
  intro hcon
  rw [hcon] at hvhit
  have := Cache.getState_of_victim_hit (x := x) b b rfl hvhit.2
  rw [hmiss] at this
  exact hv this.symm

/-- After a miss, the states are those after the installation, except (under
FESI) for the address of an evicted Forward block. -/
theorem System.stateOf_miss {p : Protocol} {sys : System} (h : Coherent p sys) (c a : Nat)
    (req : ProcRequest) (self : Cache) (hself : sys.caches[c]? = some self)
    (hmiss : self.getState (a >>> CACHE_OFFSET_BITS) = CacheBlockState.Invalid) (i w : Nat)
    (hw : ¬ (p = Protocol.FESI
      ∧ (self.victim (a >>> CACHE_OFFSET_BITS)).state = CacheBlockState.Forward
      ∧ w = evicted_blockAddress (self.victim (a >>> CACHE_OFFSET_BITS))
              (setIndex (a >>> CACHE_OFFSET_BITS)))) :
    (sys.handleProcRequest c req a).stateOf i w
      = (sys.afterInstall c req (a >>> CACHE_OFFSET_BITS) self).stateOf i w := by
  have hview : sys.handleProcRequest c req a
      = ((sys.afterInstall c req (a >>> CACHE_OFFSET_BITS) self).victimStep c self.id
            self.protocol (self.victim (a >>> CACHE_OFFSET_BITS))
            (setIndex (a >>> CACHE_OFFSET_BITS))).onCache c (fun x => x.countMiss req) :=
    handleProcRequest_miss_view sys c a req self hself hmiss
  obtain ⟨hid, hwf, -⟩ := h
  have hTid := System.afterInstall_ids hid c (a >>> CACHE_OFFSET_BITS) req self
  have hswf : CacheWF p self := hwf self (List.getElem?_mem hself)
  rw [hswf.1, hid c self hself] at hview
  rw [hview, System.stateOf_onCache_sets _ c _ (fun x => by simp) i w]
  by_cases hand : p = Protocol.FESI
      ∧ (self.victim (a >>> CACHE_OFFSET_BITS)).state = CacheBlockState.Forward
  · obtain ⟨hp, hvF⟩ := hand
    subst hp
    have hwv : w ≠ evicted_blockAddress (self.victim (a >>> CACHE_OFFSET_BITS))
        (setIndex (a >>> CACHE_OFFSET_BITS)) := fun hc => hw ⟨rfl, hvF, hc⟩
    rw [System.stateOf_victimStep_handoff _ c c _ _ hvF]
    rcases System.stateOf_sendMessage_setF
        (sys.afterInstall c req (a >>> CACHE_OFFSET_BITS) self)
        (evicted_blockAddress (self.victim (a >>> CACHE_OFFSET_BITS))
          (setIndex (a >>> CACHE_OFFSET_BITS))) c hTid
      with ⟨-, hall⟩ | ⟨j, -, -, -, hrest⟩
    · exact hall i w
    · exact hrest i w (Or.inr hwv)
  · exact System.stateOf_victimStep_plain _ c c p _ _ hand i w

/-- The states of the requested block after a miss. -/
theorem System.stateOf_miss_requested {p : Protocol} {sys : System} (h : Coherent p sys)
    (c a : Nat) (req : ProcRequest) (self : Cache) (ha : a < 2 ^ 39)
    (hself : sys.caches[c]? = some self)
    (hmiss : self.getState (a >>> CACHE_OFFSET_BITS) = CacheBlockState.Invalid) (i : Nat) :
    (sys.handleProcRequest c req a).stateOf i (a >>> CACHE_OFFSET_BITS)
      = if i = c then
          installedState p req
            (sys.sendMessage (missRequest req) (a >>> CACHE_OFFSET_BITS) c).bus.shared_line
        else snoopNext p (missRequest req) (sys.stateOf i (a >>> CACHE_OFFSET_BITS)) := by
  have hswf : CacheWF p self := h.2.1 self (List.getElem?_mem hself)
  rw [System.stateOf_miss h c a req self hself hmiss i _ (fun hc =>
      Cache.victim_address_ne hswf _ hmiss (by rw [hc.2.1]; simp) hc.2.2.symm),
    System.stateOf_afterInstall h c _ req self hself (tagOf_lt a ha) hmiss, if_pos rfl]

/-- A write on an address in range, in a coherent system: afterwards the
writer holds the block in Modified (Forward under FESI) and every other cache
holds it in Invalid. -/
theorem coherent_write {p : Protocol} {sys : System} (h : Coherent p sys) (c a : Nat)
    (ha : a < 2 ^ 39) (hc : c < sys.caches.length) :
    (sys.handleProcRequest c ProcRequest.ProcWr a).stateOf c (a >>> CACHE_OFFSET_BITS)
        = (if p = Protocol.FESI then CacheBlockState.Forward else CacheBlockState.Modified)
    ∧ ∀ j, j ≠ c →
        (sys.handleProcRequest c ProcRequest.ProcWr a).stateOf j (a >>> CACHE_OFFSET_BITS)
          = CacheBlockState.Invalid := by
  have hself : sys.caches[c]? = some sys.caches[c] := List.getElem?_eq_getElem hc
  have hswf : CacheWF p sys.caches[c] := h.2.1 _ (List.getElem_mem hc)
  have hfc : sys.stateOf c (a >>> CACHE_OFFSET_BITS)
      = sys.caches[c].getState (a >>> CACHE_OFFSET_BITS) := by
    rw [System.stateOf_eq, hself]; rfl
  by_cases hmiss : sys.caches[c].getState (a >>> CACHE_OFFSET_BITS) = CacheBlockState.Invalid
  · have hst := System.stateOf_miss_requested h c a ProcRequest.ProcWr _ ha hself hmiss
    refine ⟨?_, ?_⟩
    · rw [hst, if_pos rfl]
      cases p <;> simp [installedState]
    · intro j hj
      rw [hst, if_neg hj]
      exact snoopNext_invalidate p _ _ (Or.inl rfl) (allWF_admits h.2.1 j _)
  · obtain ⟨up, upgr, hact⟩ := hitAction_of_valid sys.caches[c].protocol ProcRequest.ProcWr _
      (by rw [hswf.1]; exact cacheWF_admits hswf _) hmiss
    have hst := System.stateOf_hit h c a ProcRequest.ProcWr _ up upgr hself hact
    have hw := hitAction_write hact
    rw [hswf.1] at hw
    refine ⟨?_, ?_⟩
    · rw [hst, if_pos rfl]; exact hw.1
    · intro j hj
      rw [hst, if_neg hj]
      cases upgr with
      | true => simp
      | false =>
        simp only [Bool.false_eq_true, if_false]
        refine (h.2.2 (a >>> CACHE_OFFSET_BITS)).1 c j (Ne.symm hj) ?_
        show sys.stateOf c _ = _ ∨ sys.stateOf c _ = _
        rw [hfc]
        exact hw.2 rfl

/-! ## The block at the MRU end -/

theorem moveToMRULoop_none (t : Nat) :
    ∀ l : List CacheBlock, moveToMRULoop t l = none → ∀ x ∈ l, x.hit t = false := by
  intro l
  induction l with
  | nil => intro _ x hx; simp at hx
  | cons y rest ih =>
    intro h x hx
    unfold moveToMRULoop at h
    split at h
    · simp at h
    · next hy =>
      split at h
      · next hrec =>
        rcases List.mem_cons.mp hx with rfl | hx'
        · simpa using hy
        · exact ih hrec x hx'
      · simp at h

/-- After `moveToMRU` on a tag that the set holds, the last block is a valid
block with that tag. -/
theorem CacheSet.getLast?_moveToMRU (s : CacheSet) (t : Nat)
    (h : s.getState t ≠ CacheBlockState.Invalid) :
    ∃ cb, (s.moveToMRU t).blocks.getLast? = some cb ∧ cb.hit t = true := by
  unfold CacheSet.moveToMRU
  split
  · next hnone =>
    exact absurd ((getStateLoop_eq_invalid_iff t s.blocks).mpr
      (moveToMRULoop_none t s.blocks hnone)) h
  · next others cb hsome =>
    obtain ⟨-, -, -, -, hcb, -⟩ := moveToMRULoop_some hsome
    exact ⟨cb, by simp, hcb⟩

/-- A `setState` to a valid state keeps a valid last block with the tag. -/
theorem CacheSet.getLast?_setState (s : CacheSet) (t : Nat) (st : CacheBlockState)
    (hst : st ≠ CacheBlockState.Invalid)
    (h : ∃ cb, s.blocks.getLast? = some cb ∧ cb.hit t = true) :
    ∃ cb, (s.setState t st).blocks.getLast? = some cb ∧ cb.hit t = true := by
  obtain ⟨cb, hcb, hhit⟩ := h
  rw [CacheSet.setState_valid_blocks s t hst, List.getLast?_map, hcb]
  refine ⟨{ cb with state := st }, by simp [hhit], ?_⟩
  simp only [CacheBlock.hit, Bool.and_eq_true, decide_eq_true_eq] at hhit ⊢
  exact ⟨hst, hhit.2⟩

theorem CacheSet.getLast?_insertCacheBlock (s : CacheSet) (nb : CacheBlock) :
    (s.insertCacheBlock nb).2.blocks.getLast? = some nb := by
  rw [CacheSet.insertCacheBlock_blocks]
  simp

theorem Cache.mruBlock_eq (x : Cache) (b : Nat) :
    x.mruBlock b = (x.sets[setIndex b]?).bind (fun s => s.blocks.getLast?) := by
  unfold Cache.mruBlock; cases x.sets[setIndex b]? <;> rfl

theorem Cache.mruBlock_congr {x y : Cache} (h : y.sets = x.sets) (b : Nat) :
    y.mruBlock b = x.mruBlock b := by
  rw [Cache.mruBlock_eq, Cache.mruBlock_eq, h]

/-- After a hit the requesting cache has the block at the MRU end. -/
theorem Cache.mruBlock_hitLocal {p : Protocol} {x : Cache} (h : CacheWF p x) (b : Nat)
    (req : ProcRequest) {up : Option CacheBlockState} {upgr : Bool}
    (hact : hitAction p req (x.getState b) = some (up, upgr)) :
    ∃ blk, ((x.countRequest req).hitLocal b up).mruBlock b = some blk
      ∧ blk.hit (tagOf b) = true := by
  obtain ⟨s, hs, -⟩ := cacheWF_getSet h b
  have hlt : setIndex b < x.sets.length := (List.getElem?_eq_some.mp hs).1
  have hval : s.getState (tagOf b) ≠ CacheBlockState.Invalid := by
    have := (hitAction_valid hact).2
    rw [Cache.getState_eq, hs] at this; exact this
  have hmove := CacheSet.getLast?_moveToMRU s (tagOf b) hval
  have hms : ((x.countRequest req).moveToMRU b).sets
      = x.sets.set (setIndex b) (s.moveToMRU (tagOf b)) := by
    rw [Cache.moveToMRU_sets, Cache.countRequest_sets, hs]; rfl
  cases up with
  | none =>
    simp only [Cache.hitLocal]
    rw [Cache.mruBlock_eq, hms, List.getElem?_set_self hlt]
    exact hmove
  | some st' =>
    simp only [Cache.hitLocal]
    rw [Cache.mruBlock_eq, Cache.setState_sets, hms, List.getElem?_set_self hlt]
    simp only [Option.elim, List.set_set, List.getElem?_set_self hlt, Option.some_bind]
    exact CacheSet.getLast?_setState _ _ _ (hitAction_admits hact).2 hmove

/-- After a miss is installed the requesting cache has the block at the MRU
end. -/
theorem Cache.mruBlock_install {p : Protocol} {x : Cache} (h : CacheWF p x) (b : Nat)
    (req : ProcRequest) (sh sup : Bool) (hb : tagOf b < 2 ^ 31) :
    ∃ blk, ((x.countRequest req).install b p req sh sup).mruBlock b = some blk
      ∧ blk.hit (tagOf b) = true := by
  obtain ⟨s, hs, -⟩ := cacheWF_getSet h b
  have hlt : setIndex b < x.sets.length := (List.getElem?_eq_some.mp hs).1
  have hnb : (CacheBlock.new (toInt32 (tagOf b)) (insertedState p req)).hit (tagOf b)
      = true := by
    simp only [CacheBlock.hit, Bool.and_eq_true, decide_eq_true_eq]
    exact ⟨(insertedState_admits p req).2, toUInt64_toInt32 _ hb⟩
  have hins : (x.insertCacheBlock b (insertedState p req)).2.sets
      = x.sets.set (setIndex b)
          (s.insertCacheBlock (CacheBlock.new (toInt32 (tagOf b)) (insertedState p req))).2 := by
    rw [Cache.insertCacheBlock_sets, hs]; rfl
  have hlast : ∃ cb, (s.insertCacheBlock
      (CacheBlock.new (toInt32 (tagOf b)) (insertedState p req))).2.blocks.getLast? = some cb
        ∧ cb.hit (tagOf b) = true :=
    ⟨_, CacheSet.getLast?_insertCacheBlock s _, hnb⟩
  have hsets : ((x.countRequest req).install b p req sh sup).sets
      = if req = ProcRequest.ProcRd ∧ p ≠ Protocol.MSI ∧ sh = false
        then ((x.insertCacheBlock b (insertedState p req)).2.setState b
                CacheBlockState.Exclusive).sets
        else (x.insertCacheBlock b (insertedState p req)).2.sets := by
    rw [Cache.install_sets]
    simp [Cache.insertCacheBlock_sets, Cache.setState_sets]
  rw [Cache.mruBlock_eq, hsets]
  split
  · rw [Cache.setState_sets, hins, List.getElem?_set_self hlt]
    simp only [Option.elim, List.set_set, List.getElem?_set_self hlt, Option.some_bind]
    exact CacheSet.getLast?_setState _ _ _ (by simp) hlast
  · rw [hins, List.getElem?_set_self hlt]
    exact hlast

/-- The accounting of the victim leaves the sets of the requesting cache. -/
theorem System.victimStep_sender (T : System) (c : Nat) (p : Protocol) (ev : CacheBlock)
    (set : Nat) (x : Cache) (hx : T.caches[c]? = some x) :
    ∃ y, (T.victimStep c x.id p ev set).caches[c]? = some y ∧ y.sets = x.sets := by
  have hsf : ∀ v, (T.sendMessage BusRequest.setF v x.id).caches[c]? = some x :=
    fun v => sendMessage_sender T _ v c x hx
  have hwb : ∀ S : System, S.caches[c]? = some x →
      ∃ y, (S.onCache c (fun z => { z with num_writebacks := z.num_writebacks + 1 })).caches[c]?
        = some y ∧ y.sets = x.sets := by
    intro S hS
    exact ⟨{ x with num_writebacks := x.num_writebacks + 1 },
      by rw [System.onCache_getElem?_self, hS]; rfl, rfl⟩
  have hfl : ∀ (S : System) (v : Nat), S.caches[c]? = some x →
      (S.sendMessage BusRequest.Flush v x.id).caches[c]? = some x :=
    fun S v hS => sendMessage_sender S _ v c x hS
  by_cases hp : p = Protocol.FESI
  · subst hp
    simp only [System.victimStep]
    split
    · split
      · exact hwb _ (hfl _ _ (hsf _))
      · exact ⟨x, hsf _, rfl⟩
    · exact ⟨x, hx, rfl⟩
  · rw [System.victimStep_of_not_FESI T c x.id p ev set hp]
    split
    · exact hwb _ (hfl _ _ hx)
    · exact ⟨x, hx, rfl⟩

/-- After a request on an address in range, in a coherent system, the
requesting cache has a valid block with the tag of the address at the MRU end
of its set. -/
theorem coherent_mru {p : Protocol} {sys : System} (h : Coherent p sys) (c a : Nat)
    (req : ProcRequest) (ha : a < 2 ^ 39) (hc : c < sys.caches.length) :
    ∃ x blk, (sys.handleProcRequest c req a).caches[c]? = some x
      ∧ x.mruBlock (a >>> CACHE_OFFSET_BITS) = some blk
      ∧ blk.state ≠ CacheBlockState.Invalid
      ∧ blk.tag = tagOf (a >>> CACHE_OFFSET_BITS) := by
  have hself : sys.caches[c]? = some sys.caches[c] := List.getElem?_eq_getElem hc
  have hswf : CacheWF p sys.caches[c] := h.2.1 _ (List.getElem_mem hc)
  have hsp : sys.caches[c].protocol = p := hswf.1
  have hfin : ∀ (x : Cache) (blk : CacheBlock),
      (sys.handleProcRequest c req a).caches[c]? = some x →
      x.mruBlock (a >>> CACHE_OFFSET_BITS) = some blk →
      blk.hit (tagOf (a >>> CACHE_OFFSET_BITS)) = true →
      ∃ x blk, (sys.handleProcRequest c req a).caches[c]? = some x
        ∧ x.mruBlock (a >>> CACHE_OFFSET_BITS) = some blk
        ∧ blk.state ≠ CacheBlockState.Invalid
        ∧ blk.tag = tagOf (a >>> CACHE_OFFSET_BITS) := by
    intro x blk h1 h2 h3
    simp only [CacheBlock.hit, Bool.and_eq_true, decide_eq_true_eq] at h3
    exact ⟨x, blk, h1, h2, h3.1, h3.2⟩
  by_cases hmiss : sys.caches[c].getState (a >>> CACHE_OFFSET_BITS) = CacheBlockState.Invalid
  · have hview := handleProcRequest_miss_view sys c a req _ hself hmiss
    obtain ⟨blk, hblk, hhit⟩ := Cache.mruBlock_install hswf (a >>> CACHE_OFFSET_BITS) req
      (sys.sendMessage (missRequest req) (a >>> CACHE_OFFSET_BITS)
        sys.caches[c].id).bus.shared_line
      (sys.sendMessage (missRequest req) (a >>> CACHE_OFFSET_BITS)
        sys.caches[c].id).bus.supplied (tagOf_lt a ha)
    have hT : ((sys.sendMessage (missRequest req) (a >>> CACHE_OFFSET_BITS)
        sys.caches[c].id).onCache c (fun x => (x.countRequest req).install
          (a >>> CACHE_OFFSET_BITS) sys.caches[c].protocol req
          (sys.sendMessage (missRequest req) (a >>> CACHE_OFFSET_BITS)
            sys.caches[c].id).bus.shared_line
          (sys.sendMessage (missRequest req) (a >>> CACHE_OFFSET_BITS)
            sys.caches[c].id).bus.supplied)).caches[c]?
        = some ((sys.caches[c].countRequest req).install (a >>> CACHE_OFFSET_BITS)
            sys.caches[c].protocol req
            (sys.sendMessage (missRequest req) (a >>> CACHE_OFFSET_BITS)
              sys.caches[c].id).bus.shared_line
            (sys.sendMessage (missRequest req) (a >>> CACHE_OFFSET_BITS)
              sys.caches[c].id).bus.supplied) := by
      rw [System.onCache_getElem?_self, sendMessage_sender sys _ _ c _ hself]; rfl
    obtain ⟨y, hy, hys⟩ := System.victimStep_sender _ c sys.caches[c].protocol
      (sys.caches[c].victim (a >>> CACHE_OFFSET_BITS)) (setIndex (a >>> CACHE_OFFSET_BITS))
      _ hT
    simp only [Cache.install_id, Cache.countRequest_id] at hy
    refine hfin (y.countMiss req) blk ?_ ?_ hhit
    · rw [hview, System.onCache_getElem?_self, hy]; rfl
    · rw [Cache.mruBlock_congr (x := y) (by simp), Cache.mruBlock_congr hys, hsp]
      exact hblk
  · obtain ⟨up, upgr, hact⟩ := hitAction_of_valid sys.caches[c].protocol req _
      (by rw [hsp]; exact cacheWF_admits hswf _) hmiss
    have hview := handleProcRequest_hit_view sys c a req _ up upgr hself hact
    obtain ⟨blk, hblk, hhit⟩ := Cache.mruBlock_hitLocal hswf (a >>> CACHE_OFFSET_BITS) req
      (hsp ▸ hact)
    refine hfin _ blk ?_ hblk hhit
    rw [hview, System.onCache_getElem?_self]
    cases upgr
    · simp only [Bool.false_eq_true, if_false]
      rw [hself]; rfl
    · simp only [if_true]
      rw [sendMessage_sender sys _ _ c _ hself]; rfl

/-! ## Locality of a snoop reaction -/

theorem setIndex_eq_mod (b : Nat) : setIndex b = b % 4 := by
  unfold setIndex SET_BITS
  have := Nat.and_pow_two_sub_one_eq_mod b 2
  simpa using this

/-- A snoop reaction, for any request, either leaves the sets of the cache or
applies one `setState` on the snooped block; it keeps id and protocol. -/
theorem Cache.handleBusRequest_sets (c : Cache) (bus : Bus) (req : BusRequest) (b : Nat) :
    (c.handleBusRequest bus req b).1.id = c.id
    ∧ (c.handleBusRequest bus req b).1.protocol = c.protocol
    ∧ ((c.handleBusRequest bus req b).1.sets = c.sets
        ∨ ∃ st, (c.handleBusRequest bus req b).1.sets = (c.setState b st).sets) := by
  cases req <;> cases hp : c.protocol <;> cases hs : c.getState b <;>
    simp only [Cache.handleBusRequest, hp, hs, reduceCtorEq, if_true, if_false] <;>
    (try split) <;>
    (first
      | exact ⟨trivial, trivial, Or.inl trivial⟩
      | exact ⟨rfl, hp, Or.inl rfl⟩
      | exact ⟨rfl, rfl, Or.inl rfl⟩
      | exact ⟨by simp, by simp [hp], Or.inr ⟨_, rfl⟩⟩)

theorem Cache.setState_sets_other (c : Cache) (b : Nat) (st : CacheBlockState) (k : Nat)
    (hk : k ≠ setIndex b) : (c.setState b st).sets[k]? = c.sets[k]? := by
  rw [Cache.setState_sets]
  cases c.sets[setIndex b]? with
  | none => rfl
  | some s => exact List.getElem?_set_ne (Ne.symm hk)

theorem System.snoopAt_getElem?_ne (sys : System) (i j : Nat) (req : BusRequest) (b : Nat)
    (h : j ≠ i) : (sys.snoopAt i req b).caches[j]? = sys.caches[j]? := by
  unfold System.snoopAt
  split
  · exact List.getElem?_set_ne (Ne.symm h)
  · rfl

theorem System.snoopAt_getElem?_self (sys : System) (i : Nat) (req : BusRequest) (b : Nat)
    (x : Cache) (hx : sys.caches[i]? = some x) :
    (sys.snoopAt i req b).caches[i]? = some (x.handleBusRequest sys.bus req b).1 := by
  unfold System.snoopAt
  simp only [hx]
  exact List.getElem?_set_self (List.getElem?_eq_some.mp hx).1

theorem System.snoopAt_bus (sys : System) (i : Nat) (req : BusRequest) (b : Nat) :
    (sys.snoopAt i req b).bus.num_busrd = sys.bus.num_busrd
    ∧ (sys.snoopAt i req b).bus.num_busrdx = sys.bus.num_busrdx
    ∧ (sys.snoopAt i req b).bus.num_busupgr = sys.bus.num_busupgr
    ∧ (sys.snoopAt i req b).bus.num_setF = sys.bus.num_setF := by
  unfold System.snoopAt
  split
  · next x _ =>
    obtain ⟨h1, h2, h3, h4, -⟩ := Cache.handleBusRequest_bus x sys.bus req b
    exact ⟨h1, h2, h3, h4⟩
  · exact ⟨rfl, rfl, rfl, rfl⟩

/-! ## Sums of counters -/

theorem sum_map_set (f : Cache → Nat) :
    ∀ (l : List Cache) (c : Nat) (x y : Cache), l[c]? = some x →
      ((l.set c y).map f).sum + f x = (l.map f).sum + f y := by
  intro l
  induction l with
  | nil => intro c x y h; simp at h
  | cons z rest ih =>
    intro c x y h
    cases c with
    | zero =>
      simp only [List.getElem?_cons_zero, Option.some.injEq] at h
      subst h
      simp only [List.set_cons_zero, List.map_cons, List.sum_cons]
      omega
    | succ k =>
      simp only [List.getElem?_cons_succ] at h
      have := ih k x y h
      simp only [List.set_cons_succ, List.map_cons, List.sum_cons]
      omega

/-- The total of a counter after a change of one cache. -/
theorem System.total_onCache (sys : System) (c : Nat) (g : Cache → Cache) (f : Cache → Nat)
    (x : Cache) (hx : sys.caches[c]? = some x) :
    (sys.onCache c g).total f + f x = sys.total f + f (g x) := by
  rw [System.onCache_eq sys c g x hx]
  exact sum_map_set f sys.caches c x (g x) hx

theorem System.total_onCache_keep (sys : System) (c : Nat) (g : Cache → Cache)
    (f : Cache → Nat) (hf : ∀ x, f (g x) = f x) : (sys.onCache c g).total f = sys.total f := by
  cases hx : sys.caches[c]? with
  | none =>
    have : sys.onCache c g = sys := by
      unfold System.onCache; simp only [hx]
    rw [this]
  | some x =>
    have := System.total_onCache sys c g f x hx
    rw [hf x] at this
    omega

theorem snoopLoop_map_keep (f : Cache → Nat) (req : BusRequest) (b s : Nat)
    (hf : ∀ (x : Cache) (bus : Bus), f (x.handleBusRequest bus req b).1 = f x) :
    ∀ (l : List Cache) (bus : Bus), (snoopLoop req b s l bus).1.map f = l.map f := by
  intro l
  induction l with
  | nil => intro bus; rfl
  | cons x rest ih =>
    intro bus
    unfold snoopLoop
    split
    · simp only [List.map_cons, ih, hf]
    · simp only [List.map_cons, ih]

/-- A broadcast keeps the total of a counter that no reaction changes. -/
theorem System.total_sendMessage_keep (sys : System) (req : BusRequest) (b s : Nat)
    (f : Cache → Nat)
    (hf : ∀ (x : Cache) (bus : Bus), f (x.handleBusRequest bus req b).1 = f x) :
    (sys.sendMessage req b s).total f = sys.total f := by
  unfold System.sendMessage System.total
  dsimp only
  split
  · rfl
  · rw [snoopLoop_map_keep f req b s hf]

/-- What a snoop reaction does to the four counters of supply conservation:
it never touches the miss counters and `num_fromLLC`, and it touches
`num_provided` on a BusRd or BusRdX only. -/
theorem Cache.handleBusRequest_supply (c : Cache) (bus : Bus) (req : BusRequest) (b : Nat) :
    (c.handleBusRequest bus req b).1.num_fromLLC = c.num_fromLLC
    ∧ (c.handleBusRequest bus req b).1.num_read_misses = c.num_read_misses
    ∧ (c.handleBusRequest bus req b).1.num_write_misses = c.num_write_misses
    ∧ (req ≠ BusRequest.BusRd → req ≠ BusRequest.BusRdX →
        (c.handleBusRequest bus req b).1.num_provided = c.num_provided) := by
  cases req <;> cases hp : c.protocol <;> cases hs : c.getState b <;>
    simp only [Cache.handleBusRequest, hp, hs, reduceCtorEq, if_true, if_false] <;>
    cases hsup : bus.supplied <;>
    simp [Bus.getSupplied, Bus.setSupplied, Bus.setSharedLine, Bus.sendFlush,
      Bus.countRequest, hsup]

/-- The reaction to a BusRd or BusRdX, on the supply side: the cache counts
one provided block if it supplies always, or if it supplies first and the
supplied line is low; the supplied line is raised by every supplier. -/
theorem Cache.handleBusRequest_provided (c : Cache) (bus : Bus) (req : BusRequest) (b : Nat)
    (hreq : req = BusRequest.BusRd ∨ req = BusRequest.BusRdX) :
    (c.handleBusRequest bus req b).1.num_provided
        = c.num_provided
          + (if suppliesAlways c.protocol (c.getState b) = true
                ∨ (suppliesFirst c.protocol (c.getState b) = true ∧ bus.supplied = false)
             then 1 else 0)
    ∧ (c.handleBusRequest bus req b).2.supplied
        = (bus.supplied || suppliesAlways c.protocol (c.getState b)
            || suppliesFirst c.protocol (c.getState b)) := by
  rcases hreq with h | h <;> subst h <;>
    cases hp : c.protocol <;> cases hs : c.getState b <;>
    simp only [Cache.handleBusRequest, hp, hs, reduceCtorEq, if_true, if_false] <;>
    cases hsup : bus.supplied <;>
    simp [Bus.getSupplied, Bus.setSupplied, Bus.setSharedLine, Bus.sendFlush,
      Bus.countRequest, hsup, suppliesAlways, suppliesFirst]

/-- Suppliers exclude each other: in a coherent block address, a cache that
supplies always is the only supplier. -/
theorem supplier_unique (p : Protocol) (f : Nat → CacheBlockState) (hf : BlockCoherent p f)
    (i j : Nat) (hij : i ≠ j) (hA : suppliesAlways p (f i) = true) :
    suppliesAlways p (f j) = false ∧ suppliesFirst p (f j) = false := by
  obtain ⟨h1, h2, -⟩ := hf
  have hcase : (f i = CacheBlockState.Modified ∨ f i = CacheBlockState.Exclusive)
      ∨ ((f i = CacheBlockState.Owned ∨ f i = CacheBlockState.Forward)
          ∧ p ≠ Protocol.MSI ∧ p ≠ Protocol.MESI) := by
    cases p <;> cases hfi : f i <;> simp [suppliesAlways, hfi] at hA ⊢
  rcases hcase with hME | ⟨hOF, hp1, hp2⟩
  · rw [h1 i j hij hME]
    cases p <;> simp [suppliesAlways, suppliesFirst]
  · have hj1 : f j ≠ CacheBlockState.Modified ∧ f j ≠ CacheBlockState.Exclusive := by
      constructor
      · intro hj
        have := h1 j i (Ne.symm hij) (Or.inl hj)
        rcases hOF with h | h <;> rw [this] at h <;> simp at h
      · intro hj
        have := h1 j i (Ne.symm hij) (Or.inr hj)
        rcases hOF with h | h <;> rw [this] at h <;> simp at h
    have hj2 : f j ≠ CacheBlockState.Owned ∧ f j ≠ CacheBlockState.Forward :=
      ⟨fun hj => hij (h2 i j hOF (Or.inl hj)), fun hj => hij (h2 i j hOF (Or.inr hj))⟩
    cases p <;> cases hfj : f j <;>
      simp [suppliesAlways, suppliesFirst, hfj] at hp1 hp2 hj1 hj2 ⊢

/-! ## Exactly one supplier, or the memory -/

/-- The snoop loop of a BusRd or BusRdX over caches whose suppliers exclude
each other: the provided blocks grow by one exactly when the supplied line
goes from low to high. -/
theorem snoopLoop_provided (req : BusRequest) (b s : Nat)
    (hreq : req = BusRequest.BusRd ∨ req = BusRequest.BusRdX) :
    ∀ (l : List Cache) (bus : Bus),
      l.Pairwise (fun x y => x.id ≠ s → y.id ≠ s →
        (suppliesAlways x.protocol (x.getState b) = true →
          suppliesAlways y.protocol (y.getState b) = false
            ∧ suppliesFirst y.protocol (y.getState b) = false)
        ∧ (suppliesAlways y.protocol (y.getState b) = true →
          suppliesAlways x.protocol (x.getState b) = false
            ∧ suppliesFirst x.protocol (x.getState b) = false)) →
      (bus.supplied = true → ∀ x ∈ l, x.id ≠ s →
        suppliesAlways x.protocol (x.getState b) = false) →
      ((snoopLoop req b s l bus).1.map Cache.num_provided).sum
          + (if bus.supplied = true then 1 else 0)
        = (l.map Cache.num_provided).sum
          + (if (snoopLoop req b s l bus).2.supplied = true then 1 else 0) := by
  intro l
  induction l with
  | nil => intro bus _ _; simp [snoopLoop]
  | cons x rest ih =>
    intro bus hpair hsup
    rw [List.pairwise_cons] at hpair
    obtain ⟨hx, hrest⟩ := hpair
    unfold snoopLoop
    by_cases hid : x.id = s
    · simp only [hid, ne_eq, not_true_eq_false, if_false, List.map_cons, List.sum_cons]
      have := ih bus hrest (fun hb y hy => hsup hb y (List.mem_cons_of_mem _ hy))
      omega
    · simp only [ne_eq, hid, not_false_eq_true, if_true, List.map_cons, List.sum_cons]
      obtain ⟨hprov, hline⟩ := Cache.handleBusRequest_provided x bus req b hreq
      have hsup' : (x.handleBusRequest bus req b).2.supplied = true → ∀ y ∈ rest, y.id ≠ s →
          suppliesAlways y.protocol (y.getState b) = false := by
        intro hb y hy hys
        by_contra hcon
        simp only [Bool.not_eq_false] at hcon
        have hxy := ((hx y hy) hid hys).2 hcon
        rw [hline, hxy.1, hxy.2] at hb
        simp only [Bool.or_false] at hb
        have := hsup hb y (List.mem_cons_of_mem _ hy) hys
        rw [hcon] at this
        exact absurd this (by simp)
      have hih := ih (x.handleBusRequest bus req b).2 hrest hsup'
      rw [hprov]
      have hstep : (if suppliesAlways x.protocol (x.getState b) = true
            ∨ (suppliesFirst x.protocol (x.getState b) = true ∧ bus.supplied = false)
           then 1 else 0) + (if bus.supplied = true then 1 else 0)
          = (if (x.handleBusRequest bus req b).2.supplied = true then 1 else 0) := by
        rw [hline]
        cases hb : bus.supplied with
        | true =>
          have hA := hsup hb x (List.mem_cons_self _ _) hid
          simp [hA]
        | false =>
          cases hA : suppliesAlways x.protocol (x.getState b) <;>
            cases hC : suppliesFirst x.protocol (x.getState b) <;> simp
      omega

/-- The suppliers of a coherent system exclude each other. -/
theorem coherent_suppliers {p : Protocol} {sys : System} (h : Coherent p sys) (b s : Nat) :
    sys.caches.Pairwise (fun x y => x.id ≠ s → y.id ≠ s →
      (suppliesAlways x.protocol (x.getState b) = true →
        suppliesAlways y.protocol (y.getState b) = false
          ∧ suppliesFirst y.protocol (y.getState b) = false)
      ∧ (suppliesAlways y.protocol (y.getState b) = true →
        suppliesAlways x.protocol (x.getState b) = false
          ∧ suppliesFirst x.protocol (x.getState b) = false)) := by
  obtain ⟨-, hwf, hco⟩ := h
  rw [List.pairwise_iff_getElem]
  intro i j hi hj hij _ _
  have hxi : sys.caches[i]? = some sys.caches[i] := List.getElem?_eq_getElem hi
  have hxj : sys.caches[j]? = some sys.caches[j] := List.getElem?_eq_getElem hj
  have hsi : sys.stateOf i b = sys.caches[i].getState b := by
    rw [System.stateOf_eq, hxi]; rfl
  have hsj : sys.stateOf j b = sys.caches[j].getState b := by
    rw [System.stateOf_eq, hxj]; rfl
  rw [(hwf _ (List.getElem_mem hi)).1, (hwf _ (List.getElem_mem hj)).1, ← hsi, ← hsj]
  exact ⟨fun hA => supplier_unique p _ (hco b) i j (Nat.ne_of_lt hij) hA,
    fun hA => supplier_unique p _ (hco b) j i (Nat.ne_of_gt hij) hA⟩

/-- The broadcast of a BusRd or BusRdX in a coherent system: one more block
is provided exactly when the supplied line ends high. -/
theorem System.total_provided_sendMessage {p : Protocol} {sys : System} (h : Coherent p sys)
    (req : BusRequest) (b s : Nat)
    (hreq : req = BusRequest.BusRd ∨ req = BusRequest.BusRdX) :
    (sys.sendMessage req b s).total Cache.num_provided
      = sys.total Cache.num_provided
        + (if (sys.sendMessage req b s).bus.supplied = true then 1 else 0) := by
  have h1 : req ≠ BusRequest.Flush := by rcases hreq with h | h <;> rw [h] <;> simp
  have h2 : req ≠ BusRequest.Flush_prime := by rcases hreq with h | h <;> rw [h] <;> simp
  rw [sendMessage_eq sys req b s h1 h2]
  have := snoopLoop_provided req b s hreq sys.caches
    { sys.bus.countRequest req with shared_line := false, supplied := false }
    (coherent_suppliers h b s) (fun hb => by simp at hb)
  simp only [Bool.false_eq_true, if_false, Nat.add_zero] at this
  exact this

/-! ## Supply conservation along a run -/

theorem Cache.hitLocal_supply (x : Cache) (b : Nat) (req : ProcRequest)
    (up : Option CacheBlockState) :
    ((x.countRequest req).hitLocal b up).num_provided = x.num_provided
    ∧ ((x.countRequest req).hitLocal b up).num_fromLLC = x.num_fromLLC
    ∧ ((x.countRequest req).hitLocal b up).num_read_misses = x.num_read_misses
    ∧ ((x.countRequest req).hitLocal b up).num_write_misses = x.num_write_misses := by
  cases req <;> cases up <;> simp [Cache.hitLocal, Cache.countRequest]

theorem Cache.install_supply (x : Cache) (b : Nat) (p : Protocol) (req : ProcRequest)
    (sh sup : Bool) :
    ((x.countRequest req).install b p req sh sup).num_provided = x.num_provided
    ∧ ((x.countRequest req).install b p req sh sup).num_fromLLC
        = x.num_fromLLC + (if sup = false then 1 else 0)
    ∧ ((x.countRequest req).install b p req sh sup).num_read_misses = x.num_read_misses
    ∧ ((x.countRequest req).install b p req sh sup).num_write_misses = x.num_write_misses := by
  cases req <;> cases p <;> cases sh <;> cases sup <;>
    simp [Cache.install, Cache.countRequest]

/-- The accounting of the victim keeps the total of a counter that neither
a reaction to a request other than BusRd and BusRdX nor `num_writebacks++`
changes. -/
theorem System.total_victimStep_keep (T : System) (c id : Nat) (p : Protocol) (ev : CacheBlock)
    (set : Nat) (f : Cache → Nat)
    (hf : ∀ (x : Cache) (bus : Bus) (req : BusRequest) (v : Nat),
      req ≠ BusRequest.BusRd → req ≠ BusRequest.BusRdX →
      f (x.handleBusRequest bus req v).1 = f x)
    (hwb : ∀ x : Cache, f { x with num_writebacks := x.num_writebacks + 1 } = f x) :
    (T.victimStep c id p ev set).total f = T.total f := by
  have h1 : ∀ S : System,
      (S.onCache c (fun x => { x with num_writebacks := x.num_writebacks + 1 })).total f
        = S.total f :=
    fun S => System.total_onCache_keep S c _ f hwb
  have h2 : ∀ (S : System) (v : Nat),
      (S.sendMessage BusRequest.setF v id).total f = S.total f :=
    fun S v => System.total_sendMessage_keep S _ v id f
      (fun x bus => hf x bus _ v (by simp) (by simp))
  have h3 : ∀ (S : System) (v : Nat),
      (S.sendMessage BusRequest.Flush v id).total f = S.total f :=
    fun S v => System.total_sendMessage_keep S _ v id f
      (fun x bus => hf x bus _ v (by simp) (by simp))
  by_cases hp : p = Protocol.FESI
  · subst hp
    simp only [System.victimStep]
    split
    · split
      · rw [h1, h3, h2]
      · rw [h2]
    · rfl
  · rw [System.victimStep_of_not_FESI T c id p ev set hp]
    split
    · rw [h1, h3]
    · rfl

theorem System.total_countMiss (V : System) (c : Nat) (req : ProcRequest) (y : Cache)
    (hy : V.caches[c]? = some y) :
    (V.onCache c (fun x => x.countMiss req)).total Cache.num_provided
        = V.total Cache.num_provided
    ∧ (V.onCache c (fun x => x.countMiss req)).total Cache.num_fromLLC
        = V.total Cache.num_fromLLC
    ∧ (V.onCache c (fun x => x.countMiss req)).total Cache.num_read_misses
        + (V.onCache c (fun x => x.countMiss req)).total Cache.num_write_misses
        = V.total Cache.num_read_misses + V.total Cache.num_write_misses + 1 := by
  have hR := System.total_onCache V c (fun x => x.countMiss req) Cache.num_read_misses y hy
  have hW := System.total_onCache V c (fun x => x.countMiss req) Cache.num_write_misses y hy
  refine ⟨System.total_onCache_keep V c _ _ (fun x => by cases req <;> rfl),
    System.total_onCache_keep V c _ _ (fun x => by cases req <;> rfl), ?_⟩
  cases req
  · have e1 : (y.countMiss ProcRequest.ProcRd).num_read_misses = y.num_read_misses + 1 := rfl
    have e2 : (y.countMiss ProcRequest.ProcRd).num_write_misses = y.num_write_misses := rfl
    rw [e1] at hR
    rw [e2] at hW
    omega
  · have e1 : (y.countMiss ProcRequest.ProcWr).num_read_misses = y.num_read_misses := rfl
    have e2 : (y.countMiss ProcRequest.ProcWr).num_write_misses = y.num_write_misses + 1 := rfl
    rw [e1] at hR
    rw [e2] at hW
    omega

/-- A request on an address in range, in a coherent system, keeps supply
conservation. -/
theorem supplyBalanced_handleProcRequest {p : Protocol} {sys : System} (h : Coherent p sys)
    (hbal : SupplyBalanced sys) (c a : Nat) (req : ProcRequest) :
    SupplyBalanced (sys.handleProcRequest c req a) := by
  cases hself : sys.caches[c]? with
  | none => rw [handleProcRequest_none sys c a req hself]; exact hbal
  | some self =>
    have hswf : CacheWF p self := h.2.1 self (List.getElem?_mem hself)
    have hsnoop := fun (x : Cache) (bus : Bus) (r : BusRequest) (v : Nat) =>
      Cache.handleBusRequest_supply x bus r v
    unfold SupplyBalanced at hbal ⊢
    by_cases hmiss : self.getState (a >>> CACHE_OFFSET_BITS) = CacheBlockState.Invalid
    · rw [handleProcRequest_miss_view sys c a req self hself hmiss]
      have hreq : missRequest req = BusRequest.BusRd ∨ missRequest req = BusRequest.BusRdX := by
        cases req
        · exact Or.inl rfl
        · exact Or.inr rfl
      have hB : (sys.sendMessage (missRequest req) (a >>> CACHE_OFFSET_BITS)
          self.id).caches[c]? = some self := sendMessage_sender sys _ _ c self hself
      have hBP := System.total_provided_sendMessage h (missRequest req)
        (a >>> CACHE_OFFSET_BITS) self.id hreq
      have hBk : ∀ f : Cache → Nat,
          (∀ (x : Cache) (bus : Bus), f (x.handleBusRequest bus (missRequest req)
            (a >>> CACHE_OFFSET_BITS)).1 = f x) →
          (sys.sendMessage (missRequest req) (a >>> CACHE_OFFSET_BITS) self.id).total f
            = sys.total f :=
        fun f hf => System.total_sendMessage_keep sys _ _ _ f hf
      have hBL := hBk Cache.num_fromLLC (fun x bus => (hsnoop x bus _ _).1)
      have hBR := hBk Cache.num_read_misses (fun x bus => (hsnoop x bus _ _).2.1)
      have hBW := hBk Cache.num_write_misses (fun x bus => (hsnoop x bus _ _).2.2.1)
      clear hBk
      generalize sys.sendMessage (missRequest req) (a >>> CACHE_OFFSET_BITS) self.id = B
        at hB hBP hBL hBR hBW ⊢
      generalize B.bus.shared_line = sh
      generalize B.bus.supplied = sup at hBP ⊢
      obtain ⟨i1, i2, i3, i4⟩ := Cache.install_supply self (a >>> CACHE_OFFSET_BITS)
        self.protocol req sh sup
      have hT := fun f : Cache → Nat => System.total_onCache B c
        (fun x => (x.countRequest req).install (a >>> CACHE_OFFSET_BITS) self.protocol req
          sh sup) f self hB
      have hTP := hT Cache.num_provided
      have hTL := hT Cache.num_fromLLC
      have hTR := hT Cache.num_read_misses
      have hTW := hT Cache.num_write_misses
      simp only [i1, i2, i3, i4] at hTP hTL hTR hTW
      clear hT
      have hTc : (B.onCache c (fun x => (x.countRequest req).install
            (a >>> CACHE_OFFSET_BITS) self.protocol req sh sup)).caches[c]?
          = some ((self.countRequest req).install (a >>> CACHE_OFFSET_BITS)
              self.protocol req sh sup) := by
        rw [System.onCache_getElem?_self, hB]; rfl
      generalize B.onCache c (fun x => (x.countRequest req).install
        (a >>> CACHE_OFFSET_BITS) self.protocol req sh sup) = T at hTP hTL hTR hTW hTc ⊢
      obtain ⟨y, hy, -⟩ := System.victimStep_sender T c self.protocol
        (self.victim (a >>> CACHE_OFFSET_BITS)) (setIndex (a >>> CACHE_OFFSET_BITS)) _ hTc
      simp only [Cache.install_id, Cache.countRequest_id] at hy
      have hV := fun (f : Cache → Nat) hf hwb => System.total_victimStep_keep T
        c self.id self.protocol (self.victim (a >>> CACHE_OFFSET_BITS))
        (setIndex (a >>> CACHE_OFFSET_BITS)) f hf hwb
      have hVP := hV Cache.num_provided
        (fun x bus r v h1 h2 => (hsnoop x bus r v).2.2.2 h1 h2) (fun _ => rfl)
      have hVL := hV Cache.num_fromLLC
        (fun x bus r v _ _ => (hsnoop x bus r v).1) (fun _ => rfl)
      have hVR := hV Cache.num_read_misses
        (fun x bus r v _ _ => (hsnoop x bus r v).2.1) (fun _ => rfl)
      have hVW := hV Cache.num_write_misses
        (fun x bus r v _ _ => (hsnoop x bus r v).2.2.1) (fun _ => rfl)
      clear hV
      generalize T.victimStep c self.id self.protocol (self.victim (a >>> CACHE_OFFSET_BITS))
        (setIndex (a >>> CACHE_OFFSET_BITS)) = V at hy hVP hVL hVR hVW ⊢
      obtain ⟨hP, hL, hM⟩ := System.total_countMiss V c req y hy
      rw [hP, hL, hM]
      cases sup <;> simp at hBP hTL <;> omega
    · obtain ⟨up, upgr, hact⟩ := hitAction_of_valid self.protocol req _
        (by rw [hswf.1]; exact cacheWF_admits hswf _) hmiss
      rw [handleProcRequest_hit_view sys c a req self up upgr hself hact]
      obtain ⟨g1, g2, g3, g4⟩ : (∀ x : Cache,
            ((x.countRequest req).hitLocal (a >>> CACHE_OFFSET_BITS) up).num_provided
              = x.num_provided)
          ∧ (∀ x : Cache,
            ((x.countRequest req).hitLocal (a >>> CACHE_OFFSET_BITS) up).num_fromLLC
              = x.num_fromLLC)
          ∧ (∀ x : Cache,
            ((x.countRequest req).hitLocal (a >>> CACHE_OFFSET_BITS) up).num_read_misses
              = x.num_read_misses)
          ∧ (∀ x : Cache,
            ((x.countRequest req).hitLocal (a >>> CACHE_OFFSET_BITS) up).num_write_misses
              = x.num_write_misses) :=
        ⟨fun x => (Cache.hitLocal_supply x _ req up).1,
          fun x => (Cache.hitLocal_supply x _ req up).2.1,
          fun x => (Cache.hitLocal_supply x _ req up).2.2.1,
          fun x => (Cache.hitLocal_supply x _ req up).2.2.2⟩
      rw [System.total_onCache_keep _ c _ Cache.num_provided g1,
        System.total_onCache_keep _ c _ Cache.num_fromLLC g2,
        System.total_onCache_keep _ c _ Cache.num_read_misses g3,
        System.total_onCache_keep _ c _ Cache.num_write_misses g4]
      cases upgr
      · simpa using hbal
      · simp only [if_true]
        rw [System.total_sendMessage_keep sys _ _ _ Cache.num_provided
            (fun x bus => (hsnoop x bus _ _).2.2.2 (by simp) (by simp)),
          System.total_sendMessage_keep sys _ _ _ Cache.num_fromLLC
            (fun x bus => (hsnoop x bus _ _).1),
          System.total_sendMessage_keep sys _ _ _ Cache.num_read_misses
            (fun x bus => (hsnoop x bus _ _).2.1),
          System.total_sendMessage_keep sys _ _ _ Cache.num_write_misses
            (fun x bus => (hsnoop x bus _ _).2.2.1)]
        exact hbal

theorem supplyBalanced_initialSystem (p : Protocol) : SupplyBalanced (initialSystem p) := by
  unfold SupplyBalanced System.total
  cases p <;> decide

theorem supplyBalanced_simulate {p : Protocol} (trace : List Reference)
    (hr : ∀ r ∈ trace, r.address < 2 ^ 39) :
    ∀ sys : System, Coherent p sys → SupplyBalanced sys →
      SupplyBalanced (simulate sys trace) := by
  induction trace with
  | nil => intro sys _ h; exact h
  | cons r rest ih =>
    intro sys hco h
    have hr0 : r.address < 2 ^ 39 := hr r (List.mem_cons_self _ _)
    have hrest : ∀ r' ∈ rest, r'.address < 2 ^ 39 :=
      fun r' hr' => hr r' (List.mem_cons_of_mem _ hr')
    unfold simulate
    split
    · exact h
    · split
      · exact h
      · split
        · exact ih hrest _ (coherent_handleProcRequest hco _ _ _ hr0)
            (supplyBalanced_handleProcRequest hco h _ _ _)
        · split
          · exact ih hrest _ (coherent_handleProcRequest hco _ _ _ hr0)
              (supplyBalanced_handleProcRequest hco h _ _ _)
          · exact ih hrest _ hco h

/-! ## The claims -/

/-- C1 (single-writer), evaluated on the code: under MSI, after core 0 and
core 1 each write address `0x10000000500`, both caches report block address
`0x14` as Modified, so single-writer does not hold after this trace.  The tag
`2 ^ 32 + 5` of the written block is cut to `5` by the `int` parameter of the
block constructor; the second writer's BusRdX therefore finds no copy to
invalidate. -/
theorem single_writer_fails_on_wide_tag :
    (run Protocol.MSI [⟨0, 'w', wideAddress⟩, ⟨1, 'w', wideAddress⟩]).stateOf 0 0x14
        = CacheBlockState.Modified
    ∧ (run Protocol.MSI [⟨0, 'w', wideAddress⟩, ⟨1, 'w', wideAddress⟩]).stateOf 1 0x14
        = CacheBlockState.Modified
    ∧ ¬ SingleWriter (run Protocol.MSI [⟨0, 'w', wideAddress⟩, ⟨1, 'w', wideAddress⟩]) := by
  refine ⟨by decide, by decide, fun h => ?_⟩
  exact absurd (h 0x14 0 1 (by decide) (by decide)) (by decide)

/-- C2 (supplier uniqueness), evaluated on the code: under MESI, after core 0
and core 1 each write address `0x10000000500`, the read of address `0x500` by
core 2 issues one BusRd (and no other snooped request), and both cache 0 and
cache 1 increment `num_provided` during it. -/
theorem two_suppliers_on_one_BusRd :
    providers (run Protocol.MESI [⟨0, 'w', wideAddress⟩, ⟨1, 'w', wideAddress⟩])
        ((run Protocol.MESI [⟨0, 'w', wideAddress⟩, ⟨1, 'w', wideAddress⟩]).sendMessage
          BusRequest.BusRd 0x14 2) = [0, 1]
    ∧ providers (run Protocol.MESI [⟨0, 'w', wideAddress⟩, ⟨1, 'w', wideAddress⟩])
        (run Protocol.MESI
          [⟨0, 'w', wideAddress⟩, ⟨1, 'w', wideAddress⟩, ⟨2, 'r', narrowAddress⟩]) = [0, 1]
    ∧ (run Protocol.MESI [⟨0, 'w', wideAddress⟩, ⟨1, 'w', wideAddress⟩]).bus
        = { Bus.new with num_busrdx := 2 }
    ∧ (run Protocol.MESI
          [⟨0, 'w', wideAddress⟩, ⟨1, 'w', wideAddress⟩, ⟨2, 'r', narrowAddress⟩]).bus
        = { Bus.new with num_busrdx := 2, num_busrd := 1, num_flushes := 2,
                         shared_line := true, supplied := true } := by
  decide

/-- C3 (MESIF forward-uniqueness), evaluated on the code: under MESIF, after
core 0 and core 1 each read address `0x10000000500`, both caches hold block
address `0x14` in Forward. -/
theorem two_forward_holders_on_wide_tag :
    (run Protocol.MESIF [⟨0, 'r', wideAddress⟩, ⟨1, 'r', wideAddress⟩]).stateOf 0 0x14
        = CacheBlockState.Forward
    ∧ (run Protocol.MESIF [⟨0, 'r', wideAddress⟩, ⟨1, 'r', wideAddress⟩]).stateOf 1 0x14
        = CacheBlockState.Forward
    ∧ ¬ AtMostOneHolder (run Protocol.MESIF [⟨0, 'r', wideAddress⟩, ⟨1, 'r', wideAddress⟩])
        CacheBlockState.Forward := by
  refine ⟨by decide, by decide, fun h => ?_⟩
  exact absurd (h 0x14 0 1 (by decide) (by decide)) (by decide)

/-- C4 (MOESI owner-uniqueness), evaluated on the code: under MOESI, after
core 0 and core 1 each write address `0x10000000500` and core 2 reads address
`0x500`, both cache 0 and cache 1 hold block address `0x14` in Owned. -/
theorem two_owners_on_wide_tag :
    (run Protocol.MOESI
        [⟨0, 'w', wideAddress⟩, ⟨1, 'w', wideAddress⟩, ⟨2, 'r', narrowAddress⟩]).stateOf 0 0x14
        = CacheBlockState.Owned
    ∧ (run Protocol.MOESI
        [⟨0, 'w', wideAddress⟩, ⟨1, 'w', wideAddress⟩, ⟨2, 'r', narrowAddress⟩]).stateOf 1 0x14
        = CacheBlockState.Owned
    ∧ ¬ AtMostOneHolder (run Protocol.MOESI
        [⟨0, 'w', wideAddress⟩, ⟨1, 'w', wideAddress⟩, ⟨2, 'r', narrowAddress⟩])
        CacheBlockState.Owned := by
  refine ⟨by decide, by decide, fun h => ?_⟩
  exact absurd (h 0x14 0 1 (by decide) (by decide)) (by decide)

/-- C5 (tag distinctness), evaluated on the code: under MSI, after core 0
reads address `0x10000000500` twice, set 0 of cache 0 holds two Shared blocks
with tag `5`: the second read misses again because the stored tag `5` is not
the tag `2 ^ 32 + 5` that `getState` looks for. -/
theorem duplicate_tag_on_wide_tag :
    ((run Protocol.MSI [⟨0, 'r', wideAddress⟩, ⟨0, 'r', wideAddress⟩]).caches[0]?.bind
        (fun c => c.sets[0]?))
      = some ⟨[⟨0, CacheBlockState.Invalid⟩, ⟨0, CacheBlockState.Invalid⟩,
               ⟨5, CacheBlockState.Shared⟩, ⟨5, CacheBlockState.Shared⟩]⟩
    ∧ ¬ (∀ c ∈ (run Protocol.MSI [⟨0, 'r', wideAddress⟩, ⟨0, 'r', wideAddress⟩]).caches,
          ∀ s ∈ c.sets, TagsDistinct s) := by
  unfold TagsDistinct
  decide

/-- C6 (address round-trip), evaluated on the code: `Cache::insertCacheBlock`
with block address `0x400000014` stores tag `5` in set `0`, and
`(5 << SET_BITS) | 0` is `0x14`, not `0x400000014`; the same block is what the
read of address `0x10000000500` leaves in the cache, and the address that
`handleProcRequest` would rebuild for it on eviction is `0x14`. -/
theorem round_trip_fails_on_wide_tag :
    ((Cache.new 0 Protocol.MSI).insertCacheBlock 0x400000014 CacheBlockState.Shared).2.sets[
        setIndex 0x400000014]?
      = some ⟨[⟨0, CacheBlockState.Invalid⟩, ⟨0, CacheBlockState.Invalid⟩,
               ⟨0, CacheBlockState.Invalid⟩, ⟨5, CacheBlockState.Shared⟩]⟩
    ∧ setIndex 0x400000014 = 0x400000014 % 4
    ∧ ¬ RoundTrips ⟨5, CacheBlockState.Shared⟩ (setIndex 0x400000014) 0x400000014
    ∧ wideAddress >>> CACHE_OFFSET_BITS = 0x400000014
    ∧ ((run Protocol.MSI [⟨0, 'r', wideAddress⟩]).caches[0]?.bind (fun c => c.sets[0]?))
      = some ⟨[⟨0, CacheBlockState.Invalid⟩, ⟨0, CacheBlockState.Invalid⟩,
               ⟨0, CacheBlockState.Invalid⟩, ⟨5, CacheBlockState.Shared⟩]⟩
    ∧ ((5 <<< SET_BITS) % 2 ^ 64 + setIndex 0x400000014) % 2 ^ 64 = 0x14 := by
  unfold RoundTrips
  decide

/-- C7 (writeback accounting), evaluated on the code: under MESI, after core
0 and core 1 read address `0x40` and core 2 writes it, the bus has counted
two Flush requests while no cache has counted a writeback: the Shared arm of
the MESI BusRdX reaction sends a Flush without incrementing
`num_writebacks`. -/
theorem flushes_exceed_writebacks_MESI :
    (run Protocol.MESI [⟨0, 'r', 0x40⟩, ⟨1, 'r', 0x40⟩, ⟨2, 'w', 0x40⟩]).bus.num_flushes = 2
    ∧ ((run Protocol.MESI [⟨0, 'r', 0x40⟩, ⟨1, 'r', 0x40⟩, ⟨2, 'w', 0x40⟩]).caches.map
        (fun c => c.num_writebacks)).sum = 0
    ∧ ¬ WritebacksMatchFlushes
        (run Protocol.MESI [⟨0, 'r', 0x40⟩, ⟨1, 'r', 0x40⟩, ⟨2, 'w', 0x40⟩]) := by
  unfold WritebacksMatchFlushes
  decide

/-- C8 (Invalid-at-LRU): for every protocol and every trace, after any number
of processed records, in every set of every cache no Invalid block stands
behind a non-Invalid block. -/
theorem invalid_blocks_at_LRU_end (p : Protocol) (trace : List Reference) (n : Nat) :
    ∀ c ∈ (run p (trace.take n)).caches, ∀ s ∈ c.sets, InvalidAtLRU s :=
  fun c hc => (run_ok (invalidAtLRU_closed p) (trace.take n) c hc).2

/-- Witness of C8 on the third scenario of the specification: the set that
holds the written block in cache 1 has its three Invalid blocks in front of
the Modified one. -/
theorem invalid_blocks_at_LRU_end_witness :
    writerCache ∈ (run Protocol.MESI (sharedThenWritten.take 3)).caches
    ∧ writtenSet ∈ writerCache.sets ∧ InvalidAtLRU writtenSet :=
  ⟨by decide, by decide,
    invalid_blocks_at_LRU_end Protocol.MESI sharedThenWritten 3 writerCache (by decide)
      writtenSet (by decide)⟩

/-- C9 (constant associativity): a new set has `ASSOCIATIVITY = 4` blocks;
`insertCacheBlock` (on a non-empty set), `setState` and `moveToMRU` keep the
length of the block list; and for every protocol and every trace, after any
number of processed records, every set of every cache has exactly 4 blocks. -/
theorem associativity_is_constant :
    (CacheSet.new.blocks.length = ASSOCIATIVITY ∧ ASSOCIATIVITY = 4)
    ∧ (∀ (s : CacheSet) (nb : CacheBlock), s.blocks ≠ [] →
        (s.insertCacheBlock nb).2.blocks.length = s.blocks.length)
    ∧ (∀ (s : CacheSet) (tag : Nat) (st : CacheBlockState),
        (s.setState tag st).blocks.length = s.blocks.length)
    ∧ (∀ (s : CacheSet) (tag : Nat), (s.moveToMRU tag).blocks.length = s.blocks.length)
    ∧ (∀ (p : Protocol) (trace : List Reference) (n : Nat),
        ∀ c ∈ (run p (trace.take n)).caches, ∀ s ∈ c.sets, s.blocks.length = 4) :=
  ⟨⟨by decide, by decide⟩, CacheSet.length_insertCacheBlock, CacheSet.length_setState,
    CacheSet.length_moveToMRU,
    fun p trace n c hc s hs => (run_ok (fullSet_closed p) (trace.take n) c hc).2 s hs⟩

/-- Witness of C9: inserting into the set that holds one Shared block of tag
`7` (a non-empty set) keeps its length, and the set that holds the written
block in cache 1 after the third scenario of the specification has 4 blocks. -/
theorem associativity_is_constant_witness :
    ((⟨[⟨7, CacheBlockState.Shared⟩]⟩ : CacheSet).blocks ≠ []
      ∧ ((⟨[⟨7, CacheBlockState.Shared⟩]⟩ : CacheSet).insertCacheBlock
            ⟨9, CacheBlockState.Modified⟩).2.blocks.length
          = (⟨[⟨7, CacheBlockState.Shared⟩]⟩ : CacheSet).blocks.length)
    ∧ (writerCache ∈ (run Protocol.MESI (sharedThenWritten.take 3)).caches
      ∧ writtenSet ∈ writerCache.sets ∧ writtenSet.blocks.length = 4) :=
  ⟨⟨by decide, associativity_is_constant.2.1 _ _ (by decide)⟩,
    by decide, by decide,
    associativity_is_constant.2.2.2.2 Protocol.MESI sharedThenWritten 3 writerCache (by decide)
      writtenSet (by decide)⟩

/-- C10 (admitted states): for every protocol and every trace, after any
number of processed records, the state of every block of every set of every
cache belongs to the state set of the protocol. -/
theorem block_states_are_admitted (p : Protocol) (trace : List Reference) (n : Nat) :
    ∀ c ∈ (run p (trace.take n)).caches, ∀ s ∈ c.sets, ∀ blk ∈ s.blocks,
      p.admits blk.state = true :=
  fun c hc => (run_ok (statesAdmitted_closed p) (trace.take n) c hc).2

/-- Witness of C10 on the third scenario of the specification: the Modified
block of cache 1 is in a state of MESI. -/
theorem block_states_are_admitted_witness :
    writerCache ∈ (run Protocol.MESI (sharedThenWritten.take 3)).caches
    ∧ writtenSet ∈ writerCache.sets
    ∧ (⟨0, CacheBlockState.Modified⟩ : CacheBlock) ∈ writtenSet.blocks
    ∧ Protocol.MESI.admits (⟨0, CacheBlockState.Modified⟩ : CacheBlock).state = true :=
  ⟨by decide, by decide, by decide,
    block_states_are_admitted Protocol.MESI sharedThenWritten 3 writerCache (by decide)
      writtenSet (by decide) ⟨0, CacheBlockState.Modified⟩ (by decide)⟩

/-! ## The bus and snoop claims -/

/-- C11 (Flush is bookkeeping only): for every system state, block address
and sender, `sendMessage` with `Flush` yields the same system with
`num_flushes` one higher, and with `Flush_prime` the same system with
`num_flush_primes` one higher; the caches, both response lines and every other
bus counter are the same. -/
theorem flush_is_bookkeeping_only (sys : System) (b sender : Nat) :
    sys.sendMessage BusRequest.Flush b sender
        = { caches := sys.caches,
            bus := { sys.bus with num_flushes := sys.bus.num_flushes + 1 } }
    ∧ sys.sendMessage BusRequest.Flush_prime b sender
        = { caches := sys.caches,
            bus := { sys.bus with num_flush_primes := sys.bus.num_flush_primes + 1 } } := by
  constructor <;> simp [System.sendMessage, Bus.countRequest]

/-- C12 (broadcast semantics): for a request among BusRd, BusRdX, BusUpgr and
setF, on a system whose caches sit in id order, `sendMessage` yields the
state described by the specification (count the request, clear both lines,
then let every cache whose id differs from the sender react, in ascending id
order); counting the request raises exactly its counter by one; the sender's
cache is left as it was; and after the broadcast the counter of the request
is exactly one higher than before. -/
theorem broadcast_semantics (sys : System) (req : BusRequest) (b s : Nat)
    (hreq : req = BusRequest.BusRd ∨ req = BusRequest.BusRdX ∨ req = BusRequest.BusUpgr
      ∨ req = BusRequest.setF)
    (hid : IdsAreIndices sys) :
    sys.sendMessage req b s = broadcastInIdOrder sys req b s
    ∧ (∀ r : BusRequest,
        (sys.bus.countRequest req).counter r = sys.bus.counter r + (if r = req then 1 else 0))
    ∧ (sys.sendMessage req b s).caches[s]? = sys.caches[s]?
    ∧ (sys.sendMessage req b s).bus.counter req = sys.bus.counter req + 1 := by
  have hnf : ¬ (req = BusRequest.Flush ∨ req = BusRequest.Flush_prime) := by
    rcases hreq with h | h | h | h <;> subst h <;> simp
  have hsend : sys.sendMessage req b s
      = { caches := (snoopLoop req b s sys.caches
            { sys.bus.countRequest req with shared_line := false, supplied := false }).1,
          bus := (snoopLoop req b s sys.caches
            { sys.bus.countRequest req with shared_line := false, supplied := false }).2 } := by
    unfold System.sendMessage
    simp only [hnf, if_false]
  refine ⟨?_, Bus.counter_countRequest sys.bus req, ?_, ?_⟩
  · rw [hsend]
    unfold broadcastInIdOrder
    have := foldl_snoopAt req b s sys.caches []
      { sys.bus.countRequest req with shared_line := false, supplied := false }
      (fun i c hc => by simpa using hid i c hc)
    simp only [List.length_nil, List.nil_append] at this
    rw [List.range_eq_range', this]
  · rw [hsend]
    cases hc : sys.caches[s]? with
    | none =>
      rw [List.getElem?_eq_none_iff] at hc ⊢
      rw [snoopLoop_length]; exact hc
    | some x => exact (snoopLoop_getElem? req b s sys.caches _ s x hc).1 (hid s x hc)
  · rw [hsend]
    obtain ⟨h1, h2, h3, h4, -, -⟩ := snoopLoop_bus req b s sys.caches
      { sys.bus.countRequest req with shared_line := false, supplied := false }
    have hc := Bus.counter_countRequest sys.bus req req
    simp only [if_true] at hc
    rcases hreq with h | h | h | h <;> subst h <;>
      simp only [Bus.counter] at hc ⊢ <;> simp only [h1, h2, h3, h4] <;> exact hc

/-- Witness of C12: the BusRd for block `1` that core 1 broadcasts after core
0 has read `0x40` under MESI; the caches of a run sit in id order. -/
theorem broadcast_semantics_witness :
    ((BusRequest.BusRd = BusRequest.BusRd ∨ BusRequest.BusRd = BusRequest.BusRdX
        ∨ BusRequest.BusRd = BusRequest.BusUpgr ∨ BusRequest.BusRd = BusRequest.setF)
      ∧ IdsAreIndices (run Protocol.MESI [⟨0, 'r', 0x40⟩]))
    ∧ (run Protocol.MESI [⟨0, 'r', 0x40⟩]).sendMessage BusRequest.BusRd 1 1
        = broadcastInIdOrder (run Protocol.MESI [⟨0, 'r', 0x40⟩]) BusRequest.BusRd 1 1 :=
  ⟨⟨Or.inl rfl, run_ids _ _⟩,
    (broadcast_semantics (run Protocol.MESI [⟨0, 'r', 0x40⟩]) BusRequest.BusRd 1 1
      (Or.inl rfl) (run_ids _ _)).1⟩

/-- C13 (monotone response lines): a reaction of a cache to any bus request
keeps a response line that is true before it; and after a broadcast (any
request but `Flush` and `Flush_prime`) each line is the OR of the responses of
the caches other than the sender. -/
theorem response_lines_are_monotone :
    (∀ (c : Cache) (bus : Bus) (req : BusRequest) (b : Nat),
      (bus.shared_line = true → (c.handleBusRequest bus req b).2.shared_line = true)
      ∧ (bus.supplied = true → (c.handleBusRequest bus req b).2.supplied = true))
    ∧ (∀ (sys : System) (req : BusRequest) (b s : Nat),
        req ≠ BusRequest.Flush → req ≠ BusRequest.Flush_prime →
        (sys.sendMessage req b s).bus.shared_line
            = sys.caches.any (fun c => decide (c.id ≠ s) && c.sharedResponse req b)
        ∧ (sys.sendMessage req b s).bus.supplied
            = sys.caches.any (fun c => decide (c.id ≠ s) && c.suppliedResponse req b)) := by
  refine ⟨fun c bus req b => ?_, sendMessage_lines⟩
  obtain ⟨-, -, -, -, h5, h6⟩ := Cache.handleBusRequest_bus c bus req b
  exact ⟨fun h => by rw [h5, h, Bool.true_or], fun h => by rw [h6, h, Bool.true_or]⟩

/-- Witness of C13: a reaction of the writer cache of the third scenario to a
BusRd on a bus whose shared line is already raised, and the BusRd of core 1
in `silentSharer`. -/
theorem response_lines_are_monotone_witness :
    ({ Bus.new with shared_line := true } : Bus).shared_line = true
    ∧ (writerCache.handleBusRequest { Bus.new with shared_line := true }
        BusRequest.BusRd 1).2.shared_line = true
    ∧ BusRequest.BusRd ≠ BusRequest.Flush ∧ BusRequest.BusRd ≠ BusRequest.Flush_prime
    ∧ (silentSharer.sendMessage BusRequest.BusRd 1 1).bus.shared_line
        = silentSharer.caches.any
            (fun c => decide (c.id ≠ 1) && c.sharedResponse BusRequest.BusRd 1) :=
  ⟨rfl,
    (response_lines_are_monotone.1 writerCache { Bus.new with shared_line := true }
      BusRequest.BusRd 1).1 rfl,
    by decide, by decide,
    (response_lines_are_monotone.2 silentSharer BusRequest.BusRd 1 1 (by decide) (by decide)).1⟩

/-- C14 (meaning of shared_line), refuted as stated: under MSI, after core 0
has read address `0x40`, cache 0 holds block address `1` in Shared, and the
BusRd that core 1 broadcasts for block `1` leaves `shared_line` false; and in
the FESI system whose cache 0 holds block `1` in Shared, the same broadcast
leaves it false as well. -/
theorem shared_line_not_raised_by_every_valid_peer :
    ¬ ((((run Protocol.MSI [⟨0, 'r', 0x40⟩]).sendMessage BusRequest.BusRd 1 1).bus.shared_line
          = true)
        ↔ ∃ c ∈ (run Protocol.MSI [⟨0, 'r', 0x40⟩]).caches,
            c.id ≠ 1 ∧ c.getState 1 ≠ CacheBlockState.Invalid)
    ∧ ¬ (((silentSharer.sendMessage BusRequest.BusRd 1 1).bus.shared_line = true)
        ↔ ∃ c ∈ silentSharer.caches, c.id ≠ 1 ∧ c.getState 1 ≠ CacheBlockState.Invalid) := by
  decide

/-- C14 as amended: on a system whose caches all run protocol `p` and hold
block `b` in a state of `p`, after `sendMessage(BusRd, b, r)` the shared line
is true, under MESI, MESIF and MOESI, exactly when a cache other than `r` held
`b` in a non-Invalid state; under FESI exactly when a cache other than `r`
held `b` in Forward or Exclusive; under MSI it is false. -/
theorem shared_line_meaning (sys : System) (p : Protocol) (b r : Nat)
    (hp : ∀ c ∈ sys.caches, c.protocol = p)
    (hadm : ∀ c ∈ sys.caches, p.admits (c.getState b) = true) :
    ((p = Protocol.MESI ∨ p = Protocol.MESIF ∨ p = Protocol.MOESI) →
      ((sys.sendMessage BusRequest.BusRd b r).bus.shared_line = true
        ↔ ∃ c ∈ sys.caches, c.id ≠ r ∧ c.getState b ≠ CacheBlockState.Invalid))
    ∧ (p = Protocol.FESI →
      ((sys.sendMessage BusRequest.BusRd b r).bus.shared_line = true
        ↔ ∃ c ∈ sys.caches, c.id ≠ r
            ∧ (c.getState b = CacheBlockState.Forward
                ∨ c.getState b = CacheBlockState.Exclusive)))
    ∧ (p = Protocol.MSI →
      (sys.sendMessage BusRequest.BusRd b r).bus.shared_line = false) := by
  have key : ∀ (Q : CacheBlockState → Prop),
      (∀ st, p.admits st = true → (raisesSharedLine p st = true ↔ Q st)) →
      ((sys.sendMessage BusRequest.BusRd b r).bus.shared_line = true
        ↔ ∃ c ∈ sys.caches, c.id ≠ r ∧ Q (c.getState b)) := by
    intro Q hQ
    rw [shared_line_after_BusRd]
    constructor
    · rintro ⟨c, hc, hne, hr⟩
      rw [hp c hc] at hr
      exact ⟨c, hc, hne, (hQ _ (hadm c hc)).mp hr⟩
    · rintro ⟨c, hc, hne, hq⟩
      exact ⟨c, hc, hne, by rw [hp c hc]; exact (hQ _ (hadm c hc)).mpr hq⟩
  refine ⟨fun h => key (fun st => st ≠ CacheBlockState.Invalid) ?_,
    fun h => key (fun st => st = CacheBlockState.Forward ∨ st = CacheBlockState.Exclusive) ?_,
    fun h => ?_⟩
  · intro st hst
    rcases h with h | h | h <;> subst h <;> cases st <;>
      simp [raisesSharedLine, Protocol.admits] at hst ⊢
  · intro st hst
    subst h
    cases st <;> simp [raisesSharedLine, Protocol.admits] at hst ⊢
  · subst h
    rw [← Bool.not_eq_true]
    intro hcon
    obtain ⟨c, hc, -, hr⟩ := (shared_line_after_BusRd sys b r).mp hcon
    rw [hp c hc] at hr
    simp [raisesSharedLine] at hr

/-- Witness of C14 as amended: under MESI, after core 0 has read `0x40`, the
BusRd of core 1 for block `1` raises the shared line exactly when a peer holds
the block. -/
theorem shared_line_meaning_witness :
    (∀ c ∈ (run Protocol.MESI [⟨0, 'r', 0x40⟩]).caches, c.protocol = Protocol.MESI)
    ∧ (∀ c ∈ (run Protocol.MESI [⟨0, 'r', 0x40⟩]).caches,
        Protocol.MESI.admits (c.getState 1) = true)
    ∧ (((run Protocol.MESI [⟨0, 'r', 0x40⟩]).sendMessage BusRequest.BusRd 1 1).bus.shared_line
          = true
        ↔ ∃ c ∈ (run Protocol.MESI [⟨0, 'r', 0x40⟩]).caches,
            c.id ≠ 1 ∧ c.getState 1 ≠ CacheBlockState.Invalid) :=
  ⟨by decide, by decide,
    (shared_line_meaning (run Protocol.MESI [⟨0, 'r', 0x40⟩]) Protocol.MESI 1 1
      (by decide) (by decide)).1 (Or.inl rfl)⟩

/-- C20 (snoop invalidation): for every cache, bus, block address `b`:
a BusRdX or BusUpgr snooped while the cache holds `b` in a non-Invalid state
of its protocol leaves `getState(b) = Invalid` and `num_invalidations` one
higher; when the cache holds `b` Invalid, or the request is BusRd,
`num_invalidations` is unchanged; and for every request the counter grows by
one exactly when the reaction turns a valid copy of `b` into Invalid. -/
theorem snoop_invalidation (c : Cache) (bus : Bus) (req : BusRequest) (b : Nat) :
    ((req = BusRequest.BusRdX ∨ req = BusRequest.BusUpgr) →
      c.getState b ≠ CacheBlockState.Invalid → c.protocol.admits (c.getState b) = true →
      (c.handleBusRequest bus req b).1.getState b = CacheBlockState.Invalid
      ∧ (c.handleBusRequest bus req b).1.num_invalidations = c.num_invalidations + 1)
    ∧ ((c.getState b = CacheBlockState.Invalid ∨ req = BusRequest.BusRd) →
      (c.handleBusRequest bus req b).1.num_invalidations = c.num_invalidations)
    ∧ (c.handleBusRequest bus req b).1.num_invalidations
        = c.num_invalidations
          + (if c.getState b ≠ CacheBlockState.Invalid
                ∧ (c.handleBusRequest bus req b).1.getState b = CacheBlockState.Invalid
             then 1 else 0) := by
  cases req <;> cases hp : c.protocol <;> cases hs : c.getState b <;>
    simp only [Cache.handleBusRequest, hp, hs, reduceCtorEq, if_true, if_false] <;>
    cases hsup : bus.supplied <;>
    simp [Protocol.admits, Cache.getState_setState_self, hs, Bus.getSupplied, Bus.setSupplied,
      Bus.setSharedLine, Bus.sendFlush, Bus.countRequest, hsup]

/-- Witness of C20: the writer cache of the third scenario, which holds block
`1` in Modified under MESI, snoops a BusRdX for it. -/
theorem snoop_invalidation_witness :
    (writerCache.getState 1 ≠ CacheBlockState.Invalid
      ∧ writerCache.protocol.admits (writerCache.getState 1) = true)
    ∧ (writerCache.handleBusRequest Bus.new BusRequest.BusRdX 1).1.getState 1
        = CacheBlockState.Invalid
    ∧ (writerCache.handleBusRequest Bus.new BusRequest.BusRdX 1).1.num_invalidations
        = writerCache.num_invalidations + 1 :=
  ⟨⟨by decide, by decide⟩,
    (snoop_invalidation writerCache Bus.new BusRequest.BusRdX 1).1 (Or.inl rfl)
      (by decide) (by decide)⟩

/-! ## The scenario claims -/

/-- C15 (MESI cold read): under MESI, for every core `c < 16` and every address
`a < 2^39`, the single request `(c, read, a)` on the initial system leaves
cache `c` with reads = 1, read_misses = 1, fromLLC = 1, its other counters 0
and the block `a >> 6` in Exclusive; the bus has BusRd = 1 and its other
counters 0; every other cache is as it was. -/
theorem MESI_cold_read (c a : Nat) (hc : c < 16) (ha : a < 2 ^ 39) :
    (∃ X : Cache, (run Protocol.MESI [⟨(c : Int), 'r', a⟩]).caches[c]? = some X
      ∧ X.num_reads = 1 ∧ X.num_read_misses = 1 ∧ X.num_fromLLC = 1
      ∧ X.num_writes = 0 ∧ X.num_write_misses = 0 ∧ X.num_writebacks = 0
      ∧ X.num_invalidations = 0 ∧ X.num_provided = 0 ∧ X.num_random = 0
      ∧ X.getState (a >>> CACHE_OFFSET_BITS) = CacheBlockState.Exclusive)
    ∧ ((run Protocol.MESI [⟨(c : Int), 'r', a⟩]).bus.num_busrd = 1
      ∧ (run Protocol.MESI [⟨(c : Int), 'r', a⟩]).bus.num_busrdx = 0
      ∧ (run Protocol.MESI [⟨(c : Int), 'r', a⟩]).bus.num_busupgr = 0
      ∧ (run Protocol.MESI [⟨(c : Int), 'r', a⟩]).bus.num_flushes = 0
      ∧ (run Protocol.MESI [⟨(c : Int), 'r', a⟩]).bus.num_flush_primes = 0
      ∧ (run Protocol.MESI [⟨(c : Int), 'r', a⟩]).bus.num_setF = 0)
    ∧ (run Protocol.MESI [⟨(c : Int), 'r', a⟩]).caches.length
        = (initialSystem Protocol.MESI).caches.length
    ∧ ∀ i : Nat, i ≠ c → (run Protocol.MESI [⟨(c : Int), 'r', a⟩]).caches[i]?
        = (initialSystem Protocol.MESI).caches[i]? := by
  have hrun : run Protocol.MESI [⟨(c : Int), 'r', a⟩]
      = { caches := (initialSystem Protocol.MESI).caches.set c
            (Cache.mk c Protocol.MESI
              (oneBlock (a >>> CACHE_OFFSET_BITS) CacheBlockState.Exclusive) 1 1 0 0 0 0 0 1 0),
          bus := { Bus.new with num_busrd := 1 } } := by
    rw [run, simulate_cons_read _ _ _ _ hc, cold_read_MESI c a hc ha]; rfl
  rw [hrun]
  have hl : c < (initialSystem Protocol.MESI).caches.length := by simpa using hc
  refine ⟨⟨_, List.getElem?_set_self hl, rfl, rfl, rfl, rfl, rfl, rfl, rfl, rfl, rfl,
    Cache.getState_oneBlock _ _ _ _ _ _ _ _ _ _ _ _ _⟩,
    ⟨rfl, rfl, rfl, rfl, rfl, rfl⟩, by simp, fun i hi => ?_⟩
  exact List.getElem?_set_ne (Ne.symm hi)

/-- Witness of C15: core 0 reads address `0x40`. -/
theorem MESI_cold_read_witness :
    (0 < 16 ∧ 0x40 < 2 ^ 39)
    ∧ ∃ X : Cache, (run Protocol.MESI [⟨((0 : Nat) : Int), 'r', 0x40⟩]).caches[0]? = some X
      ∧ X.num_reads = 1 ∧ X.num_read_misses = 1 ∧ X.num_fromLLC = 1
      ∧ X.num_writes = 0 ∧ X.num_write_misses = 0 ∧ X.num_writebacks = 0
      ∧ X.num_invalidations = 0 ∧ X.num_provided = 0 ∧ X.num_random = 0
      ∧ X.getState (0x40 >>> CACHE_OFFSET_BITS) = CacheBlockState.Exclusive :=
  ⟨⟨by decide, by decide⟩, (MESI_cold_read 0 0x40 (by decide) (by decide)).1⟩

/-- C16 (MESI write after share): under MESI, for distinct cores `c0`, `c1`
below 16 and every address `a < 2^39`, after `c0` reads, `c1` reads and `c1`
writes `a` on the initial system, cache `c1` has writes = 1, write_misses = 0
and the block in Modified, cache `c0` has invalidations = 1 and the block
Invalid, and the bus has BusUpgr = 1 and BusRdX = 0. -/
theorem MESI_write_after_share (c0 c1 a : Nat) (hc0 : c0 < 16) (hc1 : c1 < 16)
    (h01 : c0 ≠ c1) (ha : a < 2 ^ 39) :
    (∃ X1 : Cache, (run Protocol.MESI (writeAfterShare c0 c1 a)).caches[c1]? = some X1
      ∧ X1.num_writes = 1 ∧ X1.num_write_misses = 0
      ∧ X1.getState (a >>> CACHE_OFFSET_BITS) = CacheBlockState.Modified)
    ∧ (∃ X0 : Cache, (run Protocol.MESI (writeAfterShare c0 c1 a)).caches[c0]? = some X0
      ∧ X0.num_invalidations = 1
      ∧ X0.getState (a >>> CACHE_OFFSET_BITS) = CacheBlockState.Invalid)
    ∧ (run Protocol.MESI (writeAfterShare c0 c1 a)).bus.num_busupgr = 1
    ∧ (run Protocol.MESI (writeAfterShare c0 c1 a)).bus.num_busrdx = 0 := by
  have hrun : run Protocol.MESI (writeAfterShare c0 c1 a)
      = { caches := ((initialSystem Protocol.MESI).caches.set c0
            (Cache.mk c0 Protocol.MESI freshSets 1 1 0 0 0 1 1 1 0)).set c1
            (Cache.mk c1 Protocol.MESI
              (oneBlock (a >>> CACHE_OFFSET_BITS) CacheBlockState.Modified) 1 1 1 0 0 0 0 0 0),
          bus := { Bus.new with num_busrd := 2, num_flush_primes := 1, num_busupgr := 1 } } := by
    rw [run, writeAfterShare, simulate_cons_read _ _ _ _ hc0, cold_read_MESI c0 a hc0 ha,
      simulate_cons_read _ _ _ _ hc1, second_read_MESI c0 c1 a hc0 hc1 h01 ha,
      simulate_cons_write _ _ _ _ hc1, write_after_share_MESI c0 c1 a hc0 hc1 h01]
    rfl
  rw [hrun]
  have hl0 : c0 < (initialSystem Protocol.MESI).caches.length := by simpa using hc0
  have hl1 : c1 < (initialSystem Protocol.MESI).caches.length := by simpa using hc1
  refine ⟨⟨_, List.getElem?_set_self (by simpa using hl1), rfl, rfl,
      Cache.getState_oneBlock _ _ _ _ _ _ _ _ _ _ _ _ _⟩,
    ⟨Cache.mk c0 Protocol.MESI freshSets 1 1 0 0 0 1 1 1 0, ?_, rfl,
      Cache.getState_fresh _ _ _ _ _ _ _ _ _ _ _ _⟩, rfl, rfl⟩
  show (((initialSystem Protocol.MESI).caches.set c0 _).set c1 _)[c0]? = _
  rw [List.getElem?_set_ne (Ne.symm h01)]
  exact List.getElem?_set_self hl0

/-- Witness of C16: cores 0 and 1, address `0x40`. -/
theorem MESI_write_after_share_witness :
    (0 < 16 ∧ 1 < 16 ∧ 0 ≠ 1 ∧ 0x40 < 2 ^ 39)
    ∧ (run Protocol.MESI (writeAfterShare 0 1 0x40)).bus.num_busupgr = 1
    ∧ (run Protocol.MESI (writeAfterShare 0 1 0x40)).bus.num_busrdx = 0 :=
  ⟨⟨by decide, by decide, by decide, by decide⟩,
    (MESI_write_after_share 0 1 0x40 (by decide) (by decide) (by decide) (by decide)).2.2⟩

/-- C17 (MSI write miss over a Modified peer): under MSI, for distinct cores
`c0`, `c1` below 16 and every address `a < 2^39`, after `c0` writes and `c1`
writes `a` on the initial system, cache `c0` holds the block Invalid with
writebacks = 1, invalidations = 1 and provided = 1, cache `c1` holds it
Modified with fromLLC = 0 and provided = 0, and the bus has BusRdX = 2 and
Flush = 1. -/
theorem MSI_write_over_modified (c0 c1 a : Nat) (hc0 : c0 < 16) (hc1 : c1 < 16)
    (h01 : c0 ≠ c1) (ha : a < 2 ^ 39) :
    (∃ X0 : Cache, (run Protocol.MSI (writeOverModified c0 c1 a)).caches[c0]? = some X0
      ∧ X0.getState (a >>> CACHE_OFFSET_BITS) = CacheBlockState.Invalid
      ∧ X0.num_writebacks = 1 ∧ X0.num_invalidations = 1 ∧ X0.num_provided = 1)
    ∧ (∃ X1 : Cache, (run Protocol.MSI (writeOverModified c0 c1 a)).caches[c1]? = some X1
      ∧ X1.getState (a >>> CACHE_OFFSET_BITS) = CacheBlockState.Modified
      ∧ X1.num_fromLLC = 0 ∧ X1.num_provided = 0)
    ∧ (run Protocol.MSI (writeOverModified c0 c1 a)).bus.num_busrdx = 2
    ∧ (run Protocol.MSI (writeOverModified c0 c1 a)).bus.num_flushes = 1 := by
  have hrun : run Protocol.MSI (writeOverModified c0 c1 a)
      = { caches := ((initialSystem Protocol.MSI).caches.set c0
            (Cache.mk c0 Protocol.MSI freshSets 0 0 1 1 1 1 1 1 0)).set c1
            (Cache.mk c1 Protocol.MSI
              (oneBlock (a >>> CACHE_OFFSET_BITS) CacheBlockState.Modified) 0 0 1 1 0 0 0 0 0),
          bus := { Bus.new with num_busrdx := 2, num_flushes := 1, supplied := true } } := by
    rw [run, writeOverModified, simulate_cons_write _ _ _ _ hc0, cold_write_MSI c0 a hc0 ha,
      simulate_cons_write _ _ _ _ hc1, write_over_modified_MSI c0 c1 a hc0 hc1 h01 ha]
    rfl
  rw [hrun]
  have hl0 : c0 < (initialSystem Protocol.MSI).caches.length := by simpa using hc0
  have hl1 : c1 < (initialSystem Protocol.MSI).caches.length := by simpa using hc1
  refine ⟨⟨Cache.mk c0 Protocol.MSI freshSets 0 0 1 1 1 1 1 1 0, ?_,
      Cache.getState_fresh _ _ _ _ _ _ _ _ _ _ _ _, rfl, rfl, rfl⟩,
    ⟨_, List.getElem?_set_self (by simpa using hl1),
      Cache.getState_oneBlock _ _ _ _ _ _ _ _ _ _ _ _ _, rfl, rfl⟩, rfl, rfl⟩
  show (((initialSystem Protocol.MSI).caches.set c0 _).set c1 _)[c0]? = _
  rw [List.getElem?_set_ne (Ne.symm h01)]
  exact List.getElem?_set_self hl0

/-- Witness of C17: cores 0 and 1, address `0x40`. -/
theorem MSI_write_over_modified_witness :
    (0 < 16 ∧ 1 < 16 ∧ 0 ≠ 1 ∧ 0x40 < 2 ^ 39)
    ∧ (run Protocol.MSI (writeOverModified 0 1 0x40)).bus.num_busrdx = 2
    ∧ (run Protocol.MSI (writeOverModified 0 1 0x40)).bus.num_flushes = 1 :=
  ⟨⟨by decide, by decide, by decide, by decide⟩,
    (MSI_write_over_modified 0 1 0x40 (by decide) (by decide) (by decide) (by decide)).2.2⟩

/-- C18 (MOESI dirty sharing): under MOESI, for pairwise distinct cores `c0`,
`c1`, `c2` below 16 and every address `a < 2^39`, on the trace `c0` writes,
`c1` reads, `c2` reads from the initial system: after the first step `c0`
holds the block in Modified; after the second `c0` holds it in Owned and `c1`
in Shared; at the end `c0` holds it in Owned, `c1` and `c2` in Shared, the
writebacks of all caches sum to 0, the bus Flush counter is 0 and cache `c0`
has provided = 2. -/
theorem MOESI_dirty_sharing (c0 c1 c2 a : Nat) (hc0 : c0 < 16) (hc1 : c1 < 16)
    (hc2 : c2 < 16) (h01 : c0 ≠ c1) (h02 : c0 ≠ c2) (h12 : c1 ≠ c2) (ha : a < 2 ^ 39) :
    (run Protocol.MOESI ((dirtySharing c0 c1 c2 a).take 1)).stateOf c0
        (a >>> CACHE_OFFSET_BITS) = CacheBlockState.Modified
    ∧ ((run Protocol.MOESI ((dirtySharing c0 c1 c2 a).take 2)).stateOf c0
          (a >>> CACHE_OFFSET_BITS) = CacheBlockState.Owned
      ∧ (run Protocol.MOESI ((dirtySharing c0 c1 c2 a).take 2)).stateOf c1
          (a >>> CACHE_OFFSET_BITS) = CacheBlockState.Shared)
    ∧ ((run Protocol.MOESI (dirtySharing c0 c1 c2 a)).stateOf c0
          (a >>> CACHE_OFFSET_BITS) = CacheBlockState.Owned
      ∧ (run Protocol.MOESI (dirtySharing c0 c1 c2 a)).stateOf c1
          (a >>> CACHE_OFFSET_BITS) = CacheBlockState.Shared
      ∧ (run Protocol.MOESI (dirtySharing c0 c1 c2 a)).stateOf c2
          (a >>> CACHE_OFFSET_BITS) = CacheBlockState.Shared
      ∧ ((run Protocol.MOESI (dirtySharing c0 c1 c2 a)).caches.map
          (fun c => c.num_writebacks)).sum = 0
      ∧ (run Protocol.MOESI (dirtySharing c0 c1 c2 a)).bus.num_flushes = 0
      ∧ ∃ X0 : Cache, (run Protocol.MOESI (dirtySharing c0 c1 c2 a)).caches[c0]? = some X0
          ∧ X0.num_provided = 2) := by
  have hl0 : c0 < (initialSystem Protocol.MOESI).caches.length := by simpa using hc0
  have hl1 : c1 < (initialSystem Protocol.MOESI).caches.length := by simpa using hc1
  have hl2 : c2 < (initialSystem Protocol.MOESI).caches.length := by simpa using hc2
  have hrun1 : run Protocol.MOESI ((dirtySharing c0 c1 c2 a).take 1)
      = { caches := (initialSystem Protocol.MOESI).caches.set c0
            (Cache.mk c0 Protocol.MOESI
              (oneBlock (a >>> CACHE_OFFSET_BITS) CacheBlockState.Modified) 0 0 1 1 0 0 0 1 0),
          bus := { Bus.new with num_busrdx := 1 } } := by
    rw [run, dirtySharing]
    show simulate _ [_] = _
    rw [simulate_cons_write _ _ _ _ hc0, cold_write_MOESI c0 a hc0 ha]
    rfl
  have hrun2 : run Protocol.MOESI ((dirtySharing c0 c1 c2 a).take 2)
      = { caches := ((initialSystem Protocol.MOESI).caches.set c0
            (Cache.mk c0 Protocol.MOESI
              (oneBlock (a >>> CACHE_OFFSET_BITS) CacheBlockState.Owned) 0 0 1 1 0 0 1 1 0)).set c1
            (Cache.mk c1 Protocol.MOESI
              (oneBlock (a >>> CACHE_OFFSET_BITS) CacheBlockState.Shared) 1 1 0 0 0 0 0 0 0),
          bus := { Bus.new with num_busrdx := 1, num_busrd := 1, num_flush_primes := 1,
                                shared_line := true, supplied := true } } := by
    rw [run, dirtySharing]
    show simulate _ [_, _] = _
    rw [simulate_cons_write _ _ _ _ hc0, cold_write_MOESI c0 a hc0 ha,
      simulate_cons_read _ _ _ _ hc1, read_over_modified_MOESI c0 c1 a hc0 hc1 h01 ha]
    rfl
  have hrun3 : run Protocol.MOESI (dirtySharing c0 c1 c2 a)
      = { caches := (((initialSystem Protocol.MOESI).caches.set c0
            (Cache.mk c0 Protocol.MOESI
              (oneBlock (a >>> CACHE_OFFSET_BITS) CacheBlockState.Owned) 0 0 1 1 0 0 2 1 0)).set c1
            (Cache.mk c1 Protocol.MOESI
              (oneBlock (a >>> CACHE_OFFSET_BITS) CacheBlockState.Shared) 1 1 0 0 0 0 0 0 0)).set c2
            (Cache.mk c2 Protocol.MOESI
              (oneBlock (a >>> CACHE_OFFSET_BITS) CacheBlockState.Shared) 1 1 0 0 0 0 0 0 0),
          bus := { Bus.new with num_busrdx := 1, num_busrd := 2, num_flush_primes := 2,
                                shared_line := true, supplied := true } } := by
    rw [run, dirtySharing, simulate_cons_write _ _ _ _ hc0, cold_write_MOESI c0 a hc0 ha,
      simulate_cons_read _ _ _ _ hc1, read_over_modified_MOESI c0 c1 a hc0 hc1 h01 ha,
      simulate_cons_read _ _ _ _ hc2,
      read_over_owned_MOESI c0 c1 c2 a hc0 hc1 hc2 h01 h02 h12 ha]
    rfl
  have hg0 : ∀ (X Y Z : Cache), ((((initialSystem Protocol.MOESI).caches.set c0 X).set c1 Y).set
      c2 Z)[c0]? = some X := by
    intro X Y Z
    rw [List.getElem?_set_ne h02.symm, List.getElem?_set_ne h01.symm]
    exact List.getElem?_set_self hl0
  have hg1 : ∀ (X Y : Cache), ((((initialSystem Protocol.MOESI).caches.set c0 X).set c1 Y))[c1]?
      = some Y := fun X Y => List.getElem?_set_self (by simpa using hl1)
  have hg01 : ∀ (X Y : Cache), ((((initialSystem Protocol.MOESI).caches.set c0 X).set c1 Y))[c0]?
      = some X := by
    intro X Y
    rw [List.getElem?_set_ne h01.symm]
    exact List.getElem?_set_self hl0
  rw [hrun1, hrun2, hrun3]
  refine ⟨?_, ⟨?_, ?_⟩, ?_, ?_, ?_, ?_, rfl, ⟨_, hg0 _ _ _, rfl⟩⟩
  · simp only [System.stateOf, List.getElem?_set_self hl0]
    exact Cache.getState_oneBlock _ _ _ _ _ _ _ _ _ _ _ _ _
  · simp only [System.stateOf, hg01]
    exact Cache.getState_oneBlock _ _ _ _ _ _ _ _ _ _ _ _ _
  · simp only [System.stateOf, hg1]
    exact Cache.getState_oneBlock _ _ _ _ _ _ _ _ _ _ _ _ _
  · simp only [System.stateOf, hg0]
    exact Cache.getState_oneBlock _ _ _ _ _ _ _ _ _ _ _ _ _
  · simp only [System.stateOf, List.getElem?_set_ne h12.symm, hg1]
    exact Cache.getState_oneBlock _ _ _ _ _ _ _ _ _ _ _ _ _
  · have : (((((initialSystem Protocol.MOESI).caches.set c0
            (Cache.mk c0 Protocol.MOESI
              (oneBlock (a >>> CACHE_OFFSET_BITS) CacheBlockState.Owned) 0 0 1 1 0 0 2 1 0)).set c1
            (Cache.mk c1 Protocol.MOESI
              (oneBlock (a >>> CACHE_OFFSET_BITS) CacheBlockState.Shared) 1 1 0 0 0 0 0 0 0)).set c2
            (Cache.mk c2 Protocol.MOESI
              (oneBlock (a >>> CACHE_OFFSET_BITS) CacheBlockState.Shared) 1 1 0 0 0 0 0 0 0)))[c2]?
        = some (Cache.mk c2 Protocol.MOESI
              (oneBlock (a >>> CACHE_OFFSET_BITS) CacheBlockState.Shared) 1 1 0 0 0 0 0 0 0) :=
      List.getElem?_set_self (by simpa using hl2)
    simp only [System.stateOf, this]
    exact Cache.getState_oneBlock _ _ _ _ _ _ _ _ _ _ _ _ _
  · apply sum_eq_zero_of_getElem? (fun c => c.num_writebacks)
    refine forall_getElem?_set (forall_getElem?_set (forall_getElem?_set ?_ (fun _ => rfl))
      (fun _ => rfl)) (fun _ => rfl)
    intro i y hi _
    rw [initialSystem_getElem?_some _ _ _ hi]; rfl

/-- Witness of C18: cores 0, 1, 2 and address `0x40`. -/
theorem MOESI_dirty_sharing_witness :
    (0 < 16 ∧ 1 < 16 ∧ 2 < 16 ∧ 0 ≠ 1 ∧ 0 ≠ 2 ∧ 1 ≠ 2 ∧ 0x40 < 2 ^ 39)
    ∧ (run Protocol.MOESI ((dirtySharing 0 1 2 0x40).take 1)).stateOf 0
        (0x40 >>> CACHE_OFFSET_BITS) = CacheBlockState.Modified :=
  ⟨⟨by decide, by decide, by decide, by decide, by decide, by decide, by decide⟩,
    (MOESI_dirty_sharing 0 1 2 0x40 (by decide) (by decide) (by decide) (by decide) (by decide)
      (by decide) (by decide)).1⟩

/-! ## The forward handoff claim -/

/-- C19 (FESI forward handoff on eviction): in a system whose caches all run
FESI and sit in id order, let a processor request of core `c` miss on address
`a` and evict a block in Forward that the cache holds under block address `v`
(the address `handleProcRequest` rebuilds for it). Then the setF counter of
the bus grows by one; if some other cache holds `v` in Shared, the one with
the lowest id changes `v` to Forward and its random counter grows by one, no
further cache other than `c` changes its state for `v`, the writebacks of `c`
and the Flush counter are unchanged; and if no other cache holds `v` in
Shared, the Flush counter and the writebacks of `c` grow by one. -/
theorem FESI_forward_handoff (sys : System) (c a : Nat) (req : ProcRequest) (self : Cache)
    (v : Nat) (hid : IdsAreIndices sys)
    (hall : ∀ x ∈ sys.caches, x.protocol = Protocol.FESI)
    (hself : sys.caches[c]? = some self)
    (hmiss : self.getState (a >>> CACHE_OFFSET_BITS) = CacheBlockState.Invalid)
    (hvic : (self.victim (a >>> CACHE_OFFSET_BITS)).state = CacheBlockState.Forward)
    (hv : v = evicted_blockAddress (self.victim (a >>> CACHE_OFFSET_BITS))
            (setIndex (a >>> CACHE_OFFSET_BITS)))
    (hheld : self.getState v = CacheBlockState.Forward) :
    (sys.handleProcRequest c req a).bus.num_setF = sys.bus.num_setF + 1
    ∧ (∀ j : Nat, j ≠ c → sys.stateOf j v = CacheBlockState.Shared →
        (∀ i : Nat, i < j → i ≠ c → sys.stateOf i v ≠ CacheBlockState.Shared) →
        (sys.handleProcRequest c req a).stateOf j v = CacheBlockState.Forward
        ∧ (sys.handleProcRequest c req a).stat j Cache.num_random
            = sys.stat j Cache.num_random + 1
        ∧ (∀ i : Nat, i ≠ j → i ≠ c →
            (sys.handleProcRequest c req a).stateOf i v = sys.stateOf i v)
        ∧ (sys.handleProcRequest c req a).stat c Cache.num_writebacks
            = sys.stat c Cache.num_writebacks
        ∧ (sys.handleProcRequest c req a).bus.num_flushes = sys.bus.num_flushes)
    ∧ ((∀ j : Nat, j ≠ c → sys.stateOf j v ≠ CacheBlockState.Shared) →
        (sys.handleProcRequest c req a).bus.num_flushes = sys.bus.num_flushes + 1
        ∧ (sys.handleProcRequest c req a).stat c Cache.num_writebacks
            = sys.stat c Cache.num_writebacks + 1) := by
  have hne : setIndex v ≠ setIndex (a >>> CACHE_OFFSET_BITS)
      ∨ tagOf v ≠ tagOf (a >>> CACHE_OFFSET_BITS) := by
    by_contra hcon
    simp only [not_or, not_not] at hcon
    have : self.getState v = self.getState (a >>> CACHE_OFFSET_BITS) := by
      unfold Cache.getState
      simp only [hcon.1, hcon.2]
    rw [hheld, hmiss] at this
    exact absurd this (by decide)
  obtain ⟨T, g, F, hg, heq⟩ :=
    FESI_miss_before_setF sys c a req self hall hself hmiss hvic v hv hne
  have hidT : IdsAreIndices T := handoffFrame_ids F hid
  have hsid : self.id = c := hid c self hself
  obtain ⟨F1, F2, F3, F4, F5, F6, F7⟩ := F
  rw [heq, hsid]
  -- the state of a peer in `T`, as a cache
  have hstate : ∀ (i : Nat) (z : Cache), T.caches[i]? = some z → T.stateOf i v = z.getState v := by
    intro i z hz; simp only [System.stateOf, hz]
  have hrandom : ∀ (i : Nat) (z : Cache), T.caches[i]? = some z →
      T.stat i Cache.num_random = z.num_random := by
    intro i z hz; simp only [System.stat, hz]
  obtain ⟨xc, hxc⟩ : ∃ xc, T.caches[c]? = some xc := by
    have := F1 c
    rw [hself] at this
    cases h : T.caches[c]? with
    | none => rw [h] at this; simp at this
    | some xc => exact ⟨xc, rfl⟩
  refine ⟨?_, ?_, ?_⟩
  · rw [System.onCache_bus]
    have hS : (T.sendMessage BusRequest.setF v c).bus.num_setF = T.bus.num_setF + 1 := by
      rw [sendMessage_eq T _ v c (by simp) (by simp)]
      exact (snoopLoop_bus BusRequest.setF v c T.caches _).2.2.2.1
    split
    · rw [System.onCache_bus, System.sendMessage_Flush_eq]
      show (T.sendMessage BusRequest.setF v c).bus.num_setF = _
      rw [hS, F6]
    · rw [hS, F6]
  · intro j hj hsh hleast
    have hTj : T.stateOf j v = CacheBlockState.Shared := by rw [F3 j hj]; exact hsh
    obtain ⟨y, hy⟩ : ∃ y, T.caches[j]? = some y := by
      cases h : T.caches[j]? with
      | none => simp [System.stateOf, h] at hTj
      | some y => exact ⟨y, rfl⟩
    have hyst : y.getState v = CacheBlockState.Shared := by rw [← hstate j y hy]; exact hTj
    have hyid : y.id ≠ c := by rw [hidT j y hy]; exact hj
    have hS := sendMessage_setF_first T v c j y hy hyid hyst (by
      intro i z hi hz hzid
      have hic : i ≠ c := by rw [← hidT i z hz]; exact hzid
      rw [← hstate i z hz, F3 i hic]
      exact hleast i hi hic)
    rw [hS]
    simp only [Bool.true_eq_false, if_false]
    have hlen : j < T.caches.length := (List.getElem?_eq_some.mp hy).1
    refine ⟨?_, ?_, ?_, ?_, ?_⟩
    · simp only [System.stateOf, System.onCache_getElem?_ne _ _ _ _ hj,
        List.getElem?_set_self hlen]
      show (y.setState v CacheBlockState.Forward).getState v = _
      rw [Cache.getState_setState_self, hyst]
      rfl
    · rw [← F4 j hj, hrandom j y hy]
      simp only [System.stat, System.onCache_getElem?_ne _ _ _ _ hj,
        List.getElem?_set_self hlen]
      simp
    · intro i hij hic
      rw [← F3 i hic]
      simp only [System.stateOf, System.onCache_getElem?_ne _ _ _ _ hic,
        List.getElem?_set_ne (Ne.symm hij)]
    · rw [← F5]
      simp only [System.stat, System.onCache_getElem?_self, List.getElem?_set_ne hj, hxc]
      simp [(hg xc).2.2]
    · rw [System.onCache_bus]
      exact F7
  · intro hnone
    have hS := sendMessage_setF_none T v c (by
      intro i z hz hzid
      have hic : i ≠ c := by rw [← hidT i z hz]; exact hzid
      rw [← hstate i z hz, F3 i hic]
      exact hnone i hic)
    rw [hS]
    simp only [if_true]
    constructor
    · rw [System.onCache_bus, System.onCache_bus, System.sendMessage_Flush_eq]
      show T.bus.num_flushes + 1 = _
      rw [F7]
    · rw [← F5]
      simp only [System.stat, System.onCache_getElem?_self, System.sendMessage_Flush_eq, hxc]
      simp [(hg _).2.2]

/-- Witness of C19 on the sixth scenario of the specification: the read of
`0x400` by core 0 evicts block address `0`, which cache 0 holds in Forward and
cache 1 in Shared; cache 1 takes the Forward state. -/
theorem FESI_forward_handoff_witness :
    ((∀ x ∈ (run Protocol.FESI (forwardEviction.take 5)).caches, x.protocol = Protocol.FESI)
      ∧ (run Protocol.FESI (forwardEviction.take 5)).caches[0]? = some forwardHolder
      ∧ forwardHolder.getState (0x400 >>> CACHE_OFFSET_BITS) = CacheBlockState.Invalid
      ∧ (forwardHolder.victim (0x400 >>> CACHE_OFFSET_BITS)).state = CacheBlockState.Forward
      ∧ 0 = evicted_blockAddress (forwardHolder.victim (0x400 >>> CACHE_OFFSET_BITS))
              (setIndex (0x400 >>> CACHE_OFFSET_BITS))
      ∧ forwardHolder.getState 0 = CacheBlockState.Forward
      ∧ (run Protocol.FESI (forwardEviction.take 5)).stateOf 1 0 = CacheBlockState.Shared)
    ∧ ((run Protocol.FESI (forwardEviction.take 5)).handleProcRequest 0
          ProcRequest.ProcRd 0x400).stateOf 1 0 = CacheBlockState.Forward
    ∧ ((run Protocol.FESI (forwardEviction.take 5)).handleProcRequest 0
          ProcRequest.ProcRd 0x400).stat 1 Cache.num_random
        = (run Protocol.FESI (forwardEviction.take 5)).stat 1 Cache.num_random + 1 :=
  ⟨⟨by decide, by decide, by decide, by decide, by decide, by decide, by decide⟩,
    ((FESI_forward_handoff (run Protocol.FESI (forwardEviction.take 5)) 0 0x400
        ProcRequest.ProcRd forwardHolder 0 (run_ids _ _) (by decide) (by decide) (by decide)
        (by decide) (by decide) (by decide)).2.1 1 (by decide) (by decide)
        (fun i hi hic => absurd (Nat.lt_one_iff.mp hi) hic)).1,
    ((FESI_forward_handoff (run Protocol.FESI (forwardEviction.take 5)) 0 0x400
        ProcRequest.ProcRd forwardHolder 0 (run_ids _ _) (by decide) (by decide) (by decide)
        (by decide) (by decide) (by decide)).2.1 1 (by decide) (by decide)
        (fun i hi hic => absurd (Nat.lt_one_iff.mp hi) hic)).2.1⟩

/-! ## The set, miss and ownership claims -/

/-- C22 (set insert): on a non-empty set with block list `x :: rest`,
`CacheSet::insertCacheBlock(n)` returns the front (LRU) block `x` and leaves
the list `rest ++ [n]`: the new block is the last (MRU) one and the remaining
blocks keep their order, as a prefix of the new list. -/
theorem insert_returns_LRU_and_appends (x n : CacheBlock) (rest : List CacheBlock) :
    ((⟨x :: rest⟩ : CacheSet).insertCacheBlock n).1 = x
    ∧ ((⟨x :: rest⟩ : CacheSet).insertCacheBlock n).2.blocks = rest ++ [n]
    ∧ ((⟨x :: rest⟩ : CacheSet).insertCacheBlock n).2.blocks.getLast? = some n
    ∧ ((⟨x :: rest⟩ : CacheSet).insertCacheBlock n).2.blocks.take rest.length = rest := by
  simp [CacheSet.insertCacheBlock]

/-- C23 (set set_state): in a set whose valid blocks have distinct tags and
in which the block `blk` (between `pre` and `post`) is valid with tag `t`:
`setState(t, st)` with `st` not Invalid replaces the state of `blk` by `st`
and keeps every position and tag, so `getState(t) = st` and `getState` of
every other tag is as before; with `st = Invalid` it takes `blk` out and puts
a block `(tag 0, Invalid)` at the front, the other blocks keeping their
order, so `getState(t) = Invalid`; and a set without a valid block of tag `t`
is unchanged by `setState(t, st)`. -/
theorem setState_on_distinct_tags (s : CacheSet) (t : Nat) (st : CacheBlockState) :
    (∀ (pre post : List CacheBlock) (blk : CacheBlock),
      s.blocks = pre ++ blk :: post → blk.hit t = true → TagsDistinct s →
      (st ≠ CacheBlockState.Invalid →
        (s.setState t st).blocks = pre ++ { blk with state := st } :: post
        ∧ (s.setState t st).getState t = st
        ∧ ∀ t' : Nat, t' ≠ t → (s.setState t st).getState t' = s.getState t')
      ∧ (st = CacheBlockState.Invalid →
        (s.setState t st).blocks = ⟨0, CacheBlockState.Invalid⟩ :: (pre ++ post)
        ∧ (s.setState t st).getState t = CacheBlockState.Invalid))
    ∧ ((∀ x ∈ s.blocks, x.hit t = false) → s.setState t st = s) := by
  refine ⟨?_, CacheSet.setState_of_no_hit s t st⟩
  intro pre post blk hs hb hd
  have hd' : TagsDistinct ⟨pre ++ blk :: post⟩ := by rw [← hs]; exact hd
  obtain ⟨hpre, hpost⟩ := no_other_hit_of_tagsDistinct hd' hb
  have hget : s.getState t ≠ CacheBlockState.Invalid := by
    unfold CacheSet.getState
    rw [Ne, getStateLoop_eq_invalid_iff]
    intro h
    have := h blk (by rw [hs]; simp)
    rw [hb] at this
    exact absurd this (by decide)
  constructor
  · intro hst
    refine ⟨?_, ?_, fun t' ht' => CacheSet.getState_of_setState_other_tag s t t' st ht'⟩
    · rw [CacheSet.setState_valid_blocks s t hst, hs, List.map_append, List.map_cons,
        map_setState_of_no_hit t st pre hpre, map_setState_of_no_hit t st post hpost]
      simp [hb]
    · rw [CacheSet.getState_of_setState_same, if_neg hget]
  · intro hst
    subst hst
    refine ⟨?_, ?_⟩
    · rw [CacheSet.setState_invalid_blocks, hs, List.filter_append, List.filter_append,
        List.filter_cons, List.filter_cons,
        (filter_hit_of_no_hit t pre hpre).1, (filter_hit_of_no_hit t pre hpre).2,
        (filter_hit_of_no_hit t post hpost).1, (filter_hit_of_no_hit t post hpost).2]
      simp [hb]
    · rw [CacheSet.getState_of_setState_same]; simp

/-- Witness of C23: the set `[I:0, S:5, M:7, E:9]` has distinct valid tags and
holds tag 5 in its second block; `setState(5, Exclusive)` rewrites that block
in place. -/
theorem setState_on_distinct_tags_witness :
    ((⟨[⟨0, CacheBlockState.Invalid⟩, ⟨5, CacheBlockState.Shared⟩,
        ⟨7, CacheBlockState.Modified⟩, ⟨9, CacheBlockState.Exclusive⟩]⟩ : CacheSet).blocks
        = [⟨0, CacheBlockState.Invalid⟩] ++ ⟨5, CacheBlockState.Shared⟩
            :: [⟨7, CacheBlockState.Modified⟩, ⟨9, CacheBlockState.Exclusive⟩]
      ∧ CacheBlock.hit 5 ⟨5, CacheBlockState.Shared⟩ = true
      ∧ TagsDistinct ⟨[⟨0, CacheBlockState.Invalid⟩, ⟨5, CacheBlockState.Shared⟩,
        ⟨7, CacheBlockState.Modified⟩, ⟨9, CacheBlockState.Exclusive⟩]⟩
      ∧ CacheBlockState.Exclusive ≠ CacheBlockState.Invalid)
    ∧ ((⟨[⟨0, CacheBlockState.Invalid⟩, ⟨5, CacheBlockState.Shared⟩,
        ⟨7, CacheBlockState.Modified⟩, ⟨9, CacheBlockState.Exclusive⟩]⟩ : CacheSet).setState 5
          CacheBlockState.Exclusive).blocks
        = [⟨0, CacheBlockState.Invalid⟩] ++ ⟨5, CacheBlockState.Exclusive⟩
            :: [⟨7, CacheBlockState.Modified⟩, ⟨9, CacheBlockState.Exclusive⟩] :=
  ⟨⟨rfl, by decide, by unfold TagsDistinct; decide, by decide⟩,
    (((setState_on_distinct_tags _ 5 CacheBlockState.Exclusive).1
      [⟨0, CacheBlockState.Invalid⟩] [⟨7, CacheBlockState.Modified⟩,
        ⟨9, CacheBlockState.Exclusive⟩] ⟨5, CacheBlockState.Shared⟩ rfl (by decide)
      (by unfold TagsDistinct; decide)).1 (by decide)).1⟩

/-- C27 (deterministic tie-break): in a system of MSI or MESI caches in id
order in which no cache other than the requester `r` holds block `b` in
Modified or Exclusive, let `j` be the lowest index other than `r` whose cache
`y` holds `b` in Shared. Then the BusRd broadcast for `b` by `r` changes
exactly the cache `j`: its `num_provided` and `num_random` grow by one and
nothing else changes in any cache; the bus counts one Flush_prime, no Flush
and one BusRd. -/
theorem shared_supplier_is_lowest_id (sys : System) (b r j : Nat) (y : Cache)
    (hid : IdsAreIndices sys)
    (hp : ∀ x ∈ sys.caches, x.protocol = Protocol.MSI ∨ x.protocol = Protocol.MESI)
    (hME : ∀ x ∈ sys.caches, x.id ≠ r →
      x.getState b ≠ CacheBlockState.Modified ∧ x.getState b ≠ CacheBlockState.Exclusive)
    (hy : sys.caches[j]? = some y) (hj : j ≠ r)
    (hS : y.getState b = CacheBlockState.Shared)
    (hleast : ∀ i < j, i ≠ r → sys.stateOf i b ≠ CacheBlockState.Shared) :
    (sys.sendMessage BusRequest.BusRd b r).caches
        = sys.caches.set j { y with num_provided := y.num_provided + 1,
                                    num_random := y.num_random + 1 }
    ∧ (sys.sendMessage BusRequest.BusRd b r).bus.num_flush_primes
        = sys.bus.num_flush_primes + 1
    ∧ (sys.sendMessage BusRequest.BusRd b r).bus.num_flushes = sys.bus.num_flushes
    ∧ (sys.sendMessage BusRequest.BusRd b r).bus.num_busrd = sys.bus.num_busrd + 1 := by
  rw [sendMessage_eq sys _ b r (by simp) (by simp)]
  obtain ⟨h1, h2, h3⟩ := snoopLoop_BusRd_first b r sys.caches
    { sys.bus.countRequest BusRequest.BusRd with shared_line := false, supplied := false }
    j y rfl hy (by rw [hid j y hy]; exact hj) hS
    (fun i z hi hz hzid => by
      have := hleast i hi (by rw [← hid i z hz]; exact hzid)
      simpa [System.stateOf, hz] using this)
    (fun i z hz hzid => ⟨hp z (List.getElem?_mem hz), hME z (List.getElem?_mem hz) hzid⟩)
  refine ⟨h1, h2, h3, ?_⟩
  exact (snoopLoop_bus BusRequest.BusRd b r sys.caches _).1

/-- Witness of C27: after core 0 and core 1 have read `0x40` under MESI both
hold block `1` in Shared; on the BusRd of core 2 cache 0 supplies. -/
theorem shared_supplier_is_lowest_id_witness :
    ((∀ x ∈ (run Protocol.MESI twoReaders).caches,
        x.protocol = Protocol.MSI ∨ x.protocol = Protocol.MESI)
      ∧ (∀ x ∈ (run Protocol.MESI twoReaders).caches, x.id ≠ 2 →
          x.getState 1 ≠ CacheBlockState.Modified ∧ x.getState 1 ≠ CacheBlockState.Exclusive)
      ∧ (run Protocol.MESI twoReaders).caches[0]? = some firstReader
      ∧ firstReader.getState 1 = CacheBlockState.Shared
      ∧ (run Protocol.MESI twoReaders).stateOf 1 1 = CacheBlockState.Shared)
    ∧ ((run Protocol.MESI twoReaders).sendMessage BusRequest.BusRd 1 2).caches
        = (run Protocol.MESI twoReaders).caches.set 0
            { firstReader with num_provided := firstReader.num_provided + 1,
                               num_random := firstReader.num_random + 1 } :=
  ⟨⟨by decide, by decide, by decide, by decide, by decide⟩,
    (shared_supplier_is_lowest_id (run Protocol.MESI twoReaders) 1 2 0 firstReader
      (run_ids _ _) (by decide) (by decide) (by decide) (by decide) (by decide)
      (fun i hi => absurd hi (Nat.not_lt_zero i))).1⟩

/-- C21 (eviction write-back): under MSI, MESI, MESIF and MOESI, a miss of
core `c` (cache `self`) on address `a` ends as follows. After the broadcast
and the installation of the block (`afterInstall`), when the block
`self.victim` returned by `insertCacheBlock` is Modified (under MOESI:
Modified or Owned), the request sends one Flush for the address
`(victim.tag << 2) + set_index` and counts `num_writebacks++`; then it counts
the miss. So `num_writebacks` of `c` and the Flush counter of the bus (taken
after the broadcast) grow by exactly one for such a victim, and for a victim
in any other state `num_writebacks` of `c` is unchanged and no Flush is
counted. -/
theorem eviction_writeback (sys : System) (c a : Nat) (req : ProcRequest) (self : Cache)
    (hself : sys.caches[c]? = some self) (hp : self.protocol ≠ Protocol.FESI)
    (hmiss : self.getState (a >>> CACHE_OFFSET_BITS) = CacheBlockState.Invalid) :
    sys.handleProcRequest c req a
        = (if dirtyVictim self.protocol (self.victim (a >>> CACHE_OFFSET_BITS)).state = true
           then
            ((sys.afterInstall c req (a >>> CACHE_OFFSET_BITS) self).sendMessage
                BusRequest.Flush
                (evicted_blockAddress (self.victim (a >>> CACHE_OFFSET_BITS))
                  (setIndex (a >>> CACHE_OFFSET_BITS)))
                self.id).onCache c
              (fun x => { x with num_writebacks := x.num_writebacks + 1 })
           else sys.afterInstall c req (a >>> CACHE_OFFSET_BITS) self).onCache c
            (fun x => x.countMiss req)
    ∧ evicted_blockAddress (self.victim (a >>> CACHE_OFFSET_BITS))
          (setIndex (a >>> CACHE_OFFSET_BITS))
        = (((self.victim (a >>> CACHE_OFFSET_BITS)).tag <<< 2) % 2 ^ 64
            + setIndex (a >>> CACHE_OFFSET_BITS)) % 2 ^ 64
    ∧ (sys.handleProcRequest c req a).stat c Cache.num_writebacks
        = self.num_writebacks
          + (if dirtyVictim self.protocol (self.victim (a >>> CACHE_OFFSET_BITS)).state = true
             then 1 else 0)
    ∧ (sys.handleProcRequest c req a).bus.num_flushes
        = (sys.sendMessage (missRequest req) (a >>> CACHE_OFFSET_BITS) self.id).bus.num_flushes
          + (if dirtyVictim self.protocol (self.victim (a >>> CACHE_OFFSET_BITS)).state = true
             then 1 else 0) := by
  have hB : (sys.sendMessage (missRequest req) (a >>> CACHE_OFFSET_BITS) self.id).caches[c]?
      = some self := sendMessage_sender sys _ _ c self hself
  have hview := handleProcRequest_miss_view sys c a req self hself hmiss
  rw [System.victimStep_of_not_FESI _ _ _ _ _ _ hp] at hview
  refine ⟨hview, rfl, ?_, ?_⟩
  · rw [hview]
    by_cases hd : dirtyVictim self.protocol (self.victim (a >>> CACHE_OFFSET_BITS)).state = true
    · simp only [hd, if_true, System.stat, System.onCache_getElem?_self,
        System.sendMessage_Flush_eq, hB, Option.map_some']
      simp
    · simp only [hd, if_false, System.stat, System.onCache_getElem?_self, hB,
        Option.map_some', Bool.false_eq_true]
      simp
  · rw [hview]
    by_cases hd : dirtyVictim self.protocol (self.victim (a >>> CACHE_OFFSET_BITS)).state = true
    · simp only [hd, if_true, System.onCache_bus, System.sendMessage_Flush_eq]
    · simp only [hd, if_false, System.onCache_bus, Bool.false_eq_true, Nat.add_zero]

/-- Witness of C21: under MSI, after core 0 has written four blocks of set 0,
its read of `0x400` evicts the Modified block with tag 0: one writeback. -/
theorem eviction_writeback_witness :
    ((run Protocol.MSI fourWrites).caches[0]? = some fullWriter
      ∧ fullWriter.protocol ≠ Protocol.FESI
      ∧ fullWriter.getState (0x400 >>> CACHE_OFFSET_BITS) = CacheBlockState.Invalid)
    ∧ ((run Protocol.MSI fourWrites).handleProcRequest 0 ProcRequest.ProcRd 0x400).stat 0
          Cache.num_writebacks
        = fullWriter.num_writebacks
          + (if dirtyVictim fullWriter.protocol
                (fullWriter.victim (0x400 >>> CACHE_OFFSET_BITS)).state = true
             then 1 else 0) :=
  ⟨⟨by decide, by decide, by decide⟩,
    (eviction_writeback (run Protocol.MSI fourWrites) 0 0x400 ProcRequest.ProcRd fullWriter
      (by decide) (by decide) (by decide)).2.2.1⟩

/-- C24 (no valid block is evicted while an Invalid slot exists): let `self`
be the cache of core `c` after any number of records of any trace, under any
protocol. The block `self.victim b` that `insertCacheBlock` returns for block
address `b` is the one every miss of `c` on an address of block `b` accounts
for (the insertion runs on a cache with the sets of `self`, whatever the
inserted state). If that block is not Invalid, then the target set has 4
blocks and every one of them was non-Invalid before the insertion. -/
theorem no_valid_eviction_with_invalid_slot (p : Protocol) (trace : List Reference)
    (n c b : Nat) (self : Cache)
    (hself : (run p (trace.take n)).caches[c]? = some self) :
    (∀ (x : Cache) (st : CacheBlockState), x.sets = self.sets →
        (x.insertCacheBlock b st).1 = self.victim b)
    ∧ (∀ (req : ProcRequest) (a : Nat), a >>> CACHE_OFFSET_BITS = b →
        self.getState b = CacheBlockState.Invalid →
        (run p (trace.take n)).handleProcRequest c req a
          = (((run p (trace.take n)).afterInstall c req b self).victimStep c self.id
              self.protocol (self.victim b) (setIndex b)).onCache c
                (fun x => x.countMiss req))
    ∧ ((self.victim b).state ≠ CacheBlockState.Invalid →
        ∃ s : CacheSet, self.sets[setIndex b]? = some s ∧ s.blocks.length = 4
          ∧ ∀ blk ∈ s.blocks, blk.state ≠ CacheBlockState.Invalid) := by
  refine ⟨fun x st hx => Cache.evicted_eq_victim self x b st hx, ?_, ?_⟩
  · intro req a ha hmiss
    subst ha
    exact handleProcRequest_miss_view _ c a req self hself hmiss
  · intro hv
    have hmem : self ∈ (run p (trace.take n)).caches := List.getElem?_mem hself
    have hlru := (run_ok (invalidAtLRU_closed p) (trace.take n) self hmem).2
    have hfull := (run_ok (fullSet_closed p) (trace.take n) self hmem).2
    unfold Cache.victim at hv
    rw [Cache.insertCacheBlock_evicted] at hv
    cases hs : self.sets[setIndex b]? with
    | none => rw [hs] at hv; exact absurd rfl hv
    | some s =>
      rw [hs] at hv
      have hsm : s ∈ self.sets := List.getElem?_mem hs
      have h4 : s.blocks.length = 4 := hfull s hsm
      refine ⟨s, rfl, h4, ?_⟩
      obtain ⟨blocks⟩ := s
      cases blocks with
      | nil => simp at h4
      | cons x rest =>
        simp only [Option.elim, CacheSet.insertCacheBlock] at hv
        exact all_valid_of_valid_front (hlru _ hsm) hv

/-- Witness of C24: under MSI, after core 0 has written four blocks of set 0,
the victim of a miss on block address `16` is the Modified block with tag 0,
and the four blocks of set 0 are valid. -/
theorem no_valid_eviction_with_invalid_slot_witness :
    ((run Protocol.MSI (fourWrites.take 4)).caches[0]? = some fullWriter
      ∧ (fullWriter.victim 16).state ≠ CacheBlockState.Invalid)
    ∧ ∃ s : CacheSet, fullWriter.sets[setIndex 16]? = some s ∧ s.blocks.length = 4
          ∧ ∀ blk ∈ s.blocks, blk.state ≠ CacheBlockState.Invalid :=
  ⟨⟨by decide, by decide⟩,
    (no_valid_eviction_with_invalid_slot Protocol.MSI fourWrites 4 0 16 fullWriter
      (by decide)).2.2 (by decide)⟩

/-- C26 (silent upgrade from Exclusive): when the cache `self` of core `c`
holds the block of address `a` in Exclusive, under MESI, MESIF, MOESI or
FESI, a write of `c` to `a` leaves the block in Modified (in Forward under
FESI), raises `num_writes` of `c` by one, keeps its `num_write_misses`, and
leaves the bus (all counters and both lines) and every other cache as they
were. -/
theorem silent_upgrade_from_exclusive (sys : System) (c a : Nat) (self : Cache)
    (hself : sys.caches[c]? = some self)
    (hp : self.protocol = Protocol.MESI ∨ self.protocol = Protocol.MESIF
      ∨ self.protocol = Protocol.MOESI ∨ self.protocol = Protocol.FESI)
    (hE : self.getState (a >>> CACHE_OFFSET_BITS) = CacheBlockState.Exclusive) :
    (sys.handleProcRequest c ProcRequest.ProcWr a).stateOf c (a >>> CACHE_OFFSET_BITS)
        = (if self.protocol = Protocol.FESI then CacheBlockState.Forward
           else CacheBlockState.Modified)
    ∧ (sys.handleProcRequest c ProcRequest.ProcWr a).stat c Cache.num_writes
        = self.num_writes + 1
    ∧ (sys.handleProcRequest c ProcRequest.ProcWr a).stat c Cache.num_write_misses
        = self.num_write_misses
    ∧ (sys.handleProcRequest c ProcRequest.ProcWr a).bus = sys.bus
    ∧ (∀ i : Nat, i ≠ c →
        (sys.handleProcRequest c ProcRequest.ProcWr a).caches[i]? = sys.caches[i]?)
    ∧ (sys.handleProcRequest c ProcRequest.ProcWr a).caches.length = sys.caches.length := by
  have hact : hitAction self.protocol ProcRequest.ProcWr
      (self.getState (a >>> CACHE_OFFSET_BITS))
      = some (some (if self.protocol = Protocol.FESI then CacheBlockState.Forward
           else CacheBlockState.Modified), false) := by
    rw [hE]
    rcases hp with hp | hp | hp | hp <;> rw [hp] <;> rfl
  rw [handleProcRequest_hit_view sys c a ProcRequest.ProcWr self _ false hself hact]
  simp only [Bool.false_eq_true, if_false]
  have hne : ((self.countRequest ProcRequest.ProcWr).moveToMRU
      (a >>> CACHE_OFFSET_BITS)).getState (a >>> CACHE_OFFSET_BITS)
        ≠ CacheBlockState.Invalid := by
    rw [Ne, Cache.getState_after_moveToMRU_eq_invalid_iff]
    show self.getState _ ≠ _
    rw [hE]; decide
  refine ⟨?_, ?_, ?_, System.onCache_bus _ _ _,
    fun i hi => System.onCache_getElem?_ne _ _ _ _ hi, ?_⟩
  · simp only [System.stateOf, System.onCache_getElem?_self, hself, Option.map_some',
      Cache.hitLocal]
    rw [Cache.getState_setState_self, if_neg hne]
  · simp only [System.stat, System.onCache_getElem?_self, hself, Option.map_some',
      Cache.hitLocal]
    simp [Cache.countRequest]
  · simp only [System.stat, System.onCache_getElem?_self, hself, Option.map_some',
      Cache.hitLocal]
    simp [Cache.countRequest]
  · rw [System.onCache_eq sys c _ self hself]
    simp

/-- Witness of C26: under MESI, after core 0 has read `0x40` it holds block
`1` in Exclusive; its write to `0x40` leaves the block in Modified. -/
theorem silent_upgrade_from_exclusive_witness :
    ((run Protocol.MESI [⟨0, 'r', 0x40⟩]).caches[0]? = some coldReader
      ∧ (coldReader.protocol = Protocol.MESI ∨ coldReader.protocol = Protocol.MESIF
          ∨ coldReader.protocol = Protocol.MOESI ∨ coldReader.protocol = Protocol.FESI)
      ∧ coldReader.getState (0x40 >>> CACHE_OFFSET_BITS) = CacheBlockState.Exclusive)
    ∧ ((run Protocol.MESI [⟨0, 'r', 0x40⟩]).handleProcRequest 0 ProcRequest.ProcWr 0x40).stateOf
          0 (0x40 >>> CACHE_OFFSET_BITS)
        = (if coldReader.protocol = Protocol.FESI then CacheBlockState.Forward
           else CacheBlockState.Modified) :=
  ⟨⟨by decide, by decide, by decide⟩,
    (silent_upgrade_from_exclusive (run Protocol.MESI [⟨0, 'r', 0x40⟩]) 0 0x40 coldReader
      (by decide) (by decide) (by decide)).1⟩

/-! ## Claims C28 and C29: the coherence invariants on traces in range -/

/-- C28: for every protocol and every trace whose addresses are all below
`2 ^ 39`, in the state after the trace (hence after every processed request,
each prefix being such a trace), a block address that some cache holds in
Modified or in Exclusive is Invalid in every other cache. -/
theorem exclusive_and_modified_are_alone (p : Protocol) (trace : List Reference)
    (hr : ∀ r ∈ trace, r.address < 2 ^ 39) (b i j : Nat) (hij : i ≠ j)
    (h : (run p trace).stateOf i b = CacheBlockState.Modified
      ∨ (run p trace).stateOf i b = CacheBlockState.Exclusive) :
    (run p trace).stateOf j b = CacheBlockState.Invalid :=
  ((coherent_run p trace hr).2.2 b).1 i j hij h

/-- Witness of C28: under MESI, after core 0 has read `0x40` it holds block
address `1` in Exclusive and cache 1 holds it in Invalid. -/
theorem exclusive_and_modified_are_alone_witness :
    (∀ r ∈ [(⟨0, 'r', 0x40⟩ : Reference)], r.address < 2 ^ 39)
    ∧ (0 : Nat) ≠ 1
    ∧ ((run Protocol.MESI [⟨0, 'r', 0x40⟩]).stateOf 0 1 = CacheBlockState.Modified
        ∨ (run Protocol.MESI [⟨0, 'r', 0x40⟩]).stateOf 0 1 = CacheBlockState.Exclusive)
    ∧ (run Protocol.MESI [⟨0, 'r', 0x40⟩]).stateOf 1 1 = CacheBlockState.Invalid :=
  ⟨by decide, by decide, by decide,
    exclusive_and_modified_are_alone Protocol.MESI [⟨0, 'r', 0x40⟩] (by decide) 1 0 1
      (by decide) (by decide)⟩

/-- C29: under FESI, for every trace whose addresses are all below `2 ^ 39`
and every block address `b`, in the state after the trace (hence after every
processed request) at most one cache holds `b` in Forward, and if a cache
holds `b` in Shared then some cache holds it in Forward. The justification of
the silent Shared peers follows: when a cache that does not hold `b` sends a
BusRd and the shared line stays low, no other cache holds `b` in any state. -/
theorem FESI_forward_invariant (trace : List Reference)
    (hr : ∀ r ∈ trace, r.address < 2 ^ 39) (b : Nat) :
    (∀ i j, (run Protocol.FESI trace).stateOf i b = CacheBlockState.Forward →
        (run Protocol.FESI trace).stateOf j b = CacheBlockState.Forward → i = j)
    ∧ (∀ i, (run Protocol.FESI trace).stateOf i b = CacheBlockState.Shared →
        ∃ j, (run Protocol.FESI trace).stateOf j b = CacheBlockState.Forward)
    ∧ (∀ c, (run Protocol.FESI trace).stateOf c b = CacheBlockState.Invalid →
        ((run Protocol.FESI trace).sendMessage BusRequest.BusRd b c).bus.shared_line = false →
        ∀ i, i ≠ c → (run Protocol.FESI trace).stateOf i b = CacheBlockState.Invalid) :=
  ⟨fun i j hi hj => ((coherent_run Protocol.FESI trace hr).2.2 b).2.1 i j (Or.inr hi)
      (Or.inr hj),
    fun i hi => ((coherent_run Protocol.FESI trace hr).2.2 b).2.2 rfl i hi,
    fun c hc hsh => FESI_low_line_no_holder (coherent_run Protocol.FESI trace hr) b c hc hsh⟩

/-- Witness of C29: the trace `twoReaders` (cores 0 and 1 read `0x40`) is in
range; after it cache 0 holds block address `1` in Shared and cache 1 holds
it in Forward. -/
theorem FESI_forward_invariant_witness :
    (∀ r ∈ twoReaders, r.address < 2 ^ 39)
    ∧ (run Protocol.FESI twoReaders).stateOf 0 1 = CacheBlockState.Shared
    ∧ (run Protocol.FESI twoReaders).stateOf 1 1 = CacheBlockState.Forward
    ∧ (∀ i, (run Protocol.FESI twoReaders).stateOf i 1 = CacheBlockState.Shared →
        ∃ j, (run Protocol.FESI twoReaders).stateOf j 1 = CacheBlockState.Forward) :=
  ⟨by decide, by decide, by decide, (FESI_forward_invariant twoReaders (by decide) 1).2.1⟩

/-! ## Claim C30: a write obtains sole ownership -/

/-- C30: for every protocol, every trace `pre` whose addresses are all below
`2 ^ 39`, every core `c` of the machine and every address `a` below `2 ^ 39`:
when the write `(c, w, a)` is processed in the state after `pre`, cache `c`
then holds block `a >> 6` in Modified (in Forward under FESI) and every other
cache holds that block in Invalid. -/
theorem write_obtains_sole_ownership (p : Protocol) (pre : List Reference)
    (hr : ∀ r ∈ pre, r.address < 2 ^ 39) (c a : Nat) (hc : c < NUMBER_OF_CORES)
    (ha : a < 2 ^ 39) :
    ((run p pre).handleProcRequest c ProcRequest.ProcWr a).stateOf c (a >>> CACHE_OFFSET_BITS)
        = (if p = Protocol.FESI then CacheBlockState.Forward else CacheBlockState.Modified)
    ∧ ∀ j, j ≠ c →
        ((run p pre).handleProcRequest c ProcRequest.ProcWr a).stateOf j
            (a >>> CACHE_OFFSET_BITS) = CacheBlockState.Invalid :=
  coherent_write (coherent_run p pre hr) c a ha (by rw [cachesLength_run]; exact hc)

/-- Witness of C30: under MESI, after cores 0 and 1 have read `0x40`, the
write of core 1 to `0x40` leaves block address `1` in Modified in cache 1. -/
theorem write_obtains_sole_ownership_witness :
    (∀ r ∈ twoReaders, r.address < 2 ^ 39) ∧ 1 < NUMBER_OF_CORES ∧ 0x40 < 2 ^ 39
    ∧ ((run Protocol.MESI twoReaders).handleProcRequest 1 ProcRequest.ProcWr 0x40).stateOf 1
          (0x40 >>> CACHE_OFFSET_BITS)
        = (if Protocol.MESI = Protocol.FESI then CacheBlockState.Forward
           else CacheBlockState.Modified) :=
  ⟨by decide, by decide, by decide,
    (write_obtains_sole_ownership Protocol.MESI twoReaders (by decide) 1 0x40 (by decide)
      (by decide)).1⟩

/-! ## Claim C25: the requested block becomes MRU -/

/-- C25: for every protocol, every trace `pre` whose addresses are all below
`2 ^ 39`, every core `c`, every request (read or write) and every address `a`
below `2 ^ 39`: when the request is processed in the state after `pre`, the
last (MRU) block of set `(a >> 6) mod 4` of cache `c` is then non-Invalid and
has tag `(a >> 6) >> 2`, on a hit as on a miss. -/
theorem requested_block_becomes_MRU (p : Protocol) (pre : List Reference)
    (hr : ∀ r ∈ pre, r.address < 2 ^ 39) (c : Nat) (req : ProcRequest) (a : Nat)
    (hc : c < NUMBER_OF_CORES) (ha : a < 2 ^ 39) :
    ∃ x blk, ((run p pre).handleProcRequest c req a).caches[c]? = some x
      ∧ x.mruBlock (a >>> CACHE_OFFSET_BITS) = some blk
      ∧ blk.state ≠ CacheBlockState.Invalid
      ∧ blk.tag = tagOf (a >>> CACHE_OFFSET_BITS) :=
  coherent_mru (coherent_run p pre hr) c a req ha (by rw [cachesLength_run]; exact hc)

/-- Witness of C25: the hypotheses hold for the MESI read of `0x40` by core 0
after the trace `twoReaders` (a hit), and the MRU block of set 1 of cache 0 is
then valid with tag 0. -/
theorem requested_block_becomes_MRU_witness :
    (∀ r ∈ twoReaders, r.address < 2 ^ 39) ∧ 0 < NUMBER_OF_CORES ∧ 0x40 < 2 ^ 39
    ∧ ∃ x blk, ((run Protocol.MESI twoReaders).handleProcRequest 0 ProcRequest.ProcRd
          0x40).caches[0]? = some x
      ∧ x.mruBlock (0x40 >>> CACHE_OFFSET_BITS) = some blk
      ∧ blk.state ≠ CacheBlockState.Invalid
      ∧ blk.tag = tagOf (0x40 >>> CACHE_OFFSET_BITS) :=
  ⟨by decide, by decide, by decide,
    requested_block_becomes_MRU Protocol.MESI twoReaders (by decide) 0 ProcRequest.ProcRd 0x40
      (by decide) (by decide)⟩

/-! ## Claim C32: snoop locality -/

/-- C32: for every system state, cache index `i` (of any protocol), bus
request and block address `b`, the reaction `handleBusRequest(request, b)` of
cache `i` leaves every other cache as it was (sets and counters), keeps the
number of caches, leaves every set of cache `i` other than set `b mod 4`,
and changes none of the bus counters of BusRd, BusRdX, BusUpgr and setF. The
Flush or Flush_prime that a reaction may put on the bus reaches no cache, so
a reaction triggers no further snoop. -/
theorem snoop_is_local (sys : System) (i : Nat) (req : BusRequest) (b : Nat) :
    (∀ j, j ≠ i → (sys.snoopAt i req b).caches[j]? = sys.caches[j]?)
    ∧ (sys.snoopAt i req b).caches.length = sys.caches.length
    ∧ (∀ x, sys.caches[i]? = some x →
        ∃ y, (sys.snoopAt i req b).caches[i]? = some y ∧ y.id = x.id
          ∧ y.protocol = x.protocol ∧ ∀ k, k ≠ b % 4 → y.sets[k]? = x.sets[k]?)
    ∧ (sys.snoopAt i req b).bus.num_busrd = sys.bus.num_busrd
    ∧ (sys.snoopAt i req b).bus.num_busrdx = sys.bus.num_busrdx
    ∧ (sys.snoopAt i req b).bus.num_busupgr = sys.bus.num_busupgr
    ∧ (sys.snoopAt i req b).bus.num_setF = sys.bus.num_setF
    ∧ (∀ s, (sys.sendMessage BusRequest.Flush b s).caches = sys.caches
        ∧ (sys.sendMessage BusRequest.Flush_prime b s).caches = sys.caches) := by
  obtain ⟨h1, h2, h3, h4⟩ := System.snoopAt_bus sys i req b
  refine ⟨fun j hj => System.snoopAt_getElem?_ne sys i j req b hj, ?_, ?_, h1, h2, h3, h4, ?_⟩
  · unfold System.snoopAt
    split
    · simp
    · rfl
  · intro x hx
    obtain ⟨g1, g2, g3⟩ := Cache.handleBusRequest_sets x sys.bus req b
    refine ⟨_, System.snoopAt_getElem?_self sys i req b x hx, g1, g2, ?_⟩
    intro k hk
    rw [← setIndex_eq_mod] at hk
    rcases g3 with g3 | ⟨st, g3⟩
    · rw [g3]
    · rw [g3]; exact Cache.setState_sets_other x b st k hk
  · intro s
    constructor
    · rw [sendMessage_flush sys _ b s (Or.inl rfl)]
    · rw [sendMessage_flush sys _ b s (Or.inr rfl)]

/-- Witness of C32: in the MESI system in which cache 0 holds block address
`1` in Exclusive, the reaction of cache 0 to a BusRd for that block leaves
cache 1, and leaves set 0 of cache 0. -/
theorem snoop_is_local_witness :
    (1 : Nat) ≠ 0
    ∧ ((run Protocol.MESI [⟨0, 'r', 0x40⟩]).snoopAt 0 BusRequest.BusRd 1).caches[1]?
        = (run Protocol.MESI [⟨0, 'r', 0x40⟩]).caches[1]?
    ∧ (run Protocol.MESI [⟨0, 'r', 0x40⟩]).caches[0]? = some coldReader
    ∧ ∃ y, ((run Protocol.MESI [⟨0, 'r', 0x40⟩]).snoopAt 0 BusRequest.BusRd 1).caches[0]?
          = some y ∧ y.id = coldReader.id ∧ y.protocol = coldReader.protocol
        ∧ ∀ k, k ≠ 1 % 4 → y.sets[k]? = coldReader.sets[k]? :=
  ⟨by decide,
    (snoop_is_local (run Protocol.MESI [⟨0, 'r', 0x40⟩]) 0 BusRequest.BusRd 1).1 1 (by decide),
    by decide,
    (snoop_is_local (run Protocol.MESI [⟨0, 'r', 0x40⟩]) 0 BusRequest.BusRd 1).2.2.1
      coldReader (by decide)⟩

/-! ## Claim C31: supply conservation -/

/-- C31: for every protocol and every trace whose addresses are all below
`2 ^ 39`, at the end of the trace the sum over all caches of `num_provided`
plus the sum of `num_fromLLC` equals the sum of `num_read_misses` plus the sum
of `num_write_misses`. -/
theorem supply_conservation (p : Protocol) (trace : List Reference)
    (hr : ∀ r ∈ trace, r.address < 2 ^ 39) :
    ((run p trace).caches.map Cache.num_provided).sum
        + ((run p trace).caches.map Cache.num_fromLLC).sum
      = ((run p trace).caches.map Cache.num_read_misses).sum
        + ((run p trace).caches.map Cache.num_write_misses).sum :=
  supplyBalanced_simulate trace hr _ (coherent_initialSystem p)
    (supplyBalanced_initialSystem p)

/-- Witness of C31: the trace `sharedThenWritten` is in range; under MESI it
ends with two blocks served (one by the memory, one by cache 0) and two read
misses. -/
theorem supply_conservation_witness :
    (∀ r ∈ sharedThenWritten, r.address < 2 ^ 39)
    ∧ ((run Protocol.MESI sharedThenWritten).caches.map Cache.num_provided).sum
        + ((run Protocol.MESI sharedThenWritten).caches.map Cache.num_fromLLC).sum
      = ((run Protocol.MESI sharedThenWritten).caches.map Cache.num_read_misses).sum
        + ((run Protocol.MESI sharedThenWritten).caches.map Cache.num_write_misses).sum :=
  ⟨by decide, supply_conservation Protocol.MESI sharedThenWritten (by decide)⟩

end FESI
